import Mathlib

/-!
# A CPU scheduling simulator (`sched.cpp`): embedding and verified properties

The development embeds the discrete-event simulator of `sched.cpp` in Lean and
proves properties of it.

Modelling conventions, used throughout:

* A `Process*` of the source is an index into the roster `processes` (the
  queue filled by `createProcesses`, which owns every `Process`).  Events, the
  runqueues and `CURRENT_RUNNING_PROCESS` hold such indices; every write through
  a pointer is a write to the roster, so aliasing is kept.
* `int` is `Int` with the 32-bit range made explicit: signed overflow is
  undefined behaviour in C++, and the program as built (g++, x86-64) wraps, so
  every sum and difference of `int`s that can leave the range is passed through
  `wrap32`.  These are the sums and differences of times, bursts and counters
  in `case RUNNING`, `case BLOCKED`, `case DONE` and in the preemption of
  `case READY`.  Three computations are left as they are, because they leave
  the range only from values no run from a well-formed input holds:
  `1 + x % burst` in `get_random_number` (only for `burst = -2147483648`),
  `dynamic_prio - 1` and `static_prio - 1` (only from `-2147483648`), and the
  count `number_io_processes`.
* `createProcesses` reads the four fields of a line as `double` and passes them
  to `int` parameters: `narrow` is that conversion (a value outside the range
  of `int` becomes `-2147483648`).  An input line holds integers.
* `pid`, `ofs` and `count`, which only ever count up from `0`, are `Nat`.
* The `double` fields `remainingCPUtime`, `cpuUtilization` and `ioUtilization`
  only ever hold integers (they are initialised from and updated by `int`
  values, and a `double` holds every integer up to `2^53` exactly), so they are
  unbounded `Int`: their updates do not wrap.  Where `remainingCPUtime` is
  assigned to the `int` `cpu_burst_duration`, `narrow` is applied.
* `%` on `int` is C++ truncated remainder, `Int.tmod`.
* Where the source has undefined behaviour the functions below are total:
  an out-of-range read of `random_nums` gives `0`, `x % 0` is `x`, an
  out-of-range priority level is not enqueued, `remove_event` of an absent
  process leaves the list as it is, `events.front()` of an empty list is the
  null event (the loop's exit test).  Theorems say where they rely on that.
* `total_random_num` is the length of `random_nums`.
* The classes `PRIO` and `PREPRIO` of the source are named `Prio` and `PrePrio`.
* The members `CURRENT_TIME`, `start_of_IO_utilization` and the local
  `CALL_SCHEDULER` are not initialised by the source; the initial state takes
  their values as parameters.
-/

set_option linter.dupNamespace false

namespace Sched

/-! ## Machine integers -/

/-- The value an `int` computation leaves when its exact result is `x`: the
representative of `x` modulo `2^32` in `[-2^31, 2^31)`. -/
def wrap32 (x : Int) : Int :=
  (x + 2147483648) % 4294967296 - 2147483648

/-- The conversion of an integral `double` to `int`: the value itself when it is
in the range of `int`, and `-2147483648` when it is not. -/
def narrow (x : Int) : Int :=
  if -2147483648 ≤ x ∧ x ≤ 2147483647 then x else -2147483648

/-! ## STEP 1: processes -/

/-- The record `struct Process`. -/
structure Process where
  pid : Nat
  arrivalTime : Int
  totalCPUTime : Int
  cpuBurst : Int
  ioBurst : Int
  static_prio : Int
  dynamic_prio : Int
  remainingCPUtime : Int
  remainingBurstTime : Int
  clock : Int
  stopRunningTime : Int
  finishingTime : Int
  turnaroundTime : Int
  ioWaitingTime : Int
  cpuWaitingTime : Int
  deriving DecidableEq, Repr, Inhabited

/-- The constructor `Process::Process(pid_, at, totCPU, cpuB, ioB)`. -/
def Process.Process (pid_ : Nat) (at_ totCPU cpuB ioB : Int) : Process :=
  { pid := pid_
    arrivalTime := at_
    totalCPUTime := totCPU
    cpuBurst := cpuB
    ioBurst := ioB
    static_prio := -2
    dynamic_prio := -2
    finishingTime := 0
    turnaroundTime := 0
    ioWaitingTime := 0
    cpuWaitingTime := 0
    remainingCPUtime := totCPU
    remainingBurstTime := -1
    clock := 0
    stopRunningTime := -1 }

/-- Dereference of a `Process*`: the roster entry at that index. -/
def getProc (processes : List Process) (i : Nat) : Process :=
  processes.getD i default

/-- Write through a `Process*`: replace the roster entry at that index. -/
def setProc (processes : List Process) (i : Nat) (p : Process) : List Process :=
  processes.set i p

/-! ## STEP 3: the random number array -/

/-- The function `get_random_number(burst)`: returns the value drawn and the new `ofs`. -/
def get_random_number (random_nums : List Int) (ofs : Nat) (burst : Int) : Int × Nat :=
  let randomVal := 1 + Int.tmod (random_nums.getD ofs 0) burst
  let ofs1 := ofs + 1
  (randomVal, if ofs1 = random_nums.length then 0 else ofs1)

/-! ## STEP 4: events -/

/-- The enumeration `enum State`. -/
inductive State where
  | CREATED
  | READY
  | RUNNING
  | BLOCKED
  | DONE
  deriving DecidableEq, Repr, Inhabited

/-- The record `struct Event`; `process` is the roster index of the process. -/
structure Event where
  timestamp : Int
  process : Nat
  old_state : State
  new_state : State
  deriving DecidableEq, Repr, Inhabited

/-! ## STEP 5: the DES layer -/

namespace DES_Layer

/-- The function `DES_Layer::put_event`: walk past every event whose timestamp
is `<=` the new one, insert before the first later event, or at the back. -/
def put_event (new_event : Event) : List Event → List Event
  | [] => [new_event]
  | curr_event :: rest =>
    if curr_event.timestamp ≤ new_event.timestamp then
      curr_event :: put_event new_event rest
    else
      new_event :: curr_event :: rest

/-- The function `DES_Layer::get_event`: the front event and the list without
it, or nothing (the null event) when the list is empty. -/
def get_event : List Event → Option (Event × List Event)
  | [] => none
  | event :: rest => some (event, rest)

/-- The function `DES_Layer::remove_event`: erase the first event whose process
has the pid of `preempted_process`. -/
def remove_event (processes : List Process) (preempted_process : Nat) :
    List Event → List Event
  | [] => []
  | event :: rest =>
    if (getProc processes event.process).pid ≠ (getProc processes preempted_process).pid then
      event :: remove_event processes preempted_process rest
    else
      rest

/-- The function `DES_Layer::get_next_time_event`. -/
def get_next_time_event : List Event → Int
  | [] => -1
  | event :: _ => event.timestamp

end DES_Layer

/-! ## STEP 2: schedulers -/

namespace FCFS

/-- The method `FCFS::add_process`: push at the back of the FIFO queue. -/
def add_process (ready_processes : List Nat) (process : Nat) : List Nat :=
  ready_processes ++ [process]

/-- The method `FCFS::get_next_process`: pop the front, or null. -/
def get_next_process : List Nat → Option Nat × List Nat
  | [] => (none, [])
  | next_process :: rest => (some next_process, rest)

end FCFS

namespace LCFS

/-- The method `LCFS::add_process`: push on the stack (top is the list head). -/
def add_process (ready_processes : List Nat) (process : Nat) : List Nat :=
  process :: ready_processes

/-- The method `LCFS::get_next_process`: pop the top, or null. -/
def get_next_process : List Nat → Option Nat × List Nat
  | [] => (none, [])
  | next_process :: rest => (some next_process, rest)

end LCFS

namespace SRTF

/-- The method `SRTF::add_process`: walk past every process whose remaining cpu
time is `<=` the new one, insert before the first larger one, or at the back. -/
def add_process (processes : List Process) (process : Nat) : List Nat → List Nat
  | [] => [process]
  | it :: rest =>
    if (getProc processes it).remainingCPUtime ≤ (getProc processes process).remainingCPUtime then
      it :: add_process processes process rest
    else
      process :: it :: rest

/-- The method `SRTF::get_next_process`: pop the front, or null. -/
def get_next_process : List Nat → Option Nat × List Nat
  | [] => (none, [])
  | next_process :: rest => (some next_process, rest)

end SRTF

namespace RR

/-- The method `RR::add_process`: push at the back of the FIFO queue. -/
def add_process (ready_processes : List Nat) (process : Nat) : List Nat :=
  ready_processes ++ [process]

/-- The method `RR::get_next_process`: pop the front, or null. -/
def get_next_process : List Nat → Option Nat × List Nat
  | [] => (none, [])
  | next_process :: rest => (some next_process, rest)

end RR

namespace Prio

/-- Push `process` on the queue of level `level` of a vector of queues
(`(*Q)[level].push(process)`); a level outside the vector is not enqueued. -/
def push_level (Q : List (List Nat)) (level : Int) (process : Nat) : List (List Nat) :=
  if 0 ≤ level ∧ level < Q.length then
    Q.modify (fun q => q ++ [process]) level.toNat
  else Q

/-- The method `PRIO::add_process`: returns the active vector, the expired
vector and the roster (the dynamic priority of the process is written). -/
def add_process (activeQ expiredQ : List (List Nat)) (processes : List Process)
    (process : Nat) : List (List Nat) × List (List Nat) × List Process :=
  let p := getProc processes process
  if p.remainingBurstTime > 0 then
    let p1 := { p with dynamic_prio := p.dynamic_prio - 1 }
    if p1.dynamic_prio = -1 then
      let p2 := { p1 with dynamic_prio := p1.static_prio - 1 }
      (activeQ, push_level expiredQ p2.dynamic_prio process, setProc processes process p2)
    else
      (push_level activeQ p1.dynamic_prio process, expiredQ, setProc processes process p1)
  else
    let p1 := { p with dynamic_prio := p.static_prio - 1 }
    (push_level activeQ p1.dynamic_prio process, expiredQ, setProc processes process p1)

/-- One reverse pass over a vector of queues (`rbegin` to `rend`): pop the front
of the non-empty queue of highest level, if there is one. -/
def pop_highest : List (List Nat) → Option (Nat × List (List Nat))
  | [] => none
  | q :: higher =>
    match pop_highest higher with
    | some r => some (r.1, q :: r.2)
    | none =>
      match q with
      | [] => none
      | next_process :: q1 => some (next_process, q1 :: higher)

/-- The method `PRIO::get_next_process`: returns the process chosen (or null),
the active vector and the expired vector. -/
def get_next_process (activeQ expiredQ : List (List Nat)) :
    Option Nat × List (List Nat) × List (List Nat) :=
  match pop_highest activeQ with
  | some (next_process, activeQ1) => (some next_process, activeQ1, expiredQ)
  | none =>
    -- swap(activeQ, expiredQ)
    match pop_highest expiredQ with
    | some (next_process, expiredQ1) => (some next_process, expiredQ1, activeQ)
    | none => (none, expiredQ, activeQ)

end Prio

namespace PrePrio

/-- The method `PREPRIO::add_process` (the same text as `PRIO::add_process`). -/
def add_process (activeQ expiredQ : List (List Nat)) (processes : List Process)
    (process : Nat) : List (List Nat) × List (List Nat) × List Process :=
  let p := getProc processes process
  if p.remainingBurstTime > 0 then
    let p1 := { p with dynamic_prio := p.dynamic_prio - 1 }
    if p1.dynamic_prio = -1 then
      let p2 := { p1 with dynamic_prio := p1.static_prio - 1 }
      (activeQ, Prio.push_level expiredQ p2.dynamic_prio process, setProc processes process p2)
    else
      (Prio.push_level activeQ p1.dynamic_prio process, expiredQ, setProc processes process p1)
  else
    let p1 := { p with dynamic_prio := p.static_prio - 1 }
    (Prio.push_level activeQ p1.dynamic_prio process, expiredQ, setProc processes process p1)

/-- The method `PREPRIO::get_next_process` (the same text as `PRIO::get_next_process`). -/
def get_next_process (activeQ expiredQ : List (List Nat)) :
    Option Nat × List (List Nat) × List (List Nat) :=
  match Prio.pop_highest activeQ with
  | some (next_process, activeQ1) => (some next_process, activeQ1, expiredQ)
  | none =>
    match Prio.pop_highest expiredQ with
    | some (next_process, expiredQ1) => (some next_process, expiredQ1, activeQ)
    | none => (none, expiredQ, activeQ)

/-- The method `PREPRIO::test_preempt`. -/
def test_preempt (processes : List Process) (CURRENT_RUNNING_PROCESS process : Nat)
    (CURRENT_TIME : Int) : Bool :=
  let prioTestPreemption : Bool :=
    decide ((getProc processes CURRENT_RUNNING_PROCESS).dynamic_prio
      < (getProc processes process).dynamic_prio)
  let timeTestPreemption : Bool :=
    decide (CURRENT_TIME < (getProc processes CURRENT_RUNNING_PROCESS).stopRunningTime)
  prioTestPreemption && timeTestPreemption

end PrePrio

/-- The class `Scheduler` with its six subclasses and their runqueues. -/
inductive Scheduler where
  | FCFS (ready_processes : List Nat)
  | LCFS (ready_processes : List Nat)
  | SRTF (ready_processes : List Nat)
  | RR (quantum : Int) (ready_processes : List Nat)
  | Prio (quantum maxprio : Int) (activeQ expiredQ : List (List Nat))
  | PrePrio (quantum maxprio : Int) (activeQ expiredQ : List (List Nat))
  deriving DecidableEq, Repr, Inhabited

namespace Scheduler

/-- The member `quantum` (`10000` unless a constructor sets it). -/
def quantum : Scheduler → Int
  | FCFS _ => 10000
  | LCFS _ => 10000
  | SRTF _ => 10000
  | RR quantum _ => quantum
  | Prio quantum _ _ _ => quantum
  | PrePrio quantum _ _ _ => quantum

/-- The member `maxprio` (`4` unless a constructor sets it). -/
def maxprio : Scheduler → Int
  | FCFS _ => 4
  | LCFS _ => 4
  | SRTF _ => 4
  | RR _ _ => 4
  | Prio _ maxprio _ _ => maxprio
  | PrePrio _ maxprio _ _ => maxprio

/-- The member `preprio_flag` (true only for `PREPRIO`). -/
def preprio_flag : Scheduler → Bool
  | PrePrio _ _ _ _ => true
  | _ => false

/-- The virtual method `add_process`. -/
def add_process (scheduler : Scheduler) (processes : List Process) (process : Nat) :
    Scheduler × List Process :=
  match scheduler with
  | FCFS ready => (FCFS (Sched.FCFS.add_process ready process), processes)
  | LCFS ready => (LCFS (Sched.LCFS.add_process ready process), processes)
  | SRTF ready => (SRTF (Sched.SRTF.add_process processes process ready), processes)
  | RR quantum ready => (RR quantum (Sched.RR.add_process ready process), processes)
  | Prio quantum maxprio activeQ expiredQ =>
    let r := Sched.Prio.add_process activeQ expiredQ processes process
    (Prio quantum maxprio r.1 r.2.1, r.2.2)
  | PrePrio quantum maxprio activeQ expiredQ =>
    let r := Sched.PrePrio.add_process activeQ expiredQ processes process
    (PrePrio quantum maxprio r.1 r.2.1, r.2.2)

/-- The virtual method `get_next_process`. -/
def get_next_process (scheduler : Scheduler) : Option Nat × Scheduler :=
  match scheduler with
  | FCFS ready => ((Sched.FCFS.get_next_process ready).1, FCFS (Sched.FCFS.get_next_process ready).2)
  | LCFS ready => ((Sched.LCFS.get_next_process ready).1, LCFS (Sched.LCFS.get_next_process ready).2)
  | SRTF ready => ((Sched.SRTF.get_next_process ready).1, SRTF (Sched.SRTF.get_next_process ready).2)
  | RR quantum ready =>
    ((Sched.RR.get_next_process ready).1, RR quantum (Sched.RR.get_next_process ready).2)
  | Prio quantum maxprio activeQ expiredQ =>
    let r := Sched.Prio.get_next_process activeQ expiredQ
    (r.1, Prio quantum maxprio r.2.1 r.2.2)
  | PrePrio quantum maxprio activeQ expiredQ =>
    let r := Sched.PrePrio.get_next_process activeQ expiredQ
    (r.1, PrePrio quantum maxprio r.2.1 r.2.2)

/-- The virtual method `test_preempt` (false in every class but `PREPRIO`). -/
def test_preempt (scheduler : Scheduler) (processes : List Process)
    (running_process process : Nat) (curr_time : Int) : Bool :=
  match scheduler with
  | PrePrio _ _ _ _ => Sched.PrePrio.test_preempt processes running_process process curr_time
  | _ => false

end Scheduler

/-- The constructor `FCFS()`. -/
def FCFS.FCFS : Scheduler := Scheduler.FCFS []

/-- The constructor `LCFS()`. -/
def LCFS.LCFS : Scheduler := Scheduler.LCFS []

/-- The constructor `SRTF()`. -/
def SRTF.SRTF : Scheduler := Scheduler.SRTF []

/-- The constructor `RR(quantum_)`. -/
def RR.RR (quantum_ : Int) : Scheduler := Scheduler.RR quantum_ []

/-- The constructor `PRIO(quantum_, maxprio_)`: both vectors get `maxprio` empty queues. -/
def Prio.Prio (quantum_ maxprio_ : Int) : Scheduler :=
  Scheduler.Prio quantum_ maxprio_ (List.replicate maxprio_.toNat [])
    (List.replicate maxprio_.toNat [])

/-- The constructor `PREPRIO(quantum_, maxprio_)`. -/
def PrePrio.PrePrio (quantum_ maxprio_ : Int) : Scheduler :=
  Scheduler.PrePrio quantum_ maxprio_ (List.replicate maxprio_.toNat [])
    (List.replicate maxprio_.toNat [])

/-! ## STEP 6: the roster and the first events -/

/-- One line `at totCPU cpuB ioB` of the input file. -/
structure InputLine where
  at_ : Int
  totCPU : Int
  cpuB : Int
  ioB : Int
  deriving DecidableEq, Repr, Inhabited

/-- The globals `ofs`, `processes` and `events`, which `createProcesses` fills. -/
structure Globals where
  ofs : Nat
  processes : List Process
  events : List Event
  deriving DecidableEq, Repr, Inhabited

/-- The `while` loop of `createProcesses`, from the value `count` on: each line
makes a process (the four `double`s read are narrowed to the `int` parameters
of the constructors), draws its static priority, pushes the process at the back
of `processes` and its `CREATED -> READY` event at the back of `events`. -/
def createProcesses_loop (random_nums : List Int) (scheduler : Scheduler) :
    List InputLine → Nat → Globals → Globals
  | [], _, g => g
  | line :: input_file, count, g =>
    let process := Process.Process count (narrow line.at_) (narrow line.totCPU)
      (narrow line.cpuB) (narrow line.ioB)
    let r := get_random_number random_nums g.ofs scheduler.maxprio
    let process := { process with static_prio := r.1 }
    let process := { process with dynamic_prio := process.static_prio - 1 }
    createProcesses_loop random_nums scheduler input_file (count + 1)
      { ofs := r.2
        processes := g.processes ++ [process]
        events := g.events ++
          [Event.mk (narrow line.at_) g.processes.length State.CREATED State.READY] }

/-- The function `createProcesses(input_file, scheduler)`, run on the initial
globals (`ofs = 0`, no process, no event). -/
def createProcesses (random_nums : List Int) (input_file : List InputLine)
    (scheduler : Scheduler) : Globals :=
  createProcesses_loop random_nums scheduler input_file 0 { ofs := 0, processes := [], events := [] }

/-! ## STEP 8: the simulation -/

/-- The record `Simulator::Output` (the fields the loop writes). -/
structure Output where
  cpuUtilization : Int
  ioUtilization : Int
  number_io_processes : Int
  start_of_IO_utilization : Int
  deriving DecidableEq, Repr, Inhabited

/-- The state the loop of `Simulator::simulation` works on: the members of
`Simulator`, the globals, the scheduler and the local `CALL_SCHEDULER`. -/
structure Simulator where
  random_nums : List Int
  ofs : Nat
  events : List Event
  processes : List Process
  scheduler : Scheduler
  output : Output
  CURRENT_RUNNING_PROCESS : Option Nat
  CURRENT_TIME : Int
  CALL_SCHEDULER : Bool
  deriving DecidableEq, Repr, Inhabited

namespace Simulator

/-- The performance statistics updated at the top of the loop body, for an
event leaving `RUNNING` or `BLOCKED` (both differences are taken in `double`,
so they are exact). -/
def update_stats (event : Event) (s : Simulator) : Simulator :=
  let process := getProc s.processes event.process
  let s :=
    if event.old_state = State.RUNNING then
      { s with output := { s.output with
          cpuUtilization := s.output.cpuUtilization + (s.CURRENT_TIME - process.clock) } }
    else s
  if event.old_state = State.BLOCKED then
    let s := { s with output := { s.output with
      number_io_processes := s.output.number_io_processes - 1 } }
    if s.output.number_io_processes = 0 then
      { s with output := { s.output with
          ioUtilization := s.output.ioUtilization
            + (s.CURRENT_TIME - s.output.start_of_IO_utilization) } }
    else s
  else s

/-- The preemption of the running process by the `PREPRIO` scheduler: its
pending event is removed, a `RUNNING -> READY` event is put at the current
time, and the unused time is given back (the difference of the two times is an
`int`; it is added to the `int` `remainingBurstTime` and to the `double`
`remainingCPUtime`). -/
def preempt (running : Nat) (s : Simulator) : Simulator :=
  let events := DES_Layer.remove_event s.processes running s.events
  let events := DES_Layer.put_event
    (Event.mk s.CURRENT_TIME running State.RUNNING State.READY) events
  let r := getProc s.processes running
  let unused := wrap32 (r.stopRunningTime - s.CURRENT_TIME)
  let r := { r with remainingBurstTime := wrap32 (r.remainingBurstTime + unused) }
  let r := { r with remainingCPUtime := r.remainingCPUtime + unused }
  let r := { r with stopRunningTime := s.CURRENT_TIME }
  { s with events := events, processes := setProc s.processes running r }

/-- The branch `case READY` of the loop body. -/
def case_READY (process : Nat) (s : Simulator) : Simulator :=
  let r := s.scheduler.add_process s.processes process
  let s := { s with scheduler := r.1, processes := r.2 }
  let s :=
    if (getProc s.processes process).remainingBurstTime > 0 then
      { s with CURRENT_RUNNING_PROCESS := none }
    else
      match s.CURRENT_RUNNING_PROCESS with
      | some running =>
        if s.scheduler.preprio_flag then
          let isPreemption :=
            s.scheduler.test_preempt s.processes running process s.CURRENT_TIME
          if isPreemption then preempt running s else s
        else s
      | none => s
  { s with CALL_SCHEDULER := true }

/-- The choice of the cpu burst in `case RUNNING` (the four cases of the
source): the duration, the flag `TO_BE_PREEMPTED`, the process with its
remaining burst time updated, and the new `ofs`. -/
def choose_burst (random_nums : List Int) (ofs : Nat) (quantum : Int) (p : Process) :
    Int × Bool × Process × Nat :=
  if p.remainingBurstTime > 0 ∧ p.remainingBurstTime > quantum then
    (quantum, true, { p with remainingBurstTime := wrap32 (p.remainingBurstTime - quantum) }, ofs)
  else if p.remainingBurstTime > 0 ∧ p.remainingBurstTime ≤ quantum then
    (p.remainingBurstTime, false, { p with remainingBurstTime := 0 }, ofs)
  else
    let r := get_random_number random_nums ofs p.cpuBurst
    let cpu_burst_duration := r.1
    if cpu_burst_duration > quantum then
      (quantum, true, { p with remainingBurstTime := wrap32 (cpu_burst_duration - quantum) }, r.2)
    else
      (cpu_burst_duration, false, p, r.2)

/-- The branch `case RUNNING` of the loop body. -/
def case_RUNNING (process : Nat) (s : Simulator) : Simulator :=
  let p := getProc s.processes process
  let waited := wrap32 (s.CURRENT_TIME - p.clock)
  let p := { p with cpuWaitingTime := wrap32 (p.cpuWaitingTime + waited) }
  let b := choose_burst s.random_nums s.ofs s.scheduler.quantum p
  let cpu_burst_duration := b.1
  let TO_BE_PREEMPTED := b.2.1
  let p := b.2.2.1
  let s := { s with ofs := b.2.2.2 }
  if p.remainingCPUtime ≤ cpu_burst_duration then
    let cpu_burst_duration := narrow p.remainingCPUtime
    let events := DES_Layer.put_event
      (Event.mk (wrap32 (s.CURRENT_TIME + cpu_burst_duration)) process
        State.RUNNING State.DONE) s.events
    let p := { p with remainingBurstTime := 0 }
    let p := { p with remainingCPUtime := 0 }
    let p := { p with stopRunningTime := wrap32 (s.CURRENT_TIME + cpu_burst_duration) }
    { s with events := events, processes := setProc s.processes process p }
  else if TO_BE_PREEMPTED then
    let events := DES_Layer.put_event
      (Event.mk (wrap32 (s.CURRENT_TIME + cpu_burst_duration)) process
        State.RUNNING State.READY) s.events
    let p := { p with remainingCPUtime := p.remainingCPUtime - cpu_burst_duration }
    let p := { p with stopRunningTime := wrap32 (s.CURRENT_TIME + cpu_burst_duration) }
    { s with events := events, processes := setProc s.processes process p }
  else
    let events := DES_Layer.put_event
      (Event.mk (wrap32 (s.CURRENT_TIME + cpu_burst_duration)) process
        State.RUNNING State.BLOCKED) s.events
    let p := { p with remainingCPUtime := p.remainingCPUtime - cpu_burst_duration }
    let p := { p with stopRunningTime := wrap32 (s.CURRENT_TIME + cpu_burst_duration) }
    { s with events := events, processes := setProc s.processes process p }

/-- The branch `case BLOCKED` of the loop body. -/
def case_BLOCKED (process : Nat) (s : Simulator) : Simulator :=
  let s := { s with CURRENT_RUNNING_PROCESS := none }
  let s := { s with output := { s.output with
    number_io_processes := s.output.number_io_processes + 1 } }
  let s :=
    if s.output.number_io_processes = 1 then
      { s with output := { s.output with start_of_IO_utilization := s.CURRENT_TIME } }
    else s
  let p := getProc s.processes process
  let r := get_random_number s.random_nums s.ofs p.ioBurst
  let io_burst_duration := r.1
  let p := { p with ioWaitingTime := wrap32 (p.ioWaitingTime + io_burst_duration) }
  let events := DES_Layer.put_event
    (Event.mk (wrap32 (s.CURRENT_TIME + io_burst_duration)) process
      State.BLOCKED State.READY) s.events
  { s with ofs := r.2, events := events, processes := setProc s.processes process p,
           CALL_SCHEDULER := true }

/-- The branch `case DONE` of the loop body. -/
def case_DONE (process : Nat) (s : Simulator) : Simulator :=
  let p := getProc s.processes process
  let p := { p with finishingTime := s.CURRENT_TIME }
  let p := { p with turnaroundTime := wrap32 (s.CURRENT_TIME - p.arrivalTime) }
  { s with CURRENT_RUNNING_PROCESS := none, processes := setProc s.processes process p,
           CALL_SCHEDULER := true }

/-- The loop body from its top to `process->clock = CURRENT_TIME`, for the
event just taken from the DES layer (`s.events` is the list without it). -/
def transition (event : Event) (s : Simulator) : Simulator :=
  let process := event.process
  let s := { s with CURRENT_TIME := event.timestamp }
  let s := update_stats event s
  let s :=
    match event.new_state with
    | State.READY => case_READY process s
    | State.RUNNING => case_RUNNING process s
    | State.BLOCKED => case_BLOCKED process s
    | State.DONE => case_DONE process s
    | State.CREATED => s
  let p := getProc s.processes process
  { s with processes := setProc s.processes process { p with clock := s.CURRENT_TIME } }

/-- The end of the loop body, `if (CALL_SCHEDULER) ...`, up to (not including)
the `get_event` that every path ends with. -/
def call_scheduler (s : Simulator) : Simulator :=
  if s.CALL_SCHEDULER then
    if DES_Layer.get_next_time_event s.events = s.CURRENT_TIME then
      s
    else
      let s := { s with CALL_SCHEDULER := false }
      match s.CURRENT_RUNNING_PROCESS with
      | none =>
        let r := s.scheduler.get_next_process
        let s := { s with CURRENT_RUNNING_PROCESS := r.1, scheduler := r.2 }
        match s.CURRENT_RUNNING_PROCESS with
        | none => s
        | some running =>
          let events := DES_Layer.put_event
            (Event.mk s.CURRENT_TIME running State.READY State.RUNNING) s.events
          { s with events := events }
      | some _ => s
  else s

/-- One turn of the `while (event)` loop, with the loop rotated: the source
takes the next event at the end of every path through the body (and once before
the loop); here a turn starts by taking it.  The result is `none` when
`get_event` gives the null event, which is when the loop exits. -/
def loop_body (s : Simulator) : Option Simulator :=
  match DES_Layer.get_event s.events with
  | none => none
  | some (event, events) => some (call_scheduler (transition event { s with events := events }))

/-- The method `Simulator::simulation`, for at most `fuel` turns of its loop. -/
def simulation : Nat → Simulator → Simulator
  | 0, s => s
  | fuel + 1, s =>
    match loop_body s with
    | none => s
    | some s1 => simulation fuel s1

end Simulator

/-- The values the source leaves uninitialised before the loop starts. -/
structure Uninitialised where
  CURRENT_TIME : Int
  start_of_IO_utilization : Int
  CALL_SCHEDULER : Bool
  deriving DecidableEq, Repr, Inhabited

/-- The state `main` hands to `simulation`: the random array is loaded, the
scheduler is built and `createProcesses` has run. -/
def initial_state (u : Uninitialised) (random_nums : List Int) (scheduler : Scheduler)
    (input_file : List InputLine) : Simulator :=
  let g := createProcesses random_nums input_file scheduler
  { random_nums := random_nums
    ofs := g.ofs
    events := g.events
    processes := g.processes
    scheduler := scheduler
    output :=
      { cpuUtilization := 0
        ioUtilization := 0
        number_io_processes := 0
        start_of_IO_utilization := u.start_of_IO_utilization }
    CURRENT_RUNNING_PROCESS := none
    CURRENT_TIME := u.CURRENT_TIME
    CALL_SCHEDULER := u.CALL_SCHEDULER }

end Sched

/-!
## The simulator over unbounded integers

The definitions of this section are the functions of the simulator with every
`int` computation carried out in unbounded integers (no `wrap32`, no `narrow`).
They are not the program: they are what the program computes as long as no
`int` computation leaves the 32-bit range (`turn_eq_turn_unbounded`,
`start_eq_start_unbounded`), and the properties of runs without overflow are
proved through them.  No property of the program is stated over them.
-/

namespace Sched

/-- Over unbounded integers: the `while` loop of `createProcesses`, from the value `count` on: each line
makes a process, draws its static priority, pushes the process at the back of
`processes` and its `CREATED -> READY` event at the back of `events`. -/
def createProcesses_unbounded_loop (random_nums : List Int) (scheduler : Scheduler) :
    List InputLine → Nat → Globals → Globals
  | [], _, g => g
  | line :: input_file, count, g =>
    let process := Process.Process count line.at_ line.totCPU line.cpuB line.ioB
    let r := get_random_number random_nums g.ofs scheduler.maxprio
    let process := { process with static_prio := r.1 }
    let process := { process with dynamic_prio := process.static_prio - 1 }
    createProcesses_unbounded_loop random_nums scheduler input_file (count + 1)
      { ofs := r.2
        processes := g.processes ++ [process]
        events := g.events ++ [Event.mk line.at_ g.processes.length State.CREATED State.READY] }

/-- Over unbounded integers: the function `createProcesses(input_file, scheduler)`, run on the initial
globals (`ofs = 0`, no process, no event). -/
def createProcesses_unbounded (random_nums : List Int) (input_file : List InputLine)
    (scheduler : Scheduler) : Globals :=
  createProcesses_unbounded_loop random_nums scheduler input_file 0 { ofs := 0, processes := [], events := [] }

namespace Simulator

/-- Over unbounded integers: the preemption of the running process by the `PREPRIO` scheduler: its
pending event is removed, a `RUNNING -> READY` event is put at the current
time, and the unused time is given back. -/
def preempt_unbounded (running : Nat) (s : Simulator) : Simulator :=
  let events := DES_Layer.remove_event s.processes running s.events
  let events := DES_Layer.put_event
    (Event.mk s.CURRENT_TIME running State.RUNNING State.READY) events
  let r := getProc s.processes running
  let r := { r with remainingBurstTime :=
    r.remainingBurstTime + (r.stopRunningTime - s.CURRENT_TIME) }
  let r := { r with remainingCPUtime :=
    r.remainingCPUtime + (r.stopRunningTime - s.CURRENT_TIME) }
  let r := { r with stopRunningTime := s.CURRENT_TIME }
  { s with events := events, processes := setProc s.processes running r }

/-- Over unbounded integers: the branch `case READY` of the loop body. -/
def case_READY_unbounded (process : Nat) (s : Simulator) : Simulator :=
  let r := s.scheduler.add_process s.processes process
  let s := { s with scheduler := r.1, processes := r.2 }
  let s :=
    if (getProc s.processes process).remainingBurstTime > 0 then
      { s with CURRENT_RUNNING_PROCESS := none }
    else
      match s.CURRENT_RUNNING_PROCESS with
      | some running =>
        if s.scheduler.preprio_flag then
          let isPreemption :=
            s.scheduler.test_preempt s.processes running process s.CURRENT_TIME
          if isPreemption then preempt_unbounded running s else s
        else s
      | none => s
  { s with CALL_SCHEDULER := true }

/-- Over unbounded integers: the choice of the cpu burst in `case RUNNING` (the four cases of the
source): the duration, the flag `TO_BE_PREEMPTED`, the process with its
remaining burst time updated, and the new `ofs`. -/
def choose_burst_unbounded (random_nums : List Int) (ofs : Nat) (quantum : Int) (p : Process) :
    Int × Bool × Process × Nat :=
  if p.remainingBurstTime > 0 ∧ p.remainingBurstTime > quantum then
    (quantum, true, { p with remainingBurstTime := p.remainingBurstTime - quantum }, ofs)
  else if p.remainingBurstTime > 0 ∧ p.remainingBurstTime ≤ quantum then
    (p.remainingBurstTime, false, { p with remainingBurstTime := 0 }, ofs)
  else
    let r := get_random_number random_nums ofs p.cpuBurst
    let cpu_burst_duration := r.1
    if cpu_burst_duration > quantum then
      (quantum, true, { p with remainingBurstTime := cpu_burst_duration - quantum }, r.2)
    else
      (cpu_burst_duration, false, p, r.2)

/-- Over unbounded integers: the branch `case RUNNING` of the loop body. -/
def case_RUNNING_unbounded (process : Nat) (s : Simulator) : Simulator :=
  let p := getProc s.processes process
  let p := { p with cpuWaitingTime := p.cpuWaitingTime + (s.CURRENT_TIME - p.clock) }
  let b := choose_burst_unbounded s.random_nums s.ofs s.scheduler.quantum p
  let cpu_burst_duration := b.1
  let TO_BE_PREEMPTED := b.2.1
  let p := b.2.2.1
  let s := { s with ofs := b.2.2.2 }
  if p.remainingCPUtime ≤ cpu_burst_duration then
    let cpu_burst_duration := p.remainingCPUtime
    let events := DES_Layer.put_event
      (Event.mk (s.CURRENT_TIME + cpu_burst_duration) process State.RUNNING State.DONE) s.events
    let p := { p with remainingBurstTime := 0 }
    let p := { p with remainingCPUtime := 0 }
    let p := { p with stopRunningTime := s.CURRENT_TIME + cpu_burst_duration }
    { s with events := events, processes := setProc s.processes process p }
  else if TO_BE_PREEMPTED then
    let events := DES_Layer.put_event
      (Event.mk (s.CURRENT_TIME + cpu_burst_duration) process State.RUNNING State.READY) s.events
    let p := { p with remainingCPUtime := p.remainingCPUtime - cpu_burst_duration }
    let p := { p with stopRunningTime := s.CURRENT_TIME + cpu_burst_duration }
    { s with events := events, processes := setProc s.processes process p }
  else
    let events := DES_Layer.put_event
      (Event.mk (s.CURRENT_TIME + cpu_burst_duration) process State.RUNNING State.BLOCKED) s.events
    let p := { p with remainingCPUtime := p.remainingCPUtime - cpu_burst_duration }
    let p := { p with stopRunningTime := s.CURRENT_TIME + cpu_burst_duration }
    { s with events := events, processes := setProc s.processes process p }

/-- Over unbounded integers: the branch `case BLOCKED` of the loop body. -/
def case_BLOCKED_unbounded (process : Nat) (s : Simulator) : Simulator :=
  let s := { s with CURRENT_RUNNING_PROCESS := none }
  let s := { s with output := { s.output with
    number_io_processes := s.output.number_io_processes + 1 } }
  let s :=
    if s.output.number_io_processes = 1 then
      { s with output := { s.output with start_of_IO_utilization := s.CURRENT_TIME } }
    else s
  let p := getProc s.processes process
  let r := get_random_number s.random_nums s.ofs p.ioBurst
  let io_burst_duration := r.1
  let p := { p with ioWaitingTime := p.ioWaitingTime + io_burst_duration }
  let events := DES_Layer.put_event
    (Event.mk (s.CURRENT_TIME + io_burst_duration) process State.BLOCKED State.READY) s.events
  { s with ofs := r.2, events := events, processes := setProc s.processes process p,
           CALL_SCHEDULER := true }

/-- Over unbounded integers: the branch `case DONE` of the loop body. -/
def case_DONE_unbounded (process : Nat) (s : Simulator) : Simulator :=
  let p := getProc s.processes process
  let p := { p with finishingTime := s.CURRENT_TIME }
  let p := { p with turnaroundTime := s.CURRENT_TIME - p.arrivalTime }
  { s with CURRENT_RUNNING_PROCESS := none, processes := setProc s.processes process p,
           CALL_SCHEDULER := true }

/-- Over unbounded integers: the loop body from its top to `process->clock = CURRENT_TIME`, for the
event just taken from the DES layer (`s.events` is the list without it). -/
def transition_unbounded (event : Event) (s : Simulator) : Simulator :=
  let process := event.process
  let s := { s with CURRENT_TIME := event.timestamp }
  let s := update_stats event s
  let s :=
    match event.new_state with
    | State.READY => case_READY_unbounded process s
    | State.RUNNING => case_RUNNING_unbounded process s
    | State.BLOCKED => case_BLOCKED_unbounded process s
    | State.DONE => case_DONE_unbounded process s
    | State.CREATED => s
  let p := getProc s.processes process
  { s with processes := setProc s.processes process { p with clock := s.CURRENT_TIME } }

/-- One turn of the `while (event)` loop, with the loop rotated: the source
takes the next event at the end of every path through the body (and once before
the loop); here a turn starts by taking it.  The result is `none` when
`get_event` gives the null event, which is when the loop exits. -/
def loop_body_unbounded (s : Simulator) : Option Simulator :=
  match DES_Layer.get_event s.events with
  | none => none
  | some (event, events) => some (call_scheduler (transition_unbounded event { s with events := events }))

/-- Over unbounded integers: the method `Simulator::simulation`, for at most `fuel` turns of its loop. -/
def simulation_unbounded : Nat → Simulator → Simulator
  | 0, s => s
  | fuel + 1, s =>
    match loop_body_unbounded s with
    | none => s
    | some s1 => simulation_unbounded fuel s1

end Simulator

/-- Over unbounded integers: the state `main` hands to `simulation`: the random array is loaded, the
scheduler is built and `createProcesses` has run. -/
def initial_state_unbounded (u : Uninitialised) (random_nums : List Int) (scheduler : Scheduler)
    (input_file : List InputLine) : Simulator :=
  let g := createProcesses_unbounded random_nums input_file scheduler
  { random_nums := random_nums
    ofs := g.ofs
    events := g.events
    processes := g.processes
    scheduler := scheduler
    output :=
      { cpuUtilization := 0
        ioUtilization := 0
        number_io_processes := 0
        start_of_IO_utilization := u.start_of_IO_utilization }
    CURRENT_RUNNING_PROCESS := none
    CURRENT_TIME := u.CURRENT_TIME
    CALL_SCHEDULER := u.CALL_SCHEDULER }

end Sched

namespace Sched

/-! ## Notions the properties are stated with -/

/-- The event list is in non-decreasing order of timestamp. -/
def sorted_by_time (events : List Event) : Prop :=
  events.Pairwise (fun a b => a.timestamp ≤ b.timestamp)

instance sorted_by_time_decidable (events : List Event) : Decidable (sorted_by_time events) := by
  unfold sorted_by_time; infer_instance

/-- Successive calls of `get_random_number`, one for each burst argument in
turn, from the offset `ofs`: the values drawn and the final offset. -/
def draw_sequence (random_nums : List Int) : List Int → Nat → List Int × Nat
  | [], ofs => ([], ofs)
  | burst :: rest, ofs =>
    let r := get_random_number random_nums ofs burst
    let rs := draw_sequence random_nums rest r.2
    (r.1 :: rs.1, rs.2)

/-- The process one turn of the loop of `createProcesses` builds from an input
line, at the value `count` and the oracle offset `ofs`. -/
def built_process (random_nums : List Int) (scheduler : Scheduler) (count ofs : Nat)
    (line : InputLine) : Process :=
  let process := Process.Process count (narrow line.at_) (narrow line.totCPU)
    (narrow line.cpuB) (narrow line.ioB)
  let r := get_random_number random_nums ofs scheduler.maxprio
  let process := { process with static_prio := r.1 }
  { process with dynamic_prio := process.static_prio - 1 }

/-- The events `createProcesses` pushes for the lines of an input file, the
first of them for the process at roster index `first`. -/
def initial_events (first : Nat) : List InputLine → List Event
  | [] => []
  | line :: rest =>
    Event.mk (narrow line.at_) first State.CREATED State.READY ::
      initial_events (first + 1) rest

/-- The scheduler specification given with `-s`: `F`, `L`, `S`, `R<quantum>`,
`P<quantum>[:<maxprio>]` or `E<quantum>[:<maxprio>]` (`maxprio` is `4` when it
is not given). -/
inductive Policy where
  | F
  | L
  | S
  | R (quantum : Int)
  | P (quantum maxprio : Int)
  | E (quantum maxprio : Int)
  deriving DecidableEq, Repr, Inhabited

/-- The scheduler `main` builds for a scheduler specification. -/
def make_scheduler : Policy → Scheduler
  | Policy.F => FCFS.FCFS
  | Policy.L => LCFS.LCFS
  | Policy.S => SRTF.SRTF
  | Policy.R quantum => RR.RR quantum
  | Policy.P quantum maxprio => Prio.Prio quantum maxprio
  | Policy.E quantum maxprio => PrePrio.PrePrio quantum maxprio

/-- The state `main` hands to `simulation` for a scheduler specification, a
random table and the lines of an input file. -/
def start (u : Uninitialised) (policy : Policy) (random_nums : List Int)
    (input_file : List InputLine) : Simulator :=
  initial_state u random_nums (make_scheduler policy) input_file

/-- One turn of the loop of `simulation`; the state stays as it is once the
loop has exited. -/
def Simulator.turn (s : Simulator) : Simulator :=
  match Simulator.loop_body s with
  | none => s
  | some s1 => s1

/-! ### The same over unbounded integers -/

/-- Over unbounded integers: the process one turn of the loop of `createProcesses` builds from an input
line, at the value `count` and the oracle offset `ofs`. -/
def built_process_unbounded (random_nums : List Int) (scheduler : Scheduler) (count ofs : Nat)
    (line : InputLine) : Process :=
  let process := Process.Process count line.at_ line.totCPU line.cpuB line.ioB
  let r := get_random_number random_nums ofs scheduler.maxprio
  let process := { process with static_prio := r.1 }
  { process with dynamic_prio := process.static_prio - 1 }

/-- Over unbounded integers: the events `createProcesses` pushes for the lines of an input file, the
first of them for the process at roster index `first`. -/
def initial_events_unbounded (first : Nat) : List InputLine → List Event
  | [] => []
  | line :: rest =>
    Event.mk line.at_ first State.CREATED State.READY :: initial_events_unbounded (first + 1) rest

/-- Over unbounded integers: the state `main` hands to `simulation` for a scheduler specification, a
random table and the lines of an input file. -/
def start_unbounded (u : Uninitialised) (policy : Policy) (random_nums : List Int)
    (input_file : List InputLine) : Simulator :=
  initial_state_unbounded u random_nums (make_scheduler policy) input_file

/-- Over unbounded integers: one turn of the loop of `simulation`; the state stays as it is once the
loop has exited. -/
def Simulator.turn_unbounded (s : Simulator) : Simulator :=
  match Simulator.loop_body_unbounded s with
  | none => s
  | some s1 => s1

/-- Valid input: arrival times non-negative and non-decreasing, total cpu time
non-negative, cpu burst and io burst at least `1`, quantum and maxprio at least
`1`, a non-empty random table of non-negative integers; and every field of an
input line is an `int` (at most `2147483647`), so that `createProcesses` reads
it as it is written. -/
structure ValidInput (policy : Policy) (random_nums : List Int)
    (input_file : List InputLine) : Prop where
  table_nonempty : 1 ≤ random_nums.length
  table_nonneg : ∀ x ∈ random_nums, 0 ≤ x
  quantum_pos : 1 ≤ (make_scheduler policy).quantum
  maxprio_pos : 1 ≤ (make_scheduler policy).maxprio
  arrival_nonneg : ∀ line ∈ input_file, 0 ≤ line.at_
  arrival_sorted : input_file.Pairwise (fun a b => a.at_ ≤ b.at_)
  totcpu_nonneg : ∀ line ∈ input_file, 0 ≤ line.totCPU
  cpub_pos : ∀ line ∈ input_file, 1 ≤ line.cpuB
  iob_pos : ∀ line ∈ input_file, 1 ≤ line.ioB
  fields_int : ∀ line ∈ input_file, line.at_ ≤ 2147483647 ∧ line.totCPU ≤ 2147483647 ∧
    line.cpuB ≤ 2147483647 ∧ line.ioB ≤ 2147483647

/-- Every process a scheduler holds in its runqueue (for `Prio` and `PrePrio`:
in the active and the expired vector). -/
def Scheduler.pids : Scheduler → List Nat
  | Scheduler.FCFS ready => ready
  | Scheduler.LCFS ready => ready
  | Scheduler.SRTF ready => ready
  | Scheduler.RR _ ready => ready
  | Scheduler.Prio _ _ activeQ expiredQ => activeQ.flatten ++ expiredQ.flatten
  | Scheduler.PrePrio _ _ activeQ expiredQ => activeQ.flatten ++ expiredQ.flatten

/-- The six kinds of event the simulation makes. -/
def Event.well_formed (e : Event) : Prop :=
  (e.old_state = State.CREATED ∧ e.new_state = State.READY) ∨
  (e.old_state = State.BLOCKED ∧ e.new_state = State.READY) ∨
  (e.old_state = State.READY ∧ e.new_state = State.RUNNING) ∨
  (e.old_state = State.RUNNING ∧ e.new_state = State.READY) ∨
  (e.old_state = State.RUNNING ∧ e.new_state = State.BLOCKED) ∨
  (e.old_state = State.RUNNING ∧ e.new_state = State.DONE)

/-- The fields of a process the loop invariant speaks of. -/
def Process.core (p : Sched.Process) : Nat × Int × Int × Int × Int × Int :=
  (p.pid, p.cpuBurst, p.ioBurst, p.remainingCPUtime, p.remainingBurstTime, p.stopRunningTime)

/-- The invariant of the simulation loop (the part about the state itself). -/
structure Inv (s : Simulator) : Prop where
  table_nonneg : ∀ x ∈ s.random_nums, 0 ≤ x
  quantum_pos : 1 ≤ s.scheduler.quantum
  bursts_pos : ∀ i, i < s.processes.length →
    1 ≤ (getProc s.processes i).cpuBurst ∧ 1 ≤ (getProc s.processes i).ioBurst
  pid_index : ∀ i, i < s.processes.length → (getProc s.processes i).pid = i
  rem_nonneg : ∀ i, i < s.processes.length → 0 ≤ (getProc s.processes i).remainingCPUtime
  sorted : sorted_by_time s.events
  not_before_now : ∀ e ∈ s.events, s.CURRENT_TIME ≤ e.timestamp
  one_event : (s.events.map Event.process).Nodup
  event_proc : ∀ e ∈ s.events, e.process < s.processes.length
  event_shape : ∀ e ∈ s.events, e.well_formed
  ready_nodup : s.scheduler.pids.Nodup
  ready_proc : ∀ q ∈ s.scheduler.pids, q < s.processes.length
  ready_no_event : ∀ q ∈ s.scheduler.pids, ∀ e ∈ s.events, e.process ≠ q
  running_proc : ∀ r, s.CURRENT_RUNNING_PROCESS = some r → r < s.processes.length
  running_event : ∀ e ∈ s.events,
    e.old_state = State.RUNNING ∨ e.new_state = State.RUNNING →
      s.CURRENT_RUNNING_PROCESS = some e.process
  dispatch_first : ∀ e ∈ s.events, e.new_state = State.RUNNING →
    e.timestamp = s.CURRENT_TIME ∧ ∀ e1 ∈ s.events, e1 ≠ e → s.CURRENT_TIME < e1.timestamp
  stop_time : ∀ e ∈ s.events, e.old_state = State.RUNNING →
    e.timestamp = (getProc s.processes e.process).stopRunningTime
  no_carry : ∀ e ∈ s.events,
    (e.old_state = State.CREATED ∨ e.old_state = State.BLOCKED ∨ e.new_state = State.BLOCKED) →
      (getProc s.processes e.process).remainingBurstTime ≤ 0
  running_kind : ∀ r, s.CURRENT_RUNNING_PROCESS = some r → ∀ e ∈ s.events, e.process = r →
    e.old_state = State.RUNNING ∨ e.new_state = State.RUNNING
  running_idle : ∀ r, s.CURRENT_RUNNING_PROCESS = some r →
    (∀ e ∈ s.events, e.process ≠ r) → (getProc s.processes r).stopRunningTime ≤ s.CURRENT_TIME

end Sched

namespace Sched

/-! ## The trace of a run and what is read off it -/

/-- The events the loop has processed in its first `n` turns, in order. -/
def processed (s0 : Simulator) : Nat → List Event
  | 0 => []
  | n + 1 =>
    processed s0 n ++
      (match (Simulator.simulation n s0).events with
       | [] => []
       | e :: _ => [e])

/-- Over unbounded integers: the events the loop has processed in its first `n`
turns, in order. -/
def processed_unbounded (s0 : Simulator) : Nat → List Event
  | 0 => []
  | n + 1 =>
    processed_unbounded s0 n ++
      (match (Simulator.simulation_unbounded n s0).events with
       | [] => []
       | e :: _ => [e])

/-- What a trace tells about cpu use: for each process the time it last
entered `RUNNING` and the total time it has spent `RUNNING`. -/
structure CpuLog where
  entered : Nat → Int
  ran : Nat → Int

/-- Reading one processed event: an event into `RUNNING` sets the entry time of
its process; an event out of `RUNNING` adds its timestamp minus the entry time
to the time the process has spent `RUNNING`. -/
def CpuLog.record (g : CpuLog) (e : Event) : CpuLog :=
  if e.new_state = State.RUNNING then
    { g with entered := Function.update g.entered e.process e.timestamp }
  else if e.old_state = State.RUNNING then
    let spent := g.ran e.process + (e.timestamp - g.entered e.process)
    { g with ran := Function.update g.ran e.process spent }
  else g

/-- The cpu log of a trace. -/
def cpu_log (trace : List Event) : CpuLog :=
  trace.foldl CpuLog.record { entered := fun _ => 0, ran := fun _ => 0 }

/-- The total time the process `pid` spent `RUNNING` in a trace. -/
def time_running (trace : List Event) (pid : Nat) : Int :=
  (cpu_log trace).ran pid

/-- What a trace tells about I/O: for each process the time it last entered
`BLOCKED`, and the intervals `(from, to)` during which some process was
`BLOCKED` (from its event into `BLOCKED` to its event out of it). -/
structure IoLog where
  blocked_at : Nat → Int
  bursts : List (Int × Int)

/-- Reading one processed event: an event into `BLOCKED` sets the time its
process was blocked at; an event out of `BLOCKED` closes the interval. -/
def IoLog.record (g : IoLog) (e : Event) : IoLog :=
  if e.new_state = State.BLOCKED then
    { g with blocked_at := Function.update g.blocked_at e.process e.timestamp }
  else if e.old_state = State.BLOCKED then
    { g with bursts := (g.blocked_at e.process, e.timestamp) :: g.bursts }
  else g

/-- The I/O log of a trace. -/
def io_log (trace : List Event) : IoLog :=
  trace.foldl IoLog.record { blocked_at := fun _ => 0, bursts := [] }

/-- The instants covered by a list of intervals `[from, to)`. -/
def cover (bursts : List (Int × Int)) : Finset Int :=
  bursts.foldr (fun b acc => Finset.Ico b.1 b.2 ∪ acc) ∅

/-- The measure of the union of a list of intervals `[from, to)` with integer
ends: the number of unit instants the union holds. -/
def union_measure (bursts : List (Int × Int)) : Int :=
  ((cover bursts).card : Int)

/-- The part of the loop invariant about cpu time, relative to the cpu log `g`
of the events processed so far and the total cpu times `tc` of the input. -/
structure InvCpu (tc : Nat → Int) (s : Simulator) (g : CpuLog) : Prop where
  total : ∀ i, i < s.processes.length → (getProc s.processes i).totalCPUTime = tc i
  running : ∀ e ∈ s.events, e.old_state = State.RUNNING →
    g.ran e.process + (e.timestamp - g.entered e.process)
      + (getProc s.processes e.process).remainingCPUtime = tc e.process ∧
    g.entered e.process ≤ s.CURRENT_TIME
  resting : ∀ i, i < s.processes.length →
    (∀ e ∈ s.events, e.process = i → e.old_state ≠ State.RUNNING) →
      g.ran i + (getProc s.processes i).remainingCPUtime = tc i
  finishing : ∀ e ∈ s.events, e.new_state = State.DONE →
    (getProc s.processes e.process).remainingCPUtime = 0

/-- The pending events out of `BLOCKED`: one for each process that is `BLOCKED`. -/
def blocked_events (events : List Event) : List Event :=
  events.filter (fun e => decide (e.old_state = State.BLOCKED))

/-- The instant `x` lies in an interval during which some process was or is
`BLOCKED`: a closed interval of the log, or the interval of a process that is
`BLOCKED` now (from the time it was blocked at to the timestamp of its pending
event out of `BLOCKED`). -/
def Covered (s : Simulator) (g : IoLog) (x : Int) : Prop :=
  (∃ b ∈ g.bursts, b.1 ≤ x ∧ x < b.2) ∨
  (∃ e ∈ s.events, e.old_state = State.BLOCKED ∧ g.blocked_at e.process ≤ x ∧ x < e.timestamp)

/-- The part of the loop invariant about I/O time, relative to the I/O log `g`
of the events processed so far. -/
structure IoInv (s : Simulator) (g : IoLog) : Prop where
  count : s.output.number_io_processes = ((blocked_events s.events).length : Int)
  measured : ∃ F : Finset Int, s.output.ioUtilization = (F.card : Int) ∧
    ∀ x, x ∈ F ↔ (Covered s g x ∧
      (0 < s.output.number_io_processes → x < s.output.start_of_IO_utilization))
  idle : s.output.number_io_processes = 0 → ∀ x, Covered s g x → x < s.CURRENT_TIME
  busy : 0 < s.output.number_io_processes →
    s.output.start_of_IO_utilization ≤ s.CURRENT_TIME ∧
    ∀ x, s.output.start_of_IO_utilization ≤ x →
      (Covered s g x ↔ ∃ e ∈ s.events, e.old_state = State.BLOCKED ∧ x < e.timestamp)

end Sched

namespace Sched

/-! ## A measure of what the loop has still to do -/

/-- The weight of a pending event: `1` for an event out of `RUNNING`, `2` for a
`READY -> RUNNING` event, `4` for an arrival (`CREATED -> READY` or
`BLOCKED -> READY`). -/
def stage (e : Event) : Int :=
  if e.old_state = State.RUNNING then 1
  else if e.new_state = State.RUNNING then 2
  else 4

/-- The cpu time the first `n` processes have not yet spent `RUNNING`, for the
total cpu times `tc` and a cpu log. -/
def work_left (tc : Nat → Int) (g : CpuLog) (n : Nat) : Int :=
  ((List.range n).map (fun i => tc i - g.ran i)).sum

/-- The measure: four times the cpu time not yet spent, the weights of the
pending events, and `3` for every process in the runqueue.  Every turn of the
loop makes it smaller. -/
def potential (tc : Nat → Int) (s : Simulator) (g : CpuLog) : Int :=
  4 * work_left tc g s.processes.length + (s.events.map stage).sum
    + 3 * (s.scheduler.pids.length : Int)

/-- The part of the loop invariant that makes a cpu slice last: the process of a
pending event out of `RUNNING` entered `RUNNING` before the timestamp of every
other pending event, and before that of its own unless it is finishing. -/
structure InvProgress (s : Simulator) (g : CpuLog) : Prop where
  strict : ∀ e ∈ s.events, e.old_state = State.RUNNING → e.new_state ≠ State.DONE →
    g.entered e.process < e.timestamp
  ahead : ∀ e ∈ s.events, e.old_state = State.RUNNING → ∀ e1 ∈ s.events, e1 ≠ e →
    g.entered e.process < e1.timestamp

end Sched

namespace Sched

/-! ## Schedulers driven by calls, and the disciplines they are compared with -/

/-- A call on a scheduler: `add_process(process)` or `get_next_process()`. -/
inductive Call where
  | add (process : Nat)
  | next
  deriving DecidableEq, Repr, Inhabited

/-- A scheduler driven through a sequence of calls on a roster: the results of
the `get_next_process` calls, in order, with the scheduler and the roster after
the last call. -/
def Scheduler.run_calls (scheduler : Scheduler) (processes : List Process) :
    List Call → List (Option Nat) × Scheduler × List Process
  | [] => ([], scheduler, processes)
  | Call.add process :: calls =>
    Scheduler.run_calls (scheduler.add_process processes process).1
      (scheduler.add_process processes process).2 calls
  | Call.next :: calls =>
    let rest := Scheduler.run_calls scheduler.get_next_process.2 processes calls
    (scheduler.get_next_process.1 :: rest.1, rest.2)

/-- The FIFO discipline in the words of the specification: with `added` the
processes added so far, in order, and `returned` the number of them already
returned, `next` gives the earliest added process not yet returned, and nothing
when every added process has been returned. -/
def fifo_reference (added : List Nat) (returned : Nat) : List Call → List (Option Nat)
  | [] => []
  | Call.add process :: calls => fifo_reference (added ++ [process]) returned calls
  | Call.next :: calls =>
    if returned < added.length then
      added[returned]? :: fifo_reference added (returned + 1) calls
    else
      none :: fifo_reference added returned calls

/-- The LIFO discipline in the words of the specification: with `pending` the
processes added and not yet returned, in order of addition, `next` gives the
most recently added of them, and nothing when there is none. -/
def lifo_reference (pending : List Nat) : List Call → List (Option Nat)
  | [] => []
  | Call.add process :: calls => lifo_reference (pending ++ [process]) calls
  | Call.next :: calls => pending.getLast? :: lifo_reference pending.dropLast calls

/-- The remaining cpu time of the process `i` of a roster. -/
def remaining (processes : List Process) (i : Nat) : Int :=
  (getProc processes i).remainingCPUtime

/-- The runqueue of `SRTF` after the processes `added` have been added in this
order to the empty runqueue, on a roster that stays as it is. -/
def SRTF.add_all (processes : List Process) (added : List Nat) : List Nat :=
  added.foldl (fun ready process => SRTF.add_process processes process ready) []

/-- The queue `i` of a vector of queues holds `head :: tail` and is the
non-empty queue of highest index. -/
def highest_nonempty (Q : List (List Nat)) (i : Nat) (head : Nat) (tail : List Nat) : Prop :=
  i < Q.length ∧ Q.getD i [] = head :: tail ∧
    ∀ j, i < j → j < Q.length → Q.getD j [] = []

/-! ## The cpu slice of a process entering `RUNNING`, in the words of the specification -/

/-- The burst a process entering `RUNNING` has in front of it: what is left of
its cpu burst if that is positive, and otherwise a fresh draw `rand(cpuBurst)`. -/
def burst_on_entry (s : Simulator) (process : Nat) : Int :=
  if 0 < (getProc s.processes process).remainingBurstTime then
    (getProc s.processes process).remainingBurstTime
  else
    (get_random_number s.random_nums s.ofs (getProc s.processes process).cpuBurst).1

/-- The slice: the least of the burst, the quantum and the remaining cpu time. -/
def slice_on_entry (s : Simulator) (process : Nat) : Int :=
  min (burst_on_entry s process)
    (min s.scheduler.quantum (getProc s.processes process).remainingCPUtime)

/-- The state the process goes to at the end of the slice: `DONE` if the
remaining cpu time is at most the least of burst and quantum, else `READY` if
the burst is longer than the quantum, else `BLOCKED`. -/
def exit_on_entry (s : Simulator) (process : Nat) : State :=
  if (getProc s.processes process).remainingCPUtime
      ≤ min (burst_on_entry s process) s.scheduler.quantum then State.DONE
  else if s.scheduler.quantum < burst_on_entry s process then State.READY
  else State.BLOCKED

end Sched

namespace Sched

/-! ## A run of one process under FCFS -/

/-- The sum of the lengths of the I/O bursts of an I/O log (each burst runs from
the time its process was blocked at to the timestamp of its event out of
`BLOCKED`, which is that time plus the value drawn). -/
def io_drawn (g : IoLog) : Int :=
  (g.bursts.map (fun b => b.2 - b.1)).sum

/-- The entries of a trace: its events into `RUNNING` and into `BLOCKED`, in order. -/
def entries (trace : List Event) : List Event :=
  trace.filter (fun e => decide (e.new_state = State.RUNNING ∨ e.new_state = State.BLOCKED))

/-- The states `RUNNING, BLOCKED, RUNNING, BLOCKED, ...`, `n` of them. -/
def alternate : Nat → List State
  | 0 => []
  | n + 1 => alternate n ++ [if n % 2 = 0 then State.RUNNING else State.BLOCKED]

/-- A measure of what a run of one process has still to do: three times its
remaining cpu time, plus a weight for the kind of its pending event. -/
def solo_measure (s : Simulator) : Nat :=
  match s.events with
  | [] => 0
  | e :: _ =>
    3 * (getProc s.processes 0).remainingCPUtime.toNat +
      (if e.new_state = State.DONE then 1
       else if e.new_state = State.RUNNING then 2
       else if e.old_state = State.RUNNING then 4
       else 3)

/-- Where the one process of the run is, with what is known of it there: its
arrival is pending; its `READY -> RUNNING` event is pending; its event out of
`RUNNING` is pending; its event out of `BLOCKED` is pending; it has finished.
`g` is the I/O log of the events processed so far. -/
def SoloPhase (line : InputLine) (P : Process) (events : List Event) (running : Option Nat)
    (g : IoLog) : Prop :=
  (events = [⟨line.at_, 0, State.CREATED, State.READY⟩] ∧ running = none ∧
    P.remainingBurstTime ≤ 0 ∧ P.remainingCPUtime = line.totCPU ∧
    P.ioWaitingTime = 0 ∧ io_drawn g = 0) ∨
  (∃ T, events = [⟨T, 0, State.READY, State.RUNNING⟩] ∧ running = some 0 ∧ P.clock = T ∧
    T = line.at_ + (line.totCPU - P.remainingCPUtime) + P.ioWaitingTime ∧ 0 ≤ T ∧
    P.ioWaitingTime = io_drawn g) ∨
  (∃ T X, events = [⟨T, 0, State.RUNNING, X⟩] ∧ running = some 0 ∧
    T = line.at_ + (line.totCPU - P.remainingCPUtime) + P.ioWaitingTime ∧
    P.ioWaitingTime = io_drawn g ∧
    ((X = State.DONE ∧ P.remainingCPUtime = 0) ∨
     (X = State.BLOCKED ∧ P.remainingBurstTime ≤ 0 ∧ 0 ≤ T) ∨
     (X = State.READY ∧ 0 < P.remainingBurstTime ∧ 0 ≤ T))) ∨
  (∃ T, events = [⟨T, 0, State.BLOCKED, State.READY⟩] ∧ running = none ∧
    T = line.at_ + (line.totCPU - P.remainingCPUtime) + P.ioWaitingTime ∧
    P.remainingBurstTime ≤ 0 ∧ 0 ≤ T ∧
    P.ioWaitingTime = io_drawn g + (T - g.blocked_at 0)) ∨
  (events = [] ∧
    P.finishingTime = line.at_ + line.totCPU + P.ioWaitingTime ∧
    P.ioWaitingTime = io_drawn g)

/-- The sum of the first `k` io bursts of a run that draws alternately for the
cpu and for io after the draw of the static priority: the values that
`get_random_number` gives for `ioBurst` at the offsets 2, 4, 6, ... of the
table, wrapping around at its end. -/
def io_draws (random_nums : List Int) (ioBurst : Int) : Nat → Int
  | 0 => 0
  | k + 1 =>
    io_draws random_nums ioBurst k +
      (get_random_number random_nums ((2 + 2 * k) % random_nums.length) ioBurst).1

/-- The part of the invariant about the oracle, for a cpu burst bound within
the quantum of `FCFS`: the offset counts the static priority and one draw for
each entry, the entries alternate, no part of a burst is left over, and the io
waiting time is the sum of the io bursts drawn. -/
def SoloOracle (random_nums : List Int) (P : Process) (events : List Event) (ofs : Nat)
    (trace : List Event) : Prop :=
  ofs = (1 + (entries trace).length) % random_nums.length ∧
  (entries trace).map Event.new_state = alternate (entries trace).length ∧
  (P.remainingBurstTime ≤ 0 ∧
    P.ioWaitingTime = io_draws random_nums P.ioBurst ((entries trace).length / 2)) ∧
  ∀ e ∈ events,
    (e.old_state = State.RUNNING →
      (entries trace).length % 2 = 1 ∧ e.new_state ≠ State.READY) ∧
    (e.old_state ≠ State.RUNNING → (entries trace).length % 2 = 0)

/-- The invariant of a run of one process, read from the input line `line`,
under `FCFS`; `trace` is the list of the events processed so far. -/
def Solo (random_nums : List Int) (line : InputLine) (s : Simulator) (trace : List Event) :
    Prop :=
  ∃ P, s.random_nums = random_nums ∧ s.processes = [P] ∧ s.scheduler = Scheduler.FCFS [] ∧
    s.ofs < random_nums.length ∧
    P.cpuBurst = line.cpuB ∧ P.ioBurst = line.ioB ∧ P.cpuWaitingTime = 0 ∧
    SoloPhase line P s.events s.CURRENT_RUNNING_PROCESS (io_log trace) ∧
    (line.cpuB ≤ 10000 → SoloOracle random_nums P s.events s.ofs trace)

end Sched

namespace Sched

/-! ## Points inside the loop body -/

/-- The state in which the branch `case READY` looks at the process it has
just added: the loop body from its top (for the event just taken from the DES
layer) to the return of `scheduler->add_process(process)`. -/
def Simulator.after_add (event : Event) (s : Simulator) : Simulator :=
  let s := Simulator.update_stats event { s with CURRENT_TIME := event.timestamp }
  let r := s.scheduler.add_process s.processes event.process
  { s with scheduler := r.1, processes := r.2 }

/-- The branch `case READY` takes its preemption path for the running process
`running` (and so calls `DES_Layer::remove_event(CURRENT_RUNNING_PROCESS)`): the
event leads to `READY`, the process added has no remaining burst time, a process
is running, the scheduler has `preprio_flag` and `test_preempt` says yes. -/
def Simulator.preempts (event : Event) (s : Simulator) (running : Nat) : Prop :=
  event.new_state = State.READY ∧
  ¬ (getProc (Simulator.after_add event s).processes event.process).remainingBurstTime > 0 ∧
  (Simulator.after_add event s).CURRENT_RUNNING_PROCESS = some running ∧
  (Simulator.after_add event s).scheduler.preprio_flag = true ∧
  (Simulator.after_add event s).scheduler.test_preempt (Simulator.after_add event s).processes
    running event.process (Simulator.after_add event s).CURRENT_TIME = true

instance Simulator.preempts_decidable (event : Event) (s : Simulator) (running : Nat) :
    Decidable (Simulator.preempts event s running) := by
  unfold Simulator.preempts; infer_instance

/-- The end of the loop body reaches the call `scheduler->get_next_process()`:
`CALL_SCHEDULER` is set, the next event is not at the current time, and no
process is running. -/
def Simulator.calls_next (s : Simulator) : Prop :=
  s.CALL_SCHEDULER = true ∧
  DES_Layer.get_next_time_event s.events ≠ s.CURRENT_TIME ∧
  s.CURRENT_RUNNING_PROCESS = none

instance Simulator.calls_next_decidable (s : Simulator) : Decidable (Simulator.calls_next s) := by
  unfold Simulator.calls_next; infer_instance

end Sched

namespace Sched

/-! ## Invariants that hold on every input -/

/-- Every `Process*` the state holds points into the roster. -/
structure Scoped (s : Simulator) : Prop where
  events : ∀ e ∈ s.events, e.process < s.processes.length
  ready : ∀ q ∈ s.scheduler.pids, q < s.processes.length
  running : ∀ r, s.CURRENT_RUNNING_PROCESS = some r → r < s.processes.length

/-- The sizes of the vectors `activeQ` and `expiredQ` of a `PRIO` or `PREPRIO`
scheduler (no vector for the other classes). -/
def Scheduler.levels : Scheduler → List Nat
  | Scheduler.Prio _ _ activeQ expiredQ => [activeQ.length, expiredQ.length]
  | Scheduler.PrePrio _ _ activeQ expiredQ => [activeQ.length, expiredQ.length]
  | _ => []

/-- The index `PRIO::add_process` (and `PREPRIO::add_process`) uses into
`activeQ` or `expiredQ`: the dynamic priority it has just written. -/
def Prio.add_level (processes : List Process) (process : Nat) : Int :=
  let p := getProc processes process
  if p.remainingBurstTime > 0 then
    if p.dynamic_prio - 1 = -1 then p.static_prio - 1 else p.dynamic_prio - 1
  else p.static_prio - 1

/-- The priorities are within the vectors of queues: every static priority in
`[1, maxprio]`, every dynamic priority in `[0, maxprio - 1]`, and both vectors
of `maxprio` queues. -/
structure PrioSafe (s : Simulator) : Prop where
  static : ∀ i, i < s.processes.length →
    1 ≤ (getProc s.processes i).static_prio ∧
    (getProc s.processes i).static_prio ≤ s.scheduler.maxprio
  dynamic : ∀ i, i < s.processes.length →
    0 ≤ (getProc s.processes i).dynamic_prio ∧
    (getProc s.processes i).dynamic_prio ≤ s.scheduler.maxprio - 1
  tables : ∀ l ∈ s.scheduler.levels, (l : Int) = s.scheduler.maxprio

end Sched

namespace Sched

/-! ## STEP 9: the summary -/

/-- The numbers of the line `SUM:` that `print_summary` computes.  The source
computes the five ratios in `double`; here they are exact rationals.  (A
division by zero gives `0` here, where the source gets an infinity or a NaN.) -/
structure Summary where
  finishingTimeOfLastEvent : Int
  cpuUtilization : ℚ
  ioUtilization : ℚ
  avgTurnaroundTime : ℚ
  avgCPUWaitingTime : ℚ
  throughputPer100TimeUnits : ℚ
  deriving DecidableEq

/-- The method `Simulator::print_summary`, as far as the line `SUM:` goes: the
averages over the roster, the finishing time of the last event (the value of
`CURRENT_TIME` when the loop has exited), and the three ratios to it. -/
def Simulator.print_summary (s : Simulator) : Summary :=
  let number_of_processes : ℚ := (s.processes.length : ℚ)
  let avgTurnaroundTime : ℚ := (s.processes.map (fun p => (p.turnaroundTime : ℚ))).sum
  let avgCPUWaitingTime : ℚ := (s.processes.map (fun p => (p.cpuWaitingTime : ℚ))).sum
  let avgTurnaroundTime := avgTurnaroundTime / number_of_processes
  let avgCPUWaitingTime := avgCPUWaitingTime / number_of_processes
  let finishingTimeOfLastEvent := s.CURRENT_TIME
  { finishingTimeOfLastEvent := finishingTimeOfLastEvent
    cpuUtilization := 100 * (s.output.cpuUtilization : ℚ) / (finishingTimeOfLastEvent : ℚ)
    ioUtilization := 100 * (s.output.ioUtilization : ℚ) / (finishingTimeOfLastEvent : ℚ)
    avgTurnaroundTime := avgTurnaroundTime
    avgCPUWaitingTime := avgCPUWaitingTime
    throughputPer100TimeUnits := 100 * number_of_processes / (finishingTimeOfLastEvent : ℚ) }

end Sched

namespace Sched

/-! ## Time accounting -/

/-- The fields of a process the time accounting speaks of. -/
def Process.times (p : Sched.Process) : Int × Int × Int × Int × Int × Int × Int × Int :=
  (p.arrivalTime, p.totalCPUTime, p.remainingCPUtime, p.ioWaitingTime, p.cpuWaitingTime,
    p.clock, p.finishingTime, p.turnaroundTime)

/-- The time a process has accounted for so far: the cpu time it has used, the
time of its I/O bursts and the time it has waited for the cpu. -/
def Process.accounted (p : Sched.Process) : Int :=
  p.totalCPUTime - p.remainingCPUtime + p.ioWaitingTime + p.cpuWaitingTime

/-- A process in the runqueue has accounted for all the time from its arrival
to the time it was added (its `clock`). -/
def Process.waits (p : Sched.Process) : Prop :=
  p.clock - p.arrivalTime = p.accounted

/-- The accounting identity of a process that is `DONE`. -/
def Process.settled (p : Sched.Process) : Prop :=
  p.turnaroundTime = p.finishingTime - p.arrivalTime ∧
  p.turnaroundTime = p.totalCPUTime + p.ioWaitingTime + p.cpuWaitingTime

/-- A pending event agrees with the accounts of its process: the process has
accounted for all the time from its arrival to the timestamp of the event (for
a dispatch event, to the time it was added to the runqueue), and an event into
`DONE` is for a process with no cpu time left. -/
def Event.accounted (processes : List Process) (x : Event) : Prop :=
  (x.new_state ≠ State.RUNNING →
    x.timestamp - (getProc processes x.process).arrivalTime
      = (getProc processes x.process).accounted) ∧
  (x.new_state = State.RUNNING → (getProc processes x.process).waits) ∧
  (x.new_state = State.DONE → (getProc processes x.process).remainingCPUtime = 0)

/-- A process that has a pending event or is in the runqueue. -/
def Simulator.live (s : Simulator) (i : Nat) : Prop :=
  (∃ x ∈ s.events, x.process = i) ∨ i ∈ s.scheduler.pids

/-- The part of the loop invariant about the accounts of the processes,
relative to the initial state `s0` and the events processed so far. -/
structure InvAcc (s0 s : Simulator) (trace : List Event) : Prop where
  roster : s.processes.length = s0.processes.length
  fixed : ∀ i, (getProc s.processes i).arrivalTime = (getProc s0.processes i).arrivalTime ∧
    (getProc s.processes i).totalCPUTime = (getProc s0.processes i).totalCPUTime
  pending : ∀ x ∈ s.events, x.accounted s.processes
  ready : ∀ q ∈ s.scheduler.pids, (getProc s.processes q).waits
  done : ∀ d ∈ trace, d.new_state = State.DONE →
    ¬ s.live d.process ∧ d.process < s.processes.length ∧
    (getProc s.processes d.process).finishingTime = d.timestamp ∧
    (getProc s.processes d.process).remainingCPUtime = 0 ∧
    (getProc s.processes d.process).settled

/-- What a trace tells about waiting: for each process the time of its last
event, and the total times it has spent `BLOCKED` and `READY`. -/
structure WaitLog where
  since : Nat → Int
  blocked : Nat → Int
  ready : Nat → Int

/-- Reading one processed event: the time from the previous event of its
process to this event is time the process has spent in the state the event
leaves (`old_state`). -/
def WaitLog.record (g : WaitLog) (e : Event) : WaitLog :=
  { since := Function.update g.since e.process e.timestamp
    blocked :=
      if e.old_state = State.BLOCKED then
        Function.update g.blocked e.process
          (g.blocked e.process + (e.timestamp - g.since e.process))
      else g.blocked
    ready :=
      if e.old_state = State.READY then
        Function.update g.ready e.process
          (g.ready e.process + (e.timestamp - g.since e.process))
      else g.ready }

/-- The waiting log of a trace. -/
def wait_log (trace : List Event) : WaitLog :=
  trace.foldl WaitLog.record { since := fun _ => 0, blocked := fun _ => 0, ready := fun _ => 0 }

/-- The total time the process `pid` spent `BLOCKED` in a trace. -/
def time_blocked (trace : List Event) (pid : Nat) : Int :=
  (wait_log trace).blocked pid

/-- The total time the process `pid` spent `READY` in a trace. -/
def time_ready (trace : List Event) (pid : Nat) : Int :=
  (wait_log trace).ready pid

/-- The part of the loop invariant about the waiting times, relative to the
waiting log `g` of the events processed so far: `clock` is the time of the last
event of the process, `cpuWaitingTime` is the time it has spent `READY`, and
`ioWaitingTime` is the time it has spent `BLOCKED`, with the whole of the
current I/O burst counted in advance. -/
structure InvWait (s : Simulator) (g : WaitLog) : Prop where
  clock : ∀ i, i < s.processes.length → (getProc s.processes i).clock = g.since i
  ready : ∀ i, i < s.processes.length → (getProc s.processes i).cpuWaitingTime = g.ready i
  blocked : ∀ x ∈ s.events, x.old_state = State.BLOCKED →
    (getProc s.processes x.process).ioWaitingTime
      = g.blocked x.process + (x.timestamp - (getProc s.processes x.process).clock)
  idle : ∀ i, i < s.processes.length →
    (∀ x ∈ s.events, x.process = i → x.old_state ≠ State.BLOCKED) →
    (getProc s.processes i).ioWaitingTime = g.blocked i

end Sched

namespace Sched

/-! ## Runs without `int` overflow -/

/-- The value is in the range of `int`. -/
def fits (x : Int) : Prop :=
  -2147483648 ≤ x ∧ x ≤ 2147483647

instance fits_decidable (x : Int) : Decidable (fits x) := by
  unfold fits; infer_instance

/-- The four fields of an input line are in the range of `int`. -/
def InputLine.fits (line : InputLine) : Prop :=
  Sched.fits line.at_ ∧ Sched.fits line.totCPU ∧ Sched.fits line.cpuB ∧ Sched.fits line.ioB

instance InputLine.fits_decidable (line : InputLine) : Decidable line.fits := by
  unfold InputLine.fits; infer_instance

namespace Simulator

/-- No `int` computation of the preemption overflows: the unused time
`stopRunningTime - CURRENT_TIME` and its sum with `remainingBurstTime`. -/
def preempt_fits (running : Nat) (s : Simulator) : Prop :=
  let r := getProc s.processes running
  fits (r.stopRunningTime - s.CURRENT_TIME) ∧
  fits (r.remainingBurstTime + (r.stopRunningTime - s.CURRENT_TIME))

instance preempt_fits_decidable (running : Nat) (s : Simulator) :
    Decidable (preempt_fits running s) := by
  unfold preempt_fits; infer_instance

/-- No `int` computation of the branch `case READY` overflows (there is one
only on its preemption path: the process added has no remaining burst time, a
process is running, the scheduler has `preprio_flag` and `test_preempt` says
yes). -/
def case_READY_fits (process : Nat) (s : Simulator) : Prop :=
  let r := s.scheduler.add_process s.processes process
  let s := { s with scheduler := r.1, processes := r.2 }
  ∀ running ∈ s.CURRENT_RUNNING_PROCESS,
    ¬ (getProc s.processes process).remainingBurstTime > 0 →
    s.scheduler.preprio_flag = true →
    s.scheduler.test_preempt s.processes running process s.CURRENT_TIME = true →
      preempt_fits running s

instance case_READY_fits_decidable (process : Nat) (s : Simulator) :
    Decidable (case_READY_fits process s) := by
  unfold case_READY_fits; infer_instance

/-- No `int` computation of the choice of the cpu burst overflows: the
difference with the quantum in the cases 1 and 3. -/
def choose_burst_fits (random_nums : List Int) (ofs : Nat) (quantum : Int) (p : Process) :
    Prop :=
  (p.remainingBurstTime > 0 → p.remainingBurstTime > quantum →
    fits (p.remainingBurstTime - quantum)) ∧
  (¬ p.remainingBurstTime > 0 →
    (get_random_number random_nums ofs p.cpuBurst).1 > quantum →
    fits ((get_random_number random_nums ofs p.cpuBurst).1 - quantum))

instance choose_burst_fits_decidable (random_nums : List Int) (ofs : Nat) (quantum : Int)
    (p : Process) : Decidable (choose_burst_fits random_nums ofs quantum p) := by
  unfold choose_burst_fits; infer_instance

/-- No `int` computation of the branch `case RUNNING` overflows: the time
waited and its sum with `cpuWaitingTime`, the choice of the burst, the
remaining cpu time where it is assigned to `cpu_burst_duration`, and the time
of the event. -/
def case_RUNNING_fits (process : Nat) (s : Simulator) : Prop :=
  let p := getProc s.processes process
  let b := choose_burst s.random_nums s.ofs s.scheduler.quantum p
  fits (s.CURRENT_TIME - p.clock) ∧
  fits (p.cpuWaitingTime + (s.CURRENT_TIME - p.clock)) ∧
  choose_burst_fits s.random_nums s.ofs s.scheduler.quantum p ∧
  (if p.remainingCPUtime ≤ b.1 then
    fits p.remainingCPUtime ∧ fits (s.CURRENT_TIME + p.remainingCPUtime)
   else fits (s.CURRENT_TIME + b.1))

instance case_RUNNING_fits_decidable (process : Nat) (s : Simulator) :
    Decidable (case_RUNNING_fits process s) := by
  unfold case_RUNNING_fits; infer_instance

/-- No `int` computation of the branch `case BLOCKED` overflows: the sum of the
io burst with `ioWaitingTime` and with the current time. -/
def case_BLOCKED_fits (process : Nat) (s : Simulator) : Prop :=
  let p := getProc s.processes process
  let r := get_random_number s.random_nums s.ofs p.ioBurst
  fits (p.ioWaitingTime + r.1) ∧ fits (s.CURRENT_TIME + r.1)

instance case_BLOCKED_fits_decidable (process : Nat) (s : Simulator) :
    Decidable (case_BLOCKED_fits process s) := by
  unfold case_BLOCKED_fits; infer_instance

/-- No `int` computation of the branch `case DONE` overflows: the turnaround time. -/
def case_DONE_fits (process : Nat) (s : Simulator) : Prop :=
  fits (s.CURRENT_TIME - (getProc s.processes process).arrivalTime)

instance case_DONE_fits_decidable (process : Nat) (s : Simulator) :
    Decidable (case_DONE_fits process s) := by
  unfold case_DONE_fits; infer_instance

/-- No `int` computation of the loop body overflows, for the event just taken
from the DES layer. -/
def transition_fits (event : Event) (s : Simulator) : Prop :=
  let s := update_stats event { s with CURRENT_TIME := event.timestamp }
  (event.new_state = State.READY → case_READY_fits event.process s) ∧
  (event.new_state = State.RUNNING → case_RUNNING_fits event.process s) ∧
  (event.new_state = State.BLOCKED → case_BLOCKED_fits event.process s) ∧
  (event.new_state = State.DONE → case_DONE_fits event.process s)

instance transition_fits_decidable (event : Event) (s : Simulator) :
    Decidable (transition_fits event s) := by
  unfold transition_fits; infer_instance

/-- No `int` computation overflows in the turn of the loop taken from the state
`s`, for the event at the head of the DES (none is made when the loop has
exited). -/
def no_overflow (s : Simulator) : Prop :=
  ∀ event ∈ s.events.head?, transition_fits event { s with events := s.events.tail }

instance no_overflow_decidable (s : Simulator) : Decidable (no_overflow s) := by
  unfold no_overflow; infer_instance

end Simulator

/-- No `int` computation overflows in the first `n` turns of the run from `s0`. -/
def no_overflow_until (s0 : Simulator) (n : Nat) : Prop :=
  ∀ k, k < n → (Simulator.simulation k s0).no_overflow

instance no_overflow_until_decidable (s0 : Simulator) (n : Nat) :
    Decidable (no_overflow_until s0 n) := by
  unfold no_overflow_until; infer_instance

end Sched

namespace Sched

/-! ## The invariant of the loop that holds with and without overflow -/

end Sched

namespace Sched
open DES_Layer

/-! ## The random oracle -/

theorem get_random_number_ofs (rn : List Int) (ofs : Nat) (n : Int) (h : ofs < rn.length) :
    (get_random_number rn ofs n).2 = (ofs + 1) % rn.length := by
  unfold get_random_number
  by_cases h1 : ofs + 1 = rn.length
  · simp [h1]
  · have : ofs + 1 < rn.length := by omega
    simp [h1, Nat.mod_eq_of_lt this]

theorem draw_sequence_spec (rn : List Int) (hN : 1 ≤ rn.length) (bursts : List Int) :
    ∀ ofs, ofs < rn.length →
      (draw_sequence rn bursts ofs).2 = (ofs + bursts.length) % rn.length ∧
      (draw_sequence rn bursts ofs).1.length = bursts.length ∧
      ∀ k (hk : k < bursts.length), (draw_sequence rn bursts ofs).1[k]? =
        some (1 + Int.tmod (rn.getD ((ofs + k) % rn.length) 0) (bursts.get ⟨k, hk⟩)) := by
  induction bursts with
  | nil => intro ofs h; simp [draw_sequence, Nat.mod_eq_of_lt h]
  | cons b rest ih =>
    intro ofs h
    have h2 : (get_random_number rn ofs b).2 < rn.length := by
      rw [get_random_number_ofs rn ofs b h]; exact Nat.mod_lt _ (by omega)
    obtain ⟨i1, i2, i3⟩ := ih _ h2
    refine ⟨?_, ?_, ?_⟩
    · simp only [draw_sequence, List.length_cons]
      rw [i1, get_random_number_ofs rn ofs b h, Nat.mod_add_mod]; congr 1; omega
    · simp [draw_sequence, i2]
    · intro k hk
      cases k with
      | zero =>
        simp [draw_sequence, get_random_number, Nat.mod_eq_of_lt h]
      | succ k =>
        have hk2 : k < rest.length := by simpa using hk
        have := i3 k hk2
        simp only [draw_sequence, List.getElem?_cons_succ]
        rw [this, get_random_number_ofs rn ofs b h, Nat.mod_add_mod]
        simp only [List.get_eq_getElem, List.getElem_cons_succ]
        have e : ofs + 1 + k = ofs + (k + 1) := by omega
        rw [e]

/-- C5 (random oracle): on a table of `N >= 1` integers, at an offset `ofs < N`
and for `n >= 1`, `get_random_number` returns `1 + (table[ofs] % n)` (`%` the
remainder of the source language) and leaves the offset at `ofs + 1`, or at `0`
when `ofs + 1 = N`, so the offset stays below `N`; and in a sequence of draws
started at offset `0` the `k`-th draw (0-based) reads `table[k mod N]`, the
offset before it being `k mod N`. -/
theorem random_oracle (random_nums : List Int) (hN : 1 ≤ random_nums.length) :
    (∀ (ofs : Nat) (n : Int) (hofs : ofs < random_nums.length), 1 ≤ n →
      (get_random_number random_nums ofs n).1
          = 1 + Int.tmod (random_nums.get ⟨ofs, hofs⟩) n ∧
      (get_random_number random_nums ofs n).2
          = (if ofs + 1 = random_nums.length then 0 else ofs + 1) ∧
      (get_random_number random_nums ofs n).2 < random_nums.length) ∧
    (∀ (bursts : List Int) (k : Nat) (hk : k < bursts.length),
      (draw_sequence random_nums bursts 0).1[k]?
          = some (1 + Int.tmod
              (random_nums.get ⟨k % random_nums.length, Nat.mod_lt _ (by omega)⟩)
              (bursts.get ⟨k, hk⟩)) ∧
      (draw_sequence random_nums (bursts.take k) 0).2 = k % random_nums.length) := by
  refine ⟨?_, ?_⟩
  · intro ofs n hofs _
    refine ⟨?_, rfl, ?_⟩
    · simp [get_random_number, List.getD_eq_getElem?_getD, List.getElem?_eq_getElem hofs]
    · rw [get_random_number_ofs _ _ _ hofs]; exact Nat.mod_lt _ (by omega)
  · intro bursts k hk
    have h0 : 0 < random_nums.length := by omega
    obtain ⟨_, _, i3⟩ := draw_sequence_spec random_nums hN bursts 0 h0
    obtain ⟨j1, _, _⟩ := draw_sequence_spec random_nums hN (bursts.take k) 0 h0
    refine ⟨?_, ?_⟩
    · rw [i3 k hk]
      simp [List.getD_eq_getElem?_getD, List.getElem?_eq_getElem (Nat.mod_lt k h0)]
    · rw [j1]; simp [List.length_take, Nat.min_eq_left (le_of_lt hk)]

theorem random_oracle_witness :
    (get_random_number [1, 7, 3, 5, 9] 4 10).1 = 10 ∧
    (get_random_number [1, 7, 3, 5, 9] 4 10).2 = 0 := by
  have h := (random_oracle [1, 7, 3, 5, 9] (by decide)).1 4 10 (by decide) (by decide)
  exact ⟨by rw [h.1]; decide, by rw [h.2.1]; decide⟩

/-! ## The DES layer -/

theorem put_event_perm (e : Event) (l : List Event) : (put_event e l).Perm (e :: l) := by
  induction l with
  | nil => simp [put_event]
  | cons a l ih =>
    unfold put_event
    split
    · exact (List.Perm.cons a ih).trans (List.Perm.swap e a l)
    · exact List.Perm.refl _

theorem mem_put_event {e x : Event} {l : List Event} :
    x ∈ put_event e l ↔ x = e ∨ x ∈ l := by
  rw [(put_event_perm e l).mem_iff]; simp

theorem put_event_length (e : Event) (l : List Event) :
    (put_event e l).length = l.length + 1 := by
  rw [(put_event_perm e l).length_eq]; simp

theorem put_event_sorted {e : Event} {l : List Event} (h : sorted_by_time l) :
    sorted_by_time (put_event e l) := by
  induction l with
  | nil => simp [put_event, sorted_by_time]
  | cons a l ih =>
    unfold sorted_by_time at h ih ⊢
    rw [List.pairwise_cons] at h
    unfold put_event
    split
    · rename_i hle
      rw [List.pairwise_cons]
      refine ⟨?_, ih h.2⟩
      intro x hx
      rcases mem_put_event.1 hx with rfl | hx
      · exact hle
      · exact h.1 x hx
    · rename_i hlt
      rw [List.pairwise_cons, List.pairwise_cons]
      refine ⟨?_, h⟩
      intro x hx
      rcases List.mem_cons.1 hx with rfl | hx
      · omega
      · have := h.1 x hx; omega

theorem put_event_filter {e : Event} {l : List Event} (h : sorted_by_time l) :
    put_event e l = l.filter (fun x => decide (x.timestamp ≤ e.timestamp))
      ++ e :: l.filter (fun x => decide (e.timestamp < x.timestamp)) ∧
    l = l.filter (fun x => decide (x.timestamp ≤ e.timestamp))
      ++ l.filter (fun x => decide (e.timestamp < x.timestamp)) := by
  induction l with
  | nil => simp [put_event]
  | cons a l ih =>
    unfold sorted_by_time at h ih
    rw [List.pairwise_cons] at h
    obtain ⟨i1, i2⟩ := ih h.2
    unfold put_event
    by_cases hle : a.timestamp ≤ e.timestamp
    · have hn : ¬ e.timestamp < a.timestamp := by omega
      simp only [hle, if_true, List.filter_cons, decide_True, hn, decide_False, List.cons_append]
      simp only [Bool.false_eq_true, if_false]
      exact ⟨by rw [← i1], by rw [← i2]⟩
    · have hlt : e.timestamp < a.timestamp := by omega
      have hall : ∀ x ∈ l, e.timestamp < x.timestamp := by
        intro x hx; have := h.1 x hx; omega
      have f1 : l.filter (fun x => decide (x.timestamp ≤ e.timestamp)) = [] := by
        rw [List.filter_eq_nil_iff]; intro x hx; have := hall x hx; simp; omega
      have f2 : l.filter (fun x => decide (e.timestamp < x.timestamp)) = l := by
        rw [List.filter_eq_self]; intro x hx; simpa using hall x hx
      simp [hle, hlt, List.filter_cons, f1, f2]

/-- C8 (DES insert): on an event list sorted by non-decreasing timestamp,
`put_event e` gives the old list with `e` placed after every event whose
timestamp is `<= e.timestamp` and before every event with a larger one: the
old list is the events `<=` followed by the events `>`, the new list is the
same with `e` in between; the length grows by one and the result is sorted. -/
theorem put_event_spec (events : List Event) (e : Event) (h : sorted_by_time events) :
    put_event e events
      = events.filter (fun x => decide (x.timestamp ≤ e.timestamp))
        ++ e :: events.filter (fun x => decide (e.timestamp < x.timestamp)) ∧
    events = events.filter (fun x => decide (x.timestamp ≤ e.timestamp))
        ++ events.filter (fun x => decide (e.timestamp < x.timestamp)) ∧
    (put_event e events).length = events.length + 1 ∧
    sorted_by_time (put_event e events) :=
  ⟨(put_event_filter h).1, (put_event_filter h).2, put_event_length e events,
    put_event_sorted h⟩

theorem put_event_spec_witness :
    put_event ⟨5, 7, State.READY, State.RUNNING⟩
        [⟨1, 0, State.CREATED, State.READY⟩, ⟨5, 1, State.BLOCKED, State.READY⟩,
         ⟨9, 2, State.RUNNING, State.DONE⟩]
      = [⟨1, 0, State.CREATED, State.READY⟩, ⟨5, 1, State.BLOCKED, State.READY⟩,
         ⟨5, 7, State.READY, State.RUNNING⟩, ⟨9, 2, State.RUNNING, State.DONE⟩] := by
  rw [(put_event_spec _ _ (by decide)).1]
  decide

theorem remove_event_split (processes : List Process) (r : Nat) (events : List Event)
    (h : ∃ e ∈ events, (getProc processes e.process).pid = (getProc processes r).pid) :
    ∃ l1 e l2, events = l1 ++ e :: l2 ∧
      (∀ x ∈ l1, (getProc processes x.process).pid ≠ (getProc processes r).pid) ∧
      (getProc processes e.process).pid = (getProc processes r).pid ∧
      remove_event processes r events = l1 ++ l2 := by
  induction events with
  | nil => simp at h
  | cons a l ih =>
    by_cases ha : (getProc processes a.process).pid = (getProc processes r).pid
    · exact ⟨[], a, l, by simp, by simp, ha, by simp [remove_event, ha]⟩
    · have h2 : ∃ e ∈ l, (getProc processes e.process).pid = (getProc processes r).pid := by
        obtain ⟨e, he, hp⟩ := h
        rcases List.mem_cons.1 he with rfl | he
        · exact absurd hp ha
        · exact ⟨e, he, hp⟩
      obtain ⟨l1, e, l2, e1, e2, e3, e4⟩ := ih h2
      refine ⟨a :: l1, e, l2, by simp [e1], ?_, e3, by simp [remove_event, ha, e4]⟩
      intro x hx
      rcases List.mem_cons.1 hx with rfl | hx
      · exact ha
      · exact e2 x hx

/-- C10 (DES remove_for): on an event list that holds at least one event of a
process with the pid of the given process, `remove_event` deletes exactly the
front-most event whose process has that pid: the list splits as `l1 ++ e :: l2`
with no event of that pid in `l1` and `e` of that pid, and the result is
`l1 ++ l2`; every other event stays in place and in order, and the length
drops by exactly one. -/
theorem remove_event_spec (processes : List Process) (preempted_process : Nat)
    (events : List Event)
    (h : ∃ e ∈ events,
      (getProc processes e.process).pid = (getProc processes preempted_process).pid) :
    ∃ l1 e l2, events = l1 ++ e :: l2 ∧
      (∀ x ∈ l1,
        (getProc processes x.process).pid ≠ (getProc processes preempted_process).pid) ∧
      (getProc processes e.process).pid = (getProc processes preempted_process).pid ∧
      remove_event processes preempted_process events = l1 ++ l2 ∧
      (remove_event processes preempted_process events).length + 1 = events.length := by
  obtain ⟨l1, e, l2, e1, e2, e3, e4⟩ := remove_event_split processes preempted_process events h
  refine ⟨l1, e, l2, e1, e2, e3, e4, ?_⟩
  rw [e4, e1]; simp; omega

end Sched

namespace Sched
open DES_Layer

theorem remove_event_spec_witness :
    ∃ l1 e l2,
      [(⟨1, 0, State.CREATED, State.READY⟩ : Event), ⟨5, 1, State.BLOCKED, State.READY⟩,
        ⟨9, 1, State.RUNNING, State.DONE⟩] = l1 ++ e :: l2 ∧
      (∀ x ∈ l1, (getProc [Process.Process 0 0 1 1 1, Process.Process 1 0 1 1 1] x.process).pid
        ≠ (getProc [Process.Process 0 0 1 1 1, Process.Process 1 0 1 1 1] 1).pid) ∧
      (getProc [Process.Process 0 0 1 1 1, Process.Process 1 0 1 1 1] e.process).pid
        = (getProc [Process.Process 0 0 1 1 1, Process.Process 1 0 1 1 1] 1).pid ∧
      remove_event [Process.Process 0 0 1 1 1, Process.Process 1 0 1 1 1] 1
        [⟨1, 0, State.CREATED, State.READY⟩, ⟨5, 1, State.BLOCKED, State.READY⟩,
          ⟨9, 1, State.RUNNING, State.DONE⟩] = l1 ++ l2 ∧
      (remove_event [Process.Process 0 0 1 1 1, Process.Process 1 0 1 1 1] 1
        [⟨1, 0, State.CREATED, State.READY⟩, ⟨5, 1, State.BLOCKED, State.READY⟩,
          ⟨9, 1, State.RUNNING, State.DONE⟩]).length + 1
        = [(⟨1, 0, State.CREATED, State.READY⟩ : Event), ⟨5, 1, State.BLOCKED, State.READY⟩,
          ⟨9, 1, State.RUNNING, State.DONE⟩].length :=
  remove_event_spec [Process.Process 0 0 1 1 1, Process.Process 1 0 1 1 1] 1
    [⟨1, 0, State.CREATED, State.READY⟩, ⟨5, 1, State.BLOCKED, State.READY⟩,
      ⟨9, 1, State.RUNNING, State.DONE⟩]
    ⟨⟨5, 1, State.BLOCKED, State.READY⟩, by decide, by decide⟩

/-! ## Process construction -/

theorem get_random_number_range (rn : List Int) (ofs : Nat) (n : Int)
    (hnn : ∀ x ∈ rn, 0 ≤ x) (hn : 1 ≤ n) :
    1 ≤ (get_random_number rn ofs n).1 ∧ (get_random_number rn ofs n).1 ≤ n := by
  have h0 : 0 ≤ rn.getD ofs 0 := by
    rw [List.getD_eq_getElem?_getD]
    cases h : rn[ofs]? with
    | none => simp
    | some v => simpa using hnn v (List.getElem?_mem h)
  have h1 := Int.tmod_nonneg n h0
  have h2 := Int.tmod_lt_of_pos (rn.getD ofs 0) (show (0 : Int) < n by omega)
  simp only [get_random_number]
  omega

theorem createProcesses_unbounded_loop_spec (rn : List Int) (hN : 1 ≤ rn.length) (scheduler : Scheduler)
    (input : List InputLine) :
    ∀ (count : Nat) (g : Globals), g.ofs < rn.length →
      ∃ ps es,
        createProcesses_unbounded_loop rn scheduler input count g
          = { ofs := (g.ofs + input.length) % rn.length
              processes := g.processes ++ ps
              events := g.events ++ es } ∧
        ps.length = input.length ∧ es.length = input.length ∧
        ∀ i (hi : i < input.length),
          ps[i]? = some (built_process_unbounded rn scheduler (count + i) ((g.ofs + i) % rn.length)
            (input.get ⟨i, hi⟩)) ∧
          es[i]? = some ⟨(input.get ⟨i, hi⟩).at_, g.processes.length + i,
            State.CREATED, State.READY⟩ := by
  induction input with
  | nil =>
    intro count g hg
    exact ⟨[], [], by simp [createProcesses_unbounded_loop, Nat.mod_eq_of_lt hg], rfl, rfl, by simp⟩
  | cons line rest ih =>
    intro count g hg
    have hofs : (get_random_number rn g.ofs scheduler.maxprio).2 < rn.length := by
      rw [get_random_number_ofs rn g.ofs _ hg]; exact Nat.mod_lt _ (by omega)
    obtain ⟨ps, es, e1, e2, e3, e4⟩ := ih (count + 1)
      { ofs := (get_random_number rn g.ofs scheduler.maxprio).2
        processes := g.processes ++ [built_process_unbounded rn scheduler count g.ofs line]
        events := g.events ++ [Event.mk line.at_ g.processes.length State.CREATED State.READY] }
      hofs
    refine ⟨built_process_unbounded rn scheduler count g.ofs line :: ps,
      Event.mk line.at_ g.processes.length State.CREATED State.READY :: es, ?_, ?_, ?_, ?_⟩
    · have : createProcesses_unbounded_loop rn scheduler (line :: rest) count g
          = createProcesses_unbounded_loop rn scheduler rest (count + 1)
              { ofs := (get_random_number rn g.ofs scheduler.maxprio).2
                processes := g.processes ++ [built_process_unbounded rn scheduler count g.ofs line]
                events := g.events
                  ++ [Event.mk line.at_ g.processes.length State.CREATED State.READY] } := rfl
      rw [this, e1]
      simp only [get_random_number_ofs rn g.ofs _ hg, Nat.mod_add_mod, List.length_cons,
        List.append_assoc, List.singleton_append]
      congr 2; omega
    · simp [e2]
    · simp [e3]
    · intro i hi
      cases i with
      | zero =>
        simp [Nat.mod_eq_of_lt hg]
      | succ i =>
        have hi2 : i < rest.length := by simpa using hi
        obtain ⟨f1, f2⟩ := e4 i hi2
        simp only [List.getElem?_cons_succ, f1, f2, List.get_eq_getElem, List.getElem_cons_succ,
          get_random_number_ofs rn g.ofs _ hg, Nat.mod_add_mod, List.length_append,
          List.length_singleton]
        have a1 : count + 1 + i = count + (i + 1) := by omega
        have a2 : g.ofs + 1 + i = g.ofs + (i + 1) := by omega
        have a3 : g.processes.length + 1 + i = g.processes.length + (i + 1) := by omega
        rw [a1, a2, a3]
        exact ⟨rfl, rfl⟩

theorem createProcesses_unbounded_mem (rn : List Int) (hN : 1 ≤ rn.length) (scheduler : Scheduler)
    (input : List InputLine) (p : Process)
    (hp : p ∈ (createProcesses_unbounded rn input scheduler).processes) :
    ∃ i line ofs, i < input.length ∧ input[i]? = some line ∧
      p = built_process_unbounded rn scheduler i ofs line := by
  have h0 : 0 < rn.length := by omega
  obtain ⟨ps, es, e1, e2, e3, e4⟩ := createProcesses_unbounded_loop_spec rn hN scheduler
    input 0 { ofs := 0, processes := [], events := [] } h0
  unfold createProcesses_unbounded at hp
  rw [e1] at hp
  simp only [List.nil_append] at hp
  obtain ⟨i, hi, rfl⟩ := List.getElem_of_mem hp
  have hi2 : i < input.length := by omega
  obtain ⟨f1, _⟩ := e4 i hi2
  rw [List.getElem?_eq_getElem hi] at f1
  refine ⟨i, input.get ⟨i, hi2⟩, (0 + i) % rn.length, hi2, by simp, ?_⟩
  simpa using f1

end Sched

namespace Sched
open DES_Layer

/-! ## The roster -/

theorem length_setProc (ps : List Process) (i : Nat) (p : Process) :
    (setProc ps i p).length = ps.length := by
  simp [setProc]

theorem getProc_setProc (ps : List Process) (i j : Nat) (p : Process) :
    getProc (setProc ps i p) j = if j = i ∧ i < ps.length then p else getProc ps j := by
  unfold getProc setProc
  rw [List.getD_eq_getElem?_getD, List.getD_eq_getElem?_getD, List.getElem?_set]
  by_cases h : i = j
  · subst h
    by_cases h2 : i < ps.length
    · simp [h2]
    · simp [h2]
      have : ps.length ≤ i := by omega
      simp [List.getElem?_eq_none this]
  · have h3 : ¬ (j = i) := fun h4 => h h4.symm
    simp [h, h3]

theorem getProc_setProc_same (ps : List Process) (i : Nat) (p : Process) (h : i < ps.length) :
    getProc (setProc ps i p) i = p := by
  rw [getProc_setProc]; simp [h]

theorem getProc_setProc_ne (ps : List Process) (i j : Nat) (p : Process) (h : j ≠ i) :
    getProc (setProc ps i p) j = getProc ps j := by
  rw [getProc_setProc]; simp [h]

/-! ## Removal from the DES layer -/

theorem remove_event_sublist (ps : List Process) (r : Nat) (l : List Event) :
    (remove_event ps r l).Sublist l := by
  induction l with
  | nil => simp [remove_event]
  | cons a l ih =>
    unfold remove_event
    split
    · exact ih.cons₂ a
    · exact List.sublist_cons_self a l

theorem remove_event_eq_self (ps : List Process) (r : Nat) (l : List Event)
    (h : ∀ e ∈ l, (getProc ps e.process).pid ≠ (getProc ps r).pid) :
    remove_event ps r l = l := by
  induction l with
  | nil => simp [remove_event]
  | cons a l ih =>
    have ha := h a (List.mem_cons_self a l)
    simp only [remove_event, ha, ne_eq, not_false_eq_true, if_true]
    rw [ih (fun e he => h e (List.mem_cons_of_mem a he))]

theorem mem_remove_event (ps : List Process) (r : Nat) (l : List Event)
    (hpid : ∀ e ∈ l, (getProc ps e.process).pid = e.process) (hr : (getProc ps r).pid = r)
    (hnd : (l.map Event.process).Nodup) (hex : ∃ e ∈ l, e.process = r) (x : Event) :
    x ∈ remove_event ps r l ↔ x ∈ l ∧ x.process ≠ r := by
  induction l with
  | nil => simp at hex
  | cons a l ih =>
    rw [List.map_cons, List.nodup_cons] at hnd
    have hpa := hpid a (List.mem_cons_self a l)
    by_cases ha : a.process = r
    · have e1 : remove_event ps r (a :: l) = l := by
        simp [remove_event, hpa, hr, ha]
      rw [e1]
      constructor
      · intro hx
        refine ⟨List.mem_cons_of_mem a hx, ?_⟩
        intro hxr
        exact hnd.1 (by rw [ha, ← hxr]; exact List.mem_map_of_mem _ hx)
      · rintro ⟨hx, hxr⟩
        rcases List.mem_cons.1 hx with rfl | hx
        · exact absurd ha hxr
        · exact hx
    · have e1 : remove_event ps r (a :: l) = a :: remove_event ps r l := by
        simp [remove_event, hpa, hr, ha]
      have hex2 : ∃ e ∈ l, e.process = r := by
        obtain ⟨e, he, her⟩ := hex
        rcases List.mem_cons.1 he with rfl | he
        · exact absurd her ha
        · exact ⟨e, he, her⟩
      rw [e1, List.mem_cons, List.mem_cons,
        ih (fun e he => hpid e (List.mem_cons_of_mem a he)) hnd.2 hex2]
      constructor
      · rintro (rfl | ⟨h1, h2⟩)
        · exact ⟨Or.inl rfl, ha⟩
        · exact ⟨Or.inr h1, h2⟩
      · rintro ⟨rfl | h1, h2⟩
        · exact Or.inl rfl
        · exact Or.inr ⟨h1, h2⟩

theorem sorted_of_sublist {l1 l2 : List Event} (h : l1.Sublist l2) (hs : sorted_by_time l2) :
    sorted_by_time l1 :=
  List.Pairwise.sublist h hs

theorem nodup_of_sublist {l1 l2 : List Event} (h : l1.Sublist l2)
    (hs : (l2.map Event.process).Nodup) : (l1.map Event.process).Nodup :=
  List.Nodup.sublist (h.map _) hs

theorem nodup_put_event {e : Event} {l : List Event} (hs : (l.map Event.process).Nodup)
    (he : ∀ x ∈ l, x.process ≠ e.process) : ((put_event e l).map Event.process).Nodup := by
  have hp := (put_event_perm e l).map Event.process
  rw [hp.nodup_iff, List.map_cons, List.nodup_cons]
  refine ⟨?_, hs⟩
  intro hmem
  obtain ⟨x, hx, hxe⟩ := List.mem_map.1 hmem
  exact he x hx hxe

/-! ## The schedulers -/

theorem push_level_flatten (Q : List (List Nat)) (level : Int) (p : Nat) :
    (Prio.push_level Q level p).flatten.Perm (p :: Q.flatten) ∨
    Prio.push_level Q level p = Q := by
  unfold Prio.push_level
  split
  · left
    rename_i h
    obtain ⟨h0, h1⟩ := h
    have hlt : level.toNat < Q.length := by omega
    generalize level.toNat = n at hlt
    clear h0 h1
    induction Q generalizing n with
    | nil => simp at hlt
    | cons q Q ih =>
      cases n with
      | zero =>
        simp only [List.modify, List.flatten_cons]
        have : (q ++ [p] ++ Q.flatten).Perm (p :: (q ++ Q.flatten)) := by
          rw [List.append_assoc]
          exact (List.perm_middle).trans (by simp)
        simp
      | succ n =>
        have hlt2 : n < Q.length := by simpa using hlt
        have := ih n hlt2
        simp only [List.modify, List.flatten_cons]
        exact (List.Perm.append_left q this).trans List.perm_middle
  · right; rfl

theorem pop_highest_cons (q : List Nat) (higher : List (List Nat)) :
    Prio.pop_highest (q :: higher) =
      match Prio.pop_highest higher with
      | some r => some (r.1, q :: r.2)
      | none =>
        match q with
        | [] => none
        | next_process :: q1 => some (next_process, q1 :: higher) := rfl

theorem pop_highest_flatten (Q Q1 : List (List Nat)) (q : Nat)
    (h : Prio.pop_highest Q = some (q, Q1)) : Q.flatten.Perm (q :: Q1.flatten) := by
  induction Q generalizing Q1 with
  | nil => simp [Prio.pop_highest] at h
  | cons a Q ih =>
    rw [pop_highest_cons] at h
    split at h
    · rename_i r heq
      simp only [Option.some.injEq, Prod.mk.injEq] at h
      obtain ⟨rfl, rfl⟩ := h
      have := ih r.2 heq
      simp only [List.flatten_cons]
      exact (List.Perm.append_left a this).trans List.perm_middle
    · split at h
      · simp at h
      · simp only [Option.some.injEq, Prod.mk.injEq] at h
        obtain ⟨rfl, rfl⟩ := h
        simp

theorem pop_highest_none (Q : List (List Nat)) (h : Prio.pop_highest Q = none) :
    Q.flatten = [] := by
  induction Q with
  | nil => rfl
  | cons a Q ih =>
    rw [pop_highest_cons] at h
    split at h
    · simp at h
    · rename_i heq
      split at h
      · simp [ih heq]
      · simp at h

theorem srtf_add_perm (ps : List Process) (p : Nat) (l : List Nat) :
    (SRTF.add_process ps p l).Perm (p :: l) := by
  induction l with
  | nil => simp [SRTF.add_process]
  | cons a l ih =>
    unfold SRTF.add_process
    split
    · exact (List.Perm.cons a ih).trans (List.Perm.swap p a l)
    · exact List.Perm.refl _

namespace Scheduler

theorem add_process_quantum (sch : Scheduler) (ps : List Process) (p : Nat) :
    (sch.add_process ps p).1.quantum = sch.quantum := by
  cases sch <;> rfl

theorem add_process_maxprio (sch : Scheduler) (ps : List Process) (p : Nat) :
    (sch.add_process ps p).1.maxprio = sch.maxprio := by
  cases sch <;> rfl

theorem add_process_preprio_flag (sch : Scheduler) (ps : List Process) (p : Nat) :
    (sch.add_process ps p).1.preprio_flag = sch.preprio_flag := by
  cases sch <;> rfl

theorem prio_add_length (a e : List (List Nat)) (ps : List Process) (p : Nat) :
    (Sched.Prio.add_process a e ps p).2.2.length = ps.length := by
  unfold Sched.Prio.add_process
  simp only
  split
  · split <;> simp [length_setProc]
  · simp [length_setProc]

theorem preprio_add_eq (a e : List (List Nat)) (ps : List Process) (p : Nat) :
    Sched.PrePrio.add_process a e ps p = Sched.Prio.add_process a e ps p := rfl

theorem preprio_next_eq (a e : List (List Nat)) :
    Sched.PrePrio.get_next_process a e = Sched.Prio.get_next_process a e := rfl

theorem add_process_length (sch : Scheduler) (ps : List Process) (p : Nat) :
    (sch.add_process ps p).2.length = ps.length := by
  cases sch <;> simp [add_process, preprio_add_eq, prio_add_length]

theorem prio_add_getProc (a e : List (List Nat)) (ps : List Process) (p j : Nat) :
    ∃ d, getProc (Sched.Prio.add_process a e ps p).2.2 j
      = { getProc ps j with dynamic_prio := d } := by
  unfold Sched.Prio.add_process
  simp only
  split
  · split
    · simp only [getProc_setProc]
      split
      · rename_i h; obtain ⟨rfl, _⟩ := h; exact ⟨_, rfl⟩
      · exact ⟨_, rfl⟩
    · simp only [getProc_setProc]
      split
      · rename_i h; obtain ⟨rfl, _⟩ := h; exact ⟨_, rfl⟩
      · exact ⟨_, rfl⟩
  · simp only [getProc_setProc]
    split
    · rename_i h; obtain ⟨rfl, _⟩ := h; exact ⟨_, rfl⟩
    · exact ⟨_, rfl⟩

theorem add_process_getProc (sch : Scheduler) (ps : List Process) (p j : Nat) :
    ∃ d, getProc (sch.add_process ps p).2 j = { getProc ps j with dynamic_prio := d } := by
  cases sch with
  | FCFS r => exact ⟨_, rfl⟩
  | LCFS r => exact ⟨_, rfl⟩
  | SRTF r => exact ⟨_, rfl⟩
  | RR q r => exact ⟨_, rfl⟩
  | Prio q m a e => exact prio_add_getProc a e ps p j
  | PrePrio q m a e => exact prio_add_getProc a e ps p j

theorem prio_add_pids (a e : List (List Nat)) (ps : List Process) (p : Nat) :
    ((Sched.Prio.add_process a e ps p).1.flatten
        ++ (Sched.Prio.add_process a e ps p).2.1.flatten).Perm (p :: (a.flatten ++ e.flatten)) ∨
    ((Sched.Prio.add_process a e ps p).1.flatten
        ++ (Sched.Prio.add_process a e ps p).2.1.flatten) = a.flatten ++ e.flatten := by
  have key : ∀ (level : Int),
      ((Prio.push_level a level p).flatten ++ e.flatten).Perm (p :: (a.flatten ++ e.flatten)) ∨
      (Prio.push_level a level p).flatten ++ e.flatten = a.flatten ++ e.flatten := by
    intro level
    rcases push_level_flatten a level p with h | h
    · left; exact (List.Perm.append_right _ h)
    · right; rw [h]
  have key2 : ∀ (level : Int),
      (a.flatten ++ (Prio.push_level e level p).flatten).Perm (p :: (a.flatten ++ e.flatten)) ∨
      a.flatten ++ (Prio.push_level e level p).flatten = a.flatten ++ e.flatten := by
    intro level
    rcases push_level_flatten e level p with h | h
    · left; exact (List.Perm.append_left _ h).trans List.perm_middle
    · right; rw [h]
  unfold Sched.Prio.add_process
  simp only
  split
  · split
    · exact key2 _
    · exact key _
  · exact key _

theorem add_process_pids (sch : Scheduler) (ps : List Process) (p : Nat) :
    (sch.add_process ps p).1.pids.Perm (p :: sch.pids) ∨
    (sch.add_process ps p).1.pids = sch.pids := by
  cases sch with
  | FCFS r => left; exact List.perm_append_singleton p r
  | LCFS r => left; exact List.Perm.refl _
  | SRTF r => left; exact srtf_add_perm ps p r
  | RR q r => left; exact List.perm_append_singleton p r
  | Prio q m a e => exact prio_add_pids a e ps p
  | PrePrio q m a e => exact prio_add_pids a e ps p

theorem get_next_process_quantum (sch : Scheduler) :
    sch.get_next_process.2.quantum = sch.quantum := by
  cases sch <;> rfl

theorem get_next_process_maxprio (sch : Scheduler) :
    sch.get_next_process.2.maxprio = sch.maxprio := by
  cases sch <;> rfl

theorem get_next_process_preprio_flag (sch : Scheduler) :
    sch.get_next_process.2.preprio_flag = sch.preprio_flag := by
  cases sch <;> rfl

theorem fifo_next_pids (l : List Nat) :
    (∀ q, (Sched.FCFS.get_next_process l).1 = some q →
      l.Perm (q :: (Sched.FCFS.get_next_process l).2)) ∧
    ((Sched.FCFS.get_next_process l).1 = none → (Sched.FCFS.get_next_process l).2.Perm l) := by
  cases l <;> simp [Sched.FCFS.get_next_process]

theorem prio_next_pids (a e : List (List Nat)) :
    (∀ q, (Sched.Prio.get_next_process a e).1 = some q →
      (a.flatten ++ e.flatten).Perm (q :: ((Sched.Prio.get_next_process a e).2.1.flatten
        ++ (Sched.Prio.get_next_process a e).2.2.flatten))) ∧
    ((Sched.Prio.get_next_process a e).1 = none →
      ((Sched.Prio.get_next_process a e).2.1.flatten
        ++ (Sched.Prio.get_next_process a e).2.2.flatten).Perm (a.flatten ++ e.flatten)) := by
  unfold Sched.Prio.get_next_process
  cases h1 : Prio.pop_highest a with
  | some r =>
    obtain ⟨q, a1⟩ := r
    simp only [Option.some.injEq, forall_eq', reduceCtorEq, false_implies, and_true]
    exact List.Perm.append_right _ (pop_highest_flatten a a1 q h1)
  | none =>
    cases h2 : Prio.pop_highest e with
    | some r =>
      obtain ⟨q, e1⟩ := r
      simp only [Option.some.injEq, forall_eq', reduceCtorEq, false_implies, and_true]
      have := pop_highest_flatten e e1 q h2
      exact (List.perm_append_comm).trans (List.Perm.append_right _ this)
    | none =>
      simp only [reduceCtorEq, false_implies, implies_true, true_and]
      intro _
      exact List.perm_append_comm

theorem get_next_process_pids (sch : Scheduler) :
    (∀ q, sch.get_next_process.1 = some q → sch.pids.Perm (q :: sch.get_next_process.2.pids)) ∧
    (sch.get_next_process.1 = none → sch.get_next_process.2.pids.Perm sch.pids) := by
  cases sch with
  | FCFS r => exact fifo_next_pids r
  | LCFS r => exact fifo_next_pids r
  | SRTF r => exact fifo_next_pids r
  | RR q r => exact fifo_next_pids r
  | Prio q m a e => exact prio_next_pids a e
  | PrePrio q m a e => exact prio_next_pids a e

theorem test_preempt_true (sch : Scheduler) (ps : List Process) (r p : Nat) (now : Int)
    (h : sch.test_preempt ps r p now = true) :
    (getProc ps r).dynamic_prio < (getProc ps p).dynamic_prio ∧
    now < (getProc ps r).stopRunningTime := by
  cases sch <;> simp [test_preempt, Sched.PrePrio.test_preempt] at h
  exact h

end Scheduler

end Sched

namespace Sched
open DES_Layer

namespace Simulator

/-! ## What each part of the loop body does to the state -/

theorem update_stats_eq (e : Event) (s : Simulator) :
    update_stats e s = { s with output :=
      { cpuUtilization :=
          if e.old_state = State.RUNNING then
            s.output.cpuUtilization + (s.CURRENT_TIME - (getProc s.processes e.process).clock)
          else s.output.cpuUtilization
        ioUtilization :=
          if e.old_state = State.BLOCKED ∧ s.output.number_io_processes - 1 = 0 then
            s.output.ioUtilization + (s.CURRENT_TIME - s.output.start_of_IO_utilization)
          else s.output.ioUtilization
        number_io_processes :=
          if e.old_state = State.BLOCKED then s.output.number_io_processes - 1
          else s.output.number_io_processes
        start_of_IO_utilization := s.output.start_of_IO_utilization } } := by
  by_cases h1 : e.old_state = State.RUNNING <;> by_cases h2 : e.old_state = State.BLOCKED <;>
    by_cases h3 : s.output.number_io_processes - 1 = 0 <;>
    simp [update_stats, h1, h2, h3]

theorem choose_burst_unbounded_effect (rn : List Int) (ofs : Nat) (quantum : Int) (p : Process)
    (hq : 1 ≤ quantum) (hcb : 1 ≤ p.cpuBurst) (htab : ∀ x ∈ rn, 0 ≤ x) :
    ∃ rbt : Int,
      (choose_burst_unbounded rn ofs quantum p).2.2.1 = { p with remainingBurstTime := rbt } ∧
      1 ≤ (choose_burst_unbounded rn ofs quantum p).1 ∧
      (choose_burst_unbounded rn ofs quantum p).1 ≤ quantum ∧
      ((choose_burst_unbounded rn ofs quantum p).2.1 = true → 0 < rbt) ∧
      ((choose_burst_unbounded rn ofs quantum p).2.1 = false → rbt ≤ 0) := by
  unfold choose_burst_unbounded
  have hr := get_random_number_range rn ofs p.cpuBurst htab hcb
  split
  · rename_i h
    exact ⟨_, rfl, hq, le_refl _, fun _ => by omega, fun h => by simp at h⟩
  · split
    · rename_i h
      exact ⟨_, rfl, by omega, h.2, fun h => by simp at h, fun _ => le_refl _⟩
    · rename_i h1 h2
      have hle : p.remainingBurstTime ≤ 0 := by
        by_contra hc
        have h3 : p.remainingBurstTime > 0 := by omega
        by_cases h4 : p.remainingBurstTime > quantum
        · exact h1 ⟨h3, h4⟩
        · exact h2 ⟨h3, by omega⟩
      simp only
      split
      · rename_i h
        exact ⟨_, rfl, hq, le_refl _, fun _ => by omega, fun h => by simp at h⟩
      · rename_i h
        exact ⟨p.remainingBurstTime, rfl, hr.1, by omega, fun h => by simp at h, fun _ => hle⟩

theorem case_RUNNING_unbounded_effect (s : Simulator) (p : Nat)
    (hq : 1 ≤ s.scheduler.quantum) (hcb : 1 ≤ (getProc s.processes p).cpuBurst)
    (htab : ∀ x ∈ s.random_nums, 0 ≤ x)
    (hrem : 0 ≤ (getProc s.processes p).remainingCPUtime) :
    ∃ (slice rbt rem1 : Int) (X : State) (ofs1 : Nat),
      case_RUNNING_unbounded p s = { s with
        ofs := ofs1
        events := put_event ⟨s.CURRENT_TIME + slice, p, State.RUNNING, X⟩ s.events
        processes := setProc s.processes p { getProc s.processes p with
          cpuWaitingTime := (getProc s.processes p).cpuWaitingTime
            + (s.CURRENT_TIME - (getProc s.processes p).clock)
          remainingBurstTime := rbt
          remainingCPUtime := rem1
          stopRunningTime := s.CURRENT_TIME + slice } } ∧
      rem1 = (getProc s.processes p).remainingCPUtime - slice ∧
      0 ≤ slice ∧ 0 ≤ rem1 ∧
      (X = State.DONE ∨ X = State.READY ∨ X = State.BLOCKED) ∧
      (X = State.DONE → rem1 = 0) ∧
      (X ≠ State.DONE → 1 ≤ slice) ∧
      (X = State.BLOCKED → rbt ≤ 0) ∧
      (X = State.READY → 0 < rbt) := by
  have hb := choose_burst_unbounded_effect s.random_nums s.ofs s.scheduler.quantum
    { getProc s.processes p with
      cpuWaitingTime := (getProc s.processes p).cpuWaitingTime
        + (s.CURRENT_TIME - (getProc s.processes p).clock) } hq hcb htab
  unfold case_RUNNING_unbounded
  dsimp only at hb ⊢
  generalize choose_burst_unbounded _ _ _ _ = b at hb ⊢
  obtain ⟨rbt, c1, c2, c3, c4, c5⟩ := hb
  rw [c1]
  dsimp only
  split
  · rename_i h
    exact ⟨(getProc s.processes p).remainingCPUtime, 0, 0, State.DONE, _, rfl, by omega, hrem,
      le_refl _, Or.inl rfl, fun _ => rfl, fun h => absurd rfl h, fun h => by simp at h,
      fun h => by simp at h⟩
  · rename_i h
    split
    · rename_i hf
      exact ⟨_, rbt, _, State.READY, _, rfl, rfl, by omega, by omega, Or.inr (Or.inl rfl),
        fun h => by simp at h, fun _ => c2, fun h => by simp at h, fun _ => c4 hf⟩
    · rename_i hf
      have hf : b.2.1 = false := by simpa using hf
      exact ⟨_, rbt, _, State.BLOCKED, _, rfl, rfl, by omega, by omega, Or.inr (Or.inr rfl),
        fun h => by simp at h, fun _ => c2, fun _ => c5 hf, fun h => by simp at h⟩

theorem case_BLOCKED_unbounded_effect (s : Simulator) (p : Nat) :
    case_BLOCKED_unbounded p s = { s with
      CURRENT_RUNNING_PROCESS := none
      output :=
        if s.output.number_io_processes + 1 = 1 then
          { s.output with
            number_io_processes := s.output.number_io_processes + 1
            start_of_IO_utilization := s.CURRENT_TIME }
        else
          { s.output with number_io_processes := s.output.number_io_processes + 1 }
      ofs := (get_random_number s.random_nums s.ofs (getProc s.processes p).ioBurst).2
      events := put_event ⟨s.CURRENT_TIME
        + (get_random_number s.random_nums s.ofs (getProc s.processes p).ioBurst).1,
        p, State.BLOCKED, State.READY⟩ s.events
      processes := setProc s.processes p { getProc s.processes p with
        ioWaitingTime := (getProc s.processes p).ioWaitingTime
          + (get_random_number s.random_nums s.ofs (getProc s.processes p).ioBurst).1 }
      CALL_SCHEDULER := true } := by
  unfold case_BLOCKED_unbounded
  dsimp only
  split_ifs <;> rfl

theorem case_DONE_unbounded_effect (s : Simulator) (p : Nat) :
    case_DONE_unbounded p s = { s with
      CURRENT_RUNNING_PROCESS := none
      processes := setProc s.processes p { getProc s.processes p with
        finishingTime := s.CURRENT_TIME
        turnaroundTime := s.CURRENT_TIME - (getProc s.processes p).arrivalTime }
      CALL_SCHEDULER := true } := rfl

theorem case_READY_unbounded_clear (s : Simulator) (p : Nat)
    (h : 0 < (getProc (s.scheduler.add_process s.processes p).2 p).remainingBurstTime) :
    case_READY_unbounded p s = { s with
      scheduler := (s.scheduler.add_process s.processes p).1
      processes := (s.scheduler.add_process s.processes p).2
      CURRENT_RUNNING_PROCESS := none
      CALL_SCHEDULER := true } := by
  unfold case_READY_unbounded
  simp only [gt_iff_lt, h, if_true]

theorem case_READY_unbounded_stay (s : Simulator) (p : Nat)
    (h : ¬ 0 < (getProc (s.scheduler.add_process s.processes p).2 p).remainingBurstTime)
    (hn : ∀ r, s.CURRENT_RUNNING_PROCESS = some r →
      ¬ ((s.scheduler.add_process s.processes p).1.preprio_flag = true ∧
        (s.scheduler.add_process s.processes p).1.test_preempt
          (s.scheduler.add_process s.processes p).2 r p s.CURRENT_TIME = true)) :
    case_READY_unbounded p s = { s with
      scheduler := (s.scheduler.add_process s.processes p).1
      processes := (s.scheduler.add_process s.processes p).2
      CALL_SCHEDULER := true } := by
  unfold case_READY_unbounded
  simp only [gt_iff_lt, h, if_false]
  cases hr : s.CURRENT_RUNNING_PROCESS with
  | none => simp [hr]
  | some r =>
    have := hn r hr
    simp only
    split
    · rename_i hf
      split
      · rename_i ht
        exact absurd ⟨hf, ht⟩ this
      · simp [hr]
    · simp [hr]

theorem case_READY_unbounded_preempt (s : Simulator) (p r : Nat)
    (h : ¬ 0 < (getProc (s.scheduler.add_process s.processes p).2 p).remainingBurstTime)
    (hr : s.CURRENT_RUNNING_PROCESS = some r)
    (hf : (s.scheduler.add_process s.processes p).1.preprio_flag = true)
    (ht : (s.scheduler.add_process s.processes p).1.test_preempt
          (s.scheduler.add_process s.processes p).2 r p s.CURRENT_TIME = true) :
    case_READY_unbounded p s = { s with
      scheduler := (s.scheduler.add_process s.processes p).1
      events := put_event ⟨s.CURRENT_TIME, r, State.RUNNING, State.READY⟩
        (remove_event (s.scheduler.add_process s.processes p).2 r s.events)
      processes := setProc (s.scheduler.add_process s.processes p).2 r
        { getProc (s.scheduler.add_process s.processes p).2 r with
          remainingBurstTime :=
            (getProc (s.scheduler.add_process s.processes p).2 r).remainingBurstTime
            + ((getProc (s.scheduler.add_process s.processes p).2 r).stopRunningTime
              - s.CURRENT_TIME)
          remainingCPUtime :=
            (getProc (s.scheduler.add_process s.processes p).2 r).remainingCPUtime
            + ((getProc (s.scheduler.add_process s.processes p).2 r).stopRunningTime
              - s.CURRENT_TIME)
          stopRunningTime := s.CURRENT_TIME }
      CALL_SCHEDULER := true } := by
  unfold case_READY_unbounded
  simp only [gt_iff_lt, h, if_false, hr, hf, ht, if_true]
  rfl

end Simulator

end Sched

namespace Sched
open DES_Layer

namespace Inv

variable {s : Simulator} {e : Event} {rest : List Event}

/-! ## Facts about the event at the head of the list -/

theorem head_mem (he : s.events = e :: rest) : e ∈ s.events := by
  rw [he]; exact List.mem_cons_self e rest

theorem rest_mem (he : s.events = e :: rest) {x : Event} (hx : x ∈ rest) : x ∈ s.events := by
  rw [he]; exact List.mem_cons_of_mem e hx

theorem rest_ne (h : Inv s) (he : s.events = e :: rest) :
    ∀ x ∈ rest, x.process ≠ e.process := by
  have := h.one_event
  rw [he, List.map_cons, List.nodup_cons] at this
  intro x hx hxe
  exact this.1 (by rw [← hxe]; exact List.mem_map_of_mem _ hx)

theorem rest_nodup (h : Inv s) (he : s.events = e :: rest) :
    (rest.map Event.process).Nodup := by
  have := h.one_event
  rw [he, List.map_cons, List.nodup_cons] at this
  exact this.2

theorem rest_sorted (h : Inv s) (he : s.events = e :: rest) : sorted_by_time rest := by
  have := h.sorted
  unfold sorted_by_time at this ⊢
  rw [he, List.pairwise_cons] at this
  exact this.2

theorem rest_ge (h : Inv s) (he : s.events = e :: rest) :
    ∀ x ∈ rest, e.timestamp ≤ x.timestamp := by
  have := h.sorted
  unfold sorted_by_time at this
  rw [he, List.pairwise_cons] at this
  exact this.1

theorem head_ge (h : Inv s) (he : s.events = e :: rest) : s.CURRENT_TIME ≤ e.timestamp :=
  h.not_before_now e (head_mem he)

theorem rest_no_dispatch (h : Inv s) (he : s.events = e :: rest) :
    ∀ x ∈ rest, x.new_state ≠ State.RUNNING := by
  intro x hx hxr
  obtain ⟨h1, h2⟩ := h.dispatch_first x (rest_mem he hx) hxr
  have hne : e ≠ x := by
    intro hex
    exact rest_ne h he x hx (by rw [hex])
  have := h2 e (head_mem he) hne
  have := rest_ge h he x hx
  omega

theorem rest_no_running (h : Inv s) (he : s.events = e :: rest)
    (hrun : e.old_state = State.RUNNING ∨ e.new_state = State.RUNNING) :
    ∀ x ∈ rest, ¬ (x.old_state = State.RUNNING ∨ x.new_state = State.RUNNING) := by
  intro x hx hxr
  have h1 := h.running_event e (head_mem he) hrun
  have h2 := h.running_event x (rest_mem he hx) hxr
  rw [h1] at h2
  exact rest_ne h he x hx (Option.some.inj h2).symm

theorem head_not_ready (h : Inv s) (he : s.events = e :: rest) :
    ∀ q ∈ s.scheduler.pids, q ≠ e.process := by
  intro q hq hqe
  exact h.ready_no_event q hq e (head_mem he) hqe.symm


/-! ## The invariant only reads part of the state -/

theorem core_fields {p q : Process} (h : p.core = q.core) :
    p.pid = q.pid ∧ p.cpuBurst = q.cpuBurst ∧ p.ioBurst = q.ioBurst ∧
    p.remainingCPUtime = q.remainingCPUtime ∧ p.remainingBurstTime = q.remainingBurstTime ∧
    p.stopRunningTime = q.stopRunningTime := by
  simpa [Process.core] using h

theorem frame (h : Inv s) (s1 : Simulator)
    (h_rn : s1.random_nums = s.random_nums) (h_ev : s1.events = s.events)
    (h_sch : s1.scheduler = s.scheduler)
    (h_run : s1.CURRENT_RUNNING_PROCESS = s.CURRENT_RUNNING_PROCESS)
    (h_now : s1.CURRENT_TIME = s.CURRENT_TIME)
    (h_len : s1.processes.length = s.processes.length)
    (h_core : ∀ i, (getProc s1.processes i).core = (getProc s.processes i).core) : Inv s1 := by
  have hc := fun i => core_fields (h_core i)
  constructor
  · rw [h_rn]; exact h.table_nonneg
  · rw [h_sch]; exact h.quantum_pos
  · intro i hi
    rw [(hc i).2.1, (hc i).2.2.1]
    exact h.bursts_pos i (by omega)
  · intro i hi
    rw [(hc i).1]; exact h.pid_index i (by omega)
  · intro i hi
    rw [(hc i).2.2.2.1]; exact h.rem_nonneg i (by omega)
  · rw [h_ev]; exact h.sorted
  · rw [h_ev, h_now]; exact h.not_before_now
  · rw [h_ev]; exact h.one_event
  · rw [h_ev, h_len]; exact h.event_proc
  · rw [h_ev]; exact h.event_shape
  · rw [h_sch]; exact h.ready_nodup
  · rw [h_sch, h_len]; exact h.ready_proc
  · rw [h_sch, h_ev]; exact h.ready_no_event
  · rw [h_run, h_len]; exact h.running_proc
  · rw [h_ev, h_run]; exact h.running_event
  · rw [h_ev, h_now]; exact h.dispatch_first
  · rw [h_ev]; intro x hx hxr
    rw [(hc x.process).2.2.2.2.2]; exact h.stop_time x hx hxr
  · rw [h_ev]; intro x hx hxr
    rw [(hc x.process).2.2.2.2.1]; exact h.no_carry x hx hxr
  · rw [h_ev, h_run]; exact h.running_kind
  · rw [h_ev, h_run, h_now]; intro r hr hne
    rw [(hc r).2.2.2.2.2]; exact h.running_idle r hr hne


/-! ## The invariant along the parts of a turn of the loop -/

theorem pop (h : Inv s) (he : s.events = e :: rest) (hne : e.new_state ≠ State.RUNNING) :
    Inv { s with events := rest, CURRENT_TIME := e.timestamp } :=
  { h with
    sorted := rest_sorted h he
    not_before_now := rest_ge h he
    one_event := rest_nodup h he
    event_proc := fun x hx => h.event_proc x (rest_mem he hx)
    event_shape := fun x hx => h.event_shape x (rest_mem he hx)
    ready_no_event := fun q hq x hx => h.ready_no_event q hq x (rest_mem he hx)
    running_event := fun x hx => h.running_event x (rest_mem he hx)
    dispatch_first := fun x hx hxr => absurd hxr (rest_no_dispatch h he x hx)
    stop_time := fun x hx => h.stop_time x (rest_mem he hx)
    no_carry := fun x hx => h.no_carry x (rest_mem he hx)
    running_kind := fun r hr x hx => h.running_kind r hr x (rest_mem he hx)
    running_idle := by
      intro r hr hno
      show (getProc s.processes r).stopRunningTime ≤ e.timestamp
      by_cases hpr : e.process = r
      · rcases h.running_kind r hr e (head_mem he) hpr with h1 | h1
        · rw [← hpr, ← h.stop_time e (head_mem he) h1]
        · exact absurd h1 hne
      · have := h.running_idle r hr (by
          intro x hx
          rw [he] at hx
          rcases List.mem_cons.1 hx with rfl | hx
          · exact hpr
          · exact hno x hx)
        have := head_ge h he
        omega }


theorem add_process_core (sch : Scheduler) (ps : List Process) (p i : Nat) :
    (getProc (sch.add_process ps p).2 i).core = (getProc ps i).core := by
  obtain ⟨d, hd⟩ := Scheduler.add_process_getProc sch ps p i
  rw [hd]; rfl

theorem add_ready (h : Inv s) (p : Nat) (hnoev : ∀ x ∈ s.events, x.process ≠ p)
    (hp : p < s.processes.length) (hnr : p ∉ s.scheduler.pids) :
    Inv { s with
      scheduler := (s.scheduler.add_process s.processes p).1
      processes := (s.scheduler.add_process s.processes p).2 } := by
  have h1 : Inv { s with processes := (s.scheduler.add_process s.processes p).2 } :=
    frame h _ rfl rfl rfl rfl rfl (Scheduler.add_process_length _ _ _)
      (fun i => add_process_core _ _ _ i)
  have hmem : ∀ q ∈ (s.scheduler.add_process s.processes p).1.pids,
      q = p ∨ q ∈ s.scheduler.pids := by
    intro q hq
    rcases Scheduler.add_process_pids s.scheduler s.processes p with hperm | heq
    · simpa using hperm.mem_iff.1 hq
    · right; rw [← heq]; exact hq
  have hlen := Scheduler.add_process_length s.scheduler s.processes p
  exact { h1 with
    quantum_pos := by
      show 1 ≤ (s.scheduler.add_process s.processes p).1.quantum
      rw [Scheduler.add_process_quantum]; exact h.quantum_pos
    ready_nodup := by
      show (s.scheduler.add_process s.processes p).1.pids.Nodup
      rcases Scheduler.add_process_pids s.scheduler s.processes p with hperm | heq
      · rw [hperm.nodup_iff, List.nodup_cons]; exact ⟨hnr, h.ready_nodup⟩
      · rw [heq]; exact h.ready_nodup
    ready_proc := by
      intro q hq
      show q < (s.scheduler.add_process s.processes p).2.length
      rw [hlen]
      rcases hmem q hq with rfl | hq
      · exact hp
      · exact h.ready_proc q hq
    ready_no_event := by
      intro q hq x hx
      rcases hmem q hq with rfl | hq
      · exact hnoev x hx
      · exact h.ready_no_event q hq x hx }

theorem clear_running (h : Inv s)
    (hno : ∀ x ∈ s.events, ¬ (x.old_state = State.RUNNING ∨ x.new_state = State.RUNNING)) :
    Inv { s with CURRENT_RUNNING_PROCESS := none } :=
  { h with
    running_proc := fun r hr => by simp at hr
    running_event := fun x hx hxr => absurd hxr (hno x hx)
    running_kind := fun r hr => by simp at hr
    running_idle := fun r hr => by simp at hr }

theorem no_running_of_none (h : Inv s) (hrun : s.CURRENT_RUNNING_PROCESS = none) :
    ∀ x ∈ s.events, ¬ (x.old_state = State.RUNNING ∨ x.new_state = State.RUNNING) := by
  intro x hx hxr
  have := h.running_event x hx hxr
  rw [hrun] at this
  simp at this

theorem emit_blocked (h : Inv s) (p : Nat) (d : Int) (hnoev : ∀ x ∈ s.events, x.process ≠ p)
    (hp : p < s.processes.length) (hnr : p ∉ s.scheduler.pids) (hd : 0 ≤ d)
    (hrbt : (getProc s.processes p).remainingBurstTime ≤ 0)
    (hrun : s.CURRENT_RUNNING_PROCESS = none) :
    Inv { s with
      events := put_event ⟨s.CURRENT_TIME + d, p, State.BLOCKED, State.READY⟩ s.events } :=
  { h with
    sorted := put_event_sorted h.sorted
    not_before_now := by
      intro x hx
      rcases mem_put_event.1 hx with rfl | hx
      · show s.CURRENT_TIME ≤ s.CURRENT_TIME + d
        omega
      · exact h.not_before_now x hx
    one_event := nodup_put_event h.one_event hnoev
    event_proc := by
      intro x hx
      rcases mem_put_event.1 hx with rfl | hx
      · exact hp
      · exact h.event_proc x hx
    event_shape := by
      intro x hx
      rcases mem_put_event.1 hx with rfl | hx
      · right; left; exact ⟨rfl, rfl⟩
      · exact h.event_shape x hx
    ready_no_event := by
      intro q hq x hx
      rcases mem_put_event.1 hx with rfl | hx
      · intro hpq; exact hnr (by rw [← hpq] at hq; exact hq)
      · exact h.ready_no_event q hq x hx
    running_event := by
      intro x hx hxr
      rcases mem_put_event.1 hx with rfl | hx
      · simp at hxr
      · exact h.running_event x hx hxr
    dispatch_first := by
      intro x hx hxr
      rcases mem_put_event.1 hx with rfl | hx
      · simp at hxr
      · exact absurd (Or.inr hxr) (no_running_of_none h hrun x hx)
    stop_time := by
      intro x hx hxr
      rcases mem_put_event.1 hx with rfl | hx
      · simp at hxr
      · exact h.stop_time x hx hxr
    no_carry := by
      intro x hx hxr
      rcases mem_put_event.1 hx with rfl | hx
      · exact hrbt
      · exact h.no_carry x hx hxr
    running_kind := fun r hr => by rw [hrun] at hr; simp at hr
    running_idle := fun r hr => by rw [hrun] at hr; simp at hr }


theorem event_pid (h : Inv s) : ∀ x ∈ s.events, (getProc s.processes x.process).pid = x.process :=
  fun x hx => h.pid_index x.process (h.event_proc x hx)

theorem preempt_unbounded_inv (h : Inv s) (r : Nat) (hr : s.CURRENT_RUNNING_PROCESS = some r)
    (hlt : s.CURRENT_TIME < (getProc s.processes r).stopRunningTime)
    (hnod : ∀ x ∈ s.events, x.new_state ≠ State.RUNNING) :
    Inv (Simulator.preempt_unbounded r s) := by
  have hrlen : r < s.processes.length := h.running_proc r hr
  have hex : ∃ x ∈ s.events, x.process = r := by
    by_contra hc
    have := h.running_idle r hr (fun x hx hxr => hc ⟨x, hx, hxr⟩)
    omega
  have hmem : ∀ x, x ∈ remove_event s.processes r s.events ↔ x ∈ s.events ∧ x.process ≠ r :=
    mem_remove_event s.processes r s.events (event_pid h) (h.pid_index r hrlen) h.one_event hex
  have hsub := remove_event_sublist s.processes r s.events
  have hgp : ∀ i, getProc (setProc s.processes r
      { getProc s.processes r with
        remainingBurstTime := (getProc s.processes r).remainingBurstTime
          + ((getProc s.processes r).stopRunningTime - s.CURRENT_TIME)
        remainingCPUtime := (getProc s.processes r).remainingCPUtime
          + ((getProc s.processes r).stopRunningTime - s.CURRENT_TIME)
        stopRunningTime := s.CURRENT_TIME }) i
      = if i = r then
        { getProc s.processes r with
          remainingBurstTime := (getProc s.processes r).remainingBurstTime
            + ((getProc s.processes r).stopRunningTime - s.CURRENT_TIME)
          remainingCPUtime := (getProc s.processes r).remainingCPUtime
            + ((getProc s.processes r).stopRunningTime - s.CURRENT_TIME)
          stopRunningTime := s.CURRENT_TIME }
        else getProc s.processes i := by
    intro i
    rw [getProc_setProc]
    simp [hrlen]
  have hother : ∀ x ∈ s.events, x.process ≠ r → x.old_state ≠ State.RUNNING := by
    intro x hx hxr hold
    have := h.running_event x hx (Or.inl hold)
    rw [hr] at this
    exact hxr (Option.some.inj this).symm
  show Inv { s with
    events := put_event ⟨s.CURRENT_TIME, r, State.RUNNING, State.READY⟩
      (remove_event s.processes r s.events)
    processes := setProc s.processes r
      { getProc s.processes r with
        remainingBurstTime := (getProc s.processes r).remainingBurstTime
          + ((getProc s.processes r).stopRunningTime - s.CURRENT_TIME)
        remainingCPUtime := (getProc s.processes r).remainingCPUtime
          + ((getProc s.processes r).stopRunningTime - s.CURRENT_TIME)
        stopRunningTime := s.CURRENT_TIME } }
  refine { h with
    bursts_pos := ?_, pid_index := ?_, rem_nonneg := ?_, sorted := ?_, not_before_now := ?_,
    one_event := ?_, event_proc := ?_, event_shape := ?_, ready_proc := ?_,
    ready_no_event := ?_, running_proc := ?_, running_event := ?_, dispatch_first := ?_,
    stop_time := ?_, no_carry := ?_, running_kind := ?_, running_idle := ?_ }
  · intro i hi
    simp only [length_setProc] at hi
    simp only [hgp]
    split
    · rename_i hir; subst hir; exact h.bursts_pos i hi
    · exact h.bursts_pos i hi
  · intro i hi
    simp only [length_setProc] at hi
    simp only [hgp]
    split
    · rename_i hir; subst hir; exact h.pid_index i hi
    · exact h.pid_index i hi
  · intro i hi
    simp only [length_setProc] at hi
    simp only [hgp]
    split
    · rename_i hir; subst hir
      have := h.rem_nonneg i hi
      show 0 ≤ (getProc s.processes i).remainingCPUtime
        + ((getProc s.processes i).stopRunningTime - s.CURRENT_TIME)
      omega
    · exact h.rem_nonneg i hi
  · exact put_event_sorted (sorted_of_sublist hsub h.sorted)
  · intro x hx
    rcases mem_put_event.1 hx with rfl | hx
    · exact le_refl _
    · exact h.not_before_now x ((hmem x).1 hx).1
  · exact nodup_put_event (nodup_of_sublist hsub h.one_event)
      (fun x hx => ((hmem x).1 hx).2)
  · intro x hx
    simp only [length_setProc]
    rcases mem_put_event.1 hx with rfl | hx
    · exact hrlen
    · exact h.event_proc x ((hmem x).1 hx).1
  · intro x hx
    rcases mem_put_event.1 hx with rfl | hx
    · right; right; right; left; exact ⟨rfl, rfl⟩
    · exact h.event_shape x ((hmem x).1 hx).1
  · intro q hq
    simp only [length_setProc]
    exact h.ready_proc q hq
  · intro q hq x hx
    rcases mem_put_event.1 hx with rfl | hx
    · obtain ⟨y, hy, hyr⟩ := hex
      have := h.ready_no_event q hq y hy
      rw [hyr] at this
      exact this
    · exact h.ready_no_event q hq x ((hmem x).1 hx).1
  · intro q hq
    simp only [length_setProc]
    exact h.running_proc q hq
  · intro x hx hxr
    rcases mem_put_event.1 hx with rfl | hx
    · exact hr
    · exact h.running_event x ((hmem x).1 hx).1 hxr
  · intro x hx hxr
    rcases mem_put_event.1 hx with rfl | hx
    · simp at hxr
    · exact absurd hxr (hnod x ((hmem x).1 hx).1)
  · intro x hx hxr
    rcases mem_put_event.1 hx with rfl | hx
    · simp only [hgp, if_true]
    · exact absurd hxr (hother x ((hmem x).1 hx).1 ((hmem x).1 hx).2)
  · intro x hx hxr
    rcases mem_put_event.1 hx with rfl | hx
    · simp at hxr
    · simp only [hgp, ((hmem x).1 hx).2, if_false]
      exact h.no_carry x ((hmem x).1 hx).1 hxr
  · intro q hq x hx hxq
    rcases mem_put_event.1 hx with rfl | hx
    · left; rfl
    · exact h.running_kind q hq x ((hmem x).1 hx).1 hxq
  · intro q hq hno
    have hqr : q = r := by
      have : s.CURRENT_RUNNING_PROCESS = some q := hq
      rw [hr] at this
      exact (Option.some.inj this).symm
    exact absurd hqr.symm (hno _ (mem_put_event.2 (Or.inl rfl)))


theorem start_unbounded_running (h : Inv s) (he : s.events = e :: rest)
    (hrun : e.new_state = State.RUNNING) (slice rbt rem1 cw : Int) (X : State)
    (h0 : 0 ≤ slice) (hrem : 0 ≤ rem1)
    (hX : X = State.DONE ∨ X = State.READY ∨ X = State.BLOCKED)
    (hb : X = State.BLOCKED → rbt ≤ 0) :
    Inv { s with
      CURRENT_TIME := e.timestamp
      events := put_event ⟨e.timestamp + slice, e.process, State.RUNNING, X⟩ rest
      processes := setProc s.processes e.process
        { getProc s.processes e.process with
          cpuWaitingTime := cw
          remainingBurstTime := rbt
          remainingCPUtime := rem1
          stopRunningTime := e.timestamp + slice } } := by
  have hp : e.process < s.processes.length := h.event_proc e (head_mem he)
  have hrunp : s.CURRENT_RUNNING_PROCESS = some e.process :=
    h.running_event e (head_mem he) (Or.inr hrun)
  have hnr := rest_no_running h he (Or.inr hrun)
  have hne := rest_ne h he
  have hXr : X ≠ State.RUNNING := by
    rcases hX with rfl | rfl | rfl <;> simp
  have hgp : ∀ i, getProc (setProc s.processes e.process
      { getProc s.processes e.process with
        cpuWaitingTime := cw
        remainingBurstTime := rbt
        remainingCPUtime := rem1
        stopRunningTime := e.timestamp + slice }) i
      = if i = e.process then
        { getProc s.processes e.process with
          cpuWaitingTime := cw
          remainingBurstTime := rbt
          remainingCPUtime := rem1
          stopRunningTime := e.timestamp + slice }
        else getProc s.processes i := by
    intro i
    rw [getProc_setProc]
    simp [hp]
  refine { h with
    bursts_pos := ?_, pid_index := ?_, rem_nonneg := ?_, sorted := ?_, not_before_now := ?_,
    one_event := ?_, event_proc := ?_, event_shape := ?_, ready_proc := ?_,
    ready_no_event := ?_, running_proc := ?_, running_event := ?_, dispatch_first := ?_,
    stop_time := ?_, no_carry := ?_, running_kind := ?_, running_idle := ?_ }
  · intro i hi
    simp only [length_setProc] at hi
    simp only [hgp]
    split
    · rename_i hir; subst hir; exact h.bursts_pos _ hi
    · exact h.bursts_pos i hi
  · intro i hi
    simp only [length_setProc] at hi
    simp only [hgp]
    split
    · rename_i hir; subst hir; exact h.pid_index _ hi
    · exact h.pid_index i hi
  · intro i hi
    simp only [length_setProc] at hi
    simp only [hgp]
    split
    · exact hrem
    · exact h.rem_nonneg i hi
  · exact put_event_sorted (rest_sorted h he)
  · intro x hx
    show e.timestamp ≤ x.timestamp
    rcases mem_put_event.1 hx with rfl | hx
    · show e.timestamp ≤ e.timestamp + slice
      omega
    · exact rest_ge h he x hx
  · exact nodup_put_event (rest_nodup h he) hne
  · intro x hx
    simp only [length_setProc]
    rcases mem_put_event.1 hx with rfl | hx
    · exact hp
    · exact h.event_proc x (rest_mem he hx)
  · intro x hx
    rcases mem_put_event.1 hx with rfl | hx
    · rcases hX with rfl | rfl | rfl
      · right; right; right; right; right; exact ⟨rfl, rfl⟩
      · right; right; right; left; exact ⟨rfl, rfl⟩
      · right; right; right; right; left; exact ⟨rfl, rfl⟩
    · exact h.event_shape x (rest_mem he hx)
  · intro q hq
    simp only [length_setProc]
    exact h.ready_proc q hq
  · intro q hq x hx
    rcases mem_put_event.1 hx with rfl | hx
    · exact (head_not_ready h he q hq).symm
    · exact h.ready_no_event q hq x (rest_mem he hx)
  · intro q hq
    simp only [length_setProc]
    exact h.running_proc q hq
  · intro x hx hxr
    rcases mem_put_event.1 hx with rfl | hx
    · exact hrunp
    · exact h.running_event x (rest_mem he hx) hxr
  · intro x hx hxr
    rcases mem_put_event.1 hx with rfl | hx
    · exact absurd hxr hXr
    · exact absurd hxr (rest_no_dispatch h he x hx)
  · intro x hx hxr
    rcases mem_put_event.1 hx with rfl | hx
    · simp only [hgp, if_true]
    · exact absurd (Or.inl hxr) (hnr x hx)
  · intro x hx hxr
    rcases mem_put_event.1 hx with rfl | hx
    · simp only [hgp, if_true]
      rcases hxr with h1 | h1 | h1
      · simp at h1
      · simp at h1
      · exact hb h1
    · simp only [hgp, hne x hx, if_false]
      exact h.no_carry x (rest_mem he hx) hxr
  · intro q hq x hx hxq
    rcases mem_put_event.1 hx with rfl | hx
    · left; rfl
    · exact h.running_kind q hq x (rest_mem he hx) hxq
  · intro q hq hno
    have hqr : q = e.process := by
      have : s.CURRENT_RUNNING_PROCESS = some q := hq
      rw [hrunp] at this
      exact (Option.some.inj this).symm
    exact absurd hqr.symm (hno ⟨e.timestamp + slice, e.process, State.RUNNING, X⟩
      (mem_put_event.2 (Or.inl rfl)))

theorem dispatch (h : Inv s) (hrun : s.CURRENT_RUNNING_PROCESS = none)
    (hlater : ∀ x ∈ s.events, s.CURRENT_TIME < x.timestamp) (q : Nat)
    (hq : s.scheduler.get_next_process.1 = some q) :
    Inv { s with
      CURRENT_RUNNING_PROCESS := some q
      scheduler := s.scheduler.get_next_process.2
      events := put_event ⟨s.CURRENT_TIME, q, State.READY, State.RUNNING⟩ s.events } := by
  have hperm := (Scheduler.get_next_process_pids s.scheduler).1 q hq
  have hnd : (q :: s.scheduler.get_next_process.2.pids).Nodup := hperm.nodup_iff.1 h.ready_nodup
  rw [List.nodup_cons] at hnd
  have hqmem : q ∈ s.scheduler.pids := hperm.mem_iff.2 (List.mem_cons_self _ _)
  have hsub : ∀ x ∈ s.scheduler.get_next_process.2.pids, x ∈ s.scheduler.pids :=
    fun x hx => hperm.mem_iff.2 (List.mem_cons_of_mem _ hx)
  have hnorun := no_running_of_none h hrun
  refine { h with
    quantum_pos := ?_, sorted := ?_, not_before_now := ?_,
    one_event := ?_, event_proc := ?_, event_shape := ?_, ready_nodup := ?_, ready_proc := ?_,
    ready_no_event := ?_, running_proc := ?_, running_event := ?_, dispatch_first := ?_,
    stop_time := ?_, no_carry := ?_, running_kind := ?_, running_idle := ?_ }
  · show 1 ≤ s.scheduler.get_next_process.2.quantum
    rw [Scheduler.get_next_process_quantum]; exact h.quantum_pos
  · exact put_event_sorted h.sorted
  · intro x hx
    rcases mem_put_event.1 hx with rfl | hx
    · exact le_refl _
    · exact h.not_before_now x hx
  · exact nodup_put_event h.one_event (fun x hx => h.ready_no_event q hqmem x hx)
  · intro x hx
    rcases mem_put_event.1 hx with rfl | hx
    · exact h.ready_proc q hqmem
    · exact h.event_proc x hx
  · intro x hx
    rcases mem_put_event.1 hx with rfl | hx
    · right; right; left; exact ⟨rfl, rfl⟩
    · exact h.event_shape x hx
  · exact hnd.2
  · intro x hx
    exact h.ready_proc x (hsub x hx)
  · intro x hx y hy
    rcases mem_put_event.1 hy with rfl | hy
    · intro hqx
      exact hnd.1 (by rw [show q = x from hqx]; exact hx)
    · exact h.ready_no_event x (hsub x hx) y hy
  · intro r hr
    have : r = q := (Option.some.inj hr).symm
    rw [this]
    exact h.ready_proc q hqmem
  · intro x hx hxr
    rcases mem_put_event.1 hx with rfl | hx
    · rfl
    · exact absurd hxr (hnorun x hx)
  · intro x hx hxr
    rcases mem_put_event.1 hx with rfl | hx
    · refine ⟨rfl, ?_⟩
      intro y hy hne
      rcases mem_put_event.1 hy with rfl | hy
      · exact absurd rfl hne
      · exact hlater y hy
    · exact absurd (Or.inr hxr) (hnorun x hx)
  · intro x hx hxr
    rcases mem_put_event.1 hx with rfl | hx
    · simp at hxr
    · exact absurd (Or.inl hxr) (hnorun x hx)
  · intro x hx hxr
    rcases mem_put_event.1 hx with rfl | hx
    · simp at hxr
    · exact h.no_carry x hx hxr
  · intro r hr x hx hxr
    rcases mem_put_event.1 hx with rfl | hx
    · right; rfl
    · have : r = q := (Option.some.inj hr).symm
      rw [this] at hxr
      exact absurd hxr (h.ready_no_event q hqmem x hx)
  · intro r hr hno
    have : r = q := (Option.some.inj hr).symm
    exact absurd this.symm (hno _ (mem_put_event.2 (Or.inl rfl)))

theorem dispatch_none (h : Inv s) (hq : s.scheduler.get_next_process.1 = none) :
    Inv { s with scheduler := s.scheduler.get_next_process.2 } := by
  have hperm := (Scheduler.get_next_process_pids s.scheduler).2 hq
  refine { h with
    quantum_pos := ?_, ready_nodup := ?_, ready_proc := ?_, ready_no_event := ?_ }
  · show 1 ≤ s.scheduler.get_next_process.2.quantum
    rw [Scheduler.get_next_process_quantum]; exact h.quantum_pos
  · exact hperm.nodup_iff.2 h.ready_nodup
  · intro x hx
    exact h.ready_proc x (hperm.mem_iff.1 hx)
  · intro x hx
    exact h.ready_no_event x (hperm.mem_iff.1 hx)

end Inv

end Sched

namespace Sched
open DES_Layer Simulator

namespace Inv

variable {s : Simulator} {e : Event} {rest : List Event}

theorem core_setProc (ps : List Process) (p : Nat) (q : Process)
    (hq : q.core = (getProc ps p).core) (i : Nat) :
    (getProc (setProc ps p q) i).core = (getProc ps i).core := by
  rw [getProc_setProc]
  split
  · rename_i h; rw [h.1, hq]
  · rfl

theorem set_clock (h : Inv s) (p : Nat) (t : Int) :
    Inv { s with processes := setProc s.processes p { getProc s.processes p with clock := t } } :=
  frame h _ rfl rfl rfl rfl rfl (length_setProc _ _ _) (core_setProc _ _ _ rfl)

theorem after_stats (h : Inv s) (he : s.events = e :: rest)
    (hne : e.new_state ≠ State.RUNNING) :
    Inv (update_stats e { s with events := rest, CURRENT_TIME := e.timestamp }) := by
  rw [update_stats_eq]
  exact frame (pop h he hne) _ rfl rfl rfl rfl rfl rfl (fun _ => rfl)

theorem stats_fields (e : Event) (s : Simulator) :
    (update_stats e s).random_nums = s.random_nums ∧
    (update_stats e s).ofs = s.ofs ∧
    (update_stats e s).events = s.events ∧
    (update_stats e s).processes = s.processes ∧
    (update_stats e s).scheduler = s.scheduler ∧
    (update_stats e s).CURRENT_RUNNING_PROCESS = s.CURRENT_RUNNING_PROCESS ∧
    (update_stats e s).CURRENT_TIME = s.CURRENT_TIME ∧
    (update_stats e s).CALL_SCHEDULER = s.CALL_SCHEDULER := by
  rw [update_stats_eq]
  exact ⟨rfl, rfl, rfl, rfl, rfl, rfl, rfl, rfl⟩

theorem case_READY_unbounded_inv (h : Inv s) (p : Nat) (hnoev : ∀ x ∈ s.events, x.process ≠ p)
    (hp : p < s.processes.length) (hnr : p ∉ s.scheduler.pids)
    (hnod : ∀ x ∈ s.events, x.new_state ≠ State.RUNNING)
    (hclear : 0 < (getProc s.processes p).remainingBurstTime →
      ∀ x ∈ s.events, ¬ (x.old_state = State.RUNNING ∨ x.new_state = State.RUNNING)) :
    Inv (case_READY_unbounded p s) := by
  have h1 := add_ready h p hnoev hp hnr
  have hrbt : (getProc (s.scheduler.add_process s.processes p).2 p).remainingBurstTime
      = (getProc s.processes p).remainingBurstTime :=
    (core_fields (add_process_core s.scheduler s.processes p p)).2.2.2.2.1
  by_cases hc : 0 < (getProc (s.scheduler.add_process s.processes p).2 p).remainingBurstTime
  · rw [case_READY_unbounded_clear s p hc]
    exact frame (clear_running h1 (hclear (by rw [← hrbt]; exact hc))) _
      rfl rfl rfl rfl rfl rfl (fun _ => rfl)
  · by_cases hpre : ∃ r, s.CURRENT_RUNNING_PROCESS = some r ∧
        (s.scheduler.add_process s.processes p).1.preprio_flag = true ∧
        (s.scheduler.add_process s.processes p).1.test_preempt
          (s.scheduler.add_process s.processes p).2 r p s.CURRENT_TIME = true
    · obtain ⟨r, hr, hf, ht⟩ := hpre
      rw [case_READY_unbounded_preempt s p r hc hr hf ht]
      have hlt := (Scheduler.test_preempt_true _ _ _ _ _ ht).2
      exact frame (preempt_unbounded_inv h1 r hr hlt hnod) _ rfl rfl rfl rfl rfl rfl (fun _ => rfl)
    · rw [case_READY_unbounded_stay s p hc (fun r hr hx => hpre ⟨r, hr, hx.1, hx.2⟩)]
      exact frame h1 _ rfl rfl rfl rfl rfl rfl (fun _ => rfl)

theorem transition_unbounded_inv (h : Inv s) (he : s.events = e :: rest) :
    Inv (transition_unbounded e { s with events := rest }) := by
  have hshape := h.event_shape e (head_mem he)
  have hp : e.process < s.processes.length := h.event_proc e (head_mem he)
  unfold transition_unbounded
  apply set_clock
  obtain ⟨s3, hs3⟩ : ∃ s3, s3 = update_stats e
      { s with events := rest, CURRENT_TIME := e.timestamp } := ⟨_, rfl⟩
  obtain ⟨f1, f2, f3, f4, f5, f6, f7, f8⟩ :
      s3.random_nums = s.random_nums ∧ s3.ofs = s.ofs ∧ s3.events = rest ∧
      s3.processes = s.processes ∧ s3.scheduler = s.scheduler ∧
      s3.CURRENT_RUNNING_PROCESS = s.CURRENT_RUNNING_PROCESS ∧
      s3.CURRENT_TIME = e.timestamp ∧ s3.CALL_SCHEDULER = s.CALL_SCHEDULER := by
    rw [hs3]; exact stats_fields e _
  dsimp only
  rw [← hs3]
  cases hns : e.new_state with
  | CREATED =>
    rcases hshape with h1 | h1 | h1 | h1 | h1 | h1 <;> · rw [hns] at h1; simp at h1
  | READY =>
    have hne : e.new_state ≠ State.RUNNING := by rw [hns]; simp
    have h3 : Inv s3 := by rw [hs3]; exact after_stats h he hne
    refine case_READY_unbounded_inv h3 e.process ?_ ?_ ?_ ?_ ?_
    · rw [f3]; exact rest_ne h he
    · rw [f4]; exact hp
    · rw [f5]; intro hmem; exact head_not_ready h he _ hmem rfl
    · rw [f3]; exact rest_no_dispatch h he
    · rw [f3, f4]
      intro hrbt
      by_cases hold : e.old_state = State.RUNNING
      · exact rest_no_running h he (Or.inl hold)
      · have hc := h.no_carry e (head_mem he) (by
          rcases hshape with h1 | h1 | h1 | h1 | h1 | h1
          · exact Or.inl h1.1
          · exact Or.inr (Or.inl h1.1)
          · rw [hns] at h1; simp at h1
          · exact absurd h1.1 hold
          · exact absurd h1.1 hold
          · exact absurd h1.1 hold)
        omega
  | RUNNING =>
    obtain ⟨slice, rbt, rem1, X, ofs1, c1, c2, c3, c4, c5, c6, c7, c8, c9⟩ :=
      case_RUNNING_unbounded_effect s3
        e.process (by rw [f5]; exact h.quantum_pos) (by rw [f4]; exact (h.bursts_pos _ hp).1)
        (by rw [f1]; exact h.table_nonneg) (by rw [f4]; exact h.rem_nonneg _ hp)
    dsimp only
    rw [c1]
    have := start_unbounded_running h he hns slice rbt rem1
      ((getProc s.processes e.process).cpuWaitingTime
        + (e.timestamp - (getProc s.processes e.process).clock)) X c3 c4 c5 c8
    refine frame this _ f1 ?_ f5 f6 f7 ?_ ?_
    · show put_event _ s3.events = _
      rw [f3, f7]
    · show (setProc s3.processes _ _).length = (setProc _ _ _).length
      rw [length_setProc, length_setProc, f4]
    · intro i
      show (getProc (setProc s3.processes _ _) i).core = _
      rw [f4, f7]
  | BLOCKED =>
    have hne : e.new_state ≠ State.RUNNING := by rw [hns]; simp
    have h3 : Inv s3 := by rw [hs3]; exact after_stats h he hne
    have hnr : ∀ x ∈ rest, ¬ (x.old_state = State.RUNNING ∨ x.new_state = State.RUNNING) := by
      refine rest_no_running h he (Or.inl ?_)
      rcases hshape with h1 | h1 | h1 | h1 | h1 | h1 <;>
        first
        | exact h1.1
        | (rw [hns] at h1; simp at h1)
    have h4 := clear_running h3 (by rw [f3]; exact hnr)
    have hd := (get_random_number_range s3.random_nums s3.ofs
      (getProc s3.processes e.process).ioBurst
      (by rw [f1]; exact h.table_nonneg) (by rw [f4]; exact (h.bursts_pos _ hp).2)).1
    have h5 := emit_blocked h4 e.process
      (get_random_number s3.random_nums s3.ofs (getProc s3.processes e.process).ioBurst).1
      (by show ∀ x ∈ s3.events, _; rw [f3]; exact rest_ne h he)
      (by show _ < s3.processes.length; rw [f4]; exact hp)
      (by show _ ∉ s3.scheduler.pids; rw [f5]
          intro hmem; exact head_not_ready h he _ hmem rfl)
      (by omega)
      (by show (getProc s3.processes _).remainingBurstTime ≤ 0
          rw [f4]; exact h.no_carry e (head_mem he) (Or.inr (Or.inr hns)))
      rfl
    dsimp only
    rw [case_BLOCKED_unbounded_effect]
    exact frame h5 _ rfl rfl rfl rfl rfl (length_setProc _ _ _) (core_setProc _ _ _ rfl)
  | DONE =>
    have hne : e.new_state ≠ State.RUNNING := by rw [hns]; simp
    have h3 : Inv s3 := by rw [hs3]; exact after_stats h he hne
    have hnr : ∀ x ∈ rest, ¬ (x.old_state = State.RUNNING ∨ x.new_state = State.RUNNING) := by
      refine rest_no_running h he (Or.inl ?_)
      rcases hshape with h1 | h1 | h1 | h1 | h1 | h1 <;>
        first
        | exact h1.1
        | (rw [hns] at h1; simp at h1)
    have h4 := clear_running h3 (by rw [f3]; exact hnr)
    dsimp only
    rw [case_DONE_unbounded_effect]
    exact frame h4 _ rfl rfl rfl rfl rfl (length_setProc _ _ _) (core_setProc _ _ _ rfl)

end Inv

end Sched

namespace Sched
open DES_Layer Simulator

namespace Inv

variable {s : Simulator}

theorem later_of_next_time (h : Inv s)
    (hne : get_next_time_event s.events ≠ s.CURRENT_TIME) :
    ∀ x ∈ s.events, s.CURRENT_TIME < x.timestamp := by
  cases hev : s.events with
  | nil => simp
  | cons a l =>
    rw [hev] at hne
    have h1 : a.timestamp ≠ s.CURRENT_TIME := hne
    have h2 := head_ge h hev
    have h3 := rest_ge h hev
    intro x hx
    rcases List.mem_cons.1 hx with rfl | hx
    · omega
    · have := h3 x hx; omega

theorem call_scheduler_inv (h : Inv s) : Inv (call_scheduler s) := by
  unfold call_scheduler
  split
  · split
    · exact h
    · rename_i hne
      dsimp only
      cases hrun : s.CURRENT_RUNNING_PROCESS with
      | some r =>
        exact frame h _ rfl rfl rfl hrun.symm rfl rfl (fun _ => rfl)
      | none =>
        dsimp only
        cases hq : s.scheduler.get_next_process.1 with
        | none =>
          exact frame (dispatch_none h hq) _ rfl rfl rfl hrun.symm rfl rfl (fun _ => rfl)
        | some q =>
          exact frame (dispatch h hrun (later_of_next_time h hne) q hq) _
            rfl rfl rfl rfl rfl rfl (fun _ => rfl)
  · exact h

theorem loop_body_unbounded_inv (h : Inv s) {s1 : Simulator} (hs : loop_body_unbounded s = some s1) : Inv s1 := by
  unfold loop_body_unbounded at hs
  cases hev : s.events with
  | nil => rw [hev] at hs; simp [get_event] at hs
  | cons e rest =>
    rw [hev] at hs
    simp only [get_event, Option.some.injEq] at hs
    rw [← hs]
    exact call_scheduler_inv (transition_unbounded_inv h hev)

theorem simulation_unbounded_inv (n : Nat) : ∀ s : Simulator, Inv s → Inv (simulation_unbounded n s) := by
  induction n with
  | zero => intro s h; exact h
  | succ n ih =>
    intro s h
    unfold simulation_unbounded
    cases hb : loop_body_unbounded s with
    | none => exact h
    | some s1 => exact ih s1 (loop_body_unbounded_inv h hb)

end Inv

/-! ## The loop does not read the time it starts with -/

theorem loop_body_unbounded_time (s : Simulator) (t : Int) :
    loop_body_unbounded { s with CURRENT_TIME := t } = loop_body_unbounded s := by
  unfold loop_body_unbounded
  cases s.events with
  | nil => rfl
  | cons e rest => rfl

theorem simulation_unbounded_time (n : Nat) (s : Simulator) (t : Int) (hev : s.events ≠ []) :
    simulation_unbounded (n + 1) { s with CURRENT_TIME := t } = simulation_unbounded (n + 1) s := by
  unfold simulation_unbounded
  rw [loop_body_unbounded_time]
  cases hb : loop_body_unbounded s with
  | none =>
    unfold loop_body_unbounded at hb
    cases hev2 : s.events with
    | nil => exact absurd hev2 hev
    | cons e rest => rw [hev2] at hb; simp [get_event] at hb
  | some s1 => rfl

end Sched

namespace Sched
open DES_Layer Simulator

/-! ## The state the loop starts from -/

theorem createProcesses_unbounded_loop_shape (rn : List Int) (scheduler : Scheduler)
    (input : List InputLine) :
    ∀ (count : Nat) (g : Globals),
      ∃ ps,
        (createProcesses_unbounded_loop rn scheduler input count g).processes = g.processes ++ ps ∧
        (createProcesses_unbounded_loop rn scheduler input count g).events
          = g.events ++ initial_events_unbounded g.processes.length input ∧
        ps.length = input.length ∧
        ∀ i (hi : i < input.length), ∃ ofs,
          ps[i]? = some (built_process_unbounded rn scheduler (count + i) ofs (input.get ⟨i, hi⟩)) := by
  induction input with
  | nil =>
    intro count g
    exact ⟨[], by simp [createProcesses_unbounded_loop], by simp [createProcesses_unbounded_loop, initial_events_unbounded],
      rfl, by simp⟩
  | cons line rest ih =>
    intro count g
    obtain ⟨ps, e1, e2, e3, e4⟩ := ih (count + 1)
      { ofs := (get_random_number rn g.ofs scheduler.maxprio).2
        processes := g.processes ++ [built_process_unbounded rn scheduler count g.ofs line]
        events := g.events ++ [Event.mk line.at_ g.processes.length State.CREATED State.READY] }
    have hstep : createProcesses_unbounded_loop rn scheduler (line :: rest) count g
        = createProcesses_unbounded_loop rn scheduler rest (count + 1)
            { ofs := (get_random_number rn g.ofs scheduler.maxprio).2
              processes := g.processes ++ [built_process_unbounded rn scheduler count g.ofs line]
              events := g.events
                ++ [Event.mk line.at_ g.processes.length State.CREATED State.READY] } := rfl
    refine ⟨built_process_unbounded rn scheduler count g.ofs line :: ps, ?_, ?_, ?_, ?_⟩
    · rw [hstep, e1]; simp
    · rw [hstep, e2]; simp [initial_events_unbounded]
    · simp [e3]
    · intro i hi
      cases i with
      | zero => exact ⟨g.ofs, by simp⟩
      | succ i =>
        have hi2 : i < rest.length := by simpa using hi
        obtain ⟨ofs, f1⟩ := e4 i hi2
        refine ⟨ofs, ?_⟩
        simp only [List.getElem?_cons_succ, f1, List.get_eq_getElem, List.getElem_cons_succ]
        have a1 : count + 1 + i = count + (i + 1) := by omega
        rw [a1]

theorem mem_initial_events_unbounded (input : List InputLine) :
    ∀ (first : Nat) (x : Event), x ∈ initial_events_unbounded first input →
      ∃ line ∈ input, x.timestamp = line.at_ ∧ first ≤ x.process ∧
        x.process < first + input.length ∧
        x.old_state = State.CREATED ∧ x.new_state = State.READY := by
  induction input with
  | nil => intro first x hx; simp [initial_events_unbounded] at hx
  | cons line rest ih =>
    intro first x hx
    simp only [initial_events_unbounded, List.mem_cons] at hx
    rcases hx with rfl | hx
    · exact ⟨line, List.mem_cons_self _ _, rfl, le_refl _, by simp, rfl, rfl⟩
    · obtain ⟨l, hl, h1, h2, h3, h4, h5⟩ := ih (first + 1) x hx
      exact ⟨l, List.mem_cons_of_mem _ hl, h1, by omega, by simp only [List.length_cons]; omega,
        h4, h5⟩

theorem initial_events_unbounded_nodup (input : List InputLine) :
    ∀ first : Nat, ((initial_events_unbounded first input).map Event.process).Nodup := by
  induction input with
  | nil => intro first; simp [initial_events_unbounded]
  | cons line rest ih =>
    intro first
    simp only [initial_events_unbounded, List.map_cons, List.nodup_cons]
    refine ⟨?_, ih (first + 1)⟩
    intro hmem
    obtain ⟨x, hx, hxp⟩ := List.mem_map.1 hmem
    obtain ⟨_, _, _, h2, _⟩ := mem_initial_events_unbounded rest (first + 1) x hx
    omega

theorem initial_events_unbounded_sorted (input : List InputLine)
    (hs : input.Pairwise (fun a b => a.at_ ≤ b.at_)) :
    ∀ first : Nat, sorted_by_time (initial_events_unbounded first input) := by
  induction input with
  | nil => intro first; simp [initial_events_unbounded, sorted_by_time]
  | cons line rest ih =>
    intro first
    rw [List.pairwise_cons] at hs
    unfold sorted_by_time
    simp only [initial_events_unbounded, List.pairwise_cons]
    refine ⟨?_, ih hs.2 (first + 1)⟩
    intro x hx
    obtain ⟨l, hl, h1, _⟩ := mem_initial_events_unbounded rest (first + 1) x hx
    rw [h1]
    exact hs.1 l hl

theorem flatten_replicate_nil (n : Nat) : (List.replicate n ([] : List Nat)).flatten = [] := by
  induction n with
  | zero => rfl
  | succ n ih => simp [List.replicate_succ, ih]

theorem make_scheduler_pids (policy : Policy) : (make_scheduler policy).pids = [] := by
  cases policy <;>
    simp [make_scheduler, Scheduler.pids, FCFS.FCFS, LCFS.LCFS, SRTF.SRTF, RR.RR, Prio.Prio,
      PrePrio.PrePrio, flatten_replicate_nil]

theorem start_unbounded_getProc (u : Uninitialised) (policy : Policy) (rn : List Int)
    (input : List InputLine) (i : Nat) (hi : i < input.length) :
    ∃ ofs, getProc (start_unbounded u policy rn input).processes i
      = built_process_unbounded rn (make_scheduler policy) i ofs (input.get ⟨i, hi⟩) := by
  obtain ⟨ps, e1, _, _, e4⟩ := createProcesses_unbounded_loop_shape rn (make_scheduler policy) input 0
    { ofs := 0, processes := [], events := [] }
  obtain ⟨ofs, f1⟩ := e4 i hi
  refine ⟨ofs, ?_⟩
  show getProc (createProcesses_unbounded rn input (make_scheduler policy)).processes i = _
  unfold createProcesses_unbounded getProc
  rw [e1, List.getD_eq_getElem?_getD]
  simp only [List.nil_append, f1, Nat.zero_add, Option.getD_some]

theorem start_unbounded_length (u : Uninitialised) (policy : Policy) (rn : List Int)
    (input : List InputLine) : (start_unbounded u policy rn input).processes.length = input.length := by
  obtain ⟨ps, e1, _, e3, _⟩ := createProcesses_unbounded_loop_shape rn (make_scheduler policy) input 0
    { ofs := 0, processes := [], events := [] }
  show (createProcesses_unbounded rn input (make_scheduler policy)).processes.length = _
  unfold createProcesses_unbounded
  rw [e1]; simpa using e3

theorem start_unbounded_events (u : Uninitialised) (policy : Policy) (rn : List Int)
    (input : List InputLine) : (start_unbounded u policy rn input).events = initial_events_unbounded 0 input := by
  obtain ⟨ps, _, e2, _, _⟩ := createProcesses_unbounded_loop_shape rn (make_scheduler policy) input 0
    { ofs := 0, processes := [], events := [] }
  show (createProcesses_unbounded rn input (make_scheduler policy)).events = _
  unfold createProcesses_unbounded
  rw [e2]; simp

/-- The hypotheses on the input under which the loop keeps its invariant. -/
theorem start_unbounded_inv (u : Uninitialised) (policy : Policy) (rn : List Int)
    (input : List InputLine)
    (htab : ∀ x ∈ rn, 0 ≤ x) (hq : 1 ≤ (make_scheduler policy).quantum)
    (hsorted : input.Pairwise (fun a b => a.at_ ≤ b.at_))
    (htc : ∀ line ∈ input, 0 ≤ line.totCPU)
    (hcb : ∀ line ∈ input, 1 ≤ line.cpuB) (hib : ∀ line ∈ input, 1 ≤ line.ioB)
    (hnow : ∀ line ∈ input, u.CURRENT_TIME ≤ line.at_) :
    Inv (start_unbounded u policy rn input) := by
  have hlen := start_unbounded_length u policy rn input
  have hev := start_unbounded_events u policy rn input
  have hgp := start_unbounded_getProc u policy rn input
  have hpids : (start_unbounded u policy rn input).scheduler.pids = [] := make_scheduler_pids policy
  have hrun : (start_unbounded u policy rn input).CURRENT_RUNNING_PROCESS = none := rfl
  have hmem := mem_initial_events_unbounded input 0
  constructor
  · exact htab
  · exact hq
  · intro i hi
    rw [hlen] at hi
    obtain ⟨ofs, h1⟩ := hgp i hi
    rw [h1]
    exact ⟨hcb _ (List.get_mem _ _ _), hib _ (List.get_mem _ _ _)⟩
  · intro i hi
    rw [hlen] at hi
    obtain ⟨ofs, h1⟩ := hgp i hi
    rw [h1]; rfl
  · intro i hi
    rw [hlen] at hi
    obtain ⟨ofs, h1⟩ := hgp i hi
    rw [h1]
    exact htc _ (List.get_mem _ _ _)
  · rw [hev]; exact initial_events_unbounded_sorted input hsorted 0
  · rw [hev]
    intro x hx
    obtain ⟨l, hl, h1, _⟩ := hmem x hx
    rw [h1]; exact hnow l hl
  · rw [hev]; exact initial_events_unbounded_nodup input 0
  · rw [hev, hlen]
    intro x hx
    obtain ⟨l, hl, h1, h2, h3, _⟩ := hmem x hx
    omega
  · rw [hev]
    intro x hx
    obtain ⟨l, hl, h1, h2, h3, h4, h5⟩ := hmem x hx
    exact Or.inl ⟨h4, h5⟩
  · rw [hpids]; exact List.nodup_nil
  · rw [hpids]; simp
  · rw [hpids]; simp
  · rw [hrun]; simp
  · rw [hev]
    intro x hx hxr
    obtain ⟨l, hl, h1, h2, h3, h4, h5⟩ := hmem x hx
    rw [h4, h5] at hxr
    simp at hxr
  · rw [hev]
    intro x hx hxr
    obtain ⟨l, hl, h1, h2, h3, h4, h5⟩ := hmem x hx
    rw [h5] at hxr
    simp at hxr
  · rw [hev]
    intro x hx hxr
    obtain ⟨l, hl, h1, h2, h3, h4, h5⟩ := hmem x hx
    rw [h4] at hxr
    simp at hxr
  · rw [hev]
    intro x hx _
    obtain ⟨l, hl, h1, h2, h3, h4, h5⟩ := hmem x hx
    have hi : x.process < input.length := by omega
    obtain ⟨ofs, h6⟩ := hgp x.process hi
    rw [h6]
    show (-1 : Int) ≤ 0
    omega
  · rw [hrun]; simp
  · rw [hrun]; simp

end Sched

namespace Sched
open DES_Layer Simulator

/-! ## Reachable states -/

theorem simulation_unbounded_succ (n : Nat) : ∀ s : Simulator,
    simulation_unbounded (n + 1) s = (simulation_unbounded n s).turn_unbounded := by
  induction n with
  | zero =>
    intro s
    have h1 : simulation_unbounded (0 + 1) s
        = match loop_body_unbounded s with
          | none => s
          | some s1 => s1 := rfl
    rw [h1]
    unfold Simulator.turn_unbounded
    rfl
  | succ n ih =>
    intro s
    have h1 : simulation_unbounded (n + 1 + 1) s
        = match loop_body_unbounded s with
          | none => s
          | some s1 => simulation_unbounded (n + 1) s1 := rfl
    have h2 : simulation_unbounded (n + 1) s
        = match loop_body_unbounded s with
          | none => s
          | some s1 => simulation_unbounded n s1 := rfl
    rw [h1, h2]
    cases hb : loop_body_unbounded s with
    | none => simp only [Simulator.turn_unbounded, hb]
    | some s1 => exact ih s1

theorem loop_body_unbounded_none_iff (s : Simulator) : loop_body_unbounded s = none ↔ s.events = [] := by
  unfold loop_body_unbounded
  cases s.events with
  | nil => simp [get_event]
  | cons e rest => simp [get_event]

theorem loop_body_unbounded_cons {s : Simulator} {e : Event} {rest : List Event}
    (he : s.events = e :: rest) :
    loop_body_unbounded s = some (call_scheduler (transition_unbounded e { s with events := rest })) := by
  unfold loop_body_unbounded
  rw [he]; rfl

theorem turn_unbounded_cons {s : Simulator} {e : Event} {rest : List Event}
    (he : s.events = e :: rest) :
    s.turn_unbounded = call_scheduler (transition_unbounded e { s with events := rest }) := by
  unfold Simulator.turn_unbounded
  rw [loop_body_unbounded_cons he]

theorem turn_unbounded_nil {s : Simulator} (he : s.events = []) : s.turn_unbounded = s := by
  unfold Simulator.turn_unbounded
  rw [(loop_body_unbounded_none_iff s).2 he]

theorem Inv.turn_unbounded {s : Simulator} (h : Inv s) : Inv s.turn_unbounded := by
  unfold Simulator.turn_unbounded
  cases hb : loop_body_unbounded s with
  | none => exact h
  | some s1 => exact Inv.loop_body_unbounded_inv h hb

theorem turn_unbounded_time (s : Simulator) (t : Int) (hev : s.events ≠ []) :
    Simulator.turn_unbounded { s with CURRENT_TIME := t } = s.turn_unbounded := by
  unfold Simulator.turn_unbounded
  rw [loop_body_unbounded_time]
  cases hb : loop_body_unbounded s with
  | none => exact absurd ((loop_body_unbounded_none_iff s).1 hb) hev
  | some s1 => rfl

/-- The hypotheses on the input under which the invariant is proved: a
non-negative random table, `quantum >= 1`, non-decreasing arrival times,
non-negative total cpu times, cpu and io bursts at least `1`. -/
theorem reach_inv (u : Uninitialised) (policy : Policy) (rn : List Int)
    (input : List InputLine)
    (htab : ∀ x ∈ rn, 0 ≤ x) (hq : 1 ≤ (make_scheduler policy).quantum)
    (hsorted : input.Pairwise (fun a b => a.at_ ≤ b.at_))
    (htc : ∀ line ∈ input, 0 ≤ line.totCPU)
    (hcb : ∀ line ∈ input, 1 ≤ line.cpuB) (hib : ∀ line ∈ input, 1 ≤ line.ioB) (n : Nat) :
    Inv (simulation_unbounded (n + 1) (start_unbounded u policy rn input)) ∧
    ∃ t, Inv { simulation_unbounded n (start_unbounded u policy rn input) with CURRENT_TIME := t } := by
  obtain rfl | ⟨line, rest, rfl⟩ : input = [] ∨ ∃ line rest, input = line :: rest := by
    cases input <;> simp
  · have h0 : Inv (start_unbounded u policy rn []) :=
      start_unbounded_inv u policy rn [] htab hq (by simp) (by simp) (by simp) (by simp) (by simp)
    exact ⟨Inv.simulation_unbounded_inv _ _ h0, _, Inv.simulation_unbounded_inv _ _ h0⟩
  · have hne : (start_unbounded u policy rn (line :: rest)).events ≠ [] := by
      rw [start_unbounded_events]; simp [initial_events_unbounded]
    have h0 : Inv (start_unbounded ⟨line.at_, u.start_of_IO_utilization, u.CALL_SCHEDULER⟩ policy rn
        (line :: rest)) := by
      refine start_unbounded_inv _ policy rn _ htab hq hsorted htc hcb hib ?_
      intro l hl
      rw [List.pairwise_cons] at hsorted
      rcases List.mem_cons.1 hl with rfl | hl
      · exact le_refl _
      · exact hsorted.1 l hl
    have heq : ∀ m, simulation_unbounded (m + 1) (start_unbounded u policy rn (line :: rest))
        = simulation_unbounded (m + 1)
            (start_unbounded ⟨line.at_, u.start_of_IO_utilization, u.CALL_SCHEDULER⟩ policy rn
              (line :: rest)) :=
      fun m => (simulation_unbounded_time m (start_unbounded u policy rn (line :: rest)) line.at_ hne) ▸ rfl
    refine ⟨by rw [heq]; exact Inv.simulation_unbounded_inv _ _ h0, ?_⟩
    cases n with
    | zero => exact ⟨line.at_, h0⟩
    | succ m => exact ⟨_, by rw [heq]; exact Inv.simulation_unbounded_inv _ _ h0⟩

end Sched

namespace Sched
open DES_Layer Simulator

/-! ## Event order and non-overlap -/

theorem call_scheduler_time (s : Simulator) :
    (call_scheduler s).CURRENT_TIME = s.CURRENT_TIME := by
  unfold call_scheduler
  split
  · split
    · rfl
    · dsimp only
      cases s.CURRENT_RUNNING_PROCESS with
      | some r => rfl
      | none =>
        dsimp only
        cases s.scheduler.get_next_process.1 <;> rfl
  · rfl

theorem case_READY_unbounded_time (p : Nat) (s : Simulator) :
    (case_READY_unbounded p s).CURRENT_TIME = s.CURRENT_TIME := by
  by_cases hc : 0 < (getProc (s.scheduler.add_process s.processes p).2 p).remainingBurstTime
  · rw [case_READY_unbounded_clear s p hc]
  · by_cases hpre : ∃ r, s.CURRENT_RUNNING_PROCESS = some r ∧
        (s.scheduler.add_process s.processes p).1.preprio_flag = true ∧
        (s.scheduler.add_process s.processes p).1.test_preempt
          (s.scheduler.add_process s.processes p).2 r p s.CURRENT_TIME = true
    · obtain ⟨r, hr, hf, ht⟩ := hpre
      rw [case_READY_unbounded_preempt s p r hc hr hf ht]
    · rw [case_READY_unbounded_stay s p hc (fun r hr hx => hpre ⟨r, hr, hx.1, hx.2⟩)]

theorem case_RUNNING_unbounded_time (p : Nat) (s : Simulator) :
    (case_RUNNING_unbounded p s).CURRENT_TIME = s.CURRENT_TIME := by
  unfold case_RUNNING_unbounded
  dsimp only
  split_ifs <;> rfl

theorem transition_unbounded_time (e : Event) (s : Simulator) :
    (transition_unbounded e s).CURRENT_TIME = e.timestamp := by
  unfold transition_unbounded
  dsimp only
  cases e.new_state with
  | CREATED => dsimp only; rw [update_stats_eq]
  | READY => dsimp only; rw [case_READY_unbounded_time, update_stats_eq]
  | RUNNING => dsimp only; rw [case_RUNNING_unbounded_time, update_stats_eq]
  | BLOCKED => dsimp only; rw [case_BLOCKED_unbounded_effect, update_stats_eq]
  | DONE => dsimp only; rw [case_DONE_unbounded_effect, update_stats_eq]

end Sched

namespace Sched
open DES_Layer Simulator

theorem call_scheduler_length (s : Simulator) :
    (call_scheduler s).processes.length = s.processes.length := by
  unfold call_scheduler
  split
  · split
    · rfl
    · dsimp only
      cases s.CURRENT_RUNNING_PROCESS with
      | some r => rfl
      | none =>
        dsimp only
        cases s.scheduler.get_next_process.1 <;> rfl
  · rfl

theorem case_READY_unbounded_length (p : Nat) (s : Simulator) :
    (case_READY_unbounded p s).processes.length = s.processes.length := by
  by_cases hc : 0 < (getProc (s.scheduler.add_process s.processes p).2 p).remainingBurstTime
  · rw [case_READY_unbounded_clear s p hc]
    exact Scheduler.add_process_length _ _ _
  · by_cases hpre : ∃ r, s.CURRENT_RUNNING_PROCESS = some r ∧
        (s.scheduler.add_process s.processes p).1.preprio_flag = true ∧
        (s.scheduler.add_process s.processes p).1.test_preempt
          (s.scheduler.add_process s.processes p).2 r p s.CURRENT_TIME = true
    · obtain ⟨r, hr, hf, ht⟩ := hpre
      rw [case_READY_unbounded_preempt s p r hc hr hf ht]
      show (setProc _ _ _).length = _
      rw [length_setProc]
      exact Scheduler.add_process_length _ _ _
    · rw [case_READY_unbounded_stay s p hc (fun r hr hx => hpre ⟨r, hr, hx.1, hx.2⟩)]
      exact Scheduler.add_process_length _ _ _

theorem case_RUNNING_unbounded_length (p : Nat) (s : Simulator) :
    (case_RUNNING_unbounded p s).processes.length = s.processes.length := by
  unfold case_RUNNING_unbounded
  dsimp only
  split_ifs <;> exact length_setProc _ _ _

theorem transition_unbounded_length (e : Event) (s : Simulator) :
    (transition_unbounded e s).processes.length = s.processes.length := by
  unfold transition_unbounded
  dsimp only
  rw [length_setProc]
  cases e.new_state with
  | CREATED => dsimp only; rw [update_stats_eq]
  | READY => dsimp only; rw [case_READY_unbounded_length, update_stats_eq]
  | RUNNING => dsimp only; rw [case_RUNNING_unbounded_length, update_stats_eq]
  | BLOCKED =>
    dsimp only; rw [case_BLOCKED_unbounded_effect]
    show (setProc _ _ _).length = _
    rw [length_setProc, update_stats_eq]
  | DONE =>
    dsimp only; rw [case_DONE_unbounded_effect]
    show (setProc _ _ _).length = _
    rw [length_setProc, update_stats_eq]

theorem turn_unbounded_length (s : Simulator) : s.turn_unbounded.processes.length = s.processes.length := by
  cases hev : s.events with
  | nil => rw [turn_unbounded_nil hev]
  | cons e rest => rw [turn_unbounded_cons hev, call_scheduler_length, transition_unbounded_length]

theorem simulation_unbounded_length (n : Nat) (s : Simulator) :
    (simulation_unbounded n s).processes.length = s.processes.length := by
  induction n with
  | zero => rfl
  | succ n ih => rw [simulation_unbounded_succ, turn_unbounded_length, ih]

theorem transition_unbounded_now_irrelevant (e : Event) (s : Simulator) (t : Int) :
    transition_unbounded e { s with CURRENT_TIME := t } = transition_unbounded e s := rfl

end Sched

namespace Sched
open DES_Layer Simulator

/-! ## CPU conservation -/

namespace InvCpu

variable {tc : Nat → Int} {s : Simulator} {g : CpuLog} {e : Event} {rest : List Event}

theorem cpu_frame (h : InvCpu tc s g) (s1 : Simulator) (h_ev : s1.events = s.events)
    (h_now : s1.CURRENT_TIME = s.CURRENT_TIME)
    (h_len : s1.processes.length = s.processes.length)
    (h_tc : ∀ i, (getProc s1.processes i).totalCPUTime = (getProc s.processes i).totalCPUTime)
    (h_rem : ∀ i, (getProc s1.processes i).remainingCPUtime
      = (getProc s.processes i).remainingCPUtime) : InvCpu tc s1 g := by
  constructor
  · intro i hi; rw [h_tc]; exact h.total i (by omega)
  · rw [h_ev, h_now]; intro x hx hxr; rw [h_rem]; exact h.running x hx hxr
  · rw [h_ev, h_len]; intro i hi hno; rw [h_rem]; exact h.resting i hi hno
  · rw [h_ev]; intro x hx hxr; rw [h_rem]; exact h.finishing x hx hxr

theorem cpu_pop (hi : Inv s) (h : InvCpu tc s g) (he : s.events = e :: rest)
    (hne : e.new_state ≠ State.RUNNING) :
    InvCpu tc { s with events := rest, CURRENT_TIME := e.timestamp } (g.record e) := by
  have hge := Inv.head_ge hi he
  by_cases hold : e.old_state = State.RUNNING
  · have hg : g.record e = CpuLog.mk g.entered (Function.update g.ran e.process
        (g.ran e.process + (e.timestamp - g.entered e.process))) := by
      simp [CpuLog.record, hne, hold]
    rw [hg]
    constructor
    · exact h.total
    · intro x hx hxr
      exact absurd (Or.inl hxr) (Inv.rest_no_running hi he (Or.inl hold) x hx)
    · intro i hil hno
      show Function.update g.ran e.process _ i + (getProc s.processes i).remainingCPUtime = tc i
      by_cases hip : i = e.process
      · subst hip
        rw [Function.update_same]
        exact (h.running e (Inv.head_mem he) hold).1
      · rw [Function.update_noteq hip]
        refine h.resting i hil ?_
        intro x hx hxi
        rw [he] at hx
        rcases List.mem_cons.1 hx with rfl | hx
        · exact absurd hxi.symm hip
        · exact hno x hx hxi
    · intro x hx hxr
      exact h.finishing x (Inv.rest_mem he hx) hxr
  · have hg : g.record e = g := by
      simp [CpuLog.record, hne, hold]
    rw [hg]
    constructor
    · exact h.total
    · intro x hx hxr
      obtain ⟨h1, h2⟩ := h.running x (Inv.rest_mem he hx) hxr
      exact ⟨h1, le_trans h2 hge⟩
    · intro i hil hno
      refine h.resting i hil ?_
      intro x hx hxi
      rw [he] at hx
      rcases List.mem_cons.1 hx with rfl | hx
      · exact hold
      · exact hno x hx hxi
    · intro x hx hxr
      exact h.finishing x (Inv.rest_mem he hx) hxr

theorem cpu_emit (h : InvCpu tc s g) (ev : Event) (h1 : ev.old_state ≠ State.RUNNING)
    (h2 : ev.new_state ≠ State.DONE) :
    InvCpu tc { s with events := put_event ev s.events } g := by
  constructor
  · exact h.total
  · intro x hx hxr
    rcases mem_put_event.1 hx with rfl | hx
    · exact absurd hxr h1
    · exact h.running x hx hxr
  · intro i hil hno
    exact h.resting i hil (fun x hx => hno x (mem_put_event.2 (Or.inr hx)))
  · intro x hx hxr
    rcases mem_put_event.1 hx with rfl | hx
    · exact absurd hxr h2
    · exact h.finishing x hx hxr

theorem preempt_unbounded_cpu (hi : Inv s) (h : InvCpu tc s g) (r : Nat)
    (hr : s.CURRENT_RUNNING_PROCESS = some r)
    (hlt : s.CURRENT_TIME < (getProc s.processes r).stopRunningTime)
    (hnod : ∀ x ∈ s.events, x.new_state ≠ State.RUNNING) :
    InvCpu tc (Simulator.preempt_unbounded r s) g := by
  have hrlen : r < s.processes.length := hi.running_proc r hr
  have hex : ∃ x ∈ s.events, x.process = r := by
    by_contra hc
    have := hi.running_idle r hr (fun x hx hxr => hc ⟨x, hx, hxr⟩)
    omega
  have hmem : ∀ x, x ∈ remove_event s.processes r s.events ↔ x ∈ s.events ∧ x.process ≠ r :=
    mem_remove_event s.processes r s.events (Inv.event_pid hi) (hi.pid_index r hrlen)
      hi.one_event hex
  obtain ⟨xr, hxr, hxrp⟩ := hex
  have hxold : xr.old_state = State.RUNNING := by
    rcases hi.running_kind r hr xr hxr hxrp with h1 | h1
    · exact h1
    · exact absurd h1 (hnod xr hxr)
  have hstop := hi.stop_time xr hxr hxold
  obtain ⟨hk1, hk2⟩ := h.running xr hxr hxold
  rw [hxrp] at hstop hk1 hk2
  have hother : ∀ x ∈ s.events, x.process ≠ r → x.old_state ≠ State.RUNNING := by
    intro x hx hxr hold
    have := hi.running_event x hx (Or.inl hold)
    rw [hr] at this
    exact hxr (Option.some.inj this).symm
  have hgp : ∀ i, getProc (setProc s.processes r
      { getProc s.processes r with
        remainingBurstTime := (getProc s.processes r).remainingBurstTime
          + ((getProc s.processes r).stopRunningTime - s.CURRENT_TIME)
        remainingCPUtime := (getProc s.processes r).remainingCPUtime
          + ((getProc s.processes r).stopRunningTime - s.CURRENT_TIME)
        stopRunningTime := s.CURRENT_TIME }) i
      = if i = r then
        { getProc s.processes r with
          remainingBurstTime := (getProc s.processes r).remainingBurstTime
            + ((getProc s.processes r).stopRunningTime - s.CURRENT_TIME)
          remainingCPUtime := (getProc s.processes r).remainingCPUtime
            + ((getProc s.processes r).stopRunningTime - s.CURRENT_TIME)
          stopRunningTime := s.CURRENT_TIME }
        else getProc s.processes i := by
    intro i
    rw [getProc_setProc]
    simp [hrlen]
  show InvCpu tc { s with
    events := put_event ⟨s.CURRENT_TIME, r, State.RUNNING, State.READY⟩
      (remove_event s.processes r s.events)
    processes := setProc s.processes r
      { getProc s.processes r with
        remainingBurstTime := (getProc s.processes r).remainingBurstTime
          + ((getProc s.processes r).stopRunningTime - s.CURRENT_TIME)
        remainingCPUtime := (getProc s.processes r).remainingCPUtime
          + ((getProc s.processes r).stopRunningTime - s.CURRENT_TIME)
        stopRunningTime := s.CURRENT_TIME } } g
  constructor
  · intro i hil
    simp only [length_setProc] at hil
    simp only [hgp]
    split
    · rename_i hir; subst hir; exact h.total i hil
    · exact h.total i hil
  · intro x hx hxo
    rcases mem_put_event.1 hx with rfl | hx
    · simp only [hgp, if_true]
      refine ⟨?_, hk2⟩
      show g.ran r + (s.CURRENT_TIME - g.entered r)
        + ((getProc s.processes r).remainingCPUtime
          + ((getProc s.processes r).stopRunningTime - s.CURRENT_TIME)) = tc r
      omega
    · exact absurd hxo (hother x ((hmem x).1 hx).1 ((hmem x).1 hx).2)
  · intro i hil hno
    simp only [length_setProc] at hil
    have hir : i ≠ r := by
      intro hir
      exact hno ⟨s.CURRENT_TIME, r, State.RUNNING, State.READY⟩
        (mem_put_event.2 (Or.inl rfl)) hir.symm rfl
    simp only [hgp, hir, if_false]
    refine h.resting i hil ?_
    intro x hx hxi
    exact hno x (mem_put_event.2 (Or.inr ((hmem x).2 ⟨hx, by rw [hxi]; exact hir⟩))) hxi
  · intro x hx hxd
    rcases mem_put_event.1 hx with rfl | hx
    · simp at hxd
    · simp only [hgp, ((hmem x).1 hx).2, if_false]
      exact h.finishing x ((hmem x).1 hx).1 hxd

theorem start_unbounded_cpu (hi : Inv s) (h : InvCpu tc s g) (he : s.events = e :: rest)
    (hrun : e.new_state = State.RUNNING) (slice rbt rem1 cw : Int) (X : State)
    (hrem1 : rem1 = (getProc s.processes e.process).remainingCPUtime - slice)
    (h0 : 0 ≤ slice) (hdone : X = State.DONE → rem1 = 0) :
    InvCpu tc { s with
      CURRENT_TIME := e.timestamp
      events := put_event ⟨e.timestamp + slice, e.process, State.RUNNING, X⟩ rest
      processes := setProc s.processes e.process
        { getProc s.processes e.process with
          cpuWaitingTime := cw
          remainingBurstTime := rbt
          remainingCPUtime := rem1
          stopRunningTime := e.timestamp + slice } } (g.record e) := by
  have hp : e.process < s.processes.length := hi.event_proc e (Inv.head_mem he)
  have hnr := Inv.rest_no_running hi he (Or.inr hrun)
  have hne := Inv.rest_ne hi he
  have hold : e.old_state ≠ State.RUNNING := by
    intro hold
    rcases hi.event_shape e (Inv.head_mem he) with h1 | h1 | h1 | h1 | h1 | h1
    · rw [hold] at h1; simp at h1
    · rw [hold] at h1; simp at h1
    · rw [hold] at h1; simp at h1
    · rw [hrun] at h1; simp at h1
    · rw [hrun] at h1; simp at h1
    · rw [hrun] at h1; simp at h1
  have hg : g.record e
      = CpuLog.mk (Function.update g.entered e.process e.timestamp) g.ran := by
    simp [CpuLog.record, hrun]
  have hgp : ∀ i, getProc (setProc s.processes e.process
      { getProc s.processes e.process with
        cpuWaitingTime := cw
        remainingBurstTime := rbt
        remainingCPUtime := rem1
        stopRunningTime := e.timestamp + slice }) i
      = if i = e.process then
        { getProc s.processes e.process with
          cpuWaitingTime := cw
          remainingBurstTime := rbt
          remainingCPUtime := rem1
          stopRunningTime := e.timestamp + slice }
        else getProc s.processes i := by
    intro i
    rw [getProc_setProc]
    simp [hp]
  have hrest := h.resting e.process hp (by
    intro x hx hxp
    rw [he] at hx
    rcases List.mem_cons.1 hx with rfl | hx
    · exact hold
    · exact absurd hxp (hne x hx))
  rw [hg]
  constructor
  · intro i hil
    simp only [length_setProc] at hil
    simp only [hgp]
    split
    · rename_i hir; subst hir; exact h.total _ hil
    · exact h.total i hil
  · intro x hx hxo
    rcases mem_put_event.1 hx with rfl | hx
    · simp only [hgp, if_true, Function.update_same]
      refine ⟨?_, le_refl _⟩
      show g.ran e.process + (e.timestamp + slice - e.timestamp) + rem1 = tc e.process
      omega
    · exact absurd (Or.inl hxo) (hnr x hx)
  · intro i hil hno
    simp only [length_setProc] at hil
    have hir : i ≠ e.process := by
      intro hir
      exact hno ⟨e.timestamp + slice, e.process, State.RUNNING, X⟩
        (mem_put_event.2 (Or.inl rfl)) hir.symm rfl
    simp only [hgp, hir, if_false]
    refine h.resting i hil ?_
    intro x hx hxi
    rw [he] at hx
    rcases List.mem_cons.1 hx with rfl | hx
    · exact absurd hxi.symm hir
    · exact hno x (mem_put_event.2 (Or.inr hx)) hxi
  · intro x hx hxd
    rcases mem_put_event.1 hx with rfl | hx
    · simp only [hgp, if_true]
      exact hdone hxd
    · simp only [hgp, hne x hx, if_false]
      exact h.finishing x (Inv.rest_mem he hx) hxd

end InvCpu

end Sched

namespace Sched
open DES_Layer Simulator

namespace InvCpu

variable {tc : Nat → Int} {s : Simulator} {g : CpuLog} {e : Event} {rest : List Event}

theorem add_process_cpu (sch : Scheduler) (ps : List Process) (p i : Nat) :
    (getProc (sch.add_process ps p).2 i).totalCPUTime = (getProc ps i).totalCPUTime ∧
    (getProc (sch.add_process ps p).2 i).remainingCPUtime = (getProc ps i).remainingCPUtime := by
  obtain ⟨d, hd⟩ := Scheduler.add_process_getProc sch ps p i
  rw [hd]; exact ⟨rfl, rfl⟩

theorem setProc_tc (ps : List Process) (p : Nat) (q : Process)
    (h1 : q.totalCPUTime = (getProc ps p).totalCPUTime) (i : Nat) :
    (getProc (setProc ps p q) i).totalCPUTime = (getProc ps i).totalCPUTime := by
  rw [getProc_setProc]
  split
  · rename_i h; rw [h.1]; exact h1
  · rfl

theorem setProc_rem (ps : List Process) (p : Nat) (q : Process)
    (h2 : q.remainingCPUtime = (getProc ps p).remainingCPUtime) (i : Nat) :
    (getProc (setProc ps p q) i).remainingCPUtime = (getProc ps i).remainingCPUtime := by
  rw [getProc_setProc]
  split
  · rename_i h; rw [h.1]; exact h2
  · rfl

theorem cpu_set_clock (h : InvCpu tc s g) (p : Nat) (t : Int) :
    InvCpu tc { s with
      processes := setProc s.processes p { getProc s.processes p with clock := t } } g :=
  cpu_frame h _ rfl rfl (length_setProc _ _ _)
    (fun i => by apply setProc_tc; rfl) (fun i => by apply setProc_rem; rfl)

theorem case_READY_unbounded_cpu (hi : Inv s) (h : InvCpu tc s g) (p : Nat)
    (hnoev : ∀ x ∈ s.events, x.process ≠ p)
    (hp : p < s.processes.length) (hnr : p ∉ s.scheduler.pids)
    (hnod : ∀ x ∈ s.events, x.new_state ≠ State.RUNNING) :
    InvCpu tc (case_READY_unbounded p s) g := by
  have hi1 := Inv.add_ready hi p hnoev hp hnr
  have h1 : InvCpu tc { s with
      scheduler := (s.scheduler.add_process s.processes p).1
      processes := (s.scheduler.add_process s.processes p).2 } g :=
    cpu_frame h _ rfl rfl (Scheduler.add_process_length _ _ _)
      (fun i => (add_process_cpu _ _ _ i).1) (fun i => (add_process_cpu _ _ _ i).2)
  by_cases hc : 0 < (getProc (s.scheduler.add_process s.processes p).2 p).remainingBurstTime
  · rw [case_READY_unbounded_clear s p hc]
    exact cpu_frame h1 _ rfl rfl rfl (fun _ => rfl) (fun _ => rfl)
  · by_cases hpre : ∃ r, s.CURRENT_RUNNING_PROCESS = some r ∧
        (s.scheduler.add_process s.processes p).1.preprio_flag = true ∧
        (s.scheduler.add_process s.processes p).1.test_preempt
          (s.scheduler.add_process s.processes p).2 r p s.CURRENT_TIME = true
    · obtain ⟨r, hr, hf, ht⟩ := hpre
      rw [case_READY_unbounded_preempt s p r hc hr hf ht]
      have hlt := (Scheduler.test_preempt_true _ _ _ _ _ ht).2
      exact cpu_frame (preempt_unbounded_cpu hi1 h1 r hr hlt hnod) _ rfl rfl rfl (fun _ => rfl) (fun _ => rfl)
    · rw [case_READY_unbounded_stay s p hc (fun r hr hx => hpre ⟨r, hr, hx.1, hx.2⟩)]
      exact cpu_frame h1 _ rfl rfl rfl (fun _ => rfl) (fun _ => rfl)

theorem transition_unbounded_cpu (hi : Inv s) (h : InvCpu tc s g) (he : s.events = e :: rest) :
    InvCpu tc (transition_unbounded e { s with events := rest }) (g.record e) := by
  have hshape := hi.event_shape e (Inv.head_mem he)
  have hp : e.process < s.processes.length := hi.event_proc e (Inv.head_mem he)
  unfold transition_unbounded
  apply cpu_set_clock
  obtain ⟨s3, hs3⟩ : ∃ s3, s3 = update_stats e
      { s with events := rest, CURRENT_TIME := e.timestamp } := ⟨_, rfl⟩
  obtain ⟨f1, f2, f3, f4, f5, f6, f7, f8⟩ :
      s3.random_nums = s.random_nums ∧ s3.ofs = s.ofs ∧ s3.events = rest ∧
      s3.processes = s.processes ∧ s3.scheduler = s.scheduler ∧
      s3.CURRENT_RUNNING_PROCESS = s.CURRENT_RUNNING_PROCESS ∧
      s3.CURRENT_TIME = e.timestamp ∧ s3.CALL_SCHEDULER = s.CALL_SCHEDULER := by
    rw [hs3]; exact Inv.stats_fields e _
  dsimp only
  rw [← hs3]
  have hpop : e.new_state ≠ State.RUNNING → InvCpu tc s3 (g.record e) := by
    intro hne
    refine cpu_frame (cpu_pop hi h he hne) _ f3 f7 ?_ ?_ ?_
    · rw [f4]
    · intro i; rw [f4]
    · intro i; rw [f4]
  cases hns : e.new_state with
  | CREATED =>
    rcases hshape with h1 | h1 | h1 | h1 | h1 | h1 <;> · rw [hns] at h1; simp at h1
  | READY =>
    have hne : e.new_state ≠ State.RUNNING := by rw [hns]; simp
    have hi3 : Inv s3 := by rw [hs3]; exact Inv.after_stats hi he hne
    refine case_READY_unbounded_cpu hi3 (hpop hne) e.process ?_ ?_ ?_ ?_
    · rw [f3]; exact Inv.rest_ne hi he
    · rw [f4]; exact hp
    · rw [f5]; intro hmem; exact Inv.head_not_ready hi he _ hmem rfl
    · rw [f3]; exact Inv.rest_no_dispatch hi he
  | RUNNING =>
    obtain ⟨slice, rbt, rem1, X, ofs1, c1, c2, c3, c4, c5, c6, c7, c8, c9⟩ :=
      case_RUNNING_unbounded_effect s3
        e.process (by rw [f5]; exact hi.quantum_pos) (by rw [f4]; exact (hi.bursts_pos _ hp).1)
        (by rw [f1]; exact hi.table_nonneg) (by rw [f4]; exact hi.rem_nonneg _ hp)
    dsimp only
    rw [c1]
    have := start_unbounded_cpu hi h he hns slice rbt rem1
      ((getProc s.processes e.process).cpuWaitingTime
        + (e.timestamp - (getProc s.processes e.process).clock)) X
      (by rw [c2, f4]) c3 c6
    refine cpu_frame this _ ?_ f7 ?_ ?_ ?_
    · show put_event _ s3.events = _
      rw [f3, f7]
    · show (setProc s3.processes _ _).length = (setProc _ _ _).length
      rw [length_setProc, length_setProc, f4]
    · intro i
      show (getProc (setProc s3.processes _ _) i).totalCPUTime = _
      rw [f4, f7]
    · intro i
      show (getProc (setProc s3.processes _ _) i).remainingCPUtime = _
      rw [f4, f7]
  | BLOCKED =>
    have hne : e.new_state ≠ State.RUNNING := by rw [hns]; simp
    have h4 := cpu_emit (hpop hne)
      ⟨s3.CURRENT_TIME + (get_random_number s3.random_nums s3.ofs
        (getProc s3.processes e.process).ioBurst).1, e.process, State.BLOCKED, State.READY⟩
      (by simp) (by simp)
    dsimp only
    rw [case_BLOCKED_unbounded_effect]
    exact cpu_frame h4 _ rfl rfl (length_setProc _ _ _)
      (fun i => by apply setProc_tc; rfl) (fun i => by apply setProc_rem; rfl)
  | DONE =>
    have hne : e.new_state ≠ State.RUNNING := by rw [hns]; simp
    dsimp only
    rw [case_DONE_unbounded_effect]
    exact cpu_frame (hpop hne) _ rfl rfl (length_setProc _ _ _)
      (fun i => by apply setProc_tc; rfl) (fun i => by apply setProc_rem; rfl)

theorem call_scheduler_cpu (h : InvCpu tc s g) : InvCpu tc (call_scheduler s) g := by
  unfold call_scheduler
  split
  · split
    · exact h
    · dsimp only
      cases hrun : s.CURRENT_RUNNING_PROCESS with
      | some r => exact cpu_frame h _ rfl rfl rfl (fun _ => rfl) (fun _ => rfl)
      | none =>
        dsimp only
        cases hq : s.scheduler.get_next_process.1 with
        | none => exact cpu_frame h _ rfl rfl rfl (fun _ => rfl) (fun _ => rfl)
        | some q =>
          exact cpu_frame (cpu_emit h ⟨s.CURRENT_TIME, q, State.READY, State.RUNNING⟩
            (by simp) (by simp)) _ rfl rfl rfl (fun _ => rfl) (fun _ => rfl)
  · exact h

end InvCpu

end Sched

namespace Sched
open DES_Layer Simulator

theorem processed_unbounded_nil (s0 : Simulator) (n : Nat) (h : (simulation_unbounded n s0).events = []) :
    processed_unbounded s0 (n + 1) = processed_unbounded s0 n := by
  show processed_unbounded s0 n ++ (match (simulation_unbounded n s0).events with | [] => [] | e :: _ => [e]) = _
  rw [h]; simp

theorem processed_unbounded_cons (s0 : Simulator) (n : Nat) {e : Event} {rest : List Event}
    (h : (simulation_unbounded n s0).events = e :: rest) :
    processed_unbounded s0 (n + 1) = processed_unbounded s0 n ++ [e] := by
  show processed_unbounded s0 n ++ (match (simulation_unbounded n s0).events with | [] => [] | e :: _ => [e]) = _
  rw [h]

theorem cpu_log_snoc (l : List Event) (e : Event) :
    cpu_log (l ++ [e]) = (cpu_log l).record e := by
  simp [cpu_log, List.foldl_append]

theorem InvCpu.cpu_start_unbounded (u : Uninitialised) (policy : Policy) (rn : List Int)
    (input : List InputLine) (t : Int) :
    InvCpu (fun i => (getProc (start_unbounded u policy rn input).processes i).totalCPUTime)
      { start_unbounded u policy rn input with CURRENT_TIME := t } (cpu_log []) := by
  have hev := start_unbounded_events u policy rn input
  have hlen := start_unbounded_length u policy rn input
  have hmem := mem_initial_events_unbounded input 0
  constructor
  · intro i _; rfl
  · intro x hx hxr
    have hx2 : x ∈ initial_events_unbounded 0 input := by rw [← hev]; exact hx
    obtain ⟨_, _, _, _, _, h4, _⟩ := hmem x hx2
    rw [h4] at hxr; simp at hxr
  · intro i hi _
    have hi2 : i < input.length := by rw [← hlen]; exact hi
    obtain ⟨ofs, h1⟩ := start_unbounded_getProc u policy rn input i hi2
    show (0 : Int) + (getProc (start_unbounded u policy rn input).processes i).remainingCPUtime
      = (getProc (start_unbounded u policy rn input).processes i).totalCPUTime
    rw [h1]
    show (0 : Int) + (input.get ⟨i, hi2⟩).totCPU = (input.get ⟨i, hi2⟩).totCPU
    omega
  · intro x hx hxr
    have hx2 : x ∈ initial_events_unbounded 0 input := by rw [← hev]; exact hx
    obtain ⟨_, _, _, _, _, _, h5⟩ := hmem x hx2
    rw [h5] at hxr; simp at hxr

/-- Along a run from a valid input the loop invariant and its cpu part hold
together (up to the time the loop starts with, which it never reads). -/
theorem cpu_reach (u : Uninitialised) (policy : Policy) (rn : List Int)
    (input : List InputLine)
    (htab : ∀ x ∈ rn, 0 ≤ x) (hq : 1 ≤ (make_scheduler policy).quantum)
    (hsorted : input.Pairwise (fun a b => a.at_ ≤ b.at_))
    (htc : ∀ line ∈ input, 0 ≤ line.totCPU)
    (hcb : ∀ line ∈ input, 1 ≤ line.cpuB) (hib : ∀ line ∈ input, 1 ≤ line.ioB) (n : Nat) :
    ∃ t, Inv { simulation_unbounded n (start_unbounded u policy rn input) with CURRENT_TIME := t } ∧
      InvCpu (fun i => (getProc (start_unbounded u policy rn input).processes i).totalCPUTime)
        { simulation_unbounded n (start_unbounded u policy rn input) with CURRENT_TIME := t }
        (cpu_log (processed_unbounded (start_unbounded u policy rn input) n)) := by
  induction n with
  | zero =>
    obtain ⟨_, t, h0⟩ := reach_inv u policy rn input htab hq hsorted htc hcb hib 0
    exact ⟨t, h0, InvCpu.cpu_start_unbounded u policy rn input t⟩
  | succ n ih =>
    obtain ⟨t, hi, hc⟩ := ih
    cases hev : (simulation_unbounded n (start_unbounded u policy rn input)).events with
    | nil =>
      rw [simulation_unbounded_succ, turn_unbounded_nil hev, processed_unbounded_nil _ _ hev]
      exact ⟨t, hi, hc⟩
    | cons e rest =>
      have hev2 : ({ simulation_unbounded n (start_unbounded u policy rn input) with
          CURRENT_TIME := t } : Simulator).events = e :: rest := hev
      have hturn : simulation_unbounded (n + 1) (start_unbounded u policy rn input)
          = call_scheduler (transition_unbounded e
              { ({ simulation_unbounded n (start_unbounded u policy rn input) with
                  CURRENT_TIME := t } : Simulator) with events := rest }) := by
        rw [simulation_unbounded_succ, turn_unbounded_cons hev]
        rfl
      rw [processed_unbounded_cons _ _ hev, cpu_log_snoc]
      refine ⟨(simulation_unbounded (n + 1) (start_unbounded u policy rn input)).CURRENT_TIME, ?_, ?_⟩
      · show Inv (simulation_unbounded (n + 1) (start_unbounded u policy rn input))
        rw [hturn]
        exact Inv.call_scheduler_inv (Inv.transition_unbounded_inv hi hev2)
      · show InvCpu _ (simulation_unbounded (n + 1) (start_unbounded u policy rn input)) _
        rw [hturn]
        exact InvCpu.call_scheduler_cpu (InvCpu.transition_unbounded_cpu hi hc hev2)

theorem InvCpu.ran_bound {tc : Nat → Int} {s : Simulator} {g : CpuLog}
    (hi : Inv s) (h : InvCpu tc s g) (i : Nat) (hil : i < s.processes.length) :
    g.ran i ≤ tc i := by
  have hrem := hi.rem_nonneg i hil
  by_cases hex : ∃ x ∈ s.events, x.process = i ∧ x.old_state = State.RUNNING
  · obtain ⟨x, hx, hxi, hxo⟩ := hex
    obtain ⟨h1, h2⟩ := h.running x hx hxo
    have h3 := hi.not_before_now x hx
    rw [hxi] at h1 h2
    omega
  · have := h.resting i hil (by
      intro x hx hxi hxo
      exact hex ⟨x, hx, hxi, hxo⟩)
    omega

theorem InvCpu.ran_mono {tc : Nat → Int} {s : Simulator} {g : CpuLog} {e : Event}
    {rest : List Event} (hi : Inv s) (h : InvCpu tc s g) (he : s.events = e :: rest)
    (i : Nat) : g.ran i ≤ (g.record e).ran i := by
  unfold CpuLog.record
  split
  · exact le_refl _
  · split
    · rename_i hold
      obtain ⟨_, h2⟩ := h.running e (Inv.head_mem he) hold
      have h3 := Inv.head_ge hi he
      show g.ran i ≤ Function.update g.ran e.process _ i
      by_cases hip : i = e.process
      · subst hip
        rw [Function.update_same]
        omega
      · rw [Function.update_noteq hip]
    · exact le_refl _

/-- Over unbounded integers (CPU conservation): in every run from a valid input, once the loop has
processed the event of a process `p` into `DONE`, the total time `p` spent
`RUNNING` (the sum, over the events out of `RUNNING` processed for `p`, of the
event's timestamp minus the time `p` entered `RUNNING`) equals
`p.totalCPUTime`, and stays so for the rest of the run. -/
theorem cpu_conservation_unbounded (u : Uninitialised) (policy : Policy) (random_nums : List Int)
    (input_file : List InputLine) (hv : ValidInput policy random_nums input_file)
    (i n : Nat) (hin : i < n) (e : Event) (rest : List Event)
    (he : (simulation_unbounded i (start_unbounded u policy random_nums input_file)).events = e :: rest)
    (hdone : e.new_state = State.DONE) :
    time_running (processed_unbounded (start_unbounded u policy random_nums input_file) n) e.process
      = (getProc (start_unbounded u policy random_nums input_file).processes e.process).totalCPUTime := by
  have hreach := cpu_reach u policy random_nums input_file hv.table_nonneg hv.quantum_pos
    hv.arrival_sorted hv.totcpu_nonneg hv.cpub_pos hv.iob_pos
  -- just after the turn that processes `e`
  have hstep : time_running (processed_unbounded (start_unbounded u policy random_nums input_file) (i + 1)) e.process
      = (getProc (start_unbounded u policy random_nums input_file).processes e.process).totalCPUTime := by
    obtain ⟨t, hi, hc⟩ := hreach i
    have he2 : ({ simulation_unbounded i (start_unbounded u policy random_nums input_file) with
        CURRENT_TIME := t } : Simulator).events = e :: rest := he
    have hold : e.old_state = State.RUNNING := by
      rcases hi.event_shape e (Inv.head_mem he2) with h1 | h1 | h1 | h1 | h1 | h1 <;>
        first
        | exact h1.1
        | (rw [hdone] at h1; simp at h1)
    obtain ⟨h1, _⟩ := hc.running e (Inv.head_mem he2) hold
    have h2 := hc.finishing e (Inv.head_mem he2) hdone
    unfold time_running
    rw [processed_unbounded_cons _ _ he, cpu_log_snoc]
    have hg : ((cpu_log (processed_unbounded (start_unbounded u policy random_nums input_file) i)).record e).ran
        e.process
        = (cpu_log (processed_unbounded (start_unbounded u policy random_nums input_file) i)).ran e.process
          + (e.timestamp
            - (cpu_log (processed_unbounded (start_unbounded u policy random_nums input_file) i)).entered
                e.process) := by
      simp [CpuLog.record, hdone, hold]
    rw [hg]
    omega
  -- never less afterwards, and never more than the total
  have hmono : ∀ k, time_running (processed_unbounded (start_unbounded u policy random_nums input_file) (i + 1))
        e.process
      ≤ time_running (processed_unbounded (start_unbounded u policy random_nums input_file) (i + 1 + k))
        e.process := by
    intro k
    induction k with
    | zero => exact le_refl _
    | succ k ih =>
      refine le_trans ih ?_
      obtain ⟨t, hi, hc⟩ := hreach (i + 1 + k)
      cases hev : (simulation_unbounded (i + 1 + k) (start_unbounded u policy random_nums input_file)).events with
      | nil =>
        rw [show i + 1 + (k + 1) = (i + 1 + k) + 1 from rfl, processed_unbounded_nil _ _ hev]
      | cons e1 rest1 =>
        rw [show i + 1 + (k + 1) = (i + 1 + k) + 1 from rfl, processed_unbounded_cons _ _ hev]
        unfold time_running
        rw [cpu_log_snoc]
        exact InvCpu.ran_mono hi hc hev e.process
  obtain ⟨k, rfl⟩ : ∃ k, n = i + 1 + k := ⟨n - (i + 1), by omega⟩
  obtain ⟨t, hi, hc⟩ := hreach (i + 1 + k)
  have hlen : e.process < (simulation_unbounded (i + 1 + k)
      (start_unbounded u policy random_nums input_file)).processes.length := by
    obtain ⟨t0, hi0, _⟩ := hreach i
    have := hi0.event_proc e (by
      show e ∈ (simulation_unbounded i (start_unbounded u policy random_nums input_file)).events
      rw [he]; exact List.mem_cons_self _ _)
    show e.process < (simulation_unbounded (i + 1 + k)
      (start_unbounded u policy random_nums input_file)).processes.length
    rw [simulation_unbounded_length]
    rw [← simulation_unbounded_length i]
    exact this
  have hb := InvCpu.ran_bound hi hc e.process hlen
  have hm := hmono k
  unfold time_running at hm hstep ⊢
  omega

end Sched

namespace Sched
open DES_Layer Simulator

/-! ## I/O union accounting -/

theorem mem_blocked_events {l : List Event} {x : Event} :
    x ∈ blocked_events l ↔ x ∈ l ∧ x.old_state = State.BLOCKED := by
  simp [blocked_events]

theorem blocked_events_cons_of_not (e : Event) (l : List Event)
    (h : e.old_state ≠ State.BLOCKED) : blocked_events (e :: l) = blocked_events l := by
  simp [blocked_events, List.filter_cons, h]

theorem blocked_events_cons_of (e : Event) (l : List Event)
    (h : e.old_state = State.BLOCKED) : blocked_events (e :: l) = e :: blocked_events l := by
  simp [blocked_events, List.filter_cons, h]

theorem blocked_events_put (ev : Event) (l : List Event) :
    (blocked_events (put_event ev l)).Perm (blocked_events (ev :: l)) :=
  (put_event_perm ev l).filter _

theorem blocked_events_remove (ps : List Process) (r : Nat) (l : List Event)
    (h : ∀ x ∈ l, (getProc ps x.process).pid = (getProc ps r).pid →
      x.old_state ≠ State.BLOCKED) :
    blocked_events (remove_event ps r l) = blocked_events l := by
  induction l with
  | nil => rfl
  | cons a l ih =>
    unfold remove_event
    split
    · rename_i hne
      have ih2 := ih (fun x hx => h x (List.mem_cons_of_mem _ hx))
      by_cases ha : a.old_state = State.BLOCKED
      · rw [blocked_events_cons_of _ _ ha, blocked_events_cons_of _ _ ha, ih2]
      · rw [blocked_events_cons_of_not _ _ ha, blocked_events_cons_of_not _ _ ha, ih2]
    · rename_i heq
      have heq2 : (getProc ps a.process).pid = (getProc ps r).pid := by
        by_contra hc; exact heq hc
      rw [blocked_events_cons_of_not _ _ (h a (List.mem_cons_self _ _) heq2)]

namespace IoInv

variable {s : Simulator} {g : IoLog} {e : Event} {rest : List Event}

theorem covered_congr {s1 s2 : Simulator} {g : IoLog}
    (h : ∀ x, x ∈ blocked_events s1.events ↔ x ∈ blocked_events s2.events) (x : Int) :
    Covered s1 g x ↔ Covered s2 g x := by
  unfold Covered
  constructor
  · rintro (h1 | ⟨e, he, h2, h3⟩)
    · exact Or.inl h1
    · exact Or.inr ⟨e, (mem_blocked_events.1 ((h e).1 (mem_blocked_events.2 ⟨he, h2⟩))).1,
        h2, h3⟩
  · rintro (h1 | ⟨e, he, h2, h3⟩)
    · exact Or.inl h1
    · exact Or.inr ⟨e, (mem_blocked_events.1 ((h e).2 (mem_blocked_events.2 ⟨he, h2⟩))).1,
        h2, h3⟩

/-- The I/O invariant survives every change that keeps the pending events out
of `BLOCKED`, the three I/O counters, and does not move the time back. -/
theorem congr (h : IoInv s g) (s1 : Simulator)
    (h1 : s1.output.number_io_processes = s.output.number_io_processes)
    (h2 : s1.output.ioUtilization = s.output.ioUtilization)
    (h3 : s1.output.start_of_IO_utilization = s.output.start_of_IO_utilization)
    (h4 : s.CURRENT_TIME ≤ s1.CURRENT_TIME)
    (h5 : (blocked_events s1.events).Perm (blocked_events s.events)) : IoInv s1 g := by
  have hm : ∀ x, x ∈ blocked_events s1.events ↔ x ∈ blocked_events s.events :=
    fun x => h5.mem_iff
  have hcov := fun x => covered_congr (g := g) hm x
  have hex : ∀ x : Int, (∃ e ∈ s1.events, e.old_state = State.BLOCKED ∧ x < e.timestamp) ↔
      (∃ e ∈ s.events, e.old_state = State.BLOCKED ∧ x < e.timestamp) := by
    intro x
    constructor
    · rintro ⟨e, he, h6, h7⟩
      exact ⟨e, (mem_blocked_events.1 ((hm e).1 (mem_blocked_events.2 ⟨he, h6⟩))).1, h6, h7⟩
    · rintro ⟨e, he, h6, h7⟩
      exact ⟨e, (mem_blocked_events.1 ((hm e).2 (mem_blocked_events.2 ⟨he, h6⟩))).1, h6, h7⟩
  constructor
  · rw [h1, h5.length_eq]; exact h.count
  · obtain ⟨F, f1, f2⟩ := h.measured
    refine ⟨F, by rw [h2]; exact f1, ?_⟩
    intro x
    rw [f2 x, h1, h3, hcov x]
  · intro h0 x hx
    rw [h1] at h0
    have := h.idle h0 x ((hcov x).1 hx)
    omega
  · intro h0
    rw [h1] at h0
    obtain ⟨b1, b2⟩ := h.busy h0
    rw [h3]
    refine ⟨by omega, ?_⟩
    intro x hx
    rw [hcov x, hex x]
    exact b2 x hx


theorem count_nonneg (h : IoInv s g) : 0 ≤ s.output.number_io_processes := by
  rw [h.count]; omega

theorem exists_blocked (h : IoInv s g) (h0 : 0 < s.output.number_io_processes) :
    ∃ x ∈ s.events, x.old_state = State.BLOCKED := by
  rw [h.count] at h0
  have : (blocked_events s.events) ≠ [] := by
    intro hc; rw [hc] at h0; simp at h0
  obtain ⟨x, hx⟩ := List.exists_mem_of_ne_nil _ this
  exact ⟨x, (mem_blocked_events.1 hx).1, (mem_blocked_events.1 hx).2⟩

theorem none_blocked (h : IoInv s g) (h0 : s.output.number_io_processes = 0) :
    ∀ x ∈ s.events, x.old_state ≠ State.BLOCKED := by
  intro x hx hxb
  have h1 := h.count
  rw [h0] at h1
  have h2 : (blocked_events s.events).length = 0 := by omega
  have h3 := List.eq_nil_of_length_eq_zero h2
  have h4 : x ∈ blocked_events s.events := mem_blocked_events.2 ⟨hx, hxb⟩
  rw [h3] at h4
  simp at h4

/-- A process leaves `BLOCKED`: its interval is closed. -/
theorem close (hi : Inv s) (h : IoInv s g) (he : s.events = e :: rest)
    (hold : e.old_state = State.BLOCKED) (s1 : Simulator)
    (hc : s1.output.number_io_processes = s.output.number_io_processes - 1)
    (hu : s1.output.ioUtilization =
      if s.output.number_io_processes - 1 = 0 then
        s.output.ioUtilization + (e.timestamp - s.output.start_of_IO_utilization)
      else s.output.ioUtilization)
    (hs : s1.output.start_of_IO_utilization = s.output.start_of_IO_utilization)
    (ht : s1.CURRENT_TIME = e.timestamp)
    (hev : (blocked_events s1.events).Perm (blocked_events rest)) :
    IoInv s1 (g.record e) := by
  have hnew : e.new_state ≠ State.BLOCKED := by
    rcases hi.event_shape e (Inv.head_mem he) with h1 | h1 | h1 | h1 | h1 | h1 <;>
      first
      | (rw [h1.2]; simp; done)
      | (rw [hold] at h1; simp at h1; done)
  have hg : g.record e
      = IoLog.mk g.blocked_at ((g.blocked_at e.process, e.timestamp) :: g.bursts) := by
    simp [IoLog.record, hnew, hold]
  have hbl : blocked_events s.events = e :: blocked_events rest := by
    rw [he, blocked_events_cons_of _ _ hold]
  have hm : ∀ x, x ∈ blocked_events s1.events ↔ x ∈ blocked_events rest := fun x => hev.mem_iff
  have hge := Inv.head_ge hi he
  have hrge := Inv.rest_ge hi he
  have hcount := h.count
  rw [hbl] at hcount
  simp only [List.length_cons] at hcount
  have hpos : 0 < s.output.number_io_processes := by omega
  obtain ⟨b1, b2⟩ := h.busy hpos
  have hcov : ∀ x, Covered s1 (g.record e) x ↔ Covered s g x := by
    intro x
    rw [hg]
    unfold Covered
    constructor
    · rintro (⟨b, hb, h1⟩ | ⟨y, hy, h1, h2⟩)
      · rcases List.mem_cons.1 hb with rfl | hb
        · exact Or.inr ⟨e, Inv.head_mem he, hold, h1⟩
        · exact Or.inl ⟨b, hb, h1⟩
      · have := (mem_blocked_events.1 ((hm y).1 (mem_blocked_events.2 ⟨hy, h1⟩))).1
        exact Or.inr ⟨y, Inv.rest_mem he this, h1, h2⟩
    · rintro (⟨b, hb, h1⟩ | ⟨y, hy, h1, h2⟩)
      · exact Or.inl ⟨b, List.mem_cons_of_mem _ hb, h1⟩
      · rw [he] at hy
        rcases List.mem_cons.1 hy with rfl | hy
        · exact Or.inl ⟨_, List.mem_cons_self _ _, h2⟩
        · have := (mem_blocked_events.1 ((hm y).2 (mem_blocked_events.2 ⟨hy, h1⟩))).1
          exact Or.inr ⟨y, this, h1, h2⟩
  obtain ⟨F, f1, f2⟩ := h.measured
  by_cases hz : s.output.number_io_processes - 1 = 0
  · -- the last blocked process leaves
    have hnone : ∀ y ∈ rest, y.old_state ≠ State.BLOCKED := by
      intro y hy hyb
      have h1 : (blocked_events rest).length = 0 := by omega
      have h2 := List.eq_nil_of_length_eq_zero h1
      have h3 : y ∈ blocked_events rest := mem_blocked_events.2 ⟨hy, hyb⟩
      rw [h2] at h3; simp at h3
    have hkey : ∀ x, s.output.start_of_IO_utilization ≤ x → (Covered s g x ↔ x < e.timestamp) := by
      intro x hx
      rw [b2 x hx]
      constructor
      · rintro ⟨y, hy, h1, h2⟩
        rw [he] at hy
        rcases List.mem_cons.1 hy with rfl | hy
        · exact h2
        · exact absurd h1 (hnone y hy)
      · intro h1
        exact ⟨e, Inv.head_mem he, hold, h1⟩
    constructor
    · rw [hc, hev.length_eq]; omega
    · refine ⟨F ∪ Finset.Ico s.output.start_of_IO_utilization e.timestamp, ?_, ?_⟩
      · rw [hu, if_pos hz, Finset.card_union_of_disjoint, Int.card_Ico, f1]
        · push_cast
          rw [Int.toNat_of_nonneg (by omega)]
        · rw [Finset.disjoint_left]
          intro x hx hx2
          have h1 := ((f2 x).1 hx).2 hpos
          have h2 := (Finset.mem_Ico.1 hx2).1
          omega
      · intro x
        rw [Finset.mem_union, f2 x, Finset.mem_Ico, hcov x, hc]
        constructor
        · rintro (⟨h1, _⟩ | ⟨h1, h2⟩)
          · exact ⟨h1, fun h3 => by omega⟩
          · exact ⟨(hkey x h1).2 h2, fun h3 => by omega⟩
        · rintro ⟨h1, _⟩
          by_cases hx : x < s.output.start_of_IO_utilization
          · exact Or.inl ⟨h1, fun _ => hx⟩
          · exact Or.inr ⟨by omega, (hkey x (by omega)).1 h1⟩
    · intro _ x hx
      rw [ht]
      have h1 := (hcov x).1 hx
      by_cases hx2 : x < s.output.start_of_IO_utilization
      · omega
      · exact (hkey x (by omega)).1 h1
    · intro h0
      rw [hc] at h0
      omega
  · -- some process stays blocked
    have hex : ∃ y ∈ rest, y.old_state = State.BLOCKED := by
      have h1 : (blocked_events rest) ≠ [] := by
        intro hc2; rw [hc2] at hcount; simp at hcount; omega
      obtain ⟨y, hy⟩ := List.exists_mem_of_ne_nil _ h1
      exact ⟨y, (mem_blocked_events.1 hy).1, (mem_blocked_events.1 hy).2⟩
    constructor
    · rw [hc, hev.length_eq]; omega
    · refine ⟨F, by rw [hu, if_neg hz]; exact f1, ?_⟩
      intro x
      rw [f2 x, hcov x, hc, hs]
      constructor
      · rintro ⟨h1, h2⟩
        exact ⟨h1, fun _ => h2 hpos⟩
      · rintro ⟨h1, h2⟩
        exact ⟨h1, fun _ => h2 (by omega)⟩
    · intro h0
      rw [hc] at h0
      exact absurd h0 hz
    · intro _
      rw [hs, ht]
      refine ⟨by omega, ?_⟩
      intro x hx
      rw [hcov x, b2 x hx]
      constructor
      · rintro ⟨y, hy, h1, h2⟩
        rw [he] at hy
        rcases List.mem_cons.1 hy with rfl | hy
        · obtain ⟨z, hz1, hz2⟩ := hex
          have hz3 := (mem_blocked_events.1 ((hm z).2 (mem_blocked_events.2 ⟨hz1, hz2⟩))).1
          have := hrge z hz1
          exact ⟨z, hz3, hz2, by omega⟩
        · have := (mem_blocked_events.1 ((hm y).2 (mem_blocked_events.2 ⟨hy, h1⟩))).1
          exact ⟨y, this, h1, h2⟩
      · rintro ⟨y, hy, h1, h2⟩
        have := (mem_blocked_events.1 ((hm y).1 (mem_blocked_events.2 ⟨hy, h1⟩))).1
        exact ⟨y, Inv.rest_mem he this, h1, h2⟩


/-- A process enters `BLOCKED`: its interval is opened. -/
theorem opening (hi : Inv s) (h : IoInv s g) (he : s.events = e :: rest)
    (hnew : e.new_state = State.BLOCKED) (s1 : Simulator) (d : Int)
    (hc : s1.output.number_io_processes = s.output.number_io_processes + 1)
    (hu : s1.output.ioUtilization = s.output.ioUtilization)
    (hs : s1.output.start_of_IO_utilization =
      if s.output.number_io_processes + 1 = 1 then e.timestamp
      else s.output.start_of_IO_utilization)
    (ht : s1.CURRENT_TIME = e.timestamp)
    (hev : (blocked_events s1.events).Perm
      (⟨e.timestamp + d, e.process, State.BLOCKED, State.READY⟩ :: blocked_events rest)) :
    IoInv s1 (g.record e) := by
  have hold : e.old_state ≠ State.BLOCKED := by
    rcases hi.event_shape e (Inv.head_mem he) with h1 | h1 | h1 | h1 | h1 | h1 <;>
      first
      | (rw [h1.1]; simp; done)
      | (rw [hnew] at h1; simp at h1; done)
  have hg : g.record e
      = IoLog.mk (Function.update g.blocked_at e.process e.timestamp) g.bursts := by
    simp [IoLog.record, hnew]
  have hbl : blocked_events s.events = blocked_events rest := by
    rw [he, blocked_events_cons_of_not _ _ hold]
  have hm : ∀ x, x ∈ blocked_events s1.events ↔
      (x = ⟨e.timestamp + d, e.process, State.BLOCKED, State.READY⟩ ∨
        x ∈ blocked_events rest) := by
    intro x
    rw [hev.mem_iff, List.mem_cons]
  have hge := Inv.head_ge hi he
  have hrge := Inv.rest_ge hi he
  have hne := Inv.rest_ne hi he
  have hcount := h.count
  rw [hbl] at hcount
  have hnn : 0 ≤ s.output.number_io_processes := by omega
  have hcov : ∀ x, Covered s1 (g.record e) x ↔
      (Covered s g x ∨ (e.timestamp ≤ x ∧ x < e.timestamp + d)) := by
    intro x
    rw [hg]
    unfold Covered
    constructor
    · rintro (h1 | ⟨y, hy, h1, h2⟩)
      · exact Or.inl (Or.inl h1)
      · rcases (hm y).1 (mem_blocked_events.2 ⟨hy, h1⟩) with rfl | hy2
        · right
          simpa using h2
        · have hy3 := (mem_blocked_events.1 hy2).1
          left; right
          refine ⟨y, Inv.rest_mem he hy3, h1, ?_⟩
          have : Function.update g.blocked_at e.process e.timestamp y.process
              = g.blocked_at y.process := Function.update_noteq (hne y hy3) _ _
          rw [← this]
          exact h2
    · rintro ((h1 | ⟨y, hy, h1, h2⟩) | h1)
      · exact Or.inl h1
      · rw [he] at hy
        rcases List.mem_cons.1 hy with rfl | hy
        · exact absurd h1 hold
        · right
          have hy2 := (mem_blocked_events.1
            ((hm y).2 (Or.inr (mem_blocked_events.2 ⟨hy, h1⟩)))).1
          refine ⟨y, hy2, h1, ?_⟩
          have : Function.update g.blocked_at e.process e.timestamp y.process
              = g.blocked_at y.process := Function.update_noteq (hne y hy) _ _
          show Function.update g.blocked_at e.process e.timestamp y.process ≤ x ∧
            x < y.timestamp
          rw [this]
          exact h2
      · right
        have hy2 := (mem_blocked_events.1 ((hm _).2 (Or.inl rfl))).1
        exact ⟨_, hy2, rfl, by simpa using h1⟩
  have hex1 : ∀ x : Int, (∃ y ∈ s1.events, y.old_state = State.BLOCKED ∧ x < y.timestamp) ↔
      (x < e.timestamp + d ∨ ∃ y ∈ rest, y.old_state = State.BLOCKED ∧ x < y.timestamp) := by
    intro x
    constructor
    · rintro ⟨y, hy, h1, h2⟩
      rcases (hm y).1 (mem_blocked_events.2 ⟨hy, h1⟩) with rfl | hy2
      · exact Or.inl h2
      · exact Or.inr ⟨y, (mem_blocked_events.1 hy2).1, h1, h2⟩
    · rintro (h1 | ⟨y, hy, h1, h2⟩)
      · exact ⟨_, (mem_blocked_events.1 ((hm _).2 (Or.inl rfl))).1, rfl, h1⟩
      · exact ⟨y, (mem_blocked_events.1
          ((hm y).2 (Or.inr (mem_blocked_events.2 ⟨hy, h1⟩)))).1, h1, h2⟩
  obtain ⟨F, f1, f2⟩ := h.measured
  by_cases hz : s.output.number_io_processes = 0
  · -- the first process to block
    have hidle := h.idle hz
    have hnone : ∀ y ∈ rest, y.old_state ≠ State.BLOCKED :=
      fun y hy => none_blocked h hz y (Inv.rest_mem he hy)
    have hs2 : s1.output.start_of_IO_utilization = e.timestamp := by
      rw [hs, if_pos (by omega)]
    constructor
    · rw [hc, hev.length_eq]; simp only [List.length_cons]; omega
    · refine ⟨F, by rw [hu]; exact f1, ?_⟩
      intro x
      rw [f2 x, hcov x, hs2]
      constructor
      · rintro ⟨h1, _⟩
        have := hidle x h1
        exact ⟨Or.inl h1, fun _ => by omega⟩
      · rintro ⟨h1 | h1, h2⟩
        · exact ⟨h1, fun h3 => by omega⟩
        · have := h2 (by omega)
          omega
    · intro h0
      rw [hc] at h0
      omega
    · intro _
      rw [hs2, ht]
      refine ⟨le_refl _, ?_⟩
      intro x hx
      rw [hcov x, hex1 x]
      constructor
      · rintro (h1 | h1)
        · have := hidle x h1
          omega
        · exact Or.inl h1.2
      · rintro (h1 | ⟨y, hy, h1, _⟩)
        · exact Or.inr ⟨hx, h1⟩
        · exact absurd h1 (hnone y hy)
  · -- other processes are blocked already
    have hpos : 0 < s.output.number_io_processes := by omega
    obtain ⟨b1, b2⟩ := h.busy hpos
    have hs2 : s1.output.start_of_IO_utilization = s.output.start_of_IO_utilization := by
      rw [hs, if_neg (by omega)]
    obtain ⟨z, hz1, hz2⟩ := exists_blocked h hpos
    have hz3 : z ∈ rest := by
      rw [he] at hz1
      rcases List.mem_cons.1 hz1 with rfl | hz1
      · exact absurd hz2 hold
      · exact hz1
    constructor
    · rw [hc, hev.length_eq]; simp only [List.length_cons]; omega
    · refine ⟨F, by rw [hu]; exact f1, ?_⟩
      intro x
      rw [f2 x, hcov x, hs2, hc]
      constructor
      · rintro ⟨h1, h2⟩
        exact ⟨Or.inl h1, fun _ => h2 hpos⟩
      · rintro ⟨h1 | h1, h2⟩
        · exact ⟨h1, fun _ => h2 (by omega)⟩
        · have := h2 (by omega)
          omega
    · intro h0
      rw [hc] at h0
      omega
    · intro _
      rw [hs2, ht]
      refine ⟨by omega, ?_⟩
      intro x hx
      rw [hcov x, hex1 x, b2 x hx]
      constructor
      · rintro (⟨y, hy, h1, h2⟩ | h1)
        · rw [he] at hy
          rcases List.mem_cons.1 hy with rfl | hy
          · exact absurd h1 hold
          · exact Or.inr ⟨y, hy, h1, h2⟩
        · exact Or.inl h1.2
      · rintro (h1 | ⟨y, hy, h1, h2⟩)
        · by_cases hx2 : e.timestamp ≤ x
          · exact Or.inr ⟨hx2, h1⟩
          · have := hrge z hz3
            exact Or.inl ⟨z, hz1, hz2, by omega⟩
        · exact Or.inl ⟨y, Inv.rest_mem he hy, h1, h2⟩

end IoInv

end Sched

namespace Sched
open DES_Layer Simulator

theorem case_READY_unbounded_output (p : Nat) (s : Simulator) : (case_READY_unbounded p s).output = s.output := by
  by_cases hc : 0 < (getProc (s.scheduler.add_process s.processes p).2 p).remainingBurstTime
  · rw [case_READY_unbounded_clear s p hc]
  · by_cases hpre : ∃ r, s.CURRENT_RUNNING_PROCESS = some r ∧
        (s.scheduler.add_process s.processes p).1.preprio_flag = true ∧
        (s.scheduler.add_process s.processes p).1.test_preempt
          (s.scheduler.add_process s.processes p).2 r p s.CURRENT_TIME = true
    · obtain ⟨r, hr, hf, ht⟩ := hpre
      rw [case_READY_unbounded_preempt s p r hc hr hf ht]
    · rw [case_READY_unbounded_stay s p hc (fun r hr hx => hpre ⟨r, hr, hx.1, hx.2⟩)]

theorem case_RUNNING_unbounded_output (p : Nat) (s : Simulator) :
    (case_RUNNING_unbounded p s).output = s.output := by
  unfold case_RUNNING_unbounded
  dsimp only
  split_ifs <;> rfl

theorem call_scheduler_output (s : Simulator) : (call_scheduler s).output = s.output := by
  unfold call_scheduler
  split
  · split
    · rfl
    · dsimp only
      cases s.CURRENT_RUNNING_PROCESS with
      | some r => rfl
      | none =>
        dsimp only
        cases s.scheduler.get_next_process.1 <;> rfl
  · rfl

theorem case_RUNNING_unbounded_blocked (p : Nat) (s : Simulator) :
    (blocked_events (case_RUNNING_unbounded p s).events).Perm (blocked_events s.events) := by
  unfold case_RUNNING_unbounded
  dsimp only
  split_ifs <;>
    · refine (blocked_events_put _ _).trans ?_
      rw [blocked_events_cons_of_not _ _ (by simp)]

theorem case_READY_unbounded_blocked {s : Simulator} (hi : Inv s) (p : Nat)
    (hnoev : ∀ x ∈ s.events, x.process ≠ p)
    (hp : p < s.processes.length) (hnr : p ∉ s.scheduler.pids) :
    (blocked_events (case_READY_unbounded p s).events).Perm (blocked_events s.events) := by
  by_cases hc : 0 < (getProc (s.scheduler.add_process s.processes p).2 p).remainingBurstTime
  · rw [case_READY_unbounded_clear s p hc]
  · by_cases hpre : ∃ r, s.CURRENT_RUNNING_PROCESS = some r ∧
        (s.scheduler.add_process s.processes p).1.preprio_flag = true ∧
        (s.scheduler.add_process s.processes p).1.test_preempt
          (s.scheduler.add_process s.processes p).2 r p s.CURRENT_TIME = true
    · obtain ⟨r, hr, hf, ht⟩ := hpre
      rw [case_READY_unbounded_preempt s p r hc hr hf ht]
      have hi1 := Inv.add_ready hi p hnoev hp hnr
      refine (blocked_events_put _ _).trans ?_
      rw [blocked_events_cons_of_not _ _ (by simp)]
      rw [blocked_events_remove]
      intro x hx hpid hxb
      have hrlen := hi1.running_proc r hr
      have h1 := hi1.pid_index x.process (hi1.event_proc x hx)
      have h2 := hi1.pid_index r hrlen
      have hxr : x.process = r := by
        have h3 : (getProc (s.scheduler.add_process s.processes p).2 x.process).pid
            = x.process := h1
        have h4 : (getProc (s.scheduler.add_process s.processes p).2 r).pid = r := h2
        rw [h3, h4] at hpid
        exact hpid
      rcases hi1.running_kind r hr x hx hxr with h5 | h5
      · rw [h5] at hxb; simp at hxb
      · rcases hi1.event_shape x hx with h6 | h6 | h6 | h6 | h6 | h6 <;>
          first
          | (rw [h6.1] at hxb; simp at hxb; done)
          | (rw [h5] at h6; simp at h6; done)
    · rw [case_READY_unbounded_stay s p hc (fun r hr hx => hpre ⟨r, hr, hx.1, hx.2⟩)]

namespace IoInv

variable {s : Simulator} {g : IoLog} {e : Event} {rest : List Event}

theorem record_other (g : IoLog) (e : Event) (h1 : e.new_state ≠ State.BLOCKED)
    (h2 : e.old_state ≠ State.BLOCKED) : g.record e = g := by
  simp [IoLog.record, h1, h2]

theorem io_transition_unbounded (hi : Inv s) (h : IoInv s g) (he : s.events = e :: rest) :
    IoInv (transition_unbounded e { s with events := rest }) (g.record e) := by
  have hshape := hi.event_shape e (Inv.head_mem he)
  have hp : e.process < s.processes.length := hi.event_proc e (Inv.head_mem he)
  have hge := Inv.head_ge hi he
  obtain ⟨s3, hs3⟩ : ∃ s3, s3 = update_stats e
      { s with events := rest, CURRENT_TIME := e.timestamp } := ⟨_, rfl⟩
  obtain ⟨f1, f2, f3, f4, f5, f6, f7, f8⟩ :
      s3.random_nums = s.random_nums ∧ s3.ofs = s.ofs ∧ s3.events = rest ∧
      s3.processes = s.processes ∧ s3.scheduler = s.scheduler ∧
      s3.CURRENT_RUNNING_PROCESS = s.CURRENT_RUNNING_PROCESS ∧
      s3.CURRENT_TIME = e.timestamp ∧ s3.CALL_SCHEDULER = s.CALL_SCHEDULER := by
    rw [hs3]; exact Inv.stats_fields e _
  obtain ⟨o1, o2, o3⟩ :
      s3.output.number_io_processes =
        (if e.old_state = State.BLOCKED then s.output.number_io_processes - 1
          else s.output.number_io_processes) ∧
      s3.output.ioUtilization =
        (if e.old_state = State.BLOCKED ∧ s.output.number_io_processes - 1 = 0 then
          s.output.ioUtilization + (e.timestamp - s.output.start_of_IO_utilization)
          else s.output.ioUtilization) ∧
      s3.output.start_of_IO_utilization = s.output.start_of_IO_utilization := by
    rw [hs3, update_stats_eq]
    exact ⟨rfl, rfl, rfl⟩
  cases hns : e.new_state with
  | CREATED =>
    rcases hshape with h1 | h1 | h1 | h1 | h1 | h1 <;> · rw [hns] at h1; simp at h1
  | READY =>
    have hne : e.new_state ≠ State.RUNNING := by rw [hns]; simp
    have hi3 : Inv s3 := by rw [hs3]; exact Inv.after_stats hi he hne
    have hout : (transition_unbounded e { s with events := rest }).output = s3.output := by
      unfold transition_unbounded; dsimp only; rw [hns]; dsimp only
      rw [case_READY_unbounded_output, hs3]
    have hnow : (transition_unbounded e { s with events := rest }).CURRENT_TIME = e.timestamp :=
      transition_unbounded_time _ _
    have hbl : (blocked_events (transition_unbounded e { s with events := rest }).events).Perm
        (blocked_events rest) := by
      have : (transition_unbounded e { s with events := rest }).events
          = (case_READY_unbounded e.process s3).events := by
        unfold transition_unbounded; dsimp only; rw [hns]; dsimp only; rw [hs3]
      rw [this]
      have := case_READY_unbounded_blocked hi3 e.process
        (by rw [f3]; exact Inv.rest_ne hi he) (by rw [f4]; exact hp)
        (by rw [f5]; intro hmem; exact Inv.head_not_ready hi he _ hmem rfl)
      rw [f3] at this
      exact this
    by_cases hold : e.old_state = State.BLOCKED
    · refine close hi h he hold _ ?_ ?_ ?_ hnow hbl
      · rw [hout, o1, if_pos hold]
      · rw [hout, o2]
        by_cases hz : s.output.number_io_processes - 1 = 0
        · rw [if_pos ⟨hold, hz⟩, if_pos hz]
        · rw [if_neg (fun hc => hz hc.2), if_neg hz]
      · rw [hout, o3]
    · rw [record_other g e (by rw [hns]; simp) hold]
      refine congr h _ ?_ ?_ ?_ (by rw [hnow]; exact hge) ?_
      · rw [hout, o1, if_neg hold]
      · rw [hout, o2, if_neg (fun hc => hold hc.1)]
      · rw [hout, o3]
      · rw [he, blocked_events_cons_of_not _ _ hold]; exact hbl
  | RUNNING =>
    have hold : e.old_state ≠ State.BLOCKED := by
      rcases hshape with h1 | h1 | h1 | h1 | h1 | h1 <;>
        first
        | (rw [h1.1]; simp; done)
        | (rw [hns] at h1; simp at h1; done)
    have hout : (transition_unbounded e { s with events := rest }).output = s3.output := by
      unfold transition_unbounded; dsimp only; rw [hns]; dsimp only
      rw [case_RUNNING_unbounded_output, hs3]
    have hnow : (transition_unbounded e { s with events := rest }).CURRENT_TIME = e.timestamp :=
      transition_unbounded_time _ _
    have hbl : (blocked_events (transition_unbounded e { s with events := rest }).events).Perm
        (blocked_events rest) := by
      have : (transition_unbounded e { s with events := rest }).events
          = (case_RUNNING_unbounded e.process s3).events := by
        unfold transition_unbounded; dsimp only; rw [hns]; dsimp only; rw [hs3]
      rw [this]
      have := case_RUNNING_unbounded_blocked e.process s3
      rw [f3] at this
      exact this
    rw [record_other g e (by rw [hns]; simp) hold]
    refine congr h _ ?_ ?_ ?_ (by rw [hnow]; exact hge) ?_
    · rw [hout, o1, if_neg hold]
    · rw [hout, o2, if_neg (fun hc => hold hc.1)]
    · rw [hout, o3]
    · rw [he, blocked_events_cons_of_not _ _ hold]; exact hbl
  | BLOCKED =>
    have hold : e.old_state ≠ State.BLOCKED := by
      rcases hshape with h1 | h1 | h1 | h1 | h1 | h1 <;>
        first
        | (rw [h1.1]; simp; done)
        | (rw [hns] at h1; simp at h1; done)
    have hres : transition_unbounded e { s with events := rest }
        = { (case_BLOCKED_unbounded e.process s3) with
            processes := setProc (case_BLOCKED_unbounded e.process s3).processes e.process
              { getProc (case_BLOCKED_unbounded e.process s3).processes e.process with
                clock := (case_BLOCKED_unbounded e.process s3).CURRENT_TIME } } := by
      unfold transition_unbounded; dsimp only; rw [hns]; dsimp only; rw [hs3]
    have hnow : (transition_unbounded e { s with events := rest }).CURRENT_TIME = e.timestamp :=
      transition_unbounded_time _ _
    refine opening hi h he hns _
      (get_random_number s3.random_nums s3.ofs (getProc s3.processes e.process).ioBurst).1
      ?_ ?_ ?_ hnow ?_
    · rw [hres, case_BLOCKED_unbounded_effect]
      show (if s3.output.number_io_processes + 1 = 1 then _ else _ : Output).number_io_processes
        = _
      rw [o1, if_neg hold]
      split <;> rfl
    · rw [hres, case_BLOCKED_unbounded_effect]
      show (if s3.output.number_io_processes + 1 = 1 then _ else _ : Output).ioUtilization
        = _
      rw [o1, if_neg hold]
      split
      · show s3.output.ioUtilization = _
        rw [o2, if_neg (fun hc => hold hc.1)]
      · show s3.output.ioUtilization = _
        rw [o2, if_neg (fun hc => hold hc.1)]
    · rw [hres, case_BLOCKED_unbounded_effect]
      show (if s3.output.number_io_processes + 1 = 1 then _ else _ :
        Output).start_of_IO_utilization = _
      rw [o1, if_neg hold]
      split
      · exact f7
      · exact o3
    · rw [hres, case_BLOCKED_unbounded_effect]
      show (blocked_events (put_event _ s3.events)).Perm _
      refine (blocked_events_put _ _).trans ?_
      rw [blocked_events_cons_of _ _ rfl, f3, f7]
  | DONE =>
    have hold : e.old_state ≠ State.BLOCKED := by
      rcases hshape with h1 | h1 | h1 | h1 | h1 | h1 <;>
        first
        | (rw [h1.1]; simp; done)
        | (rw [hns] at h1; simp at h1; done)
    have hres : transition_unbounded e { s with events := rest }
        = { (case_DONE_unbounded e.process s3) with
            processes := setProc (case_DONE_unbounded e.process s3).processes e.process
              { getProc (case_DONE_unbounded e.process s3).processes e.process with
                clock := (case_DONE_unbounded e.process s3).CURRENT_TIME } } := by
      unfold transition_unbounded; dsimp only; rw [hns]; dsimp only; rw [hs3]
    have hnow : (transition_unbounded e { s with events := rest }).CURRENT_TIME = e.timestamp :=
      transition_unbounded_time _ _
    rw [record_other g e (by rw [hns]; simp) hold]
    refine congr h _ ?_ ?_ ?_ (by rw [hnow]; exact hge) ?_
    · rw [hres, case_DONE_unbounded_effect]
      show s3.output.number_io_processes = _
      rw [o1, if_neg hold]
    · rw [hres, case_DONE_unbounded_effect]
      show s3.output.ioUtilization = _
      rw [o2, if_neg (fun hc => hold hc.1)]
    · rw [hres, case_DONE_unbounded_effect]
      show s3.output.start_of_IO_utilization = _
      rw [o3]
    · rw [hres, case_DONE_unbounded_effect]
      show (blocked_events s3.events).Perm _
      rw [f3, he, blocked_events_cons_of_not _ _ hold]

theorem io_call_scheduler (h : IoInv s g) : IoInv (call_scheduler s) g := by
  refine congr h _ ?_ ?_ ?_ ?_ ?_
  · rw [call_scheduler_output]
  · rw [call_scheduler_output]
  · rw [call_scheduler_output]
  · rw [call_scheduler_time]
  · unfold call_scheduler
    split
    · split
      · exact List.Perm.refl _
      · dsimp only
        cases hrun : s.CURRENT_RUNNING_PROCESS with
        | some r => exact List.Perm.refl _
        | none =>
          dsimp only
          cases hq : s.scheduler.get_next_process.1 with
          | none => exact List.Perm.refl _
          | some q =>
            refine (blocked_events_put _ _).trans ?_
            rw [blocked_events_cons_of_not _ _ (by simp)]
    · exact List.Perm.refl _

end IoInv

end Sched

namespace Sched
open DES_Layer Simulator

theorem io_log_snoc (l : List Event) (e : Event) :
    io_log (l ++ [e]) = (io_log l).record e := by
  simp [io_log, List.foldl_append]

theorem mem_cover (bursts : List (Int × Int)) (x : Int) :
    x ∈ cover bursts ↔ ∃ b ∈ bursts, b.1 ≤ x ∧ x < b.2 := by
  induction bursts with
  | nil => simp [cover]
  | cons b rest ih =>
    have h : cover (b :: rest) = Finset.Ico b.1 b.2 ∪ cover rest := rfl
    rw [h, Finset.mem_union, ih, Finset.mem_Ico]
    simp

theorem IoInv.blocked_start_unbounded (u : Uninitialised) (policy : Policy) (rn : List Int)
    (input : List InputLine) (t : Int) :
    IoInv { start_unbounded u policy rn input with CURRENT_TIME := t } (io_log []) := by
  have hev := start_unbounded_events u policy rn input
  have hmem := mem_initial_events_unbounded input 0
  have hnone : ∀ x ∈ (start_unbounded u policy rn input).events, x.old_state ≠ State.BLOCKED := by
    intro x hx hxb
    have hx2 : x ∈ initial_events_unbounded 0 input := by rw [← hev]; exact hx
    obtain ⟨_, _, _, _, _, h4, _⟩ := hmem x hx2
    rw [h4] at hxb; simp at hxb
  have hbl : blocked_events (start_unbounded u policy rn input).events = [] := by
    unfold blocked_events
    rw [List.filter_eq_nil_iff]
    intro x hx
    simpa using hnone x hx
  have hcov : ∀ x, ¬ Covered { start_unbounded u policy rn input with CURRENT_TIME := t } (io_log []) x := by
    intro x hc
    rcases hc with ⟨b, hb, _⟩ | ⟨e, he, heb, _⟩
    · simp [io_log] at hb
    · exact hnone e he heb
  constructor
  · show (0 : Int) = ((blocked_events (start_unbounded u policy rn input).events).length : Int)
    rw [hbl]; rfl
  · refine ⟨∅, rfl, ?_⟩
    intro x
    constructor
    · intro hx; simp at hx
    · intro hx; exact absurd hx.1 (hcov x)
  · intro _ x hx
    exact absurd hx (hcov x)
  · intro h
    have h0 : (0 : Int) < 0 := h
    omega

/-- Along a run from a valid input the loop invariant and its I/O part hold
together (up to the time the loop starts with, which it never reads). -/
theorem io_reach (u : Uninitialised) (policy : Policy) (rn : List Int)
    (input : List InputLine)
    (htab : ∀ x ∈ rn, 0 ≤ x) (hq : 1 ≤ (make_scheduler policy).quantum)
    (hsorted : input.Pairwise (fun a b => a.at_ ≤ b.at_))
    (htc : ∀ line ∈ input, 0 ≤ line.totCPU)
    (hcb : ∀ line ∈ input, 1 ≤ line.cpuB) (hib : ∀ line ∈ input, 1 ≤ line.ioB) (n : Nat) :
    ∃ t, Inv { simulation_unbounded n (start_unbounded u policy rn input) with CURRENT_TIME := t } ∧
      IoInv { simulation_unbounded n (start_unbounded u policy rn input) with CURRENT_TIME := t }
        (io_log (processed_unbounded (start_unbounded u policy rn input) n)) := by
  induction n with
  | zero =>
    obtain ⟨_, t, h0⟩ := reach_inv u policy rn input htab hq hsorted htc hcb hib 0
    exact ⟨t, h0, IoInv.blocked_start_unbounded u policy rn input t⟩
  | succ n ih =>
    obtain ⟨t, hi, hc⟩ := ih
    cases hev : (simulation_unbounded n (start_unbounded u policy rn input)).events with
    | nil =>
      rw [simulation_unbounded_succ, turn_unbounded_nil hev, processed_unbounded_nil _ _ hev]
      exact ⟨t, hi, hc⟩
    | cons e rest =>
      have hev2 : ({ simulation_unbounded n (start_unbounded u policy rn input) with
          CURRENT_TIME := t } : Simulator).events = e :: rest := hev
      have hturn : simulation_unbounded (n + 1) (start_unbounded u policy rn input)
          = call_scheduler (transition_unbounded e
              { ({ simulation_unbounded n (start_unbounded u policy rn input) with
                  CURRENT_TIME := t } : Simulator) with events := rest }) := by
        rw [simulation_unbounded_succ, turn_unbounded_cons hev]
        rfl
      rw [processed_unbounded_cons _ _ hev, io_log_snoc]
      refine ⟨(simulation_unbounded (n + 1) (start_unbounded u policy rn input)).CURRENT_TIME, ?_, ?_⟩
      · show Inv (simulation_unbounded (n + 1) (start_unbounded u policy rn input))
        rw [hturn]
        exact Inv.call_scheduler_inv (Inv.transition_unbounded_inv hi hev2)
      · show IoInv (simulation_unbounded (n + 1) (start_unbounded u policy rn input)) _
        rw [hturn]
        exact IoInv.io_call_scheduler (IoInv.io_transition_unbounded hi hc hev2)

end Sched

namespace Sched
open DES_Layer Simulator

/-! ## What a turn does to the pending events and the runqueue -/

theorem case_READY_unbounded_shape {s : Simulator} (hi : Inv s) (p : Nat)
    (hnoev : ∀ x ∈ s.events, x.process ≠ p)
    (hp : p < s.processes.length) (hnr : p ∉ s.scheduler.pids)
    (hnod : ∀ x ∈ s.events, x.new_state ≠ State.RUNNING) :
    (case_READY_unbounded p s).scheduler.pids.length ≤ s.scheduler.pids.length + 1 ∧
    ((case_READY_unbounded p s).events = s.events ∨
      ∃ x l, s.events.Perm (x :: l) ∧ x.old_state = State.RUNNING ∧
        (case_READY_unbounded p s).events.Perm
          (⟨s.CURRENT_TIME, x.process, State.RUNNING, State.READY⟩ :: l)) := by
  have hlen : (s.scheduler.add_process s.processes p).1.pids.length
      ≤ s.scheduler.pids.length + 1 := by
    rcases Scheduler.add_process_pids s.scheduler s.processes p with h | h
    · rw [h.length_eq]; simp
    · rw [h]; omega
  by_cases hc : 0 < (getProc (s.scheduler.add_process s.processes p).2 p).remainingBurstTime
  · rw [case_READY_unbounded_clear s p hc]
    exact ⟨hlen, Or.inl rfl⟩
  · by_cases hpre : ∃ r, s.CURRENT_RUNNING_PROCESS = some r ∧
        (s.scheduler.add_process s.processes p).1.preprio_flag = true ∧
        (s.scheduler.add_process s.processes p).1.test_preempt
          (s.scheduler.add_process s.processes p).2 r p s.CURRENT_TIME = true
    · obtain ⟨r, hr, hf, ht⟩ := hpre
      rw [case_READY_unbounded_preempt s p r hc hr hf ht]
      refine ⟨hlen, Or.inr ?_⟩
      have hi1 := Inv.add_ready hi p hnoev hp hnr
      have hlt := (Scheduler.test_preempt_true _ _ _ _ _ ht).2
      have hrlen := hi1.running_proc r hr
      have hex : ∃ x ∈ s.events, x.process = r := by
        by_contra hcon
        have := hi1.running_idle r hr (fun x hx hxr => hcon ⟨x, hx, hxr⟩)
        have h2 : (getProc (s.scheduler.add_process s.processes p).2 r).stopRunningTime
            ≤ s.CURRENT_TIME := this
        omega
      obtain ⟨l1, x, l2, e1, _, e3, e4⟩ :=
        remove_event_split (s.scheduler.add_process s.processes p).2 r s.events (by
          obtain ⟨x, hx, hxr⟩ := hex
          exact ⟨x, hx, by rw [hxr]⟩)
      have hxmem : x ∈ s.events := by rw [e1]; simp
      have hxr : x.process = r := by
        have h1 := hi1.pid_index x.process (hi1.event_proc x hxmem)
        have h2 := hi1.pid_index r hrlen
        have h3 : (getProc (s.scheduler.add_process s.processes p).2 x.process).pid
            = x.process := h1
        have h4 : (getProc (s.scheduler.add_process s.processes p).2 r).pid = r := h2
        rw [h3, h4] at e3
        exact e3
      have hxold : x.old_state = State.RUNNING := by
        rcases hi1.running_kind r hr x hxmem hxr with h1 | h1
        · exact h1
        · exact absurd h1 (hnod x hxmem)
      refine ⟨x, l1 ++ l2, ?_, hxold, ?_⟩
      · rw [e1]; exact List.perm_middle
      · show (put_event _ (remove_event _ r s.events)).Perm _
        rw [e4, hxr]
        exact put_event_perm _ _
    · rw [case_READY_unbounded_stay s p hc (fun r hr hx => hpre ⟨r, hr, hx.1, hx.2⟩)]
      exact ⟨hlen, Or.inl rfl⟩

/-- What the transition of the head event `e` leaves pending and in the
runqueue, for each kind of `e`. -/
theorem transition_unbounded_shape {s : Simulator} {e : Event} {rest : List Event}
    (hi : Inv s) (he : s.events = e :: rest) :
    (e.new_state = State.READY ∧
      (transition_unbounded e { s with events := rest }).scheduler.pids.length
        ≤ s.scheduler.pids.length + 1 ∧
      ((transition_unbounded e { s with events := rest }).events = rest ∨
        ∃ x l, rest.Perm (x :: l) ∧ x.old_state = State.RUNNING ∧
          (transition_unbounded e { s with events := rest }).events.Perm
            (⟨e.timestamp, x.process, State.RUNNING, State.READY⟩ :: l))) ∨
    (e.new_state = State.RUNNING ∧
      (transition_unbounded e { s with events := rest }).scheduler = s.scheduler ∧
      ∃ slice X, 0 ≤ slice ∧ (X ≠ State.DONE → 1 ≤ slice) ∧
        (transition_unbounded e { s with events := rest }).events.Perm
          (⟨e.timestamp + slice, e.process, State.RUNNING, X⟩ :: rest)) ∨
    (e.new_state = State.BLOCKED ∧
      (transition_unbounded e { s with events := rest }).scheduler = s.scheduler ∧
      ∃ d, 0 ≤ d ∧
        (transition_unbounded e { s with events := rest }).events.Perm
          (⟨e.timestamp + d, e.process, State.BLOCKED, State.READY⟩ :: rest)) ∨
    (e.new_state = State.DONE ∧
      (transition_unbounded e { s with events := rest }).scheduler = s.scheduler ∧
      (transition_unbounded e { s with events := rest }).events = rest) := by
  have hshape := hi.event_shape e (Inv.head_mem he)
  have hp : e.process < s.processes.length := hi.event_proc e (Inv.head_mem he)
  obtain ⟨s3, hs3⟩ : ∃ s3, s3 = update_stats e
      { s with events := rest, CURRENT_TIME := e.timestamp } := ⟨_, rfl⟩
  obtain ⟨f1, f2, f3, f4, f5, f6, f7, f8⟩ :
      s3.random_nums = s.random_nums ∧ s3.ofs = s.ofs ∧ s3.events = rest ∧
      s3.processes = s.processes ∧ s3.scheduler = s.scheduler ∧
      s3.CURRENT_RUNNING_PROCESS = s.CURRENT_RUNNING_PROCESS ∧
      s3.CURRENT_TIME = e.timestamp ∧ s3.CALL_SCHEDULER = s.CALL_SCHEDULER := by
    rw [hs3]; exact Inv.stats_fields e _
  cases hns : e.new_state with
  | CREATED =>
    rcases hshape with h1 | h1 | h1 | h1 | h1 | h1 <;> · rw [hns] at h1; simp at h1
  | READY =>
    left
    have hne : e.new_state ≠ State.RUNNING := by rw [hns]; simp
    have hi3 : Inv s3 := by rw [hs3]; exact Inv.after_stats hi he hne
    have hev : (transition_unbounded e { s with events := rest }).events
        = (case_READY_unbounded e.process s3).events := by
      unfold transition_unbounded; dsimp only; rw [hns]; dsimp only; rw [hs3]
    have hsch : (transition_unbounded e { s with events := rest }).scheduler
        = (case_READY_unbounded e.process s3).scheduler := by
      unfold transition_unbounded; dsimp only; rw [hns]; dsimp only; rw [hs3]
    have := case_READY_unbounded_shape hi3 e.process
      (by rw [f3]; exact Inv.rest_ne hi he) (by rw [f4]; exact hp)
      (by rw [f5]; intro hmem; exact Inv.head_not_ready hi he _ hmem rfl)
      (by rw [f3]; exact Inv.rest_no_dispatch hi he)
    rw [f3, f5, f7] at this
    rw [hev, hsch]
    exact ⟨rfl, this⟩
  | RUNNING =>
    right; left
    obtain ⟨slice, rbt, rem1, X, ofs1, c1, c2, c3, c4, c5, c6, c7, c8, c9⟩ :=
      case_RUNNING_unbounded_effect s3
        e.process (by rw [f5]; exact hi.quantum_pos) (by rw [f4]; exact (hi.bursts_pos _ hp).1)
        (by rw [f1]; exact hi.table_nonneg) (by rw [f4]; exact hi.rem_nonneg _ hp)
    have hres : transition_unbounded e { s with events := rest }
        = { (case_RUNNING_unbounded e.process s3) with
            processes := setProc (case_RUNNING_unbounded e.process s3).processes e.process
              { getProc (case_RUNNING_unbounded e.process s3).processes e.process with
                clock := (case_RUNNING_unbounded e.process s3).CURRENT_TIME } } := by
      unfold transition_unbounded; dsimp only; rw [hns]; dsimp only; rw [hs3]
    refine ⟨rfl, ?_, slice, X, c3, c7, ?_⟩
    · rw [hres, c1]; exact f5
    · rw [hres, c1]
      show (put_event _ s3.events).Perm _
      rw [f3, f7]
      exact put_event_perm _ _
  | BLOCKED =>
    right; right; left
    have hres : transition_unbounded e { s with events := rest }
        = { (case_BLOCKED_unbounded e.process s3) with
            processes := setProc (case_BLOCKED_unbounded e.process s3).processes e.process
              { getProc (case_BLOCKED_unbounded e.process s3).processes e.process with
                clock := (case_BLOCKED_unbounded e.process s3).CURRENT_TIME } } := by
      unfold transition_unbounded; dsimp only; rw [hns]; dsimp only; rw [hs3]
    have hd := (get_random_number_range s3.random_nums s3.ofs
      (getProc s3.processes e.process).ioBurst (by rw [f1]; exact hi.table_nonneg)
      (by rw [f4]; exact (hi.bursts_pos _ hp).2)).1
    refine ⟨rfl, ?_, _, le_trans (by decide) hd, ?_⟩
    · rw [hres, case_BLOCKED_unbounded_effect]; exact f5
    · rw [hres, case_BLOCKED_unbounded_effect]
      show (put_event _ s3.events).Perm _
      rw [f3, f7]
      exact put_event_perm _ _
  | DONE =>
    right; right; right
    have hres : transition_unbounded e { s with events := rest }
        = { (case_DONE_unbounded e.process s3) with
            processes := setProc (case_DONE_unbounded e.process s3).processes e.process
              { getProc (case_DONE_unbounded e.process s3).processes e.process with
                clock := (case_DONE_unbounded e.process s3).CURRENT_TIME } } := by
      unfold transition_unbounded; dsimp only; rw [hns]; dsimp only; rw [hs3]
    refine ⟨rfl, ?_, ?_⟩
    · rw [hres, case_DONE_unbounded_effect]; exact f5
    · rw [hres, case_DONE_unbounded_effect]; exact f3

/-- The scheduler call either leaves the pending events and the runqueue as
they are, or, with no process in the running slot, takes one process from the
runqueue and puts its `READY -> RUNNING` event. -/
theorem call_scheduler_shape (s : Simulator) :
    ((call_scheduler s).events = s.events ∧
      (call_scheduler s).scheduler.pids.length = s.scheduler.pids.length) ∨
    (s.CURRENT_RUNNING_PROCESS = none ∧ ∃ q,
      s.scheduler.pids.length = (call_scheduler s).scheduler.pids.length + 1 ∧
      (call_scheduler s).events.Perm
        (⟨s.CURRENT_TIME, q, State.READY, State.RUNNING⟩ :: s.events)) := by
  unfold call_scheduler
  split
  · split
    · exact Or.inl ⟨rfl, rfl⟩
    · dsimp only
      cases hrun : s.CURRENT_RUNNING_PROCESS with
      | some r => exact Or.inl ⟨rfl, rfl⟩
      | none =>
        dsimp only
        cases hq : s.scheduler.get_next_process.1 with
        | none =>
          left
          exact ⟨rfl, ((Scheduler.get_next_process_pids s.scheduler).2 hq).length_eq⟩
        | some q =>
          right
          refine ⟨rfl, q, ?_, put_event_perm _ _⟩
          have := ((Scheduler.get_next_process_pids s.scheduler).1 q hq).length_eq
          rw [this]; simp
  · exact Or.inl ⟨rfl, rfl⟩

end Sched

namespace Sched
open DES_Layer Simulator

/-! ## Every turn of the loop makes the measure smaller -/

theorem record_entered (g : CpuLog) (e : Event) :
    (g.record e).entered
      = if e.new_state = State.RUNNING then Function.update g.entered e.process e.timestamp
        else g.entered := by
  unfold CpuLog.record
  split
  · rfl
  · split <;> rfl

theorem record_ran (g : CpuLog) (e : Event) :
    (g.record e).ran
      = if e.new_state ≠ State.RUNNING ∧ e.old_state = State.RUNNING then
          Function.update g.ran e.process (g.ran e.process + (e.timestamp - g.entered e.process))
        else g.ran := by
  unfold CpuLog.record
  split
  · rename_i h; simp [h]
  · rename_i h
    split
    · rename_i h2; simp [h, h2]
    · rename_i h2; simp [h2]

theorem work_left_congr (tc : Nat → Int) (g g1 : CpuLog) (n : Nat) (h : g1.ran = g.ran) :
    work_left tc g1 n = work_left tc g n := by
  unfold work_left
  rw [h]

theorem work_left_update (tc : Nat → Int) (g g1 : CpuLog) (p : Nat) (d : Int)
    (h : g1.ran = Function.update g.ran p (g.ran p + d)) (n : Nat) :
    work_left tc g1 n = work_left tc g n - (if p < n then d else 0) := by
  unfold work_left
  rw [h]
  induction n with
  | zero => simp
  | succ n ih =>
    rw [List.range_succ, List.map_append, List.map_append, List.sum_append, List.sum_append, ih]
    simp only [List.map_cons, List.map_nil, List.sum_cons, List.sum_nil]
    by_cases hpn : p = n
    · subst hpn
      rw [Function.update_same]
      simp
      omega
    · rw [Function.update_noteq (Ne.symm hpn)]
      by_cases hlt : p < n
      · have : p < n + 1 := by omega
        rw [if_pos hlt, if_pos this]
        omega
      · have : ¬ p < n + 1 := by omega
        rw [if_neg hlt, if_neg this]
        omega

theorem stage_pos (e : Event) : 1 ≤ stage e := by
  unfold stage
  split
  · exact le_refl _
  · split <;> decide

theorem stage_sum_nonneg (l : List Event) : 0 ≤ (l.map stage).sum := by
  apply List.sum_nonneg
  intro x hx
  obtain ⟨e, _, rfl⟩ := List.mem_map.1 hx
  have := stage_pos e
  omega

theorem potential_nonneg {tc : Nat → Int} {s : Simulator} {g : CpuLog}
    (hi : Inv s) (h : InvCpu tc s g) : 0 ≤ potential tc s g := by
  have h1 : 0 ≤ work_left tc g s.processes.length := by
    unfold work_left
    apply List.sum_nonneg
    intro x hx
    obtain ⟨i, hi1, rfl⟩ := List.mem_map.1 hx
    have := InvCpu.ran_bound hi h i (List.mem_range.1 hi1)
    omega
  have h2 := stage_sum_nonneg s.events
  unfold potential
  omega

namespace InvProgress

variable {tc : Nat → Int} {s : Simulator} {g : CpuLog} {e : Event} {rest : List Event}

theorem call_scheduler_progress (hi : Inv s) (h : InvProgress s g) :
    InvProgress (call_scheduler s) g ∧ potential tc (call_scheduler s) g ≤ potential tc s g := by
  have hlen := call_scheduler_length s
  rcases call_scheduler_shape s with ⟨h1, h2⟩ | ⟨hrun, q, h2, h3⟩
  · constructor
    · constructor
      · rw [h1]; exact h.strict
      · rw [h1]; exact h.ahead
    · unfold potential
      rw [h1, h2, hlen]
  · have hno := Inv.no_running_of_none hi hrun
    have hmem : ∀ x, x ∈ (call_scheduler s).events → x.old_state = State.RUNNING → False := by
      intro x hx hxo
      rcases List.mem_cons.1 (h3.mem_iff.1 hx) with rfl | hx
      · simp at hxo
      · exact hno x hx (Or.inl hxo)
    constructor
    · constructor
      · intro x hx hxo; exact absurd hxo (fun hc => hmem x hx hc)
      · intro x hx hxo; exact absurd hxo (fun hc => hmem x hx hc)
    · unfold potential
      have hsum : ((call_scheduler s).events.map stage).sum = 2 + (s.events.map stage).sum := by
        rw [(h3.map stage).sum_eq]
        rfl
      rw [hsum, hlen, h2]
      push_cast
      omega

theorem transition_unbounded_progress (hi : Inv s) (hc : InvCpu tc s g) (h : InvProgress s g)
    (he : s.events = e :: rest) :
    InvProgress (transition_unbounded e { s with events := rest }) (g.record e) ∧
    potential tc (transition_unbounded e { s with events := rest }) (g.record e) + 1
      ≤ potential tc s g := by
  have hem := Inv.head_mem he
  have hp : e.process < s.processes.length := hi.event_proc e hem
  have hlen : (transition_unbounded e { s with events := rest }).processes.length
      = s.processes.length := transition_unbounded_length _ _
  have hne := Inv.rest_ne hi he
  have hrest_ne : ∀ x ∈ rest, x ≠ e := fun x hx hxe => hne x hx (by rw [hxe])
  have hsum0 : (s.events.map stage).sum = stage e + (rest.map stage).sum := by
    rw [he]; rfl
  -- the events left in `rest` keep what the invariant says of them
  have hkeep_strict : ∀ x ∈ rest, x.old_state = State.RUNNING → x.new_state ≠ State.DONE →
      g.entered x.process < x.timestamp :=
    fun x hx => h.strict x (Inv.rest_mem he hx)
  have hkeep_head : ∀ x ∈ rest, x.old_state = State.RUNNING →
      g.entered x.process < e.timestamp :=
    fun x hx hxo => h.ahead x (Inv.rest_mem he hx) hxo e hem (fun hc => hrest_ne x hx hc.symm)
  have hkeep_ahead : ∀ x ∈ rest, x.old_state = State.RUNNING → ∀ y ∈ rest, y ≠ x →
      g.entered x.process < y.timestamp :=
    fun x hx hxo y hy => h.ahead x (Inv.rest_mem he hx) hxo y (Inv.rest_mem he hy)
  -- what the head event adds to the time spent running
  have hwork : e.old_state = State.RUNNING → e.new_state ≠ State.RUNNING →
      work_left tc (g.record e) s.processes.length
        = work_left tc g s.processes.length - (e.timestamp - g.entered e.process) := by
    intro ho hn
    have := work_left_update tc g (g.record e) e.process (e.timestamp - g.entered e.process)
      (by rw [record_ran]; simp [ho, hn]) s.processes.length
    rw [this, if_pos hp]
  have hsame : ¬ (e.new_state ≠ State.RUNNING ∧ e.old_state = State.RUNNING) →
      work_left tc (g.record e) s.processes.length = work_left tc g s.processes.length := by
    intro hn
    exact work_left_congr tc g _ _ (by rw [record_ran, if_neg hn])
  have hweak : e.old_state = State.RUNNING → g.entered e.process ≤ e.timestamp := by
    intro ho
    have := (hc.running e hem ho).2
    have := Inv.head_ge hi he
    omega
  rcases transition_unbounded_shape hi he with ⟨hns, hq, hev⟩ | ⟨hns, hq, slice, X, hs0, hs1, hev⟩ |
      ⟨hns, hq, d, hd, hev⟩ | ⟨hns, hq, hev⟩
  · -- into READY
    have hent : (g.record e).entered = g.entered := by
      rw [record_entered, if_neg (by rw [hns]; simp)]
    have hpot : ((transition_unbounded e { s with events := rest }).events.map stage).sum
        = (rest.map stage).sum := by
      rcases hev with hev | ⟨x, l, hl, hxo, hev⟩
      · rw [hev]
      · rw [(hev.map stage).sum_eq, (hl.map stage).sum_eq]
        simp [stage, hxo]
    constructor
    · rcases hev with hev | ⟨x, l, hl, hxo, hev⟩
      · constructor
        · intro z hz
          rw [hev] at hz
          rw [hent]
          exact hkeep_strict z hz
        · intro z hz hzo y hy
          rw [hev] at hz hy
          rw [hent]
          exact hkeep_ahead z hz hzo y hy
      · have hxrest : x ∈ rest := hl.mem_iff.2 (List.mem_cons_self _ _)
        have hlrest : ∀ y ∈ l, y ∈ rest := fun y hy => hl.mem_iff.2 (List.mem_cons_of_mem _ hy)
        have hnd : ((x :: l).map Event.process).Nodup :=
          (hl.map Event.process).nodup_iff.1 (Inv.rest_nodup hi he)
        have hxl : ∀ y ∈ l, y ≠ x := by
          intro y hy hyx
          rw [List.map_cons, List.nodup_cons] at hnd
          exact hnd.1 (by rw [← hyx]; exact List.mem_map_of_mem _ hy)
        constructor
        · rw [hent]
          intro z hz hzo _
          rcases List.mem_cons.1 (hev.mem_iff.1 hz) with rfl | hz
          · exact hkeep_head x hxrest hxo
          · exact hkeep_strict z (hlrest z hz) hzo (by assumption)
        · rw [hent]
          intro z hz hzo y hy hyz
          rcases List.mem_cons.1 (hev.mem_iff.1 hz) with rfl | hz
          · rcases List.mem_cons.1 (hev.mem_iff.1 hy) with rfl | hy
            · exact absurd rfl hyz
            · exact hkeep_ahead x hxrest hxo y (hlrest y hy) (hxl y hy)
          · rcases List.mem_cons.1 (hev.mem_iff.1 hy) with rfl | hy
            · exact hkeep_head z (hlrest z hz) hzo
            · exact hkeep_ahead z (hlrest z hz) hzo y (hlrest y hy) hyz
    · unfold potential
      rw [hpot, hlen, hsum0]
      by_cases ho : e.old_state = State.RUNNING
      · have h1 := hwork ho (by rw [hns]; simp)
        have h2 := h.strict e hem ho (by rw [hns]; simp)
        have h3 : stage e = 1 := by simp [stage, ho]
        rw [h1, h3]
        push_cast
        omega
      · have h1 := hsame (fun hcon => ho hcon.2)
        have h3 : stage e = 4 := by simp [stage, ho, hns]
        rw [h1, h3]
        push_cast
        omega
  · -- into RUNNING
    have hent : (g.record e).entered = Function.update g.entered e.process e.timestamp := by
      rw [record_entered, if_pos hns]
    have hfirst : ∀ y ∈ rest, e.timestamp < y.timestamp := by
      intro y hy
      obtain ⟨h1, h2⟩ := hi.dispatch_first e hem hns
      have := h2 y (Inv.rest_mem he hy) (hrest_ne y hy)
      omega
    have hold : e.old_state ≠ State.RUNNING := by
      rcases hi.event_shape e hem with h1 | h1 | h1 | h1 | h1 | h1 <;>
        first
        | (rw [h1.1]; simp; done)
        | (rw [hns] at h1; simp at h1; done)
    constructor
    · constructor
      · rw [hent]
        intro z hz hzo hzd
        rcases List.mem_cons.1 (hev.mem_iff.1 hz) with rfl | hz
        · show Function.update g.entered e.process e.timestamp e.process < e.timestamp + slice
          rw [Function.update_same]
          have := hs1 hzd
          omega
        · rw [Function.update_noteq (hne z hz)]
          exact hkeep_strict z hz hzo hzd
      · rw [hent]
        intro z hz hzo y hy hyz
        rcases List.mem_cons.1 (hev.mem_iff.1 hz) with rfl | hz
        · rcases List.mem_cons.1 (hev.mem_iff.1 hy) with rfl | hy
          · exact absurd rfl hyz
          · show Function.update g.entered e.process e.timestamp e.process < y.timestamp
            rw [Function.update_same]
            exact hfirst y hy
        · rw [Function.update_noteq (hne z hz)]
          rcases List.mem_cons.1 (hev.mem_iff.1 hy) with rfl | hy
          · have := hkeep_head z hz hzo
            show g.entered z.process < e.timestamp + slice
            omega
          · exact hkeep_ahead z hz hzo y hy hyz
    · unfold potential
      have hpot : ((transition_unbounded e { s with events := rest }).events.map stage).sum
          = 1 + (rest.map stage).sum := by
        rw [(hev.map stage).sum_eq]
        simp [stage]
      have h1 := hsame (fun hcon => hcon.1 hns)
      have h3 : stage e = 2 := by simp [stage, hold, hns]
      rw [hpot, hlen, hsum0, hq, h1, h3]
      omega
  · -- into BLOCKED
    have hent : (g.record e).entered = g.entered := by
      rw [record_entered, if_neg (by rw [hns]; simp)]
    have hold : e.old_state = State.RUNNING := by
      rcases hi.event_shape e hem with h1 | h1 | h1 | h1 | h1 | h1 <;>
        first
        | exact h1.1
        | (rw [hns] at h1; simp at h1; done)
    constructor
    · constructor
      · rw [hent]
        intro z hz hzo hzd
        rcases List.mem_cons.1 (hev.mem_iff.1 hz) with rfl | hz
        · simp at hzo
        · exact hkeep_strict z hz hzo hzd
      · rw [hent]
        intro z hz hzo y hy hyz
        rcases List.mem_cons.1 (hev.mem_iff.1 hz) with rfl | hz
        · simp at hzo
        · rcases List.mem_cons.1 (hev.mem_iff.1 hy) with rfl | hy
          · have := hkeep_head z hz hzo
            show g.entered z.process < e.timestamp + d
            omega
          · exact hkeep_ahead z hz hzo y hy hyz
    · unfold potential
      have hpot : ((transition_unbounded e { s with events := rest }).events.map stage).sum
          = 4 + (rest.map stage).sum := by
        rw [(hev.map stage).sum_eq]
        simp [stage]
      have h1 := hwork hold (by rw [hns]; simp)
      have h2 := h.strict e hem hold (by rw [hns]; simp)
      have h3 : stage e = 1 := by simp [stage, hold]
      rw [hpot, hlen, hsum0, hq, h1, h3]
      omega
  · -- into DONE
    have hent : (g.record e).entered = g.entered := by
      rw [record_entered, if_neg (by rw [hns]; simp)]
    have hold : e.old_state = State.RUNNING := by
      rcases hi.event_shape e hem with h1 | h1 | h1 | h1 | h1 | h1 <;>
        first
        | exact h1.1
        | (rw [hns] at h1; simp at h1; done)
    constructor
    · constructor
      · intro z hz
        rw [hev] at hz
        rw [hent]
        exact hkeep_strict z hz
      · intro z hz hzo y hy
        rw [hev] at hz hy
        rw [hent]
        exact hkeep_ahead z hz hzo y hy
    · unfold potential
      have h1 := hwork hold (by rw [hns]; simp)
      have h2 := hweak hold
      have h3 : stage e = 1 := by simp [stage, hold]
      rw [hev, hlen, hsum0, hq, h1, h3]
      omega

end InvProgress

end Sched

namespace Sched
open DES_Layer Simulator

/-! ## The loop exits -/

theorem InvProgress.progress_start_unbounded (u : Uninitialised) (policy : Policy) (rn : List Int)
    (input : List InputLine) (t : Int) :
    InvProgress { start_unbounded u policy rn input with CURRENT_TIME := t } (cpu_log []) := by
  have hev := start_unbounded_events u policy rn input
  have hmem := mem_initial_events_unbounded input 0
  have hnone : ∀ x ∈ (start_unbounded u policy rn input).events, x.old_state ≠ State.RUNNING := by
    intro x hx hxb
    have hx2 : x ∈ initial_events_unbounded 0 input := by rw [← hev]; exact hx
    obtain ⟨_, _, _, _, _, h4, _⟩ := hmem x hx2
    rw [h4] at hxb; simp at hxb
  constructor
  · intro x hx hxo; exact absurd hxo (hnone x hx)
  · intro x hx hxo; exact absurd hxo (hnone x hx)

/-- Along a run from a valid input the loop invariant holds with its cpu part
and its progress part, and as long as an event is pending the measure has gone
down by one with every turn. -/
theorem progress_reach (u : Uninitialised) (policy : Policy) (rn : List Int)
    (input : List InputLine)
    (htab : ∀ x ∈ rn, 0 ≤ x) (hq : 1 ≤ (make_scheduler policy).quantum)
    (hsorted : input.Pairwise (fun a b => a.at_ ≤ b.at_))
    (htc : ∀ line ∈ input, 0 ≤ line.totCPU)
    (hcb : ∀ line ∈ input, 1 ≤ line.cpuB) (hib : ∀ line ∈ input, 1 ≤ line.ioB) (n : Nat) :
    ∃ t, Inv { simulation_unbounded n (start_unbounded u policy rn input) with CURRENT_TIME := t } ∧
      InvCpu (fun i => (getProc (start_unbounded u policy rn input).processes i).totalCPUTime)
        { simulation_unbounded n (start_unbounded u policy rn input) with CURRENT_TIME := t }
        (cpu_log (processed_unbounded (start_unbounded u policy rn input) n)) ∧
      InvProgress { simulation_unbounded n (start_unbounded u policy rn input) with CURRENT_TIME := t }
        (cpu_log (processed_unbounded (start_unbounded u policy rn input) n)) ∧
      ((simulation_unbounded n (start_unbounded u policy rn input)).events = [] ∨
        potential (fun i => (getProc (start_unbounded u policy rn input).processes i).totalCPUTime)
            (simulation_unbounded n (start_unbounded u policy rn input))
            (cpu_log (processed_unbounded (start_unbounded u policy rn input) n)) + (n : Int)
          ≤ potential (fun i => (getProc (start_unbounded u policy rn input).processes i).totalCPUTime)
            (start_unbounded u policy rn input) (cpu_log [])) := by
  induction n with
  | zero =>
    obtain ⟨_, t, h0⟩ := reach_inv u policy rn input htab hq hsorted htc hcb hib 0
    refine ⟨t, h0, InvCpu.cpu_start_unbounded u policy rn input t,
      InvProgress.progress_start_unbounded u policy rn input t, Or.inr ?_⟩
    show potential _ (start_unbounded u policy rn input) (cpu_log []) + ((0 : Nat) : Int) ≤ _
    simp
  | succ n ih =>
    obtain ⟨t, hi, hc, hp, hpot⟩ := ih
    cases hev : (simulation_unbounded n (start_unbounded u policy rn input)).events with
    | nil =>
      rw [simulation_unbounded_succ, turn_unbounded_nil hev, processed_unbounded_nil _ _ hev]
      exact ⟨t, hi, hc, hp, Or.inl hev⟩
    | cons e rest =>
      have hev2 : ({ simulation_unbounded n (start_unbounded u policy rn input) with
          CURRENT_TIME := t } : Simulator).events = e :: rest := hev
      have hturn : simulation_unbounded (n + 1) (start_unbounded u policy rn input)
          = call_scheduler (transition_unbounded e
              { ({ simulation_unbounded n (start_unbounded u policy rn input) with
                  CURRENT_TIME := t } : Simulator) with events := rest }) := by
        rw [simulation_unbounded_succ, turn_unbounded_cons hev]
        rfl
      have hpot0 : potential
            (fun i => (getProc (start_unbounded u policy rn input).processes i).totalCPUTime)
            (simulation_unbounded n (start_unbounded u policy rn input))
            (cpu_log (processed_unbounded (start_unbounded u policy rn input) n)) + (n : Int)
          ≤ potential (fun i => (getProc (start_unbounded u policy rn input).processes i).totalCPUTime)
            (start_unbounded u policy rn input) (cpu_log []) := by
        rcases hpot with h | h
        · rw [hev] at h; simp at h
        · exact h
      have hT := Inv.transition_unbounded_inv hi hev2
      obtain ⟨hp1, hd1⟩ := InvProgress.transition_unbounded_progress hi hc hp hev2
      obtain ⟨hp2, hd2⟩ := @InvProgress.call_scheduler_progress
        (fun i => (getProc (start_unbounded u policy rn input).processes i).totalCPUTime) _ _ hT hp1
      rw [processed_unbounded_cons _ _ hev, cpu_log_snoc]
      refine ⟨(simulation_unbounded (n + 1) (start_unbounded u policy rn input)).CURRENT_TIME, ?_, ?_, ?_, Or.inr ?_⟩
      · show Inv (simulation_unbounded (n + 1) (start_unbounded u policy rn input))
        rw [hturn]
        exact Inv.call_scheduler_inv hT
      · show InvCpu _ (simulation_unbounded (n + 1) (start_unbounded u policy rn input)) _
        rw [hturn]
        exact InvCpu.call_scheduler_cpu (InvCpu.transition_unbounded_cpu hi hc hev2)
      · show InvProgress (simulation_unbounded (n + 1) (start_unbounded u policy rn input)) _
        rw [hturn]
        exact hp2
      · rw [hturn]
        have key : ∀ (a b c P : Int), a ≤ b → b + 1 ≤ c → c + (n : Int) ≤ P →
            a + ((n + 1 : Nat) : Int) ≤ P := by
          intro a b c P h1 h2 h3
          push_cast
          omega
        exact key _ _ _ _ hd2 hd1 hpot0

/-- The loop of `simulation` exits on every valid input: after enough turns
the DES holds no event. -/
theorem simulation_unbounded_exits (u : Uninitialised) (policy : Policy) (rn : List Int)
    (input : List InputLine)
    (htab : ∀ x ∈ rn, 0 ≤ x) (hq : 1 ≤ (make_scheduler policy).quantum)
    (hsorted : input.Pairwise (fun a b => a.at_ ≤ b.at_))
    (htc : ∀ line ∈ input, 0 ≤ line.totCPU)
    (hcb : ∀ line ∈ input, 1 ≤ line.cpuB) (hib : ∀ line ∈ input, 1 ≤ line.ioB) :
    ∃ n, (simulation_unbounded n (start_unbounded u policy rn input)).events = [] := by
  obtain ⟨N, hN⟩ : ∃ N : Nat,
      potential (fun i => (getProc (start_unbounded u policy rn input).processes i).totalCPUTime)
        (start_unbounded u policy rn input) (cpu_log []) < (N : Int) :=
    ⟨(potential (fun i => (getProc (start_unbounded u policy rn input).processes i).totalCPUTime)
        (start_unbounded u policy rn input) (cpu_log [])).toNat + 1, by
      push_cast
      have := Int.self_le_toNat (potential
        (fun i => (getProc (start_unbounded u policy rn input).processes i).totalCPUTime)
        (start_unbounded u policy rn input) (cpu_log []))
      omega⟩
  refine ⟨N, ?_⟩
  obtain ⟨t, hi, hc, _, hpot⟩ := progress_reach u policy rn input htab hq hsorted htc hcb hib N
  rcases hpot with h | h
  · exact h
  · have h0 : 0 ≤ potential
        (fun i => (getProc (start_unbounded u policy rn input).processes i).totalCPUTime)
        (simulation_unbounded N (start_unbounded u policy rn input))
        (cpu_log (processed_unbounded (start_unbounded u policy rn input) N)) := by
      have h1 := potential_nonneg hi hc
      exact h1
    omega

end Sched

namespace Sched
open DES_Layer Simulator

/-- Over unbounded integers (I/O union accounting): every run from a valid input reaches the exit
of the loop (a turn after which the DES holds no event), and whenever the loop
has exited the accumulated `ioUtilization` equals the measure of the union of
the intervals `[t, t + d)` of all I/O bursts of the run, where `t` is the time
the event of a process into `BLOCKED` was processed and `t + d` the timestamp of
its event out of `BLOCKED`: instants at which several processes were `BLOCKED`
are counted once, so this is not the sum of the burst lengths. -/
theorem io_union_accounting_unbounded (u : Uninitialised) (policy : Policy) (random_nums : List Int)
    (input_file : List InputLine) (hv : ValidInput policy random_nums input_file) :
    (∃ n, (simulation_unbounded n (start_unbounded u policy random_nums input_file)).events = []) ∧
    ∀ n, (simulation_unbounded n (start_unbounded u policy random_nums input_file)).events = [] →
      (simulation_unbounded n (start_unbounded u policy random_nums input_file)).output.ioUtilization
        = union_measure
            (io_log (processed_unbounded (start_unbounded u policy random_nums input_file) n)).bursts := by
  refine ⟨simulation_unbounded_exits u policy random_nums input_file hv.table_nonneg hv.quantum_pos
    hv.arrival_sorted hv.totcpu_nonneg hv.cpub_pos hv.iob_pos, ?_⟩
  intro n hexit
  obtain ⟨t, _, hio⟩ := io_reach u policy random_nums input_file hv.table_nonneg hv.quantum_pos
    hv.arrival_sorted hv.totcpu_nonneg hv.cpub_pos hv.iob_pos n
  have hev : ({ simulation_unbounded n (start_unbounded u policy random_nums input_file) with
      CURRENT_TIME := t } : Simulator).events = [] := hexit
  have hcount := hio.count
  rw [hev] at hcount
  have hzero : ({ simulation_unbounded n (start_unbounded u policy random_nums input_file) with
      CURRENT_TIME := t } : Simulator).output.number_io_processes = 0 := by
    rw [hcount]; rfl
  obtain ⟨F, hF, hmem⟩ := hio.measured
  have hFc : F = cover (io_log (processed_unbounded (start_unbounded u policy random_nums input_file) n)).bursts := by
    ext x
    rw [hmem x, mem_cover, hzero]
    constructor
    · rintro ⟨hc, _⟩
      rcases hc with hb | ⟨e, he, _⟩
      · exact hb
      · rw [hev] at he; simp at he
    · intro hb
      exact ⟨Or.inl hb, fun h0 => absurd h0 (by omega)⟩
  show ({ simulation_unbounded n (start_unbounded u policy random_nums input_file) with
      CURRENT_TIME := t } : Simulator).output.ioUtilization = _
  rw [hF, hFc]
  rfl

end Sched

namespace Sched

/-! ## The runqueues of FCFS, RR, LCFS and SRTF -/

theorem fcfs_run_calls (processes : List Process) (calls : List Call) :
    ∀ (added : List Nat) (returned : Nat), returned ≤ added.length →
      ((Scheduler.FCFS (added.drop returned)).run_calls processes calls).1
        = fifo_reference added returned calls := by
  induction calls with
  | nil => intro added returned _; rfl
  | cons c calls ih =>
    intro added returned hle
    cases c with
    | add p =>
      have h := ih (added ++ [p]) returned (by simp; omega)
      rw [List.drop_append_of_le_length hle] at h
      exact h
    | next =>
      by_cases hlt : returned < added.length
      · have h := ih added (returned + 1) hlt
        have hd : added.drop returned = added[returned] :: added.drop (returned + 1) :=
          List.drop_eq_getElem_cons hlt
        show ((Scheduler.FCFS (added.drop returned)).get_next_process.1 ::
          ((Scheduler.FCFS (added.drop returned)).get_next_process.2.run_calls
            processes calls).1) = _
        rw [hd]
        simp only [fifo_reference, hlt, if_true]
        rw [← h, List.getElem?_eq_getElem hlt]
        rfl
      · have hd : added.drop returned = [] := List.drop_eq_nil_of_le (by omega)
        have h := ih added returned hle
        rw [hd] at h
        show ((Scheduler.FCFS (added.drop returned)).get_next_process.1 ::
          ((Scheduler.FCFS (added.drop returned)).get_next_process.2.run_calls
            processes calls).1) = _
        rw [hd]
        simp only [fifo_reference, hlt, if_false]
        rw [← h]
        rfl

theorem rr_run_calls (quantum : Int) (processes : List Process) (calls : List Call) :
    ∀ (ready : List Nat),
      ((Scheduler.RR quantum ready).run_calls processes calls).1
        = ((Scheduler.FCFS ready).run_calls processes calls).1 := by
  induction calls with
  | nil => intro ready; rfl
  | cons c calls ih =>
    intro ready
    cases c with
    | add p => exact ih (ready ++ [p])
    | next =>
      cases ready with
      | nil =>
        show none :: ((Scheduler.RR quantum []).run_calls processes calls).1
          = none :: ((Scheduler.FCFS []).run_calls processes calls).1
        rw [ih]
      | cons a rest =>
        show some a :: ((Scheduler.RR quantum rest).run_calls processes calls).1
          = some a :: ((Scheduler.FCFS rest).run_calls processes calls).1
        rw [ih]

/-- C11 (the runqueue of FCFS and of RR is a FIFO): for every sequence of
`add_process` and `get_next_process` calls on a new `FCFS` scheduler, and on a
new `RR` scheduler of any quantum, each `get_next_process` returns what the FIFO
discipline says: the earliest added process not yet returned, and null exactly
when every added process has been returned; so the two classes return the same
on the same calls, from new schedulers and from any equal runqueue. -/
theorem fifo_runqueue (quantum : Int) (processes : List Process) (calls : List Call) :
    (FCFS.FCFS.run_calls processes calls).1 = fifo_reference [] 0 calls ∧
    ((RR.RR quantum).run_calls processes calls).1 = fifo_reference [] 0 calls ∧
    (∀ ready : List Nat,
      ((Scheduler.RR quantum ready).run_calls processes calls).1
        = ((Scheduler.FCFS ready).run_calls processes calls).1) ∧
    (∀ ready : List Nat,
      (Scheduler.RR quantum ready).get_next_process.1 = ready.head? ∧
      (Scheduler.FCFS ready).get_next_process.1 = ready.head? ∧
      ((Scheduler.FCFS ready).get_next_process.1 = none ↔ ready = [])) := by
  have h1 := fcfs_run_calls processes calls [] 0 (le_refl _)
  refine ⟨h1, ?_, rr_run_calls quantum processes calls, ?_⟩
  · rw [← h1]
    exact rr_run_calls quantum processes calls []
  · intro ready
    cases ready <;> simp [Scheduler.get_next_process, RR.get_next_process,
      FCFS.get_next_process]

theorem lcfs_run_calls (processes : List Process) (calls : List Call) :
    ∀ (pending : List Nat),
      ((Scheduler.LCFS pending.reverse).run_calls processes calls).1
        = lifo_reference pending calls := by
  induction calls with
  | nil => intro pending; rfl
  | cons c calls ih =>
    intro pending
    cases c with
    | add p =>
      have h := ih (pending ++ [p])
      rw [List.reverse_append] at h
      exact h
    | next =>
      rcases List.eq_nil_or_concat pending with rfl | ⟨l, x, rfl⟩
      · have h := ih []
        show none :: ((Scheduler.LCFS []).run_calls processes calls).1 = _
        simp only [lifo_reference, List.getLast?_nil, List.dropLast_nil]
        rw [← h]
        rfl
      · have h := ih l
        rw [List.concat_eq_append, List.reverse_append]
        show some x :: ((Scheduler.LCFS l.reverse).run_calls processes calls).1 = _
        simp only [lifo_reference, List.getLast?_append, List.getLast?_singleton,
          List.dropLast_concat]
        rw [← h]
        rfl

/-- C12 (the runqueue of LCFS is a LIFO): for every sequence of `add_process`
and `get_next_process` calls on a new `LCFS` scheduler, each `get_next_process`
returns what the LIFO discipline says: the most recently added process not yet
returned; and it returns null exactly when the runqueue is empty. -/
theorem lifo_runqueue (processes : List Process) (calls : List Call) :
    (LCFS.LCFS.run_calls processes calls).1 = lifo_reference [] calls ∧
    (∀ ready : List Nat, (Scheduler.LCFS ready).get_next_process.1 = none ↔ ready = []) := by
  refine ⟨lcfs_run_calls processes calls [], ?_⟩
  intro ready
  cases ready <;> simp [Scheduler.get_next_process, LCFS.get_next_process]

end Sched

namespace Sched

theorem srtf_add_eq (processes : List Process) (p : Nat) (ready : List Nat)
    (hsorted : ready.Pairwise (fun a b => remaining processes a ≤ remaining processes b)) :
    SRTF.add_process processes p ready
      = ready.filter (fun x => decide (remaining processes x ≤ remaining processes p))
        ++ p :: ready.filter (fun x => decide (remaining processes p < remaining processes x)) := by
  induction ready with
  | nil => rfl
  | cons a rest ih =>
    rw [List.pairwise_cons] at hsorted
    obtain ⟨ha, hrest⟩ := hsorted
    unfold SRTF.add_process
    by_cases hle : remaining processes a ≤ remaining processes p
    · have hle2 : (getProc processes a).remainingCPUtime
          ≤ (getProc processes p).remainingCPUtime := hle
      rw [if_pos hle2, ih hrest]
      have hn : ¬ remaining processes p < remaining processes a := by omega
      simp [List.filter_cons, hle, hn]
    · have hle2 : ¬ (getProc processes a).remainingCPUtime
          ≤ (getProc processes p).remainingCPUtime := hle
      rw [if_neg hle2]
      have h1 : (a :: rest).filter
          (fun x => decide (remaining processes x ≤ remaining processes p)) = [] := by
        rw [List.filter_eq_nil_iff]
        intro x hx
        rcases List.mem_cons.1 hx with rfl | hx
        · simpa using hle
        · have := ha x hx
          simp only [decide_eq_true_eq]
          omega
      have h2 : (a :: rest).filter
          (fun x => decide (remaining processes p < remaining processes x)) = a :: rest := by
        rw [List.filter_eq_self]
        intro x hx
        rcases List.mem_cons.1 hx with rfl | hx
        · simp only [decide_eq_true_eq]; omega
        · have := ha x hx
          simp only [decide_eq_true_eq]
          omega
      rw [h1, h2]
      rfl

theorem srtf_add_sorted (processes : List Process) (p : Nat) (ready : List Nat)
    (hsorted : ready.Pairwise (fun a b => remaining processes a ≤ remaining processes b)) :
    (SRTF.add_process processes p ready).Pairwise
      (fun a b => remaining processes a ≤ remaining processes b) := by
  rw [srtf_add_eq processes p ready hsorted, List.pairwise_append]
  refine ⟨hsorted.sublist (List.filter_sublist _), ?_, ?_⟩
  · rw [List.pairwise_cons]
    refine ⟨?_, hsorted.sublist (List.filter_sublist _)⟩
    intro x hx
    have := (List.mem_filter.1 hx).2
    simp only [decide_eq_true_eq] at this
    omega
  · intro x hx y hy
    have h1 := (List.mem_filter.1 hx).2
    simp only [decide_eq_true_eq] at h1
    rcases List.mem_cons.1 hy with rfl | hy
    · exact h1
    · have h2 := (List.mem_filter.1 hy).2
      simp only [decide_eq_true_eq] at h2
      omega

theorem srtf_add_stable (processes : List Process) (p : Nat) (ready : List Nat)
    (hsorted : ready.Pairwise (fun a b => remaining processes a ≤ remaining processes b))
    (k : Int) :
    (SRTF.add_process processes p ready).filter (fun x => decide (remaining processes x = k))
      = ready.filter (fun x => decide (remaining processes x = k))
        ++ (if remaining processes p = k then [p] else []) := by
  rw [srtf_add_eq processes p ready hsorted, List.filter_append, List.filter_cons,
    List.filter_filter, List.filter_filter]
  have hnil_gt : k ≤ remaining processes p →
      ready.filter (fun x => decide (remaining processes x = k)
        && decide (remaining processes p < remaining processes x)) = [] := by
    intro hle
    rw [List.filter_eq_nil_iff]
    intro x _
    simp only [Bool.and_eq_true, decide_eq_true_eq]
    omega
  have hall_le : k ≤ remaining processes p →
      ready.filter (fun x => decide (remaining processes x = k)
        && decide (remaining processes x ≤ remaining processes p))
        = ready.filter (fun x => decide (remaining processes x = k)) := by
    intro hle
    apply List.filter_congr
    intro x _
    by_cases hx : remaining processes x = k
    · simp only [hx, decide_True, Bool.true_and, decide_eq_true_eq]
      exact hle
    · simp [hx]
  have hnil_le : remaining processes p < k →
      ready.filter (fun x => decide (remaining processes x = k)
        && decide (remaining processes x ≤ remaining processes p)) = [] := by
    intro hlt
    rw [List.filter_eq_nil_iff]
    intro x _
    simp only [Bool.and_eq_true, decide_eq_true_eq]
    omega
  have hall_gt : remaining processes p < k →
      ready.filter (fun x => decide (remaining processes x = k)
        && decide (remaining processes p < remaining processes x))
        = ready.filter (fun x => decide (remaining processes x = k)) := by
    intro hlt
    apply List.filter_congr
    intro x _
    by_cases hx : remaining processes x = k
    · simp only [hx, decide_True, Bool.true_and, decide_eq_true_eq]
      exact hlt
    · simp [hx]
  by_cases hk : remaining processes p = k
  · rw [hnil_gt (by omega), hall_le (by omega), if_pos hk]
    have : decide (remaining processes p = k) = true := by simpa using hk
    rw [this]
    simp
  · have hd : decide (remaining processes p = k) = false := by simpa using hk
    rw [if_neg hk, hd]
    by_cases hlt : k < remaining processes p
    · rw [hnil_gt (by omega), hall_le (by omega)]
      simp
    · rw [hnil_le (by omega), hall_gt (by omega)]
      simp

theorem srtf_add_all_snoc (processes : List Process) (added : List Nat) (p : Nat) :
    SRTF.add_all processes (added ++ [p])
      = SRTF.add_process processes p (SRTF.add_all processes added) := by
  simp [SRTF.add_all, List.foldl_append]

theorem srtf_add_all_spec (processes : List Process) (added : List Nat) :
    (SRTF.add_all processes added).Pairwise
      (fun a b => remaining processes a ≤ remaining processes b) ∧
    ∀ k : Int, (SRTF.add_all processes added).filter
        (fun x => decide (remaining processes x = k))
      = added.filter (fun x => decide (remaining processes x = k)) := by
  induction added using List.reverseRecOn with
  | nil => exact ⟨List.Pairwise.nil, fun _ => rfl⟩
  | append_singleton l p ih =>
    obtain ⟨h1, h2⟩ := ih
    rw [srtf_add_all_snoc]
    refine ⟨srtf_add_sorted processes p _ h1, ?_⟩
    intro k
    rw [srtf_add_stable processes p _ h1 k, h2 k, List.filter_append]
    by_cases hk : remaining processes p = k <;> simp [hk]

theorem head_minimal (processes : List Process) (ready : List Nat)
    (hsorted : ready.Pairwise (fun a b => remaining processes a ≤ remaining processes b))
    (h : Nat) (hh : ready.head? = some h) :
    ∀ x ∈ ready, remaining processes h ≤ remaining processes x := by
  cases ready with
  | nil => simp at hh
  | cons a rest =>
    simp only [List.head?_cons, Option.some.injEq] at hh
    subst hh
    rw [List.pairwise_cons] at hsorted
    intro x hx
    rcases List.mem_cons.1 hx with rfl | hx
    · exact le_refl _
    · exact hsorted.1 x hx

/-- C13 (the runqueue of SRTF): on a runqueue sorted by non-decreasing
`remainingCPUtime`, `add_process(p)` puts `p` after every process whose
`remainingCPUtime` is `<=` that of `p` and before every process with a larger
one; the runqueue stays sorted, and the processes of any one `remainingCPUtime`
keep their order, `p` coming last among its equals.  `get_next_process` returns
the head, whose `remainingCPUtime` is minimal.  So after any sequence of
additions to the empty runqueue, `get_next_process` returns a process of minimal
`remainingCPUtime` and, among those, the earliest added. -/
theorem srtf_runqueue (processes : List Process) (ready : List Nat) (p : Nat)
    (hsorted : ready.Pairwise (fun a b => remaining processes a ≤ remaining processes b)) :
    SRTF.add_process processes p ready
      = ready.filter (fun x => decide (remaining processes x ≤ remaining processes p))
        ++ p :: ready.filter (fun x => decide (remaining processes p < remaining processes x)) ∧
    (SRTF.add_process processes p ready).Pairwise
      (fun a b => remaining processes a ≤ remaining processes b) ∧
    (∀ k : Int,
      (SRTF.add_process processes p ready).filter (fun x => decide (remaining processes x = k))
        = ready.filter (fun x => decide (remaining processes x = k))
          ++ (if remaining processes p = k then [p] else [])) ∧
    SRTF.get_next_process ready = (ready.head?, ready.tail) ∧
    (∀ h, ready.head? = some h → ∀ x ∈ ready, remaining processes h ≤ remaining processes x) ∧
    (∀ (added : List Nat) (h : Nat),
      (SRTF.get_next_process (SRTF.add_all processes added)).1 = some h →
        (∀ x ∈ added, remaining processes h ≤ remaining processes x) ∧
        (added.filter (fun x => decide (remaining processes x = remaining processes h))).head?
          = some h) := by
  refine ⟨srtf_add_eq processes p ready hsorted, srtf_add_sorted processes p ready hsorted,
    srtf_add_stable processes p ready hsorted, ?_, head_minimal processes ready hsorted, ?_⟩
  · cases ready <;> rfl
  · intro added h hh
    obtain ⟨h1, h2⟩ := srtf_add_all_spec processes added
    have hhead : (SRTF.add_all processes added).head? = some h := by
      cases hq : SRTF.add_all processes added with
      | nil => rw [hq] at hh; simp [SRTF.get_next_process] at hh
      | cons a rest =>
        rw [hq] at hh
        simpa [SRTF.get_next_process] using hh
    constructor
    · intro x hx
      have hx2 : x ∈ added.filter
          (fun y => decide (remaining processes y = remaining processes x)) :=
        List.mem_filter.2 ⟨hx, by simp⟩
      rw [← h2] at hx2
      exact head_minimal processes _ h1 h hhead x (List.mem_filter.1 hx2).1
    · rw [← h2]
      cases hq : SRTF.add_all processes added with
      | nil => rw [hq] at hhead; simp at hhead
      | cons a rest =>
        rw [hq] at hhead
        simp only [List.head?_cons, Option.some.injEq] at hhead
        subst hhead
        simp [List.filter_cons]

theorem srtf_runqueue_witness :
    ([1, 0] : List Nat).Pairwise (fun a b =>
      remaining [Process.Process 0 0 5 1 1, Process.Process 1 0 3 1 1,
        Process.Process 2 0 5 1 1] a
      ≤ remaining [Process.Process 0 0 5 1 1, Process.Process 1 0 3 1 1,
        Process.Process 2 0 5 1 1] b) ∧
    SRTF.add_process [Process.Process 0 0 5 1 1, Process.Process 1 0 3 1 1,
        Process.Process 2 0 5 1 1] 2 [1, 0] = [1, 0, 2] ∧
    (SRTF.add_process [Process.Process 0 0 5 1 1, Process.Process 1 0 3 1 1,
        Process.Process 2 0 5 1 1] 2 [1, 0]).Pairwise (fun a b =>
      remaining [Process.Process 0 0 5 1 1, Process.Process 1 0 3 1 1,
        Process.Process 2 0 5 1 1] a
      ≤ remaining [Process.Process 0 0 5 1 1, Process.Process 1 0 3 1 1,
        Process.Process 2 0 5 1 1] b) :=
  ⟨by decide, by decide,
    (srtf_runqueue [Process.Process 0 0 5 1 1, Process.Process 1 0 3 1 1,
      Process.Process 2 0 5 1 1] [1, 0] 2 (by decide)).2.1⟩

end Sched

namespace Sched

/-! ## The two tables of PRIO and PREPRIO -/

theorem push_level_in_range (Q : List (List Nat)) (level : Int) (p : Nat)
    (h0 : 0 ≤ level) (h1 : level < (Q.length : Int)) :
    Prio.push_level Q level p = Q.modify (fun q => q ++ [p]) level.toNat ∧
    level.toNat < Q.length := by
  unfold Prio.push_level
  rw [if_pos ⟨h0, h1⟩]
  exact ⟨rfl, by omega⟩

theorem modify_append_getD (Q : List (List Nat)) (level : Nat) (p : Nat)
    (h : level < Q.length) (j : Nat) :
    (Q.modify (fun q => q ++ [p]) level).getD j []
      = if j = level then Q.getD j [] ++ [p] else Q.getD j [] := by
  rw [List.getD_eq_getElem?_getD, List.getD_eq_getElem?_getD, List.getElem?_modify]
  by_cases hj : j = level
  · subst hj
    simp [List.getElem?_eq_getElem h]
  · have : ¬ level = j := fun hc => hj hc.symm
    simp [hj, this]

/-- C14 (`add_process` of PRIO and PREPRIO): for a process `p` of the roster
with `static_prio` in `[1, maxprio]` and `dynamic_prio <= maxprio - 1` (so in
`[0, maxprio - 1]` in cases (a) and (b)), and two tables of `maxprio` queues: (a) with `remainingBurstTime > 0` and
`dynamic_prio >= 1`, `dynamic_prio` goes down by one and `p` is appended to the
active queue of the new level; (b) with `remainingBurstTime > 0` and
`dynamic_prio = 0`, `dynamic_prio` becomes `static_prio - 1` and `p` is appended
to the expired queue of that level, the active table staying as it is; (c) with
`remainingBurstTime <= 0`, `dynamic_prio` becomes `static_prio - 1` and `p` is
appended to the active queue of that level.  The level is within the table in
each case, `List.modify` changes the queue of that level only (last part), and
`PREPRIO::add_process` does the same as `PRIO::add_process`. -/
theorem prio_add (activeQ expiredQ : List (List Nat)) (processes : List Process) (p : Nat)
    (maxprio : Int) (hp : p < processes.length)
    (ha : (activeQ.length : Int) = maxprio) (he : (expiredQ.length : Int) = maxprio)
    (hs1 : 1 ≤ (getProc processes p).static_prio)
    (hs2 : (getProc processes p).static_prio ≤ maxprio)
    (hd2 : (getProc processes p).dynamic_prio ≤ maxprio - 1) :
    (0 < (getProc processes p).remainingBurstTime → 1 ≤ (getProc processes p).dynamic_prio →
      Prio.add_process activeQ expiredQ processes p
        = (activeQ.modify (fun q => q ++ [p]) ((getProc processes p).dynamic_prio - 1).toNat,
           expiredQ,
           setProc processes p { getProc processes p with
             dynamic_prio := (getProc processes p).dynamic_prio - 1 }) ∧
      ((getProc processes p).dynamic_prio - 1).toNat < activeQ.length ∧
      (getProc (Prio.add_process activeQ expiredQ processes p).2.2 p).dynamic_prio
        = (getProc processes p).dynamic_prio - 1) ∧
    (0 < (getProc processes p).remainingBurstTime → (getProc processes p).dynamic_prio = 0 →
      Prio.add_process activeQ expiredQ processes p
        = (activeQ,
           expiredQ.modify (fun q => q ++ [p]) ((getProc processes p).static_prio - 1).toNat,
           setProc processes p { getProc processes p with
             dynamic_prio := (getProc processes p).static_prio - 1 }) ∧
      ((getProc processes p).static_prio - 1).toNat < expiredQ.length ∧
      (getProc (Prio.add_process activeQ expiredQ processes p).2.2 p).dynamic_prio
        = (getProc processes p).static_prio - 1) ∧
    ((getProc processes p).remainingBurstTime ≤ 0 →
      Prio.add_process activeQ expiredQ processes p
        = (activeQ.modify (fun q => q ++ [p]) ((getProc processes p).static_prio - 1).toNat,
           expiredQ,
           setProc processes p { getProc processes p with
             dynamic_prio := (getProc processes p).static_prio - 1 }) ∧
      ((getProc processes p).static_prio - 1).toNat < activeQ.length ∧
      (getProc (Prio.add_process activeQ expiredQ processes p).2.2 p).dynamic_prio
        = (getProc processes p).static_prio - 1) ∧
    PrePrio.add_process activeQ expiredQ processes p
      = Prio.add_process activeQ expiredQ processes p ∧
    (∀ (Q : List (List Nat)) (level : Nat), level < Q.length →
      (Q.modify (fun q => q ++ [p]) level).length = Q.length ∧
      ∀ j, (Q.modify (fun q => q ++ [p]) level).getD j []
        = if j = level then Q.getD j [] ++ [p] else Q.getD j []) := by
  refine ⟨?_, ?_, ?_, rfl, ?_⟩
  · intro hrbt hdyn
    have hne : ¬ (getProc processes p).dynamic_prio - 1 = -1 := by omega
    have hpush := push_level_in_range activeQ ((getProc processes p).dynamic_prio - 1) p
      (by omega) (by omega)
    have heq : Prio.add_process activeQ expiredQ processes p
        = (activeQ.modify (fun q => q ++ [p]) ((getProc processes p).dynamic_prio - 1).toNat,
           expiredQ,
           setProc processes p { getProc processes p with
             dynamic_prio := (getProc processes p).dynamic_prio - 1 }) := by
      unfold Prio.add_process
      simp only [gt_iff_lt, hrbt, if_true, hne, if_false]
      rw [hpush.1]
    refine ⟨heq, hpush.2, ?_⟩
    rw [heq]
    show (getProc (setProc processes p _) p).dynamic_prio = _
    rw [getProc_setProc_same _ _ _ hp]
  · intro hrbt hdyn
    have hneg : (getProc processes p).dynamic_prio - 1 = -1 := by omega
    have hpush := push_level_in_range expiredQ ((getProc processes p).static_prio - 1) p
      (by omega) (by omega)
    have heq : Prio.add_process activeQ expiredQ processes p
        = (activeQ,
           expiredQ.modify (fun q => q ++ [p]) ((getProc processes p).static_prio - 1).toNat,
           setProc processes p { getProc processes p with
             dynamic_prio := (getProc processes p).static_prio - 1 }) := by
      unfold Prio.add_process
      simp only [gt_iff_lt, hrbt, if_true, hneg]
      rw [hpush.1]
    refine ⟨heq, hpush.2, ?_⟩
    rw [heq]
    show (getProc (setProc processes p _) p).dynamic_prio = _
    rw [getProc_setProc_same _ _ _ hp]
  · intro hrbt
    have hn : ¬ 0 < (getProc processes p).remainingBurstTime := by omega
    have hpush := push_level_in_range activeQ ((getProc processes p).static_prio - 1) p
      (by omega) (by omega)
    have heq : Prio.add_process activeQ expiredQ processes p
        = (activeQ.modify (fun q => q ++ [p]) ((getProc processes p).static_prio - 1).toNat,
           expiredQ,
           setProc processes p { getProc processes p with
             dynamic_prio := (getProc processes p).static_prio - 1 }) := by
      unfold Prio.add_process
      simp only [gt_iff_lt, hn, if_false]
      rw [hpush.1]
    refine ⟨heq, hpush.2, ?_⟩
    rw [heq]
    show (getProc (setProc processes p _) p).dynamic_prio = _
    rw [getProc_setProc_same _ _ _ hp]
  · intro Q level hl
    exact ⟨List.length_modify _ _ _, modify_append_getD Q level p hl⟩

theorem prio_add_witness :
    (getProc (Prio.add_process [[], [], [5], []] [[], [], [], []]
        [{ Process.Process 0 0 100 10 5 with
            static_prio := 4, dynamic_prio := 3, remainingBurstTime := 2 }] 0).2.2
      0).dynamic_prio = 2 ∧
    Prio.add_process [[], [], [5], []] [[], [], [], []]
        [{ Process.Process 0 0 100 10 5 with
            static_prio := 4, dynamic_prio := 3, remainingBurstTime := 2 }] 0
      = ([[], [], [5, 0], []], [[], [], [], []],
          [{ Process.Process 0 0 100 10 5 with
            static_prio := 4, dynamic_prio := 2, remainingBurstTime := 2 }]) :=
  ⟨((prio_add [[], [], [5], []] [[], [], [], []]
      [{ Process.Process 0 0 100 10 5 with
          static_prio := 4, dynamic_prio := 3, remainingBurstTime := 2 }] 0 4
      (by decide) (by decide) (by decide) (by decide) (by decide)
      (by decide)).1 (by decide) (by decide)).2.2, by decide⟩

end Sched

namespace Sched

theorem pop_highest_none_iff (Q : List (List Nat)) :
    Prio.pop_highest Q = none ↔ ∀ q ∈ Q, q = [] := by
  induction Q with
  | nil => simp [Prio.pop_highest]
  | cons a Q ih =>
    rw [pop_highest_cons]
    constructor
    · intro h
      cases hq : Prio.pop_highest Q with
      | some r => rw [hq] at h; simp at h
      | none =>
        rw [hq] at h
        cases a with
        | nil =>
          intro q hq2
          rcases List.mem_cons.1 hq2 with rfl | hq2
          · rfl
          · exact ih.1 hq q hq2
        | cons x rest => simp at h
    · intro h
      have h1 : Prio.pop_highest Q = none :=
        ih.2 (fun q hq => h q (List.mem_cons_of_mem _ hq))
      have h2 : a = [] := h a (List.mem_cons_self _ _)
      rw [h1, h2]

theorem pop_highest_spec (Q : List (List Nat)) :
    ∀ (i head : Nat) (tail : List Nat), highest_nonempty Q i head tail →
      Prio.pop_highest Q = some (head, Q.set i tail) := by
  induction Q with
  | nil =>
    intro i head tail h
    have := h.1
    simp at this
  | cons a Q ih =>
    intro i head tail h
    obtain ⟨h1, h2, h3⟩ := h
    rw [pop_highest_cons]
    cases i with
    | zero =>
      have hnone : Prio.pop_highest Q = none := by
        rw [pop_highest_none_iff]
        intro q hq
        obtain ⟨j, hj, rfl⟩ := List.getElem_of_mem hq
        have := h3 (j + 1) (by omega) (by simp; omega)
        rw [List.getD_eq_getElem?_getD] at this
        simpa [List.getElem?_eq_getElem hj] using this
      have ha : a = head :: tail := by simpa using h2
      rw [hnone, ha]
      rfl
    | succ i =>
      have hq : highest_nonempty Q i head tail := by
        refine ⟨by simpa using h1, ?_, ?_⟩
        · simpa using h2
        · intro j hj hjl
          have := h3 (j + 1) (by omega) (by simp; omega)
          simpa using this
      rw [ih i head tail hq]
      rfl

/-- C15 (`get_next_process` of PRIO and PREPRIO): when the active table has a
non-empty queue, the head of its non-empty queue of highest index is removed and
returned, the tables staying in their roles; when every active queue is empty
and the expired table has a non-empty queue, the two tables swap roles and the
head of the non-empty queue of highest index of the former expired table is
removed and returned; null is returned if and only if every queue of both tables
is empty; `PREPRIO::get_next_process` does the same.  With static priorities 1
and 4 (`P10:4` and `E10:4`, table `[0, 3]`, both arriving at 0) the process of
priority 4 is returned first, whichever was added first, and it is the one the
simulation dispatches. -/
theorem prio_next (activeQ expiredQ : List (List Nat)) :
    (∀ i head tail, highest_nonempty activeQ i head tail →
      Prio.get_next_process activeQ expiredQ = (some head, activeQ.set i tail, expiredQ)) ∧
    ((∀ q ∈ activeQ, q = []) → ∀ i head tail, highest_nonempty expiredQ i head tail →
      Prio.get_next_process activeQ expiredQ = (some head, expiredQ.set i tail, activeQ)) ∧
    ((Prio.get_next_process activeQ expiredQ).1 = none ↔
      (∀ q ∈ activeQ, q = []) ∧ (∀ q ∈ expiredQ, q = [])) ∧
    PrePrio.get_next_process activeQ expiredQ = Prio.get_next_process activeQ expiredQ ∧
    ((getProc (start ⟨0, 0, false⟩ (Policy.P 10 4) [0, 3]
        [⟨0, 100, 10, 5⟩, ⟨0, 50, 5, 2⟩]).processes 0).static_prio = 1 ∧
     (getProc (start ⟨0, 0, false⟩ (Policy.P 10 4) [0, 3]
        [⟨0, 100, 10, 5⟩, ⟨0, 50, 5, 2⟩]).processes 1).static_prio = 4 ∧
     ((make_scheduler (Policy.P 10 4)).run_calls
        (start ⟨0, 0, false⟩ (Policy.P 10 4) [0, 3]
          [⟨0, 100, 10, 5⟩, ⟨0, 50, 5, 2⟩]).processes
        [Call.add 0, Call.add 1, Call.next, Call.next, Call.next]).1
      = [some 1, some 0, none] ∧
     ((make_scheduler (Policy.P 10 4)).run_calls
        (start ⟨0, 0, false⟩ (Policy.P 10 4) [0, 3]
          [⟨0, 100, 10, 5⟩, ⟨0, 50, 5, 2⟩]).processes
        [Call.add 1, Call.add 0, Call.next, Call.next, Call.next]).1
      = [some 1, some 0, none] ∧
     ((make_scheduler (Policy.E 10 4)).run_calls
        (start ⟨0, 0, false⟩ (Policy.E 10 4) [0, 3]
          [⟨0, 100, 10, 5⟩, ⟨0, 50, 5, 2⟩]).processes
        [Call.add 0, Call.add 1, Call.next, Call.next, Call.next]).1
      = [some 1, some 0, none] ∧
     (Simulator.simulation 2 (start ⟨0, 0, false⟩ (Policy.P 10 4) [0, 3]
        [⟨0, 100, 10, 5⟩, ⟨0, 50, 5, 2⟩])).events
      = [⟨0, 1, State.READY, State.RUNNING⟩]) := by
  refine ⟨?_, ?_, ?_, rfl, by decide⟩
  · intro i head tail h
    unfold Prio.get_next_process
    rw [pop_highest_spec activeQ i head tail h]
  · intro hall i head tail h
    unfold Prio.get_next_process
    rw [(pop_highest_none_iff activeQ).2 hall, pop_highest_spec expiredQ i head tail h]
  · unfold Prio.get_next_process
    constructor
    · intro h
      cases ha : Prio.pop_highest activeQ with
      | some r => rw [ha] at h; simp at h
      | none =>
        rw [ha] at h
        cases hb : Prio.pop_highest expiredQ with
        | some r => rw [hb] at h; simp at h
        | none =>
          exact ⟨(pop_highest_none_iff _).1 ha, (pop_highest_none_iff _).1 hb⟩
    · rintro ⟨ha, hb⟩
      rw [(pop_highest_none_iff _).2 ha, (pop_highest_none_iff _).2 hb]

theorem prio_next_witness :
    Prio.get_next_process [[7], [3, 4], []] [[], [9], []]
      = (some 3, [[7], [3, 4], []].set 1 [4], [[], [9], []]) :=
  (prio_next [[7], [3, 4], []] [[], [9], []]).1 1 3 [4]
    ⟨by decide, rfl, fun j h1 h2 => by
      have hj : j = 2 := by
        have h3 : j < 3 := h2
        omega
      subst hj
      rfl⟩

/-- C16 (preemption test): `PREPRIO::test_preempt` is true if and only if the
running process has a lower `dynamic_prio` than the arriving one and the time
is before the `stopRunningTime` of the running process; `test_preempt` of
`FCFS`, `LCFS`, `SRTF`, `RR` and `PRIO` is false on every input. -/
theorem preemption_test (processes : List Process) (running arriving : Nat) (now : Int) :
    (∀ quantum maxprio activeQ expiredQ,
      (Scheduler.PrePrio quantum maxprio activeQ expiredQ).test_preempt
          processes running arriving now = true ↔
        ((getProc processes running).dynamic_prio < (getProc processes arriving).dynamic_prio ∧
          now < (getProc processes running).stopRunningTime)) ∧
    (∀ ready, (Scheduler.FCFS ready).test_preempt processes running arriving now = false) ∧
    (∀ ready, (Scheduler.LCFS ready).test_preempt processes running arriving now = false) ∧
    (∀ ready, (Scheduler.SRTF ready).test_preempt processes running arriving now = false) ∧
    (∀ quantum ready,
      (Scheduler.RR quantum ready).test_preempt processes running arriving now = false) ∧
    (∀ quantum maxprio activeQ expiredQ,
      (Scheduler.Prio quantum maxprio activeQ expiredQ).test_preempt
          processes running arriving now = false) := by
  refine ⟨?_, fun _ => rfl, fun _ => rfl, fun _ => rfl, fun _ _ => rfl, fun _ _ _ _ => rfl⟩
  intro quantum maxprio activeQ expiredQ
  simp [Scheduler.test_preempt, PrePrio.test_preempt]

end Sched

namespace Sched
open DES_Layer Simulator

/-! ## The cpu slice given on the transition into `RUNNING` -/

theorem choose_burst_unbounded_value (rn : List Int) (ofs : Nat) (quantum : Int) (p : Process) :
    (choose_burst_unbounded rn ofs quantum p).1
      = min (if 0 < p.remainingBurstTime then p.remainingBurstTime
          else (get_random_number rn ofs p.cpuBurst).1) quantum ∧
    ((choose_burst_unbounded rn ofs quantum p).2.1 = true ↔
      quantum < (if 0 < p.remainingBurstTime then p.remainingBurstTime
          else (get_random_number rn ofs p.cpuBurst).1)) ∧
    (choose_burst_unbounded rn ofs quantum p).2.2.1.remainingCPUtime = p.remainingCPUtime ∧
    (choose_burst_unbounded rn ofs quantum p).2.2.2
      = (if 0 < p.remainingBurstTime then ofs else (get_random_number rn ofs p.cpuBurst).2) := by
  unfold choose_burst_unbounded
  by_cases h1 : 0 < p.remainingBurstTime
  · rw [if_pos h1, if_pos h1]
    by_cases h2 : p.remainingBurstTime > quantum
    · rw [if_pos ⟨h1, h2⟩]
      refine ⟨?_, ?_, rfl, rfl⟩
      · show quantum = min p.remainingBurstTime quantum
        omega
      · show (true = true) ↔ quantum < p.remainingBurstTime
        simp only [true_iff]
        omega
    · rw [if_neg (fun h => h2 h.2), if_pos ⟨h1, by omega⟩]
      refine ⟨?_, ?_, rfl, rfl⟩
      · show p.remainingBurstTime = min p.remainingBurstTime quantum
        omega
      · show (false = true) ↔ quantum < p.remainingBurstTime
        simp only [Bool.false_eq_true, false_iff]
        omega
  · rw [if_neg h1, if_neg h1, if_neg (fun h => h1 h.1), if_neg (fun h => h1 h.1)]
    dsimp only
    by_cases h3 : (get_random_number rn ofs p.cpuBurst).1 > quantum
    · rw [if_pos h3]
      refine ⟨?_, ?_, rfl, rfl⟩
      · show quantum = min (get_random_number rn ofs p.cpuBurst).1 quantum
        omega
      · show (true = true) ↔ quantum < (get_random_number rn ofs p.cpuBurst).1
        simp only [true_iff]
        omega
    · rw [if_neg h3]
      refine ⟨?_, ?_, rfl, rfl⟩
      · show (get_random_number rn ofs p.cpuBurst).1
          = min (get_random_number rn ofs p.cpuBurst).1 quantum
        omega
      · show (false = true) ↔ quantum < (get_random_number rn ofs p.cpuBurst).1
        simp only [Bool.false_eq_true, false_iff]
        omega

/-- Over unbounded integers (cpu slice on the transition into `RUNNING`): for a process `p` of the
roster entering `RUNNING` at time `now`, with `b` its remaining burst if that is
positive and otherwise a fresh draw `rand(cpuBurst)`: the slice is
`min(b, quantum, remainingCPUtime)`; `case RUNNING` puts exactly one event, at
`now + slice`, `RUNNING -> DONE` if `remainingCPUtime <= min(b, quantum)`, else
`RUNNING -> READY` if `b > quantum`, else `RUNNING -> BLOCKED`;
`remainingCPUtime` goes down by the slice (to `0` in the `DONE` case),
`stopRunningTime` becomes `now + slice`, and the oracle moves by one draw
exactly when the burst is a fresh one. -/
theorem cpu_slice_unbounded (s : Simulator) (p : Nat) (hp : p < s.processes.length) :
    (case_RUNNING_unbounded p s).events
      = put_event ⟨s.CURRENT_TIME + slice_on_entry s p, p, State.RUNNING, exit_on_entry s p⟩
          s.events ∧
    (case_RUNNING_unbounded p s).events.length = s.events.length + 1 ∧
    (getProc (case_RUNNING_unbounded p s).processes p).remainingCPUtime
      = (getProc s.processes p).remainingCPUtime - slice_on_entry s p ∧
    (exit_on_entry s p = State.DONE →
      (getProc (case_RUNNING_unbounded p s).processes p).remainingCPUtime = 0) ∧
    (getProc (case_RUNNING_unbounded p s).processes p).stopRunningTime
      = s.CURRENT_TIME + slice_on_entry s p ∧
    (case_RUNNING_unbounded p s).ofs
      = (if 0 < (getProc s.processes p).remainingBurstTime then s.ofs
          else (get_random_number s.random_nums s.ofs (getProc s.processes p).cpuBurst).2) := by
  have hb := choose_burst_unbounded_value s.random_nums s.ofs s.scheduler.quantum
    { getProc s.processes p with
      cpuWaitingTime := (getProc s.processes p).cpuWaitingTime
        + (s.CURRENT_TIME - (getProc s.processes p).clock) }
  have hlen : ∀ ev, (put_event ev s.events).length = s.events.length + 1 :=
    fun ev => put_event_length ev s.events
  unfold slice_on_entry exit_on_entry burst_on_entry
  unfold case_RUNNING_unbounded
  dsimp only at hb ⊢
  generalize choose_burst_unbounded _ _ _ _ = c at hb ⊢
  obtain ⟨c1, c2, c3, c4⟩ := hb
  generalize (if 0 < (getProc s.processes p).remainingBurstTime then
      (getProc s.processes p).remainingBurstTime
    else (get_random_number s.random_nums s.ofs (getProc s.processes p).cpuBurst).1) = b
    at c1 c2 ⊢
  by_cases hdone : c.2.2.1.remainingCPUtime ≤ c.1
  · rw [if_pos hdone]
    have hd2 : (getProc s.processes p).remainingCPUtime ≤ min b s.scheduler.quantum := by
      rw [c3] at hdone; omega
    have hsl : min b (min s.scheduler.quantum (getProc s.processes p).remainingCPUtime)
        = c.2.2.1.remainingCPUtime := by
      rw [c3]; omega
    rw [if_pos hd2, hsl]
    refine ⟨rfl, hlen _, ?_, ?_, ?_, c4⟩
    · show (getProc (setProc s.processes p _) p).remainingCPUtime = _
      rw [getProc_setProc_same _ _ _ hp, c3]
      show (0 : Int) = _
      omega
    · intro _
      show (getProc (setProc s.processes p _) p).remainingCPUtime = _
      rw [getProc_setProc_same _ _ _ hp]
    · show (getProc (setProc s.processes p _) p).stopRunningTime = _
      rw [getProc_setProc_same _ _ _ hp]
  · rw [if_neg hdone]
    have hd2 : ¬ (getProc s.processes p).remainingCPUtime ≤ min b s.scheduler.quantum := by
      rw [c3] at hdone; omega
    have hsl : min b (min s.scheduler.quantum (getProc s.processes p).remainingCPUtime)
        = c.1 := by
      rw [c3] at hdone; omega
    rw [if_neg hd2, hsl]
    by_cases hpre : c.2.1 = true
    · rw [if_pos hpre, if_pos (c2.1 hpre)]
      refine ⟨rfl, hlen _, ?_, ?_, ?_, c4⟩
      · show (getProc (setProc s.processes p _) p).remainingCPUtime = _
        rw [getProc_setProc_same _ _ _ hp, c3]
      · intro h; simp at h
      · show (getProc (setProc s.processes p _) p).stopRunningTime = _
        rw [getProc_setProc_same _ _ _ hp]
    · rw [if_neg hpre, if_neg (fun h => hpre (c2.2 h))]
      refine ⟨rfl, hlen _, ?_, ?_, ?_, c4⟩
      · show (getProc (setProc s.processes p _) p).remainingCPUtime = _
        rw [getProc_setProc_same _ _ _ hp, c3]
      · intro h; simp at h
      · show (getProc (setProc s.processes p _) p).stopRunningTime = _
        rw [getProc_setProc_same _ _ _ hp]

end Sched

namespace Sched
open DES_Layer Simulator

/-! ## The PREPRIO preemption -/

/-- C18 fails under `PrePrio` (`E5:4`, table `[0, 3, 3]`, lines `0 100 10 5` and
`2 50 5 2`): process 0 (static priority 1) enters `RUNNING` at 0 with a fresh
burst of 4, below the quantum, so no part of it is deferred and its
`remainingBurstTime` is still the `-1` of the constructor; process 1 (static
priority 4) arrives at 2 and preempts it.  The event `RUNNING -> BLOCKED` at 4
is replaced by `RUNNING -> READY` at 2, `stopRunningTime` becomes 2 and
`remainingCPUtime` grows by the unused tail `4 - 2 = 2`, as claimed; but
`remainingBurstTime` becomes `-1 + 2 = 1`, not the unused tail `2`. -/
theorem preemption_tail_off_by_one :
    (simulation 2 (start ⟨0, 0, false⟩ (Policy.E 5 4) [0, 3, 3]
        [⟨0, 100, 10, 5⟩, ⟨2, 50, 5, 2⟩])).events
      = [⟨2, 1, State.CREATED, State.READY⟩, ⟨4, 0, State.RUNNING, State.BLOCKED⟩] ∧
    (simulation 2 (start ⟨0, 0, false⟩ (Policy.E 5 4) [0, 3, 3]
        [⟨0, 100, 10, 5⟩, ⟨2, 50, 5, 2⟩])).CURRENT_RUNNING_PROCESS = some 0 ∧
    (getProc (simulation 2 (start ⟨0, 0, false⟩ (Policy.E 5 4) [0, 3, 3]
        [⟨0, 100, 10, 5⟩, ⟨2, 50, 5, 2⟩])).processes 0).stopRunningTime = 4 ∧
    (getProc (simulation 2 (start ⟨0, 0, false⟩ (Policy.E 5 4) [0, 3, 3]
        [⟨0, 100, 10, 5⟩, ⟨2, 50, 5, 2⟩])).processes 0).remainingCPUtime = 96 ∧
    (getProc (simulation 2 (start ⟨0, 0, false⟩ (Policy.E 5 4) [0, 3, 3]
        [⟨0, 100, 10, 5⟩, ⟨2, 50, 5, 2⟩])).processes 0).remainingBurstTime = -1 ∧
    (simulation 3 (start ⟨0, 0, false⟩ (Policy.E 5 4) [0, 3, 3]
        [⟨0, 100, 10, 5⟩, ⟨2, 50, 5, 2⟩])).events
      = [⟨2, 0, State.RUNNING, State.READY⟩] ∧
    (simulation 3 (start ⟨0, 0, false⟩ (Policy.E 5 4) [0, 3, 3]
        [⟨0, 100, 10, 5⟩, ⟨2, 50, 5, 2⟩])).CURRENT_TIME = 2 ∧
    (getProc (simulation 3 (start ⟨0, 0, false⟩ (Policy.E 5 4) [0, 3, 3]
        [⟨0, 100, 10, 5⟩, ⟨2, 50, 5, 2⟩])).processes 0).stopRunningTime = 2 ∧
    (getProc (simulation 3 (start ⟨0, 0, false⟩ (Policy.E 5 4) [0, 3, 3]
        [⟨0, 100, 10, 5⟩, ⟨2, 50, 5, 2⟩])).processes 0).remainingCPUtime = 96 + (4 - 2) ∧
    (getProc (simulation 3 (start ⟨0, 0, false⟩ (Policy.E 5 4) [0, 3, 3]
        [⟨0, 100, 10, 5⟩, ⟨2, 50, 5, 2⟩])).processes 0).remainingBurstTime = 1 ∧
    (getProc (simulation 3 (start ⟨0, 0, false⟩ (Policy.E 5 4) [0, 3, 3]
        [⟨0, 100, 10, 5⟩, ⟨2, 50, 5, 2⟩])).processes 0).remainingBurstTime ≠ 4 - 2 := by
  decide

end Sched

namespace Sched
open DES_Layer Simulator

/-! ## No event is cancelled unless the scheduler is PREPRIO -/

theorem sublist_put_event (e : Event) (l : List Event) : l.Sublist (put_event e l) := by
  induction l with
  | nil => exact List.nil_sublist _
  | cons a l ih =>
    unfold put_event
    split
    · exact ih.cons₂ a
    · exact List.sublist_cons_self e (a :: l)

theorem case_READY_unbounded_no_flag (p : Nat) (s : Simulator)
    (hf : s.scheduler.preprio_flag = false) :
    case_READY_unbounded p s = { s with
      scheduler := (s.scheduler.add_process s.processes p).1
      processes := (s.scheduler.add_process s.processes p).2
      CURRENT_RUNNING_PROCESS :=
        if 0 < (getProc s.processes p).remainingBurstTime then none
        else s.CURRENT_RUNNING_PROCESS
      CALL_SCHEDULER := true } := by
  have hrbt : (getProc (s.scheduler.add_process s.processes p).2 p).remainingBurstTime
      = (getProc s.processes p).remainingBurstTime := by
    obtain ⟨d, hd⟩ := Scheduler.add_process_getProc s.scheduler s.processes p p
    rw [hd]
  by_cases hc : 0 < (getProc s.processes p).remainingBurstTime
  · rw [case_READY_unbounded_clear s p (by rw [hrbt]; exact hc), if_pos hc]
  · rw [case_READY_unbounded_stay s p (by rw [hrbt]; exact hc) (by
      intro r _ hx
      rw [Scheduler.add_process_preprio_flag, hf] at hx
      simp at hx), if_neg hc]

theorem case_RUNNING_unbounded_scheduler (p : Nat) (s : Simulator) :
    (case_RUNNING_unbounded p s).scheduler = s.scheduler := by
  unfold case_RUNNING_unbounded
  dsimp only
  split_ifs <;> rfl

theorem transition_unbounded_flag (e : Event) (s : Simulator) :
    (transition_unbounded e s).scheduler.preprio_flag = s.scheduler.preprio_flag := by
  have hs : (update_stats e { s with CURRENT_TIME := e.timestamp }).scheduler = s.scheduler := by
    rw [update_stats_eq]
  unfold transition_unbounded
  dsimp only
  cases e.new_state with
  | CREATED => dsimp only; rw [hs]
  | READY =>
    dsimp only
    by_cases hc : 0 < (getProc ((update_stats e { s with CURRENT_TIME := e.timestamp
        }).scheduler.add_process (update_stats e { s with CURRENT_TIME := e.timestamp
        }).processes e.process).2 e.process).remainingBurstTime
    · rw [case_READY_unbounded_clear _ _ hc]
      show (Scheduler.add_process _ _ _).1.preprio_flag = _
      rw [Scheduler.add_process_preprio_flag, hs]
    · by_cases hpre : ∃ r, (update_stats e { s with CURRENT_TIME := e.timestamp
          }).CURRENT_RUNNING_PROCESS = some r ∧
          ((update_stats e { s with CURRENT_TIME := e.timestamp }).scheduler.add_process
            (update_stats e { s with CURRENT_TIME := e.timestamp }).processes
            e.process).1.preprio_flag = true ∧
          ((update_stats e { s with CURRENT_TIME := e.timestamp }).scheduler.add_process
            (update_stats e { s with CURRENT_TIME := e.timestamp }).processes
            e.process).1.test_preempt
            ((update_stats e { s with CURRENT_TIME := e.timestamp }).scheduler.add_process
              (update_stats e { s with CURRENT_TIME := e.timestamp }).processes e.process).2
            r e.process
            (update_stats e { s with CURRENT_TIME := e.timestamp }).CURRENT_TIME = true
      · obtain ⟨r, hr, hf, ht⟩ := hpre
        rw [case_READY_unbounded_preempt _ _ r hc hr hf ht]
        show (Scheduler.add_process _ _ _).1.preprio_flag = _
        rw [Scheduler.add_process_preprio_flag, hs]
      · rw [case_READY_unbounded_stay _ _ hc (fun r hr hx => hpre ⟨r, hr, hx.1, hx.2⟩)]
        show (Scheduler.add_process _ _ _).1.preprio_flag = _
        rw [Scheduler.add_process_preprio_flag, hs]
  | RUNNING =>
    dsimp only
    show (case_RUNNING_unbounded _ _).scheduler.preprio_flag = _
    rw [case_RUNNING_unbounded_scheduler, hs]
  | BLOCKED =>
    dsimp only
    rw [case_BLOCKED_unbounded_effect]
    show (update_stats e _).scheduler.preprio_flag = _
    rw [hs]
  | DONE =>
    dsimp only
    rw [case_DONE_unbounded_effect]
    show (update_stats e _).scheduler.preprio_flag = _
    rw [hs]

theorem call_scheduler_flag (s : Simulator) :
    (call_scheduler s).scheduler.preprio_flag = s.scheduler.preprio_flag := by
  unfold call_scheduler
  split
  · split
    · rfl
    · dsimp only
      cases s.CURRENT_RUNNING_PROCESS with
      | some r => rfl
      | none =>
        dsimp only
        cases s.scheduler.get_next_process.1 with
        | none => exact Scheduler.get_next_process_preprio_flag _
        | some q => exact Scheduler.get_next_process_preprio_flag _
  · rfl

theorem call_scheduler_processes (s : Simulator) :
    (call_scheduler s).processes = s.processes := by
  unfold call_scheduler
  split
  · split
    · rfl
    · dsimp only
      cases s.CURRENT_RUNNING_PROCESS with
      | some r => rfl
      | none =>
        dsimp only
        cases s.scheduler.get_next_process.1 <;> rfl
  · rfl

theorem call_scheduler_running (s : Simulator) (r : Nat)
    (hr : s.CURRENT_RUNNING_PROCESS = some r) :
    (call_scheduler s).CURRENT_RUNNING_PROCESS = some r ∧
    (call_scheduler s).events = s.events := by
  unfold call_scheduler
  split
  · split
    · exact ⟨hr, rfl⟩
    · dsimp only
      cases hrun : s.CURRENT_RUNNING_PROCESS with
      | some r1 =>
        rw [hrun] at hr
        exact ⟨hr, rfl⟩
      | none => rw [hrun] at hr; simp at hr
  · exact ⟨hr, rfl⟩

theorem call_scheduler_sublist (s : Simulator) :
    s.events.Sublist (call_scheduler s).events := by
  unfold call_scheduler
  split
  · split
    · exact List.Sublist.refl _
    · dsimp only
      cases s.CURRENT_RUNNING_PROCESS with
      | some r => exact List.Sublist.refl _
      | none =>
        dsimp only
        cases s.scheduler.get_next_process.1 with
        | none => exact List.Sublist.refl _
        | some q => exact sublist_put_event _ _
  · exact List.Sublist.refl _

theorem turn_unbounded_flag (s : Simulator) :
    s.turn_unbounded.scheduler.preprio_flag = s.scheduler.preprio_flag := by
  cases hev : s.events with
  | nil => rw [turn_unbounded_nil hev]
  | cons e rest => rw [turn_unbounded_cons hev, call_scheduler_flag, transition_unbounded_flag]

theorem simulation_unbounded_flag (n : Nat) (s : Simulator) :
    (simulation_unbounded n s).scheduler.preprio_flag = s.scheduler.preprio_flag := by
  induction n with
  | zero => rfl
  | succ n ih => rw [simulation_unbounded_succ, turn_unbounded_flag, ih]

theorem transition_unbounded_sublist (e : Event) (s : Simulator)
    (hf : s.scheduler.preprio_flag = false) :
    s.events.Sublist (transition_unbounded e s).events := by
  have hs : (update_stats e { s with CURRENT_TIME := e.timestamp }).events = s.events := by
    rw [update_stats_eq]
  have hsf : (update_stats e { s with CURRENT_TIME := e.timestamp }).scheduler.preprio_flag
      = false := by
    rw [update_stats_eq]; exact hf
  unfold transition_unbounded
  dsimp only
  cases e.new_state with
  | CREATED => dsimp only; rw [hs]
  | READY =>
    dsimp only
    rw [case_READY_unbounded_no_flag _ _ hsf]
    show s.events.Sublist (update_stats e _).events
    rw [hs]
  | RUNNING =>
    dsimp only
    show s.events.Sublist (case_RUNNING_unbounded _ _).events
    unfold case_RUNNING_unbounded
    dsimp only
    split_ifs <;>
      · show s.events.Sublist (put_event _ (update_stats e _).events)
        rw [hs]
        exact sublist_put_event _ _
  | BLOCKED =>
    dsimp only
    rw [case_BLOCKED_unbounded_effect]
    show s.events.Sublist (put_event _ (update_stats e _).events)
    rw [hs]
    exact sublist_put_event _ _
  | DONE =>
    dsimp only
    rw [case_DONE_unbounded_effect]
    show s.events.Sublist (update_stats e _).events
    rw [hs]

/-- What the transition into `READY` of a process with no burst to resume does
when the scheduler is not `PREPRIO`. -/
theorem transition_unbounded_arrival (e : Event) (s : Simulator)
    (hf : s.scheduler.preprio_flag = false) (hns : e.new_state = State.READY)
    (hrbt : (getProc s.processes e.process).remainingBurstTime ≤ 0) :
    (transition_unbounded e s).CURRENT_RUNNING_PROCESS = s.CURRENT_RUNNING_PROCESS ∧
    (transition_unbounded e s).events = s.events ∧
    ∀ i, (getProc (transition_unbounded e s).processes i).core = (getProc s.processes i).core := by
  have hsf : (update_stats e { s with CURRENT_TIME := e.timestamp }).scheduler.preprio_flag
      = false := by
    rw [update_stats_eq]; exact hf
  have hsp : (update_stats e { s with CURRENT_TIME := e.timestamp }).processes
      = s.processes := by
    rw [update_stats_eq]
  have hn : ¬ 0 < (getProc (update_stats e { s with CURRENT_TIME := e.timestamp }).processes
      e.process).remainingBurstTime := by
    rw [hsp]; omega
  unfold transition_unbounded
  dsimp only
  rw [hns]
  dsimp only
  rw [case_READY_unbounded_no_flag _ _ hsf, if_neg hn]
  refine ⟨?_, ?_, ?_⟩
  · show (update_stats e _).CURRENT_RUNNING_PROCESS = _
    rw [update_stats_eq]
  · show (update_stats e _).events = _
    rw [update_stats_eq]
  · intro i
    show (getProc (setProc ((update_stats e _).scheduler.add_process
      (update_stats e _).processes e.process).2 e.process _) i).core = _
    refine (Inv.core_setProc _ _ _ ?_ i).trans ?_
    · rfl
    · rw [Inv.add_process_core, hsp]

/-- Over unbounded integers (cancellation only under PREPRIO): in every run under `FCFS`, `LCFS`,
`SRTF`, `RR` or `PRIO` (the schedulers whose `preprio_flag` is false), a turn of
the loop takes the head event and leaves every other pending event in the DES,
in the same order.  And in every run from a valid input under these schedulers,
the transition into `READY` of an arriving process (its event comes from
`CREATED` or `BLOCKED`) leaves `CURRENT_RUNNING_PROCESS` and the pending events
as they are, and `remainingBurstTime`, `remainingCPUtime` and `stopRunningTime`
of every process as they are; with a process in the running slot the whole
turn leaves the slot and the pending events as they are.  So `SRTF` never
preempts the running process. -/
theorem cancellation_only_under_preprio_unbounded (u : Uninitialised) (policy : Policy)
    (random_nums : List Int) (input_file : List InputLine)
    (hpol : (make_scheduler policy).preprio_flag = false) (n : Nat)
    (e : Event) (rest : List Event)
    (he : (simulation_unbounded n (start_unbounded u policy random_nums input_file)).events = e :: rest) :
    rest.Sublist (simulation_unbounded (n + 1) (start_unbounded u policy random_nums input_file)).events ∧
    (ValidInput policy random_nums input_file →
      e.old_state = State.CREATED ∨ e.old_state = State.BLOCKED →
      (transition_unbounded e { simulation_unbounded n (start_unbounded u policy random_nums input_file) with
          events := rest }).CURRENT_RUNNING_PROCESS
        = (simulation_unbounded n (start_unbounded u policy random_nums input_file)).CURRENT_RUNNING_PROCESS ∧
      (transition_unbounded e { simulation_unbounded n (start_unbounded u policy random_nums input_file) with
          events := rest }).events = rest ∧
      (∀ i,
        (getProc (simulation_unbounded (n + 1) (start_unbounded u policy random_nums input_file)).processes
            i).remainingBurstTime
          = (getProc (simulation_unbounded n (start_unbounded u policy random_nums input_file)).processes
            i).remainingBurstTime ∧
        (getProc (simulation_unbounded (n + 1) (start_unbounded u policy random_nums input_file)).processes
            i).remainingCPUtime
          = (getProc (simulation_unbounded n (start_unbounded u policy random_nums input_file)).processes
            i).remainingCPUtime ∧
        (getProc (simulation_unbounded (n + 1) (start_unbounded u policy random_nums input_file)).processes
            i).stopRunningTime
          = (getProc (simulation_unbounded n (start_unbounded u policy random_nums input_file)).processes
            i).stopRunningTime) ∧
      (∀ r, (simulation_unbounded n (start_unbounded u policy random_nums input_file)).CURRENT_RUNNING_PROCESS
          = some r →
        (simulation_unbounded (n + 1) (start_unbounded u policy random_nums input_file)).CURRENT_RUNNING_PROCESS
          = some r ∧
        (simulation_unbounded (n + 1) (start_unbounded u policy random_nums input_file)).events = rest)) := by
  have hflag : (simulation_unbounded n (start_unbounded u policy random_nums input_file)).scheduler.preprio_flag
      = false := by
    rw [simulation_unbounded_flag]; exact hpol
  have hturn : simulation_unbounded (n + 1) (start_unbounded u policy random_nums input_file)
      = call_scheduler (transition_unbounded e
          { simulation_unbounded n (start_unbounded u policy random_nums input_file) with events := rest }) := by
    rw [simulation_unbounded_succ, turn_unbounded_cons he]
  constructor
  · rw [hturn]
    exact (transition_unbounded_sublist e
      { simulation_unbounded n (start_unbounded u policy random_nums input_file) with events := rest }
      hflag).trans (call_scheduler_sublist _)
  · intro hv hold
    obtain ⟨_, t, hi⟩ := reach_inv u policy random_nums input_file hv.table_nonneg
      hv.quantum_pos hv.arrival_sorted hv.totcpu_nonneg hv.cpub_pos hv.iob_pos n
    have hemem : e ∈ ({ simulation_unbounded n (start_unbounded u policy random_nums input_file) with
        CURRENT_TIME := t } : Simulator).events := by
      show e ∈ (simulation_unbounded n (start_unbounded u policy random_nums input_file)).events
      rw [he]; exact List.mem_cons_self _ _
    have hrbt : (getProc (simulation_unbounded n (start_unbounded u policy random_nums input_file)).processes
        e.process).remainingBurstTime ≤ 0 := by
      have := hi.no_carry e hemem (by
        rcases hold with h | h
        · exact Or.inl h
        · exact Or.inr (Or.inl h))
      exact this
    have hns : e.new_state = State.READY := by
      rcases hi.event_shape e hemem with h1 | h1 | h1 | h1 | h1 | h1 <;>
        first
        | exact h1.2
        | (rcases hold with h | h <;> · rw [h1.1] at h; simp at h)
    obtain ⟨t1, t2, t3⟩ := transition_unbounded_arrival e
      { simulation_unbounded n (start_unbounded u policy random_nums input_file) with events := rest }
      hflag hns hrbt
    refine ⟨t1, t2, ?_, ?_⟩
    · intro i
      rw [hturn, call_scheduler_processes]
      obtain ⟨_, _, _, c4, c5, c6⟩ := Inv.core_fields (t3 i)
      exact ⟨c5, c4, c6⟩
    · intro r hr
      rw [hturn]
      have := call_scheduler_running (transition_unbounded e
        { simulation_unbounded n (start_unbounded u policy random_nums input_file) with events := rest }) r
        (by rw [t1]; exact hr)
      exact ⟨this.1, by rw [this.2, t2]⟩

end Sched

namespace Sched
open DES_Layer Simulator

/-! ## One process under FCFS: what each turn does -/

theorem choose_burst_unbounded_eq (rn : List Int) (ofs : Nat) (quantum : Int) (p : Process) :
    choose_burst_unbounded rn ofs quantum p
      = (min (if 0 < p.remainingBurstTime then p.remainingBurstTime
            else (get_random_number rn ofs p.cpuBurst).1) quantum,
         decide (quantum < (if 0 < p.remainingBurstTime then p.remainingBurstTime
            else (get_random_number rn ofs p.cpuBurst).1)),
         { p with remainingBurstTime :=
            if quantum < (if 0 < p.remainingBurstTime then p.remainingBurstTime
                else (get_random_number rn ofs p.cpuBurst).1) then
              (if 0 < p.remainingBurstTime then p.remainingBurstTime
                else (get_random_number rn ofs p.cpuBurst).1) - quantum
            else if 0 < p.remainingBurstTime then 0 else p.remainingBurstTime },
         if 0 < p.remainingBurstTime then ofs
         else (get_random_number rn ofs p.cpuBurst).2) := by
  unfold choose_burst_unbounded
  by_cases h1 : 0 < p.remainingBurstTime
  · by_cases h2 : p.remainingBurstTime > quantum
    · have h3 : quantum < p.remainingBurstTime := h2
      have h4 : min p.remainingBurstTime quantum = quantum := by omega
      simp only [h1, h2, h3, h4, and_self, if_true, decide_True]
    · have h3 : ¬ quantum < p.remainingBurstTime := by omega
      have h4 : min p.remainingBurstTime quantum = p.remainingBurstTime := by omega
      have h5 : p.remainingBurstTime ≤ quantum := by omega
      simp only [h1, h2, h3, h4, h5, and_false, and_self, if_true, if_false, decide_False]
  · by_cases h2 : (get_random_number rn ofs p.cpuBurst).1 > quantum
    · have h3 : quantum < (get_random_number rn ofs p.cpuBurst).1 := h2
      have h4 : min (get_random_number rn ofs p.cpuBurst).1 quantum = quantum := by omega
      simp only [gt_iff_lt, h1, h3, h4, false_and, if_true, if_false, decide_True]
    · have h3 : ¬ quantum < (get_random_number rn ofs p.cpuBurst).1 := by omega
      have h4 : min (get_random_number rn ofs p.cpuBurst).1 quantum
          = (get_random_number rn ofs p.cpuBurst).1 := by omega
      simp only [gt_iff_lt, h1, h3, h4, false_and, if_false, decide_False]

/-- The branch `case RUNNING` in its three outcomes. -/
theorem case_RUNNING_unbounded_cases (s : Simulator) (p : Nat) :
    ∃ (slice rbt1 : Int) (X : State),
      case_RUNNING_unbounded p s = { s with
        ofs := (if 0 < (getProc s.processes p).remainingBurstTime then s.ofs
          else (get_random_number s.random_nums s.ofs (getProc s.processes p).cpuBurst).2)
        events := put_event ⟨s.CURRENT_TIME + slice, p, State.RUNNING, X⟩ s.events
        processes := setProc s.processes p { getProc s.processes p with
          cpuWaitingTime := (getProc s.processes p).cpuWaitingTime
            + (s.CURRENT_TIME - (getProc s.processes p).clock)
          remainingBurstTime := rbt1
          remainingCPUtime := (getProc s.processes p).remainingCPUtime - slice
          stopRunningTime := s.CURRENT_TIME + slice } } ∧
      ((X = State.DONE ∧ slice = (getProc s.processes p).remainingCPUtime ∧ rbt1 = 0) ∨
       (X = State.READY ∧ slice = s.scheduler.quantum ∧
          rbt1 = burst_on_entry s p - s.scheduler.quantum ∧
          s.scheduler.quantum < burst_on_entry s p ∧
          s.scheduler.quantum < (getProc s.processes p).remainingCPUtime) ∨
       (X = State.BLOCKED ∧ slice = burst_on_entry s p ∧
          rbt1 = (if 0 < (getProc s.processes p).remainingBurstTime then 0
            else (getProc s.processes p).remainingBurstTime) ∧
          burst_on_entry s p ≤ s.scheduler.quantum ∧
          burst_on_entry s p < (getProc s.processes p).remainingCPUtime)) := by
  unfold case_RUNNING_unbounded
  dsimp only
  rw [choose_burst_unbounded_eq]
  dsimp only
  have hb : burst_on_entry s p
      = (if 0 < (getProc s.processes p).remainingBurstTime then
          (getProc s.processes p).remainingBurstTime
        else (get_random_number s.random_nums s.ofs (getProc s.processes p).cpuBurst).1) := rfl
  rw [← hb]
  by_cases hdone : (getProc s.processes p).remainingCPUtime
      ≤ min (burst_on_entry s p) s.scheduler.quantum
  · rw [if_pos hdone]
    refine ⟨(getProc s.processes p).remainingCPUtime, 0, State.DONE, ?_, Or.inl ⟨rfl, rfl, rfl⟩⟩
    simp
  · rw [if_neg hdone]
    by_cases hq : s.scheduler.quantum < burst_on_entry s p
    · have hmin : min (burst_on_entry s p) s.scheduler.quantum = s.scheduler.quantum := by
        omega
      refine ⟨s.scheduler.quantum, burst_on_entry s p - s.scheduler.quantum, State.READY, ?_,
        Or.inr (Or.inl ⟨rfl, rfl, rfl, hq, by omega⟩)⟩
      simp [hq, hmin]
    · have hmin : min (burst_on_entry s p) s.scheduler.quantum = burst_on_entry s p := by
        omega
      refine ⟨burst_on_entry s p,
        (if 0 < (getProc s.processes p).remainingBurstTime then 0
          else (getProc s.processes p).remainingBurstTime), State.BLOCKED, ?_,
        Or.inr (Or.inr ⟨rfl, rfl, by omega, by omega⟩)⟩
      simp [hq, hmin]

theorem call_scheduler_kept (s : Simulator) (r : Nat)
    (hr : s.CURRENT_RUNNING_PROCESS = some r) :
    call_scheduler s = s ∨ call_scheduler s = { s with CALL_SCHEDULER := false } := by
  unfold call_scheduler
  split
  · split
    · exact Or.inl rfl
    · dsimp only
      right
      rw [hr]
  · exact Or.inl rfl

theorem call_scheduler_idle (s : Simulator)
    (hr : s.CURRENT_RUNNING_PROCESS = none) (hs : s.scheduler = Scheduler.FCFS []) :
    call_scheduler s = s ∨ call_scheduler s = { s with CALL_SCHEDULER := false } := by
  unfold call_scheduler
  split
  · split
    · exact Or.inl rfl
    · dsimp only
      right
      rw [hr, hs]
      rfl
  · exact Or.inl rfl

theorem update_stats_of_ready (e : Event) (s : Simulator) (h : e.old_state = State.READY) :
    update_stats e s = s := by
  rw [update_stats_eq]
  simp [h]

/-- The turn that takes an event into `READY`, for one process under FCFS. -/
theorem solo_arrival (rn : List Int) (ofs : Nat) (out : Output) (now : Int) (call : Bool)
    (P : Process) (T : Int) (old : State) (run : Option Nat)
    (hT : T ≠ -1) (hrun : P.remainingBurstTime ≤ 0 → run = none) :
    Simulator.turn_unbounded ⟨rn, ofs, [⟨T, 0, old, State.READY⟩], [P], Scheduler.FCFS [], out,
        run, now, call⟩
      = ⟨rn, ofs, [⟨T, 0, State.READY, State.RUNNING⟩], [{ P with clock := T }],
          Scheduler.FCFS [],
          (update_stats ⟨T, 0, old, State.READY⟩ ⟨rn, ofs, [], [P], Scheduler.FCFS [], out,
            run, T, call⟩).output, some 0, T, false⟩ := by
  rw [turn_unbounded_cons rfl]
  unfold transition_unbounded
  dsimp only
  rw [case_READY_unbounded_no_flag _ _ (by rw [update_stats_eq]; rfl)]
  rw [update_stats_eq]
  dsimp only [getProc, setProc, List.getD_cons_zero, Scheduler.add_process, FCFS.add_process]
  unfold call_scheduler
  dsimp only [get_next_time_event]
  rw [if_pos rfl, if_neg (fun h => hT h.symm)]
  by_cases hr : 0 < P.remainingBurstTime
  · simp [hr, Scheduler.get_next_process, FCFS.get_next_process, put_event]
  · have := hrun (by omega)
    subst this
    simp [hr, Scheduler.get_next_process, FCFS.get_next_process, put_event]

/-- The turn that takes the `READY -> RUNNING` event, for one process under FCFS. -/
theorem solo_dispatch (rn : List Int) (ofs : Nat) (out : Output) (now : Int) (call : Bool)
    (P : Process) (T : Int) :
    ∃ (slice rbt1 : Int) (X : State) (out1 : Output) (call1 : Bool),
      Simulator.turn_unbounded ⟨rn, ofs, [⟨T, 0, State.READY, State.RUNNING⟩], [P], Scheduler.FCFS [],
          out, some 0, now, call⟩
        = ⟨rn, (if 0 < P.remainingBurstTime then ofs
              else (get_random_number rn ofs P.cpuBurst).2),
            [⟨T + slice, 0, State.RUNNING, X⟩],
            [{ P with
                cpuWaitingTime := P.cpuWaitingTime + (T - P.clock)
                remainingBurstTime := rbt1
                remainingCPUtime := P.remainingCPUtime - slice
                stopRunningTime := T + slice
                clock := T }],
            Scheduler.FCFS [], out1, some 0, T, call1⟩ ∧
      ((X = State.DONE ∧ slice = P.remainingCPUtime ∧ rbt1 = 0) ∨
       (X = State.READY ∧ slice = 10000 ∧
          rbt1 = (if 0 < P.remainingBurstTime then P.remainingBurstTime
            else (get_random_number rn ofs P.cpuBurst).1) - 10000 ∧
          10000 < (if 0 < P.remainingBurstTime then P.remainingBurstTime
            else (get_random_number rn ofs P.cpuBurst).1) ∧
          10000 < P.remainingCPUtime) ∨
       (X = State.BLOCKED ∧
          slice = (if 0 < P.remainingBurstTime then P.remainingBurstTime
            else (get_random_number rn ofs P.cpuBurst).1) ∧
          rbt1 = (if 0 < P.remainingBurstTime then 0 else P.remainingBurstTime) ∧
          (if 0 < P.remainingBurstTime then P.remainingBurstTime
            else (get_random_number rn ofs P.cpuBurst).1) ≤ 10000 ∧
          (if 0 < P.remainingBurstTime then P.remainingBurstTime
            else (get_random_number rn ofs P.cpuBurst).1) < P.remainingCPUtime)) := by
  obtain ⟨slice, rbt1, X, h1, h2⟩ := case_RUNNING_unbounded_cases
    ⟨rn, ofs, [], [P], Scheduler.FCFS [], out, some 0, T, call⟩ 0
  have hturn : Simulator.turn_unbounded ⟨rn, ofs, [⟨T, 0, State.READY, State.RUNNING⟩], [P],
        Scheduler.FCFS [], out, some 0, now, call⟩
      = call_scheduler ⟨rn, (if 0 < P.remainingBurstTime then ofs
              else (get_random_number rn ofs P.cpuBurst).2),
            [⟨T + slice, 0, State.RUNNING, X⟩],
            [{ P with
                cpuWaitingTime := P.cpuWaitingTime + (T - P.clock)
                remainingBurstTime := rbt1
                remainingCPUtime := P.remainingCPUtime - slice
                stopRunningTime := T + slice
                clock := T }],
            Scheduler.FCFS [], out, some 0, T, call⟩ := by
    rw [turn_unbounded_cons rfl]
    unfold transition_unbounded
    dsimp only
    rw [update_stats_of_ready _ _ rfl, h1]
    rfl
  rcases call_scheduler_kept ⟨rn, (if 0 < P.remainingBurstTime then ofs
              else (get_random_number rn ofs P.cpuBurst).2),
            [⟨T + slice, 0, State.RUNNING, X⟩],
            [{ P with
                cpuWaitingTime := P.cpuWaitingTime + (T - P.clock)
                remainingBurstTime := rbt1
                remainingCPUtime := P.remainingCPUtime - slice
                stopRunningTime := T + slice
                clock := T }],
            Scheduler.FCFS [], out, some 0, T, call⟩ 0 rfl with hc | hc
  · exact ⟨slice, rbt1, X, out, call, by rw [hturn, hc], h2⟩
  · exact ⟨slice, rbt1, X, out, false, by rw [hturn, hc], h2⟩

/-- The turn that takes the `RUNNING -> BLOCKED` event, for one process under FCFS. -/
theorem solo_block (rn : List Int) (ofs : Nat) (out : Output) (now : Int) (call : Bool)
    (P : Process) (T : Int) (run : Option Nat) :
    ∃ (out1 : Output) (call1 : Bool),
      Simulator.turn_unbounded ⟨rn, ofs, [⟨T, 0, State.RUNNING, State.BLOCKED⟩], [P], Scheduler.FCFS [],
          out, run, now, call⟩
        = ⟨rn, (get_random_number rn ofs P.ioBurst).2,
            [⟨T + (get_random_number rn ofs P.ioBurst).1, 0, State.BLOCKED, State.READY⟩],
            [{ P with
                ioWaitingTime := P.ioWaitingTime + (get_random_number rn ofs P.ioBurst).1
                clock := T }],
            Scheduler.FCFS [], out1, none, T, call1⟩ := by
  have hturn : ∃ out1, Simulator.turn_unbounded ⟨rn, ofs, [⟨T, 0, State.RUNNING, State.BLOCKED⟩], [P],
        Scheduler.FCFS [], out, run, now, call⟩
      = call_scheduler ⟨rn, (get_random_number rn ofs P.ioBurst).2,
            [⟨T + (get_random_number rn ofs P.ioBurst).1, 0, State.BLOCKED, State.READY⟩],
            [{ P with
                ioWaitingTime := P.ioWaitingTime + (get_random_number rn ofs P.ioBurst).1
                clock := T }],
            Scheduler.FCFS [], out1, none, T, true⟩ := by
    refine ⟨(case_BLOCKED_unbounded 0 (update_stats ⟨T, 0, State.RUNNING, State.BLOCKED⟩
      ⟨rn, ofs, [], [P], Scheduler.FCFS [], out, run, T, call⟩)).output, ?_⟩
    rw [turn_unbounded_cons rfl]
    unfold transition_unbounded
    dsimp only
    rw [case_BLOCKED_unbounded_effect, update_stats_eq]
    rfl
  obtain ⟨out1, hturn⟩ := hturn
  rcases call_scheduler_idle ⟨rn, (get_random_number rn ofs P.ioBurst).2,
            [⟨T + (get_random_number rn ofs P.ioBurst).1, 0, State.BLOCKED, State.READY⟩],
            [{ P with
                ioWaitingTime := P.ioWaitingTime + (get_random_number rn ofs P.ioBurst).1
                clock := T }],
            Scheduler.FCFS [], out1, none, T, true⟩ rfl rfl with hc | hc
  · exact ⟨out1, true, by rw [hturn, hc]⟩
  · exact ⟨out1, false, by rw [hturn, hc]⟩

/-- The turn that takes the `RUNNING -> DONE` event, for one process under FCFS. -/
theorem solo_done (rn : List Int) (ofs : Nat) (out : Output) (now : Int) (call : Bool)
    (P : Process) (T : Int) (run : Option Nat) :
    ∃ (out1 : Output) (call1 : Bool),
      Simulator.turn_unbounded ⟨rn, ofs, [⟨T, 0, State.RUNNING, State.DONE⟩], [P], Scheduler.FCFS [],
          out, run, now, call⟩
        = ⟨rn, ofs, [],
            [{ P with
                finishingTime := T
                turnaroundTime := T - P.arrivalTime
                clock := T }],
            Scheduler.FCFS [], out1, none, T, call1⟩ := by
  have hturn : ∃ out1, Simulator.turn_unbounded ⟨rn, ofs, [⟨T, 0, State.RUNNING, State.DONE⟩], [P],
        Scheduler.FCFS [], out, run, now, call⟩
      = call_scheduler ⟨rn, ofs, [],
            [{ P with
                finishingTime := T
                turnaroundTime := T - P.arrivalTime
                clock := T }],
            Scheduler.FCFS [], out1, none, T, true⟩ := by
    refine ⟨(update_stats ⟨T, 0, State.RUNNING, State.DONE⟩
      ⟨rn, ofs, [], [P], Scheduler.FCFS [], out, run, T, call⟩).output, ?_⟩
    rw [turn_unbounded_cons rfl]
    unfold transition_unbounded
    dsimp only
    rw [case_DONE_unbounded_effect, update_stats_eq]
    rfl
  obtain ⟨out1, hturn⟩ := hturn
  rcases call_scheduler_idle ⟨rn, ofs, [],
            [{ P with
                finishingTime := T
                turnaroundTime := T - P.arrivalTime
                clock := T }],
            Scheduler.FCFS [], out1, none, T, true⟩ rfl rfl with hc | hc
  · exact ⟨out1, true, by rw [hturn, hc]⟩
  · exact ⟨out1, false, by rw [hturn, hc]⟩

end Sched

namespace Sched
open DES_Layer Simulator

/-! ## One process under FCFS: the invariant of the run -/

theorem entries_snoc (trace : List Event) (e : Event) :
    entries (trace ++ [e])
      = entries trace ++
        (if e.new_state = State.RUNNING ∨ e.new_state = State.BLOCKED then [e] else []) := by
  unfold entries
  rw [List.filter_append]
  by_cases h : e.new_state = State.RUNNING ∨ e.new_state = State.BLOCKED
  · simp [List.filter_cons, h]
  · simp [List.filter_cons, h]

theorem entries_snoc_other (trace : List Event) (e : Event)
    (h1 : e.new_state ≠ State.RUNNING) (h2 : e.new_state ≠ State.BLOCKED) :
    entries (trace ++ [e]) = entries trace := by
  rw [entries_snoc, if_neg (by rintro (h | h); exact h1 h; exact h2 h)]
  simp

theorem entries_snoc_entry (trace : List Event) (e : Event)
    (h : e.new_state = State.RUNNING ∨ e.new_state = State.BLOCKED) :
    entries (trace ++ [e]) = entries trace ++ [e] := by
  rw [entries_snoc, if_pos h]

theorem io_drawn_record_other (g : IoLog) (e : Event) (h1 : e.new_state ≠ State.BLOCKED)
    (h2 : e.old_state ≠ State.BLOCKED) : g.record e = g := by
  simp [IoLog.record, h1, h2]

theorem io_drawn_record_open (g : IoLog) (e : Event) (h1 : e.new_state = State.BLOCKED) :
    io_drawn (g.record e) = io_drawn g ∧ (g.record e).blocked_at e.process = e.timestamp := by
  have : g.record e = IoLog.mk (Function.update g.blocked_at e.process e.timestamp) g.bursts := by
    simp [IoLog.record, h1]
  rw [this]
  exact ⟨rfl, by simp⟩

theorem io_drawn_record_close (g : IoLog) (e : Event) (h1 : e.new_state ≠ State.BLOCKED)
    (h2 : e.old_state = State.BLOCKED) :
    io_drawn (g.record e) = io_drawn g + (e.timestamp - g.blocked_at e.process) := by
  have : g.record e
      = IoLog.mk g.blocked_at ((g.blocked_at e.process, e.timestamp) :: g.bursts) := by
    simp [IoLog.record, h1, h2]
  rw [this]
  unfold io_drawn
  simp only [List.map_cons, List.sum_cons]
  omega

theorem solo_intro (rn : List Int) (line : InputLine) (ofs : Nat) (ev : List Event)
    (P : Process) (out : Output) (run : Option Nat) (now : Int) (call : Bool)
    (trace : List Event) (hofs : ofs < rn.length)
    (h1 : P.cpuBurst = line.cpuB) (h2 : P.ioBurst = line.ioB) (h3 : P.cpuWaitingTime = 0)
    (hph : SoloPhase line P ev run (io_log trace))
    (hor : line.cpuB ≤ 10000 → SoloOracle rn P ev ofs trace) :
    Solo rn line ⟨rn, ofs, ev, [P], Scheduler.FCFS [], out, run, now, call⟩ trace :=
  ⟨P, rfl, rfl, rfl, hofs, h1, h2, h3, hph, hor⟩

theorem next_ofs (rn : List Int) (ofs k : Nat) (burst : Int) (hofs : ofs < rn.length)
    (h : ofs = (1 + k) % rn.length) :
    (get_random_number rn ofs burst).2 = (1 + (k + 1)) % rn.length ∧
    (get_random_number rn ofs burst).2 < rn.length := by
  rw [get_random_number_ofs rn ofs burst hofs]
  refine ⟨?_, Nat.mod_lt _ (by omega)⟩
  rw [h, Nat.mod_add_mod, Nat.add_assoc]

end Sched

namespace Sched
open DES_Layer Simulator

theorem solo_step_arrival (rn : List Int) (line : InputLine) (hat : 0 ≤ line.at_)
    (ofs : Nat) (out : Output) (now : Int) (call : Bool) (P : Process) (run : Option Nat)
    (trace : List Event) (h_ofs : ofs < rn.length)
    (h_cb : P.cpuBurst = line.cpuB) (h_ib : P.ioBurst = line.ioB) (h_cw : P.cpuWaitingTime = 0)
    (h_or : line.cpuB ≤ 10000 →
      SoloOracle rn P [⟨line.at_, 0, State.CREATED, State.READY⟩] ofs trace)
    (hrun : run = none) (hrem : P.remainingCPUtime = line.totCPU)
    (hio : P.ioWaitingTime = 0) (hdr : io_drawn (io_log trace) = 0) :
    Solo rn line (Simulator.turn_unbounded ⟨rn, ofs, [⟨line.at_, 0, State.CREATED, State.READY⟩], [P],
        Scheduler.FCFS [], out, run, now, call⟩)
      (trace ++ [⟨line.at_, 0, State.CREATED, State.READY⟩]) ∧
    solo_measure (Simulator.turn_unbounded ⟨rn, ofs, [⟨line.at_, 0, State.CREATED, State.READY⟩], [P],
        Scheduler.FCFS [], out, run, now, call⟩)
      < solo_measure ⟨rn, ofs, [⟨line.at_, 0, State.CREATED, State.READY⟩], [P],
        Scheduler.FCFS [], out, run, now, call⟩ := by
  rw [solo_arrival rn ofs out now call P line.at_ State.CREATED run (by omega)
    (fun _ => hrun)]
  have hlog := io_log_snoc trace ⟨line.at_, 0, State.CREATED, State.READY⟩
  have hent := entries_snoc_other trace ⟨line.at_, 0, State.CREATED, State.READY⟩
    (by simp) (by simp)
  refine ⟨solo_intro rn line ofs _ _ _ _ _ _ _ h_ofs h_cb h_ib h_cw ?_ ?_, ?_⟩
  · right; left
    refine ⟨line.at_, rfl, rfl, rfl, ?_, hat, ?_⟩
    · show line.at_ = line.at_ + (line.totCPU - P.remainingCPUtime) + P.ioWaitingTime
      rw [hrem, hio]; omega
    · show P.ioWaitingTime = _
      rw [hlog, io_drawn_record_other _ _ (by simp) (by simp), hio, hdr]
  · intro hc
    obtain ⟨o1, o2, o3, o4⟩ := h_or hc
    refine ⟨by rw [hent]; exact o1, by rw [hent]; exact o2, by rw [hent]; exact o3, ?_⟩
    intro x hx
    rw [List.mem_singleton] at hx
    subst hx
    refine ⟨fun h => by simp at h, fun _ => ?_⟩
    rw [hent]
    exact (o4 _ (List.mem_singleton.2 rfl)).2 (by simp)
  · simp [solo_measure, getProc]

theorem solo_step_unblock (rn : List Int) (line : InputLine)
    (ofs : Nat) (out : Output) (now : Int) (call : Bool) (P : Process) (run : Option Nat)
    (trace : List Event) (T : Int) (h_ofs : ofs < rn.length)
    (h_cb : P.cpuBurst = line.cpuB) (h_ib : P.ioBurst = line.ioB) (h_cw : P.cpuWaitingTime = 0)
    (h_or : line.cpuB ≤ 10000 →
      SoloOracle rn P [⟨T, 0, State.BLOCKED, State.READY⟩] ofs trace)
    (hrun : run = none)
    (hT : T = line.at_ + (line.totCPU - P.remainingCPUtime) + P.ioWaitingTime)
    (hT0 : 0 ≤ T)
    (hio : P.ioWaitingTime = io_drawn (io_log trace) + (T - (io_log trace).blocked_at 0)) :
    Solo rn line (Simulator.turn_unbounded ⟨rn, ofs, [⟨T, 0, State.BLOCKED, State.READY⟩], [P],
        Scheduler.FCFS [], out, run, now, call⟩)
      (trace ++ [⟨T, 0, State.BLOCKED, State.READY⟩]) ∧
    solo_measure (Simulator.turn_unbounded ⟨rn, ofs, [⟨T, 0, State.BLOCKED, State.READY⟩], [P],
        Scheduler.FCFS [], out, run, now, call⟩)
      < solo_measure ⟨rn, ofs, [⟨T, 0, State.BLOCKED, State.READY⟩], [P],
        Scheduler.FCFS [], out, run, now, call⟩ := by
  rw [solo_arrival rn ofs out now call P T State.BLOCKED run (by omega) (fun _ => hrun)]
  have hlog := io_log_snoc trace ⟨T, 0, State.BLOCKED, State.READY⟩
  have hent := entries_snoc_other trace ⟨T, 0, State.BLOCKED, State.READY⟩
    (by simp) (by simp)
  refine ⟨solo_intro rn line ofs _ _ _ _ _ _ _ h_ofs h_cb h_ib h_cw ?_ ?_, ?_⟩
  · right; left
    refine ⟨T, rfl, rfl, rfl, hT, hT0, ?_⟩
    show P.ioWaitingTime = _
    rw [hlog, io_drawn_record_close _ _ (by simp) rfl, hio]
  · intro hc
    obtain ⟨o1, o2, o3, o4⟩ := h_or hc
    refine ⟨by rw [hent]; exact o1, by rw [hent]; exact o2, by rw [hent]; exact o3, ?_⟩
    intro x hx
    rw [List.mem_singleton] at hx
    subst hx
    refine ⟨fun h => by simp at h, fun _ => ?_⟩
    rw [hent]
    exact (o4 _ (List.mem_singleton.2 rfl)).2 (by simp)
  · simp [solo_measure, getProc]

theorem solo_step_expire (rn : List Int) (line : InputLine)
    (ofs : Nat) (out : Output) (now : Int) (call : Bool) (P : Process) (run : Option Nat)
    (trace : List Event) (T : Int) (h_ofs : ofs < rn.length)
    (h_cb : P.cpuBurst = line.cpuB) (h_ib : P.ioBurst = line.ioB) (h_cw : P.cpuWaitingTime = 0)
    (h_or : line.cpuB ≤ 10000 →
      SoloOracle rn P [⟨T, 0, State.RUNNING, State.READY⟩] ofs trace)
    (hT : T = line.at_ + (line.totCPU - P.remainingCPUtime) + P.ioWaitingTime)
    (hT0 : 0 ≤ T) (hrbt : 0 < P.remainingBurstTime)
    (hio : P.ioWaitingTime = io_drawn (io_log trace)) :
    Solo rn line (Simulator.turn_unbounded ⟨rn, ofs, [⟨T, 0, State.RUNNING, State.READY⟩], [P],
        Scheduler.FCFS [], out, run, now, call⟩)
      (trace ++ [⟨T, 0, State.RUNNING, State.READY⟩]) ∧
    solo_measure (Simulator.turn_unbounded ⟨rn, ofs, [⟨T, 0, State.RUNNING, State.READY⟩], [P],
        Scheduler.FCFS [], out, run, now, call⟩)
      < solo_measure ⟨rn, ofs, [⟨T, 0, State.RUNNING, State.READY⟩], [P],
        Scheduler.FCFS [], out, run, now, call⟩ := by
  rw [solo_arrival rn ofs out now call P T State.RUNNING run (by omega)
    (fun h => absurd h (by omega))]
  have hlog := io_log_snoc trace ⟨T, 0, State.RUNNING, State.READY⟩
  refine ⟨solo_intro rn line ofs _ _ _ _ _ _ _ h_ofs h_cb h_ib h_cw ?_ ?_, ?_⟩
  · right; left
    refine ⟨T, rfl, rfl, rfl, hT, hT0, ?_⟩
    show P.ioWaitingTime = _
    rw [hlog, io_drawn_record_other _ _ (by simp) (by simp), hio]
  · intro hc
    obtain ⟨_, _, _, o4⟩ := h_or hc
    exact absurd rfl ((o4 _ (List.mem_singleton.2 rfl)).1 rfl).2
  · simp [solo_measure, getProc]

theorem solo_step_done (rn : List Int) (line : InputLine)
    (ofs : Nat) (out : Output) (now : Int) (call : Bool) (P : Process) (run : Option Nat)
    (trace : List Event) (T : Int) (h_ofs : ofs < rn.length)
    (h_cb : P.cpuBurst = line.cpuB) (h_ib : P.ioBurst = line.ioB) (h_cw : P.cpuWaitingTime = 0)
    (h_or : line.cpuB ≤ 10000 →
      SoloOracle rn P [⟨T, 0, State.RUNNING, State.DONE⟩] ofs trace)
    (hT : T = line.at_ + (line.totCPU - P.remainingCPUtime) + P.ioWaitingTime)
    (hrem : P.remainingCPUtime = 0)
    (hio : P.ioWaitingTime = io_drawn (io_log trace)) :
    Solo rn line (Simulator.turn_unbounded ⟨rn, ofs, [⟨T, 0, State.RUNNING, State.DONE⟩], [P],
        Scheduler.FCFS [], out, run, now, call⟩)
      (trace ++ [⟨T, 0, State.RUNNING, State.DONE⟩]) ∧
    solo_measure (Simulator.turn_unbounded ⟨rn, ofs, [⟨T, 0, State.RUNNING, State.DONE⟩], [P],
        Scheduler.FCFS [], out, run, now, call⟩)
      < solo_measure ⟨rn, ofs, [⟨T, 0, State.RUNNING, State.DONE⟩], [P],
        Scheduler.FCFS [], out, run, now, call⟩ := by
  obtain ⟨out1, call1, hturn⟩ := solo_done rn ofs out now call P T run
  rw [hturn]
  have hlog := io_log_snoc trace ⟨T, 0, State.RUNNING, State.DONE⟩
  have hent := entries_snoc_other trace ⟨T, 0, State.RUNNING, State.DONE⟩
    (by simp) (by simp)
  refine ⟨solo_intro rn line ofs _ _ _ _ _ _ _ h_ofs h_cb h_ib h_cw ?_ ?_, ?_⟩
  · right; right; right; right
    refine ⟨rfl, ?_, ?_⟩
    · show T = line.at_ + line.totCPU + P.ioWaitingTime
      rw [hT, hrem]; omega
    · show P.ioWaitingTime = _
      rw [hlog, io_drawn_record_other _ _ (by simp) (by simp), hio]
  · intro hc
    obtain ⟨o1, o2, o3, _⟩ := h_or hc
    refine ⟨by rw [hent]; exact o1, by rw [hent]; exact o2, by rw [hent]; exact o3, ?_⟩
    intro x hx
    simp at hx
  · simp [solo_measure, getProc]

theorem solo_step_block (rn : List Int) (line : InputLine) (hnn : ∀ x ∈ rn, 0 ≤ x)
    (hib : 1 ≤ line.ioB)
    (ofs : Nat) (out : Output) (now : Int) (call : Bool) (P : Process) (run : Option Nat)
    (trace : List Event) (T : Int) (h_ofs : ofs < rn.length)
    (h_cb : P.cpuBurst = line.cpuB) (h_ib : P.ioBurst = line.ioB) (h_cw : P.cpuWaitingTime = 0)
    (h_or : line.cpuB ≤ 10000 →
      SoloOracle rn P [⟨T, 0, State.RUNNING, State.BLOCKED⟩] ofs trace)
    (hT : T = line.at_ + (line.totCPU - P.remainingCPUtime) + P.ioWaitingTime)
    (hT0 : 0 ≤ T) (hrbt : P.remainingBurstTime ≤ 0)
    (hio : P.ioWaitingTime = io_drawn (io_log trace)) :
    Solo rn line (Simulator.turn_unbounded ⟨rn, ofs, [⟨T, 0, State.RUNNING, State.BLOCKED⟩], [P],
        Scheduler.FCFS [], out, run, now, call⟩)
      (trace ++ [⟨T, 0, State.RUNNING, State.BLOCKED⟩]) ∧
    solo_measure (Simulator.turn_unbounded ⟨rn, ofs, [⟨T, 0, State.RUNNING, State.BLOCKED⟩], [P],
        Scheduler.FCFS [], out, run, now, call⟩)
      < solo_measure ⟨rn, ofs, [⟨T, 0, State.RUNNING, State.BLOCKED⟩], [P],
        Scheduler.FCFS [], out, run, now, call⟩ := by
  obtain ⟨out1, call1, hturn⟩ := solo_block rn ofs out now call P T run
  rw [hturn]
  have hlog := io_log_snoc trace ⟨T, 0, State.RUNNING, State.BLOCKED⟩
  have hent := entries_snoc_entry trace ⟨T, 0, State.RUNNING, State.BLOCKED⟩ (Or.inr rfl)
  have hd := (get_random_number_range rn ofs P.ioBurst hnn (by rw [h_ib]; exact hib)).1
  have hopen := io_drawn_record_open (io_log trace) ⟨T, 0, State.RUNNING, State.BLOCKED⟩ rfl
  have hofs1 : (get_random_number rn ofs P.ioBurst).2 < rn.length := by
    rw [get_random_number_ofs rn ofs _ h_ofs]
    exact Nat.mod_lt _ (by omega)
  refine ⟨solo_intro rn line _ _ _ _ _ _ _ _ hofs1 h_cb h_ib h_cw ?_ ?_, ?_⟩
  · right; right; right; left
    refine ⟨T + (get_random_number rn ofs P.ioBurst).1, rfl, rfl, ?_, hrbt, by omega, ?_⟩
    · show T + (get_random_number rn ofs P.ioBurst).1
        = line.at_ + (line.totCPU - P.remainingCPUtime)
          + (P.ioWaitingTime + (get_random_number rn ofs P.ioBurst).1)
      omega
    · show P.ioWaitingTime + (get_random_number rn ofs P.ioBurst).1 = _
      rw [hlog, hopen.1]
      have h2 : ((io_log trace).record ⟨T, 0, State.RUNNING, State.BLOCKED⟩).blocked_at 0 = T :=
        hopen.2
      rw [h2, hio]
      omega
  · intro hc
    obtain ⟨o1, o2, o3, o4⟩ := h_or hc
    obtain ⟨hk, _⟩ := (o4 _ (List.mem_singleton.2 rfl)).1 rfl
    refine ⟨?_, ?_, ⟨o3.1, ?_⟩, ?_⟩
    · rw [hent, List.length_append]
      exact (next_ofs rn ofs _ P.ioBurst h_ofs o1).1
    · rw [hent, List.length_append, List.map_append, o2]
      show _ = alternate (entries trace).length ++ _
      have : ¬ (entries trace).length % 2 = 0 := by omega
      simp [this]
    · show P.ioWaitingTime + (get_random_number rn ofs P.ioBurst).1
        = io_draws rn P.ioBurst ((entries (trace ++ [⟨T, 0, State.RUNNING, State.BLOCKED⟩])).length / 2)
      rw [hent, List.length_append]
      have h2 : ((entries trace).length + [(⟨T, 0, State.RUNNING, State.BLOCKED⟩ : Event)].length) / 2
          = (entries trace).length / 2 + 1 := by
        simp only [List.length_singleton]; omega
      have h3 : 2 + 2 * ((entries trace).length / 2) = 1 + (entries trace).length := by omega
      rw [h2]
      show _ = io_draws rn P.ioBurst ((entries trace).length / 2)
        + (get_random_number rn ((2 + 2 * ((entries trace).length / 2)) % rn.length) P.ioBurst).1
      rw [h3, ← o1, ← o3.2]
    · intro x hx
      rw [List.mem_singleton] at hx
      subst hx
      refine ⟨fun h => by simp at h, fun _ => ?_⟩
      rw [hent, List.length_append]
      simp only [List.length_singleton]
      omega
  · simp [solo_measure, getProc]

theorem solo_step_dispatch (rn : List Int) (line : InputLine) (hnn : ∀ x ∈ rn, 0 ≤ x)
    (hcb : 1 ≤ line.cpuB)
    (ofs : Nat) (out : Output) (now : Int) (call : Bool) (P : Process)
    (trace : List Event) (T : Int) (h_ofs : ofs < rn.length)
    (h_cb : P.cpuBurst = line.cpuB) (h_ib : P.ioBurst = line.ioB) (h_cw : P.cpuWaitingTime = 0)
    (h_or : line.cpuB ≤ 10000 →
      SoloOracle rn P [⟨T, 0, State.READY, State.RUNNING⟩] ofs trace)
    (hclk : P.clock = T)
    (hT : T = line.at_ + (line.totCPU - P.remainingCPUtime) + P.ioWaitingTime)
    (hT0 : 0 ≤ T)
    (hio : P.ioWaitingTime = io_drawn (io_log trace)) :
    Solo rn line (Simulator.turn_unbounded ⟨rn, ofs, [⟨T, 0, State.READY, State.RUNNING⟩], [P],
        Scheduler.FCFS [], out, some 0, now, call⟩)
      (trace ++ [⟨T, 0, State.READY, State.RUNNING⟩]) ∧
    solo_measure (Simulator.turn_unbounded ⟨rn, ofs, [⟨T, 0, State.READY, State.RUNNING⟩], [P],
        Scheduler.FCFS [], out, some 0, now, call⟩)
      < solo_measure ⟨rn, ofs, [⟨T, 0, State.READY, State.RUNNING⟩], [P],
        Scheduler.FCFS [], out, some 0, now, call⟩ := by
  obtain ⟨slice, rbt1, X, out1, call1, hturn, hcases⟩ :=
    solo_dispatch rn ofs out now call P T
  rw [hturn]
  have hlog := io_log_snoc trace ⟨T, 0, State.READY, State.RUNNING⟩
  have hent := entries_snoc_entry trace ⟨T, 0, State.READY, State.RUNNING⟩ (Or.inl rfl)
  have hdraw := get_random_number_range rn ofs P.cpuBurst hnn (by rw [h_cb]; exact hcb)
  have hb1 : 1 ≤ (if 0 < P.remainingBurstTime then P.remainingBurstTime
      else (get_random_number rn ofs P.cpuBurst).1) := by
    split
    · omega
    · exact hdraw.1
  have hofs1 : (if 0 < P.remainingBurstTime then ofs
      else (get_random_number rn ofs P.cpuBurst).2) < rn.length := by
    split
    · exact h_ofs
    · rw [get_random_number_ofs rn ofs _ h_ofs]
      exact Nat.mod_lt _ (by omega)
  refine ⟨solo_intro rn line _ _ _ _ _ _ _ _ hofs1 h_cb h_ib ?_ ?_ ?_, ?_⟩
  · show P.cpuWaitingTime + (T - P.clock) = 0
    rw [h_cw, hclk]; omega
  · right; right; left
    refine ⟨T + slice, X, rfl, rfl, ?_, ?_, ?_⟩
    · show T + slice
        = line.at_ + (line.totCPU - (P.remainingCPUtime - slice)) + P.ioWaitingTime
      omega
    · show P.ioWaitingTime = _
      rw [hlog, io_drawn_record_other _ _ (by simp) (by simp), hio]
    · rcases hcases with ⟨hx, hs, _⟩ | ⟨hx, hs, hr, hq, _⟩ | ⟨hx, hs, hr, _, _⟩
      · left
        refine ⟨hx, ?_⟩
        show P.remainingCPUtime - slice = 0
        omega
      · right; right
        refine ⟨hx, ?_, by omega⟩
        show 0 < rbt1
        omega
      · right; left
        refine ⟨hx, ?_, by omega⟩
        show rbt1 ≤ 0
        rw [hr]
        split <;> omega
  · intro hc
    obtain ⟨o1, o2, o3, o4⟩ := h_or hc
    have hk := (o4 _ (List.mem_singleton.2 rfl)).2 (by simp)
    have hfresh : ¬ 0 < P.remainingBurstTime := by have := o3.1; omega
    have hnotready : X ≠ State.READY := by
      rcases hcases with ⟨hx, _⟩ | ⟨hx, hs, hr, hq, _⟩ | ⟨hx, _⟩
      · rw [hx]; simp
      · rw [if_neg hfresh] at hq
        have := hdraw.2
        omega
      · rw [hx]; simp
    refine ⟨?_, ?_, ?_, ?_⟩
    · rw [hent, List.length_append, if_neg hfresh]
      exact (next_ofs rn ofs _ P.cpuBurst h_ofs o1).1
    · rw [hent, List.length_append, List.map_append, o2]
      show _ = alternate (entries trace).length ++ _
      simp [hk]
    · refine ⟨?_, ?_⟩
      · show rbt1 ≤ 0
        rcases hcases with ⟨_, _, hr⟩ | ⟨hx, _⟩ | ⟨_, _, hr, _, _⟩
        · omega
        · exact absurd hx hnotready
        · rw [hr, if_neg hfresh]; exact o3.1
      · show P.ioWaitingTime
          = io_draws rn P.ioBurst
            ((entries (trace ++ [⟨T, 0, State.READY, State.RUNNING⟩])).length / 2)
        rw [hent, List.length_append]
        have h2 : ((entries trace).length
            + [(⟨T, 0, State.READY, State.RUNNING⟩ : Event)].length) / 2
            = (entries trace).length / 2 := by
          simp only [List.length_singleton]; omega
        rw [h2]
        exact o3.2
    · intro x hx
      rw [List.mem_singleton] at hx
      subst hx
      refine ⟨fun _ => ⟨?_, hnotready⟩, fun h => absurd rfl h⟩
      rw [hent, List.length_append]
      simp only [List.length_singleton]
      omega
  · rcases hcases with ⟨hx, hs, _⟩ | ⟨hx, hs, hr, hq, hlt⟩ | ⟨hx, hs, hr, hq, hlt⟩
    · subst hx
      subst hs
      simp [solo_measure, getProc]
    · subst hx
      simp only [solo_measure, getProc, List.getD_cons_zero]
      simp
      omega
    · subst hx
      simp only [solo_measure, getProc, List.getD_cons_zero]
      simp
      omega

end Sched

namespace Sched
open DES_Layer Simulator

theorem solo_step (rn : List Int) (line : InputLine) (hnn : ∀ x ∈ rn, 0 ≤ x)
    (hat : 0 ≤ line.at_) (hcb : 1 ≤ line.cpuB) (hib : 1 ≤ line.ioB)
    (s : Simulator) (trace : List Event) (h : Solo rn line s trace)
    (e : Event) (rest : List Event) (he : s.events = e :: rest) :
    Solo rn line s.turn_unbounded (trace ++ [e]) ∧ solo_measure s.turn_unbounded < solo_measure s := by
  obtain ⟨rn1, ofs, ev, procs, sch, out, run, now, call⟩ := s
  obtain ⟨P, h1, h2, h3, h_ofs, h_cb, h_ib, h_cw, hph, h_or⟩ := h
  simp only at h1 h2 h3 h_ofs hph h_or he
  subst h1 h2 h3
  rcases hph with ⟨hev, hrun, _, hrem, hio, hdr⟩ | ⟨T, hev, hrun, hclk, hT, hT0, hio⟩ |
    ⟨T, X, hev, hrun, hT, hio, hX⟩ | ⟨T, hev, hrun, hT, _, hT0, hio⟩ | ⟨hev, _⟩
  · subst hev
    obtain ⟨rfl, _⟩ := List.cons.inj he
    exact solo_step_arrival rn1 line hat ofs out now call P run trace h_ofs h_cb h_ib h_cw
      h_or hrun hrem hio hdr
  · subst hev
    obtain ⟨rfl, _⟩ := List.cons.inj he
    subst hrun
    exact solo_step_dispatch rn1 line hnn hcb ofs out now call P trace T h_ofs h_cb h_ib h_cw
      h_or hclk hT hT0 hio
  · subst hev
    obtain ⟨rfl, _⟩ := List.cons.inj he
    rcases hX with ⟨hx, hrem⟩ | ⟨hx, hrbt, hT0⟩ | ⟨hx, hrbt, hT0⟩
    · subst hx
      exact solo_step_done rn1 line ofs out now call P run trace T h_ofs h_cb h_ib h_cw
        h_or hT hrem hio
    · subst hx
      exact solo_step_block rn1 line hnn hib ofs out now call P run trace T h_ofs h_cb h_ib
        h_cw h_or hT hT0 hrbt hio
    · subst hx
      exact solo_step_expire rn1 line ofs out now call P run trace T h_ofs h_cb h_ib h_cw
        h_or hT hT0 hrbt hio
  · subst hev
    obtain ⟨rfl, _⟩ := List.cons.inj he
    exact solo_step_unblock rn1 line ofs out now call P run trace T h_ofs h_cb h_ib h_cw
      h_or hrun hT hT0 hio
  · rw [hev] at he
    exact absurd he (by simp)

theorem solo_start_unbounded (u : Uninitialised) (rn : List Int) (line : InputLine)
    (hN : 1 ≤ rn.length) :
    Solo rn line (start_unbounded u Policy.F rn [line]) [] := by
  have hofs : (get_random_number rn 0 4).2 = 1 % rn.length := by
    rw [get_random_number_ofs rn 0 4 (by omega)]
  refine ⟨_, rfl, rfl, rfl, ?_, rfl, rfl, rfl, ?_, ?_⟩
  · show (get_random_number rn 0 4).2 < rn.length
    rw [hofs]
    exact Nat.mod_lt _ (by omega)
  · left
    refine ⟨rfl, rfl, (by show (-1 : Int) ≤ 0; omega), rfl, rfl, rfl⟩
  · intro _
    refine ⟨?_, rfl, ⟨(by show (-1 : Int) ≤ 0; omega), rfl⟩, ?_⟩
    · show (get_random_number rn 0 4).2 = _
      rw [hofs]
      rfl
    · intro x hx
      have hx1 : x = ⟨line.at_, 0, State.CREATED, State.READY⟩ := List.mem_singleton.1 hx
      subst hx1
      exact ⟨fun h => by simp at h, fun _ => rfl⟩

theorem solo_reach (u : Uninitialised) (rn : List Int) (line : InputLine)
    (hN : 1 ≤ rn.length) (hnn : ∀ x ∈ rn, 0 ≤ x)
    (hat : 0 ≤ line.at_) (hcb : 1 ≤ line.cpuB) (hib : 1 ≤ line.ioB) (n : Nat) :
    Solo rn line (simulation_unbounded n (start_unbounded u Policy.F rn [line]))
      (processed_unbounded (start_unbounded u Policy.F rn [line]) n) := by
  induction n with
  | zero => exact solo_start_unbounded u rn line hN
  | succ n ih =>
    rw [simulation_unbounded_succ]
    cases hev : (simulation_unbounded n (start_unbounded u Policy.F rn [line])).events with
    | nil =>
      rw [turn_unbounded_nil hev, processed_unbounded_nil _ _ hev]
      exact ih
    | cons e rest =>
      rw [processed_unbounded_cons _ _ hev]
      exact (solo_step rn line hnn hat hcb hib _ _ ih e rest hev).1

theorem solo_exits (u : Uninitialised) (rn : List Int) (line : InputLine)
    (hN : 1 ≤ rn.length) (hnn : ∀ x ∈ rn, 0 ≤ x)
    (hat : 0 ≤ line.at_) (hcb : 1 ≤ line.cpuB) (hib : 1 ≤ line.ioB) :
    ∃ n, (simulation_unbounded n (start_unbounded u Policy.F rn [line])).events = [] := by
  have key : ∀ m n, solo_measure (simulation_unbounded n (start_unbounded u Policy.F rn [line])) ≤ m →
      ∃ k, (simulation_unbounded k (start_unbounded u Policy.F rn [line])).events = [] := by
    intro m
    induction m with
    | zero =>
      intro n hm
      cases hev : (simulation_unbounded n (start_unbounded u Policy.F rn [line])).events with
      | nil => exact ⟨n, hev⟩
      | cons e rest =>
        have h2 := (solo_step rn line hnn hat hcb hib _ _
          (solo_reach u rn line hN hnn hat hcb hib n) e rest hev).2
        omega
    | succ m ih =>
      intro n hm
      cases hev : (simulation_unbounded n (start_unbounded u Policy.F rn [line])).events with
      | nil => exact ⟨n, hev⟩
      | cons e rest =>
        have h2 := (solo_step rn line hnn hat hcb hib _ _
          (solo_reach u rn line hN hnn hat hcb hib n) e rest hev).2
        rw [← simulation_unbounded_succ] at h2
        exact ih (n + 1) (by omega)
  exact key _ 0 (Nat.le_refl _)

/-- Over unbounded integers (single process under `FCFS`): for every input of one process
with arrival time `>= 0`, `cb >= 1`, `ib >= 1` and a non-empty non-negative
random table (any total cpu time), the loop exits; the first value of the table
gives the static priority and leaves the offset at `1`; whenever the loop has
exited the process has `cpuWaitingTime = 0`,
`finishingTime = arrival + total cpu + ioWaitingTime`, and `ioWaitingTime` is the
total length of the blocked periods of the trace; and when `cb <= 10000` (the
quantum `FCFS` runs with), after every number of turns the offset has advanced
by one for the static priority and one for each entry into `RUNNING` or
`BLOCKED`, these entries alternate starting with `RUNNING`, and
`ioWaitingTime` is the sum of the io bursts the table gives at the offsets of
the `BLOCKED` entries. -/
theorem single_process_fcfs_unbounded (u : Uninitialised) (random_nums : List Int) (line : InputLine)
    (hN : 1 ≤ random_nums.length) (hnn : ∀ x ∈ random_nums, 0 ≤ x)
    (hat : 0 ≤ line.at_) (hcb : 1 ≤ line.cpuB) (hib : 1 ≤ line.ioB) :
    (∃ n, (simulation_unbounded n (start_unbounded u Policy.F random_nums [line])).events = []) ∧
    (getProc (start_unbounded u Policy.F random_nums [line]).processes 0).static_prio
      = 1 + Int.tmod (random_nums.getD 0 0) 4 ∧
    (start_unbounded u Policy.F random_nums [line]).ofs = 1 % random_nums.length ∧
    (∀ n, (simulation_unbounded n (start_unbounded u Policy.F random_nums [line])).events = [] →
      (getProc (simulation_unbounded n (start_unbounded u Policy.F random_nums [line])).processes 0).cpuWaitingTime
        = 0 ∧
      (getProc (simulation_unbounded n (start_unbounded u Policy.F random_nums [line])).processes 0).finishingTime
        = line.at_ + line.totCPU +
          (getProc (simulation_unbounded n (start_unbounded u Policy.F random_nums [line])).processes 0).ioWaitingTime ∧
      (getProc (simulation_unbounded n (start_unbounded u Policy.F random_nums [line])).processes 0).ioWaitingTime
        = io_drawn (io_log (processed_unbounded (start_unbounded u Policy.F random_nums [line]) n))) ∧
    (line.cpuB ≤ 10000 → ∀ n,
      (simulation_unbounded n (start_unbounded u Policy.F random_nums [line])).ofs
        = (1 + (entries (processed_unbounded (start_unbounded u Policy.F random_nums [line]) n)).length)
          % random_nums.length ∧
      (entries (processed_unbounded (start_unbounded u Policy.F random_nums [line]) n)).map Event.new_state
        = alternate (entries (processed_unbounded (start_unbounded u Policy.F random_nums [line]) n)).length ∧
      (getProc (simulation_unbounded n (start_unbounded u Policy.F random_nums [line])).processes 0).ioWaitingTime
        = io_draws random_nums line.ioB
          ((entries (processed_unbounded (start_unbounded u Policy.F random_nums [line]) n)).length / 2)) := by
  refine ⟨solo_exits u random_nums line hN hnn hat hcb hib, rfl, ?_, ?_, ?_⟩
  · show (get_random_number random_nums 0 4).2 = _
    rw [get_random_number_ofs random_nums 0 4 (by omega)]
  · intro n hev
    obtain ⟨P, _, h2, _, _, _, _, h_cw, hph, _⟩ := solo_reach u random_nums line hN hnn hat hcb hib n
    rw [h2]
    show P.cpuWaitingTime = 0 ∧ P.finishingTime = line.at_ + line.totCPU + P.ioWaitingTime ∧
      P.ioWaitingTime = _
    rcases hph with ⟨h, _⟩ | ⟨_, h, _⟩ | ⟨_, _, h, _⟩ | ⟨_, h, _⟩ | ⟨_, hf, hio⟩
    · rw [hev] at h; exact absurd h (by simp)
    · rw [hev] at h; exact absurd h (by simp)
    · rw [hev] at h; exact absurd h (by simp)
    · rw [hev] at h; exact absurd h (by simp)
    · exact ⟨h_cw, hf, hio⟩
  · intro hc n
    obtain ⟨P, _, h2, _, _, _, h_ib, _, _, h_or⟩ :=
      solo_reach u random_nums line hN hnn hat hcb hib n
    obtain ⟨o1, o2, o3, _⟩ := h_or hc
    rw [h2]
    refine ⟨o1, o2, ?_⟩
    show P.ioWaitingTime = _
    rw [← h_ib]
    exact o3.2

end Sched

namespace Sched
open DES_Layer Simulator

/-! ## The points inside the loop body and the functions of the model -/

theorem after_add_fields (e : Event) (s : Simulator) :
    (after_add e s).events = s.events ∧
    (after_add e s).CURRENT_TIME = e.timestamp ∧
    (after_add e s).CURRENT_RUNNING_PROCESS = s.CURRENT_RUNNING_PROCESS ∧
    (after_add e s).random_nums = s.random_nums ∧
    (after_add e s).ofs = s.ofs ∧
    (after_add e s).scheduler = (s.scheduler.add_process s.processes e.process).1 ∧
    (after_add e s).processes = (s.scheduler.add_process s.processes e.process).2 := by
  unfold after_add
  rw [update_stats_eq]
  exact ⟨rfl, rfl, rfl, rfl, rfl, rfl, rfl⟩

end Sched

namespace Sched
open DES_Layer Simulator

/-! ## One pending event for each process -/

theorem valid_reach (u : Uninitialised) (policy : Policy) (rn : List Int)
    (input : List InputLine) (hv : ValidInput policy rn input) (n : Nat) :
    Inv (simulation_unbounded (n + 1) (start_unbounded u policy rn input)) ∧
    ∃ t, Inv { simulation_unbounded n (start_unbounded u policy rn input) with CURRENT_TIME := t } :=
  reach_inv u policy rn input hv.table_nonneg hv.quantum_pos hv.arrival_sorted
    hv.totcpu_nonneg hv.cpub_pos hv.iob_pos n

end Sched

namespace Sched
open DES_Layer Simulator

/-! ## The scheduler call waits for the events of the current time -/

theorem call_scheduler_not_next (s : Simulator) (h : ¬ calls_next s) :
    (call_scheduler s).scheduler = s.scheduler ∧
    (call_scheduler s).events = s.events ∧
    (call_scheduler s).CURRENT_RUNNING_PROCESS = s.CURRENT_RUNNING_PROCESS := by
  unfold call_scheduler
  by_cases hc : s.CALL_SCHEDULER = true
  · rw [if_pos hc]
    by_cases hh : get_next_time_event s.events = s.CURRENT_TIME
    · rw [if_pos hh]
      exact ⟨rfl, rfl, rfl⟩
    · rw [if_neg hh]
      cases hr : s.CURRENT_RUNNING_PROCESS with
      | none => exact absurd ⟨hc, hh, hr⟩ h
      | some r => exact ⟨rfl, rfl, rfl⟩
  · rw [if_neg hc]
    exact ⟨rfl, rfl, rfl⟩

theorem call_scheduler_next (s : Simulator) (h : calls_next s) :
    (call_scheduler s).scheduler = s.scheduler.get_next_process.2 ∧
    (call_scheduler s).CURRENT_RUNNING_PROCESS = s.scheduler.get_next_process.1 ∧
    (call_scheduler s).CALL_SCHEDULER = false ∧
    (call_scheduler s).events
      = (match s.scheduler.get_next_process.1 with
         | none => s.events
         | some q => put_event ⟨s.CURRENT_TIME, q, State.READY, State.RUNNING⟩ s.events) := by
  obtain ⟨hc, hh, hr⟩ := h
  unfold call_scheduler
  rw [if_pos hc, if_neg hh]
  dsimp only
  rw [hr]
  dsimp only
  cases hq : s.scheduler.get_next_process.1 with
  | none => exact ⟨rfl, rfl, rfl, rfl⟩
  | some q => exact ⟨rfl, rfl, rfl, rfl⟩

end Sched

namespace Sched
open DES_Layer Simulator

/-! ## The oracle values a turn draws -/

end Sched

namespace Sched
open DES_Layer Simulator

/-! ## The levels of the priority tables -/

theorem prio_add_level_eq (a x : List (List Nat)) (ps : List Process) (p : Nat) :
    Prio.add_process a x ps p
      = if (getProc ps p).remainingBurstTime > 0 ∧ (getProc ps p).dynamic_prio - 1 = -1 then
          (a, Prio.push_level x (Prio.add_level ps p) p,
            setProc ps p { getProc ps p with dynamic_prio := Prio.add_level ps p })
        else
          (Prio.push_level a (Prio.add_level ps p) p, x,
            setProc ps p { getProc ps p with dynamic_prio := Prio.add_level ps p }) := by
  unfold Prio.add_process Prio.add_level
  dsimp only
  by_cases h1 : (getProc ps p).remainingBurstTime > 0
  · by_cases h2 : (getProc ps p).dynamic_prio - 1 = -1
    · rw [if_pos h1, if_pos h2, if_pos ⟨h1, h2⟩, if_pos h1, if_pos h2]
    · rw [if_pos h1, if_neg h2, if_neg (fun h => h2 h.2), if_pos h1, if_neg h2]
  · rw [if_neg h1, if_neg (fun h => h1 h.1), if_neg h1]

theorem push_level_length (Q : List (List Nat)) (level : Int) (p : Nat) :
    (Prio.push_level Q level p).length = Q.length := by
  unfold Prio.push_level
  split
  · exact List.length_modify _ _ _
  · rfl

theorem pop_highest_length (Q : List (List Nat)) :
    ∀ (q : Nat) (Q1 : List (List Nat)), Prio.pop_highest Q = some (q, Q1) →
      Q1.length = Q.length := by
  induction Q with
  | nil => intro q Q1 h; simp [Prio.pop_highest] at h
  | cons a Q ih =>
    intro q Q1 h
    rw [pop_highest_cons] at h
    cases hq : Prio.pop_highest Q with
    | some r =>
      rw [hq] at h
      simp only [Option.some.injEq, Prod.mk.injEq] at h
      obtain ⟨_, rfl⟩ := h
      have := ih r.1 r.2 (by rw [hq])
      simp [this]
    | none =>
      rw [hq] at h
      cases a with
      | nil => simp at h
      | cons n a1 =>
        simp only [Option.some.injEq, Prod.mk.injEq] at h
        obtain ⟨_, rfl⟩ := h
        simp

theorem add_process_levels (sch : Scheduler) (ps : List Process) (p : Nat) :
    (sch.add_process ps p).1.levels = sch.levels := by
  cases sch with
  | FCFS l => rfl
  | LCFS l => rfl
  | SRTF l => rfl
  | RR q l => rfl
  | Prio q m a x =>
    show [(Prio.add_process a x ps p).1.length, (Prio.add_process a x ps p).2.1.length] = _
    rw [prio_add_level_eq]
    split <;> simp [Scheduler.levels, push_level_length]
  | PrePrio q m a x =>
    show [(Prio.add_process a x ps p).1.length, (Prio.add_process a x ps p).2.1.length] = _
    rw [prio_add_level_eq]
    split <;> simp [Scheduler.levels, push_level_length]

theorem prio_next_levels (a x : List (List Nat)) :
    ∀ l ∈ [(Prio.get_next_process a x).2.1.length, (Prio.get_next_process a x).2.2.length],
      l = a.length ∨ l = x.length := by
  unfold Prio.get_next_process
  cases h1 : Prio.pop_highest a with
  | some r =>
    obtain ⟨q, a1⟩ := r
    have := pop_highest_length a q a1 h1
    intro l hl
    simp only [List.mem_cons, List.mem_singleton, List.not_mem_nil, or_false] at hl
    rcases hl with rfl | rfl
    · exact Or.inl this
    · exact Or.inr rfl
  | none =>
    cases h2 : Prio.pop_highest x with
    | some r =>
      obtain ⟨q, x1⟩ := r
      have := pop_highest_length x q x1 h2
      intro l hl
      simp only [List.mem_cons, List.mem_singleton, List.not_mem_nil, or_false] at hl
      rcases hl with rfl | rfl
      · exact Or.inr this
      · exact Or.inl rfl
    | none =>
      intro l hl
      simp only [List.mem_cons, List.mem_singleton, List.not_mem_nil, or_false] at hl
      rcases hl with rfl | rfl
      · exact Or.inr rfl
      · exact Or.inl rfl

theorem get_next_process_levels (sch : Scheduler) :
    ∀ l ∈ sch.get_next_process.2.levels, l ∈ sch.levels := by
  cases sch with
  | FCFS l => intro l hl; exact absurd hl (by simp [Scheduler.get_next_process, Scheduler.levels])
  | LCFS l => intro l hl; exact absurd hl (by simp [Scheduler.get_next_process, Scheduler.levels])
  | SRTF l => intro l hl; exact absurd hl (by simp [Scheduler.get_next_process, Scheduler.levels])
  | RR q l => intro l hl; exact absurd hl (by simp [Scheduler.get_next_process, Scheduler.levels])
  | Prio q m a x =>
    intro l hl
    have := prio_next_levels a x l hl
    simp only [Scheduler.levels, List.mem_cons, List.mem_singleton, List.not_mem_nil, or_false]
    exact this
  | PrePrio q m a x =>
    intro l hl
    have := prio_next_levels a x l hl
    simp only [Scheduler.levels, List.mem_cons, List.mem_singleton, List.not_mem_nil, or_false]
    exact this

theorem add_level_range (ps : List Process) (p : Nat) (m : Int)
    (hs : 1 ≤ (getProc ps p).static_prio ∧ (getProc ps p).static_prio ≤ m)
    (hd : 0 ≤ (getProc ps p).dynamic_prio ∧ (getProc ps p).dynamic_prio ≤ m - 1) :
    0 ≤ Prio.add_level ps p ∧ Prio.add_level ps p ≤ m - 1 := by
  unfold Prio.add_level
  dsimp only
  split
  · split <;> omega
  · omega

theorem prio_setProc (ps : List Process) (p : Nat) (q : Process)
    (h1 : q.static_prio = (getProc ps p).static_prio)
    (h2 : q.dynamic_prio = (getProc ps p).dynamic_prio) (i : Nat) :
    (getProc (setProc ps p q) i).static_prio = (getProc ps i).static_prio ∧
    (getProc (setProc ps p q) i).dynamic_prio = (getProc ps i).dynamic_prio := by
  rw [getProc_setProc]
  split
  · rename_i h
    obtain ⟨rfl, _⟩ := h
    exact ⟨h1, h2⟩
  · exact ⟨rfl, rfl⟩

theorem add_process_prio (sch : Scheduler) (ps : List Process) (p : Nat) (i : Nat) :
    (getProc (sch.add_process ps p).2 i).static_prio = (getProc ps i).static_prio ∧
    ((getProc (sch.add_process ps p).2 i).dynamic_prio = (getProc ps i).dynamic_prio ∨
      (i = p ∧ (getProc (sch.add_process ps p).2 i).dynamic_prio = Prio.add_level ps p)) := by
  have key : ∀ a x : List (List Nat), (getProc (Prio.add_process a x ps p).2.2 i).static_prio
        = (getProc ps i).static_prio ∧
      ((getProc (Prio.add_process a x ps p).2.2 i).dynamic_prio = (getProc ps i).dynamic_prio ∨
        (i = p ∧ (getProc (Prio.add_process a x ps p).2.2 i).dynamic_prio
          = Prio.add_level ps p)) := by
    intro a x
    rw [prio_add_level_eq]
    have hset : (getProc (setProc ps p
          { getProc ps p with dynamic_prio := Prio.add_level ps p }) i).static_prio
          = (getProc ps i).static_prio ∧
        ((getProc (setProc ps p
          { getProc ps p with dynamic_prio := Prio.add_level ps p }) i).dynamic_prio
            = (getProc ps i).dynamic_prio ∨
          (i = p ∧ (getProc (setProc ps p
            { getProc ps p with dynamic_prio := Prio.add_level ps p }) i).dynamic_prio
              = Prio.add_level ps p)) := by
      rw [getProc_setProc]
      split
      · rename_i h
        obtain ⟨rfl, _⟩ := h
        exact ⟨rfl, Or.inr ⟨rfl, rfl⟩⟩
      · exact ⟨rfl, Or.inl rfl⟩
    split <;> exact hset
  cases sch with
  | FCFS l => exact ⟨rfl, Or.inl rfl⟩
  | LCFS l => exact ⟨rfl, Or.inl rfl⟩
  | SRTF l => exact ⟨rfl, Or.inl rfl⟩
  | RR q l => exact ⟨rfl, Or.inl rfl⟩
  | Prio q m a x => exact key a x
  | PrePrio q m a x => exact key a x

end Sched

namespace Sched
open DES_Layer Simulator

/-! ## No process becomes `READY` at a time for which a runner was chosen -/

end Sched

namespace Sched
open DES_Layer Simulator

/-! ## Same-timestamp deferral -/

end Sched

namespace Sched
open DES_Layer Simulator

/-! ## A scheduler that holds one process -/

theorem push_level_perm (Q : List (List Nat)) (level : Int) (p : Nat)
    (h0 : 0 ≤ level) (h1 : level < (Q.length : Int)) :
    (Prio.push_level Q level p).flatten.Perm (p :: Q.flatten) := by
  rcases push_level_flatten Q level p with h | h
  · exact h
  · exfalso
    have h2 := (push_level_in_range Q level p h0 h1)
    rw [h2.1] at h
    have h3 := congrArg (fun l => l.getD level.toNat []) h
    simp only at h3
    rw [modify_append_getD Q _ p h2.2, if_pos rfl] at h3
    have h4 := congrArg List.length h3
    simp at h4

theorem add_process_perm (sch : Scheduler) (ps : List Process) (p : Nat)
    (hl : ∀ l ∈ sch.levels, (l : Int) = sch.maxprio)
    (hs : 1 ≤ (getProc ps p).static_prio ∧ (getProc ps p).static_prio ≤ sch.maxprio)
    (hd : 0 ≤ (getProc ps p).dynamic_prio ∧ (getProc ps p).dynamic_prio ≤ sch.maxprio - 1) :
    (sch.add_process ps p).1.pids.Perm (p :: sch.pids) := by
  have key : ∀ (a x : List (List Nat)) (m : Int), (a.length : Int) = m → (x.length : Int) = m →
      1 ≤ (getProc ps p).static_prio ∧ (getProc ps p).static_prio ≤ m →
      0 ≤ (getProc ps p).dynamic_prio ∧ (getProc ps p).dynamic_prio ≤ m - 1 →
      ((Prio.add_process a x ps p).1.flatten ++ (Prio.add_process a x ps p).2.1.flatten).Perm
        (p :: (a.flatten ++ x.flatten)) := by
    intro a x m ha hx hs hd
    obtain ⟨l0, l1⟩ := add_level_range ps p m hs hd
    rw [prio_add_level_eq]
    split
    · show (a.flatten ++ (Prio.push_level x _ p).flatten).Perm _
      have := push_level_perm x (Prio.add_level ps p) p l0 (by omega)
      exact (List.Perm.append_left a.flatten this).trans List.perm_middle
    · show ((Prio.push_level a _ p).flatten ++ x.flatten).Perm _
      have := push_level_perm a (Prio.add_level ps p) p l0 (by omega)
      exact List.Perm.append_right x.flatten this
  cases sch with
  | FCFS l => exact List.perm_append_singleton p l
  | LCFS l => exact List.Perm.refl _
  | SRTF l => exact srtf_add_perm ps p l
  | RR q l => exact List.perm_append_singleton p l
  | Prio q m a x =>
    exact key a x m (hl a.length (by simp [Scheduler.levels]))
      (hl x.length (by simp [Scheduler.levels])) hs hd
  | PrePrio q m a x =>
    exact key a x m (hl a.length (by simp [Scheduler.levels]))
      (hl x.length (by simp [Scheduler.levels])) hs hd

theorem get_next_process_none (sch : Scheduler) (h : sch.get_next_process.1 = none) :
    sch.pids = [] := by
  have key : ∀ a x : List (List Nat), (Prio.get_next_process a x).1 = none →
      a.flatten ++ x.flatten = [] := by
    intro a x h
    unfold Prio.get_next_process at h
    cases h1 : Prio.pop_highest a with
    | some r => rw [h1] at h; simp at h
    | none =>
      rw [h1] at h
      cases h2 : Prio.pop_highest x with
      | some r => rw [h2] at h; simp at h
      | none => rw [pop_highest_none a h1, pop_highest_none x h2]; rfl
  cases sch with
  | FCFS l => cases l with
    | nil => rfl
    | cons a l => simp [Scheduler.get_next_process, FCFS.get_next_process] at h
  | LCFS l => cases l with
    | nil => rfl
    | cons a l => simp [Scheduler.get_next_process, LCFS.get_next_process] at h
  | SRTF l => cases l with
    | nil => rfl
    | cons a l => simp [Scheduler.get_next_process, SRTF.get_next_process] at h
  | RR q l => cases l with
    | nil => rfl
    | cons a l => simp [Scheduler.get_next_process, RR.get_next_process] at h
  | Prio q m a x => exact key a x h
  | PrePrio q m a x => exact key a x h

/-- A scheduler that holds exactly the process `p` hands it out and is left
with no process; a scheduler that holds no process hands out none. -/
theorem get_next_process_single (sch : Scheduler) (p : Nat) (h : sch.pids.Perm [p]) :
    sch.get_next_process.1 = some p ∧ sch.get_next_process.2.pids = [] ∧
    sch.get_next_process.2.get_next_process.1 = none := by
  obtain ⟨p1, p2⟩ := Scheduler.get_next_process_pids sch
  have hempty : ∀ s1 : Scheduler, s1.pids = [] → s1.get_next_process.1 = none := by
    intro s1 h1
    cases hq : s1.get_next_process.1 with
    | none => rfl
    | some q =>
      have := (Scheduler.get_next_process_pids s1).1 q hq
      rw [h1] at this
      exact absurd this.length_eq (by simp)
  cases hq : sch.get_next_process.1 with
  | none =>
    have := get_next_process_none sch hq
    rw [this] at h
    exact absurd h.length_eq (by simp)
  | some q =>
    have h1 := (p1 q hq).symm.trans h
    have h2 := h1.length_eq
    have h3 : sch.get_next_process.2.pids = [] := by
      cases hl : sch.get_next_process.2.pids with
      | nil => rfl
      | cons a l => rw [hl] at h2; simp at h2
    rw [h3] at h1
    have h4 : q = p := by
      have := h1.mem_iff.1 (List.mem_singleton.2 rfl)
      exact List.mem_singleton.1 this
    subst h4
    exact ⟨rfl, h3, hempty _ h3⟩

theorem singleton_of_length (l : List Process) (h : l.length = 1) : l = [getProc l 0] := by
  cases l with
  | nil => simp at h
  | cons a l =>
    cases l with
    | nil => rfl
    | cons b l => simp at h

/-! ## The three turns of a process that finishes in its first cpu burst -/

theorem idle_arrival (rn : List Int) (ofs : Nat) (out : Output) (now : Int) (call : Bool)
    (P P1 : Process) (T : Int) (sch : Scheduler)
    (hT : T ≠ -1) (hadd : (sch.add_process [P] 0).2 = [P1])
    (hrbt : P1.remainingBurstTime ≤ 0)
    (hnext : (sch.add_process [P] 0).1.get_next_process.1 = some 0) :
    Simulator.turn_unbounded ⟨rn, ofs, [⟨T, 0, State.CREATED, State.READY⟩], [P], sch, out,
        none, now, call⟩
      = ⟨rn, ofs, [⟨T, 0, State.READY, State.RUNNING⟩], [{ P1 with clock := T }],
          (sch.add_process [P] 0).1.get_next_process.2, out, some 0, T, false⟩ := by
  rw [turn_unbounded_cons rfl]
  unfold transition_unbounded
  dsimp only
  have hs : update_stats ⟨T, 0, State.CREATED, State.READY⟩
      ⟨rn, ofs, [], [P], sch, out, none, T, call⟩
      = ⟨rn, ofs, [], [P], sch, out, none, T, call⟩ := by
    rw [update_stats_eq]
    simp
  rw [hs]
  rw [case_READY_unbounded_stay _ _ (by
      show ¬ 0 < (getProc (sch.add_process [P] 0).2 0).remainingBurstTime
      rw [hadd]
      show ¬ 0 < P1.remainingBurstTime
      omega) (fun r hr => by simp at hr)]
  dsimp only
  rw [hadd]
  unfold call_scheduler
  dsimp only [get_next_time_event]
  rw [if_pos rfl, if_neg (fun h => hT h.symm)]
  simp only [hnext]
  rfl

theorem idle_dispatch (rn : List Int) (ofs : Nat) (out : Output) (now : Int)
    (P : Process) (T : Int) (sch : Scheduler)
    (hrbt : P.remainingBurstTime ≤ 0)
    (h1 : P.remainingCPUtime ≤ (get_random_number rn ofs P.cpuBurst).1)
    (h2 : P.remainingCPUtime ≤ sch.quantum) :
    Simulator.turn_unbounded ⟨rn, ofs, [⟨T, 0, State.READY, State.RUNNING⟩], [P], sch, out,
        some 0, now, false⟩
      = ⟨rn, (get_random_number rn ofs P.cpuBurst).2,
          [⟨T + P.remainingCPUtime, 0, State.RUNNING, State.DONE⟩],
          [{ P with
              cpuWaitingTime := P.cpuWaitingTime + (T - P.clock)
              remainingBurstTime := 0
              remainingCPUtime := 0
              stopRunningTime := T + P.remainingCPUtime
              clock := T }],
          sch, out, some 0, T, false⟩ := by
  rw [turn_unbounded_cons rfl]
  unfold transition_unbounded
  dsimp only
  have hs : update_stats ⟨T, 0, State.READY, State.RUNNING⟩
      ⟨rn, ofs, [], [P], sch, out, some 0, T, false⟩
      = ⟨rn, ofs, [], [P], sch, out, some 0, T, false⟩ := by
    rw [update_stats_eq]
    simp
  rw [hs]
  obtain ⟨slice, rbt1, X, hc, hx⟩ := case_RUNNING_unbounded_cases
    ⟨rn, ofs, [], [P], sch, out, some 0, T, false⟩ 0
  have hb : burst_on_entry ⟨rn, ofs, [], [P], sch, out, some 0, T, false⟩ 0
      = (get_random_number rn ofs P.cpuBurst).1 := by
    unfold burst_on_entry
    dsimp only [getProc, List.getD_cons_zero]
    rw [if_neg (by omega)]
  rw [hb] at hx
  have hP : getProc [P] 0 = P := rfl
  rw [hP] at hx
  have hq : (⟨rn, ofs, [], [P], sch, out, some 0, T, false⟩ : Simulator).scheduler.quantum
      = sch.quantum := rfl
  rw [hq] at hx
  rcases hx with ⟨rfl, rfl, rfl⟩ | ⟨_, _, _, _, hlt⟩ | ⟨_, _, _, _, hlt⟩
  · rw [hc]
    unfold call_scheduler
    dsimp only [getProc, setProc, List.getD_cons_zero, put_event, List.set_cons_zero]
    simp [hrbt]
  · omega
  · omega

theorem idle_done (rn : List Int) (ofs : Nat) (out : Output) (now : Int)
    (P : Process) (T : Int) (sch : Scheduler)
    (hT : T ≠ -1) (hnext : sch.get_next_process.1 = none) :
    Simulator.turn_unbounded ⟨rn, ofs, [⟨T, 0, State.RUNNING, State.DONE⟩], [P], sch, out,
        some 0, now, false⟩
      = ⟨rn, ofs, [],
          [{ P with
              finishingTime := T
              turnaroundTime := T - P.arrivalTime
              clock := T }],
          sch.get_next_process.2,
          { out with cpuUtilization := out.cpuUtilization + (T - P.clock) },
          none, T, false⟩ := by
  rw [turn_unbounded_cons rfl]
  unfold transition_unbounded
  dsimp only
  have hs : update_stats ⟨T, 0, State.RUNNING, State.DONE⟩
      ⟨rn, ofs, [], [P], sch, out, some 0, T, false⟩
      = ⟨rn, ofs, [], [P], sch,
          { out with cpuUtilization := out.cpuUtilization + (T - P.clock) },
          some 0, T, false⟩ := by
    rw [update_stats_eq]
    simp [getProc]
  rw [hs, case_DONE_unbounded_effect]
  unfold call_scheduler
  dsimp only [get_next_time_event]
  rw [if_pos rfl, if_neg (fun h => hT h.symm)]
  simp only [hnext]
  rfl

theorem make_scheduler_levels (policy : Policy) (h : 1 ≤ (make_scheduler policy).maxprio) :
    ∀ l ∈ (make_scheduler policy).levels, (l : Int) = (make_scheduler policy).maxprio := by
  have key : ∀ m : Int, 1 ≤ m →
      ∀ l ∈ [(List.replicate m.toNat ([] : List Nat)).length,
        (List.replicate m.toNat ([] : List Nat)).length], (l : Int) = m := by
    intro m hm l hl
    rw [List.length_replicate] at hl
    simp only [List.mem_cons, List.mem_singleton, List.not_mem_nil, or_false, or_self] at hl
    rw [hl]
    exact Int.toNat_of_nonneg (by omega)
  cases policy with
  | F => intro l hl; exact absurd hl (by simp [make_scheduler, FCFS.FCFS, Scheduler.levels])
  | L => intro l hl; exact absurd hl (by simp [make_scheduler, LCFS.LCFS, Scheduler.levels])
  | S => intro l hl; exact absurd hl (by simp [make_scheduler, SRTF.SRTF, Scheduler.levels])
  | R q => intro l hl; exact absurd hl (by simp [make_scheduler, RR.RR, Scheduler.levels])
  | P q m => exact key m h
  | E q m => exact key m h

/-- The run of one process that finishes in its first cpu burst, turn by turn:
the three states. -/
theorem idle_states (u : Uninitialised) (policy : Policy) (rn : List Int) (line : InputLine)
    (htab : ∀ x ∈ rn, 0 ≤ x) (hmax : 1 ≤ (make_scheduler policy).maxprio)
    (hat : 0 ≤ line.at_) (htc : 0 ≤ line.totCPU)
    (hfirst : line.totCPU
      ≤ (get_random_number rn (start_unbounded u policy rn [line]).ofs line.cpuB).1)
    (hq : line.totCPU ≤ (make_scheduler policy).quantum) :
    ∃ (d : Int) (sch1 sch3 : Scheduler), sch1.quantum = (make_scheduler policy).quantum ∧
      simulation_unbounded 1 (start_unbounded u policy rn [line])
        = ⟨rn, (start_unbounded u policy rn [line]).ofs, [⟨line.at_, 0, State.READY, State.RUNNING⟩],
            [{ built_process_unbounded rn (make_scheduler policy) 0 0 line with dynamic_prio := d, clock := line.at_ }], sch1,
            (start_unbounded u policy rn [line]).output, some 0, line.at_, false⟩ ∧
      simulation_unbounded 2 (start_unbounded u policy rn [line])
        = ⟨rn, (get_random_number rn (start_unbounded u policy rn [line]).ofs line.cpuB).2,
            [⟨line.at_ + line.totCPU, 0, State.RUNNING, State.DONE⟩],
            [{ built_process_unbounded rn (make_scheduler policy) 0 0 line with
                dynamic_prio := d
                cpuWaitingTime := 0 + (line.at_ - line.at_)
                remainingBurstTime := 0
                remainingCPUtime := 0
                stopRunningTime := line.at_ + line.totCPU
                clock := line.at_ }], sch1,
            (start_unbounded u policy rn [line]).output, some 0, line.at_, false⟩ ∧
      simulation_unbounded 3 (start_unbounded u policy rn [line])
        = ⟨rn, (get_random_number rn (start_unbounded u policy rn [line]).ofs line.cpuB).2, [],
            [{ built_process_unbounded rn (make_scheduler policy) 0 0 line with
                dynamic_prio := d
                cpuWaitingTime := 0 + (line.at_ - line.at_)
                remainingBurstTime := 0
                remainingCPUtime := 0
                stopRunningTime := line.at_ + line.totCPU
                finishingTime := line.at_ + line.totCPU
                turnaroundTime := line.at_ + line.totCPU - line.at_
                clock := line.at_ + line.totCPU }], sch3,
            { (start_unbounded u policy rn [line]).output with
              cpuUtilization := 0 + (line.at_ + line.totCPU - line.at_) },
            none, line.at_ + line.totCPU, false⟩ := by
  have hs0 : start_unbounded u policy rn [line]
      = ⟨rn, (start_unbounded u policy rn [line]).ofs, [⟨line.at_, 0, State.CREATED, State.READY⟩],
          [built_process_unbounded rn (make_scheduler policy) 0 0 line], make_scheduler policy,
          (start_unbounded u policy rn [line]).output, none, u.CURRENT_TIME, u.CALL_SCHEDULER⟩ := rfl
  have hst := get_random_number_range rn 0 (make_scheduler policy).maxprio htab hmax
  have hperm := add_process_perm (make_scheduler policy)
    [built_process_unbounded rn (make_scheduler policy) 0 0 line] 0
    (make_scheduler_levels policy hmax)
    (by
      show 1 ≤ (get_random_number rn 0 (make_scheduler policy).maxprio).1 ∧
        (get_random_number rn 0 (make_scheduler policy).maxprio).1 ≤ _
      exact hst)
    (by
      show 0 ≤ (get_random_number rn 0 (make_scheduler policy).maxprio).1 - 1 ∧
        (get_random_number rn 0 (make_scheduler policy).maxprio).1 - 1 ≤ _
      omega)
  rw [make_scheduler_pids] at hperm
  obtain ⟨n1, n2, n3⟩ := get_next_process_single _ 0 hperm
  obtain ⟨d, hd⟩ := Scheduler.add_process_getProc (make_scheduler policy)
    [built_process_unbounded rn (make_scheduler policy) 0 0 line] 0 0
  have hadd : ((make_scheduler policy).add_process
      [built_process_unbounded rn (make_scheduler policy) 0 0 line] 0).2
      = [{ built_process_unbounded rn (make_scheduler policy) 0 0 line with dynamic_prio := d }] := by
    have hlen : ((make_scheduler policy).add_process
        [built_process_unbounded rn (make_scheduler policy) 0 0 line] 0).2.length = 1 := by
      rw [Scheduler.add_process_length]; rfl
    rw [singleton_of_length _ hlen, hd]
    rfl
  have h1 := idle_arrival rn (start_unbounded u policy rn [line]).ofs (start_unbounded u policy rn [line]).output
    u.CURRENT_TIME u.CALL_SCHEDULER (built_process_unbounded rn (make_scheduler policy) 0 0 line)
    { built_process_unbounded rn (make_scheduler policy) 0 0 line with dynamic_prio := d }
    line.at_ (make_scheduler policy) (by omega) hadd
    (by show (-1 : Int) ≤ 0; omega) n1
  rw [← hs0] at h1
  have hquant : (((make_scheduler policy).add_process
      [built_process_unbounded rn (make_scheduler policy) 0 0 line] 0).1.get_next_process.2).quantum
      = (make_scheduler policy).quantum := by
    rw [Scheduler.get_next_process_quantum, Scheduler.add_process_quantum]
  have h2 := idle_dispatch rn (start_unbounded u policy rn [line]).ofs (start_unbounded u policy rn [line]).output
    line.at_
    { built_process_unbounded rn (make_scheduler policy) 0 0 line with
      dynamic_prio := d, clock := line.at_ }
    line.at_ _ (by show (-1 : Int) ≤ 0; omega) hfirst (by rw [hquant]; exact hq)
  have h3 := idle_done rn
    (get_random_number rn (start_unbounded u policy rn [line]).ofs line.cpuB).2
    (start_unbounded u policy rn [line]).output line.at_
    { built_process_unbounded rn (make_scheduler policy) 0 0 line with
      dynamic_prio := d
      cpuWaitingTime := 0 + (line.at_ - line.at_)
      remainingBurstTime := 0
      remainingCPUtime := 0
      stopRunningTime := line.at_ + line.totCPU
      clock := line.at_ }
    (line.at_ + line.totCPU) _ (by omega) n3
  have e1 : simulation_unbounded 1 (start_unbounded u policy rn [line]) = (start_unbounded u policy rn [line]).turn_unbounded :=
    simulation_unbounded_succ 0 _
  have e2 : simulation_unbounded 2 (start_unbounded u policy rn [line])
      = (simulation_unbounded 1 (start_unbounded u policy rn [line])).turn_unbounded := simulation_unbounded_succ 1 _
  have e3 : simulation_unbounded 3 (start_unbounded u policy rn [line])
      = (simulation_unbounded 2 (start_unbounded u policy rn [line])).turn_unbounded := simulation_unbounded_succ 2 _
  rw [h1] at e1
  have e2b := e2
  rw [e1] at e2b
  have h2b : simulation_unbounded 2 (start_unbounded u policy rn [line]) = _ := e2b.trans h2
  have e3b := e3
  rw [h2b] at e3b
  have h3b : simulation_unbounded 3 (start_unbounded u policy rn [line]) = _ := e3b.trans h3
  exact ⟨d, _, _, hquant, e1, h2b, h3b⟩

/-- The run of one process that finishes in its first cpu burst, turn by turn. -/
theorem idle_run (u : Uninitialised) (policy : Policy) (rn : List Int) (line : InputLine)
    (htab : ∀ x ∈ rn, 0 ≤ x) (hmax : 1 ≤ (make_scheduler policy).maxprio)
    (hat : 0 ≤ line.at_) (htc : 0 ≤ line.totCPU)
    (hfirst : line.totCPU
      ≤ (get_random_number rn (start_unbounded u policy rn [line]).ofs line.cpuB).1)
    (hq : line.totCPU ≤ (make_scheduler policy).quantum) :
    ∃ (P1 P3 : Process) (ofs3 : Nat) (sch1 sch3 : Scheduler),
      simulation_unbounded 1 (start_unbounded u policy rn [line])
        = ⟨rn, (start_unbounded u policy rn [line]).ofs, [⟨line.at_, 0, State.READY, State.RUNNING⟩],
            [P1], sch1, (start_unbounded u policy rn [line]).output, some 0, line.at_, false⟩ ∧
      (simulation_unbounded 2 (start_unbounded u policy rn [line])).events
        = [⟨line.at_ + line.totCPU, 0, State.RUNNING, State.DONE⟩] ∧
      simulation_unbounded 3 (start_unbounded u policy rn [line])
        = ⟨rn, ofs3, [], [P3], sch3,
            { (start_unbounded u policy rn [line]).output with
              cpuUtilization := 0 + (line.at_ + line.totCPU - line.at_) },
            none, line.at_ + line.totCPU, false⟩ ∧
      P3.finishingTime = line.at_ + line.totCPU ∧
      P3.turnaroundTime = line.totCPU ∧
      P3.ioWaitingTime = 0 ∧ P3.cpuWaitingTime = 0 := by
  obtain ⟨d, sch1, sch3, _, e1, e2, e3⟩ := idle_states u policy rn line htab hmax hat htc hfirst hq
  refine ⟨_, _, _, _, _, e1, ?_, e3, rfl, ?_, rfl, ?_⟩
  · rw [e2]
  · show line.at_ + line.totCPU - line.at_ = line.totCPU
    omega
  · show (0 : Int) + (line.at_ - line.at_) = 0
    omega

/-- Over unbounded integers (idle cpu before the first arrival): for every valid input of
one process arriving at `50` whose total cpu time `tc` is at most its first cpu
burst (the draw `rand(cb)` at the offset left by `createProcesses`) and at most
the quantum, under every policy: the loop has exited after three turns (arrival,
dispatch at `50`, `RUNNING -> DONE` at `50 + tc`, no event into `BLOCKED`), the
run ends at `CURRENT_TIME = 50 + tc`, the cpu was busy for `tc`, and
`print_summary` reports the finishing time `50 + tc` and, as an exact rational,
the cpu utilization `100 * tc / (50 + tc)`. -/
theorem idle_before_first_arrival_unbounded (u : Uninitialised) (policy : Policy)
    (random_nums : List Int) (tc cb ib : Int)
    (hv : ValidInput policy random_nums [⟨50, tc, cb, ib⟩])
    (hfirst : tc ≤ (get_random_number random_nums
      (start_unbounded u policy random_nums [⟨50, tc, cb, ib⟩]).ofs cb).1)
    (hq : tc ≤ (make_scheduler policy).quantum) :
    (simulation_unbounded 3 (start_unbounded u policy random_nums [⟨50, tc, cb, ib⟩])).events = [] ∧
    processed_unbounded (start_unbounded u policy random_nums [⟨50, tc, cb, ib⟩]) 3
      = [⟨50, 0, State.CREATED, State.READY⟩, ⟨50, 0, State.READY, State.RUNNING⟩,
         ⟨50 + tc, 0, State.RUNNING, State.DONE⟩] ∧
    (simulation_unbounded 3 (start_unbounded u policy random_nums [⟨50, tc, cb, ib⟩])).CURRENT_TIME = 50 + tc ∧
    (simulation_unbounded 3 (start_unbounded u policy random_nums [⟨50, tc, cb, ib⟩])).output.cpuUtilization = tc ∧
    (getProc (simulation_unbounded 3 (start_unbounded u policy random_nums [⟨50, tc, cb, ib⟩])).processes 0).finishingTime = 50 + tc ∧
    (getProc (simulation_unbounded 3 (start_unbounded u policy random_nums [⟨50, tc, cb, ib⟩])).processes 0).ioWaitingTime = 0 ∧
    (print_summary (simulation_unbounded 3 (start_unbounded u policy random_nums [⟨50, tc, cb, ib⟩]))).finishingTimeOfLastEvent = 50 + tc ∧
    (print_summary (simulation_unbounded 3 (start_unbounded u policy random_nums [⟨50, tc, cb, ib⟩]))).cpuUtilization
      = 100 * (tc : ℚ) / (50 + (tc : ℚ)) := by
  obtain ⟨P1, P3, ofs3, sch1, sch3, h1, h2, h3, p1, p2, p3, p4⟩ :=
    idle_run u policy random_nums ⟨50, tc, cb, ib⟩ hv.table_nonneg hv.maxprio_pos
      (by show (0 : Int) ≤ 50; omega)
      (hv.totcpu_nonneg _ (List.mem_singleton.2 rfl)) hfirst hq
  have hcpu : (simulation_unbounded 3 (start_unbounded u policy random_nums [⟨50, tc, cb, ib⟩])).output.cpuUtilization = tc := by
    rw [h3]
    show (0 : Int) + (50 + tc - 50) = tc
    omega
  have hnow : (simulation_unbounded 3 (start_unbounded u policy random_nums [⟨50, tc, cb, ib⟩])).CURRENT_TIME = 50 + tc := by
    rw [h3]
  have hproc : processed_unbounded (start_unbounded u policy random_nums [⟨50, tc, cb, ib⟩]) 3
      = [⟨50, 0, State.CREATED, State.READY⟩, ⟨50, 0, State.READY, State.RUNNING⟩,
         ⟨50 + tc, 0, State.RUNNING, State.DONE⟩] := by
    have e0 : (simulation_unbounded 0 (start_unbounded u policy random_nums [⟨50, tc, cb, ib⟩])).events
        = [⟨50, 0, State.CREATED, State.READY⟩] := rfl
    have e1 : (simulation_unbounded 1 (start_unbounded u policy random_nums [⟨50, tc, cb, ib⟩])).events
        = [⟨50, 0, State.READY, State.RUNNING⟩] := by rw [h1]
    rw [processed_unbounded_cons _ 2 h2, processed_unbounded_cons _ 1 e1, processed_unbounded_cons _ 0 e0]
    rfl
  refine ⟨by rw [h3], hproc, hnow, hcpu, by rw [h3]; exact p1, by rw [h3]; exact p3, hnow, ?_⟩
  show 100 * (((simulation_unbounded 3 (start_unbounded u policy random_nums [⟨50, tc, cb, ib⟩])).output.cpuUtilization : Int) : ℚ)
      / (((simulation_unbounded 3 (start_unbounded u policy random_nums [⟨50, tc, cb, ib⟩])).CURRENT_TIME : Int) : ℚ) = _
  rw [hcpu, hnow]
  push_cast
  rfl

end Sched

namespace Sched
open DES_Layer Simulator

/-! ## Time accounting: the invariant -/

theorem times_fields {p q : Process} (h : p.times = q.times) :
    p.arrivalTime = q.arrivalTime ∧ p.totalCPUTime = q.totalCPUTime ∧
    p.remainingCPUtime = q.remainingCPUtime ∧ p.ioWaitingTime = q.ioWaitingTime ∧
    p.cpuWaitingTime = q.cpuWaitingTime ∧ p.clock = q.clock ∧
    p.finishingTime = q.finishingTime ∧ p.turnaroundTime = q.turnaroundTime := by
  simpa [Process.times] using h

theorem accounted_congr {p q : Process} (h : p.times = q.times) :
    p.accounted = q.accounted := by
  obtain ⟨h1, h2, h3, h4, h5, h6, h7, h8⟩ := times_fields h
  unfold Process.accounted
  rw [h2, h3, h4, h5]

theorem waits_congr {p q : Process} (h : p.times = q.times) (hq : q.waits) : p.waits := by
  obtain ⟨h1, h2, h3, h4, h5, h6, h7, h8⟩ := times_fields h
  unfold Process.waits at hq ⊢
  rw [accounted_congr h, h6, h1]
  exact hq

theorem settled_congr {p q : Process} (h : p.times = q.times) (hq : q.settled) :
    p.settled := by
  obtain ⟨h1, h2, h3, h4, h5, h6, h7, h8⟩ := times_fields h
  unfold Process.settled at hq ⊢
  rw [h1, h2, h4, h5, h7, h8]
  exact hq

theorem event_accounted_congr {ps1 ps : List Process} {x : Event}
    (h : (getProc ps1 x.process).times = (getProc ps x.process).times)
    (hx : x.accounted ps) : x.accounted ps1 := by
  obtain ⟨h1, h2, h3, h4, h5, h6, h7, h8⟩ := times_fields h
  obtain ⟨a, b, c⟩ := hx
  refine ⟨fun hn => ?_, fun hn => waits_congr h (b hn), fun hn => ?_⟩
  · rw [accounted_congr h, h1]
    exact a hn
  · rw [h3]
    exact c hn

theorem times_dynamic_prio (p : Process) (d : Int) :
    ({ p with dynamic_prio := d } : Process).times = p.times := rfl

theorem add_process_times (sch : Scheduler) (ps : List Process) (p i : Nat) :
    (getProc (sch.add_process ps p).2 i).times = (getProc ps i).times := by
  obtain ⟨d, hd⟩ := Scheduler.add_process_getProc sch ps p i
  rw [hd]
  rfl

/-- The general step of the accounting invariant: the processes that are
`touched` had a pending event or were in the runqueue; the other processes
keep their times, their events and their place in the runqueue; and every
event and every runqueue entry of a touched process agrees with its
accounts. -/
theorem InvAcc.update {s0 s : Simulator} {tr : List Event} (h : InvAcc s0 s tr)
    (s1 : Simulator) (touched : Nat → Prop)
    (hlen : s1.processes.length = s.processes.length)
    (hlive : ∀ i, touched i → s.live i)
    (hframe : ∀ i, ¬ touched i →
      (getProc s1.processes i).times = (getProc s.processes i).times)
    (hfixed : ∀ i, touched i →
      (getProc s1.processes i).arrivalTime = (getProc s.processes i).arrivalTime ∧
      (getProc s1.processes i).totalCPUTime = (getProc s.processes i).totalCPUTime)
    (hev : ∀ x ∈ s1.events, (x ∈ s.events ∧ ¬ touched x.process) ∨
      (touched x.process ∧ x.accounted s1.processes))
    (hrq : ∀ q ∈ s1.scheduler.pids, (q ∈ s.scheduler.pids ∧ ¬ touched q) ∨
      (touched q ∧ (getProc s1.processes q).waits)) :
    InvAcc s0 s1 tr := by
  refine ⟨by rw [hlen]; exact h.roster, ?_, ?_, ?_, ?_⟩
  · intro i
    by_cases ht : touched i
    · obtain ⟨a, b⟩ := hfixed i ht
      rw [a, b]
      exact h.fixed i
    · obtain ⟨h1, h2, _⟩ := times_fields (hframe i ht)
      rw [h1, h2]
      exact h.fixed i
  · intro x hx
    rcases hev x hx with ⟨h1, h2⟩ | ⟨_, h2⟩
    · exact event_accounted_congr (hframe _ h2) (h.pending x h1)
    · exact h2
  · intro q hq
    rcases hrq q hq with ⟨h1, h2⟩ | ⟨_, h2⟩
    · exact waits_congr (hframe _ h2) (h.ready q h1)
    · exact h2
  · intro d hd hdone
    obtain ⟨d1, d2, d3, d0, d4⟩ := h.done d hd hdone
    have hnt : ¬ touched d.process := fun ht => d1 (hlive _ ht)
    refine ⟨?_, by rw [hlen]; exact d2, ?_, ?_, settled_congr (hframe _ hnt) d4⟩
    · rintro (⟨x, hx, hxp⟩ | hq)
      · rcases hev x hx with ⟨h1, _⟩ | ⟨h1, _⟩
        · exact d1 (Or.inl ⟨x, h1, hxp⟩)
        · rw [hxp] at h1
          exact hnt h1
      · rcases hrq _ hq with ⟨h1, _⟩ | ⟨h1, _⟩
        · exact d1 (Or.inr h1)
        · exact hnt h1
    · rw [(times_fields (hframe _ hnt)).2.2.2.2.2.2.1]
      exact d3
    · rw [(times_fields (hframe _ hnt)).2.2.1]
      exact d0

theorem InvAcc.snoc {s0 s : Simulator} {tr : List Event} (h : InvAcc s0 s tr) (e : Event)
    (hd : e.new_state = State.DONE →
      ¬ s.live e.process ∧ e.process < s.processes.length ∧
      (getProc s.processes e.process).finishingTime = e.timestamp ∧
      (getProc s.processes e.process).remainingCPUtime = 0 ∧
      (getProc s.processes e.process).settled) :
    InvAcc s0 s (tr ++ [e]) := by
  refine ⟨h.roster, h.fixed, h.pending, h.ready, ?_⟩
  intro d hdm hdone
  rcases List.mem_append.1 hdm with hdm | hdm
  · exact h.done d hdm hdone
  · have : d = e := by simpa using hdm
    subst this
    exact hd hdone

theorem getProc_touch (ps : List Process) (p : Nat) (P1 : Process) (t : Int)
    (hp : p < ps.length) (i : Nat) :
    getProc (setProc (setProc ps p P1) p { getProc (setProc ps p P1) p with clock := t }) i
      = if i = p then { P1 with clock := t } else getProc ps i := by
  rw [getProc_setProc, getProc_setProc_same _ _ _ hp]
  by_cases hi : i = p
  · simp [hi, length_setProc, hp]
  · simp [hi, getProc_setProc_ne _ _ _ _ hi]

end Sched

namespace Sched
open DES_Layer Simulator

/-! ## Time accounting: the transitions -/

theorem transition_unbounded_acc {s0 s : Simulator} {tr : List Event} {e : Event} {rest : List Event}
    (hi : Inv s) (h : InvAcc s0 s tr) (he : s.events = e :: rest)
    (hnr : e.new_state ≠ State.READY) :
    InvAcc s0 (transition_unbounded e { s with events := rest }) (tr ++ [e]) := by
  have hshape := hi.event_shape e (Inv.head_mem he)
  have hp : e.process < s.processes.length := hi.event_proc e (Inv.head_mem he)
  have hpe := h.pending e (Inv.head_mem he)
  have hlive : ∀ i, i = e.process → s.live i := fun i hi => Or.inl ⟨e, Inv.head_mem he, hi.symm⟩
  have hrest : ∀ x ∈ rest, x ∈ s.events ∧ ¬ (x.process = e.process) :=
    fun x hx => ⟨Inv.rest_mem he hx, Inv.rest_ne hi he x hx⟩
  have hrq0 : ∀ q ∈ s.scheduler.pids, q ∈ s.scheduler.pids ∧ ¬ (q = e.process) :=
    fun q hq => ⟨hq, Inv.head_not_ready hi he q hq⟩
  unfold transition_unbounded
  obtain ⟨s3, hs3⟩ : ∃ s3, s3 = update_stats e
      { s with events := rest, CURRENT_TIME := e.timestamp } := ⟨_, rfl⟩
  obtain ⟨f1, f2, f3, f4, f5, f6, f7, f8⟩ :
      s3.random_nums = s.random_nums ∧ s3.ofs = s.ofs ∧ s3.events = rest ∧
      s3.processes = s.processes ∧ s3.scheduler = s.scheduler ∧
      s3.CURRENT_RUNNING_PROCESS = s.CURRENT_RUNNING_PROCESS ∧
      s3.CURRENT_TIME = e.timestamp ∧ s3.CALL_SCHEDULER = s.CALL_SCHEDULER := by
    rw [hs3]; exact Inv.stats_fields e _
  have hp3 : e.process < s3.processes.length := by rw [f4]; exact hp
  dsimp only
  rw [← hs3]
  cases hns : e.new_state with
  | CREATED =>
    rcases hshape with h1 | h1 | h1 | h1 | h1 | h1 <;> · rw [hns] at h1; simp at h1
  | READY => exact absurd hns hnr
  | RUNNING =>
    obtain ⟨slice, rbt, rem1, X, ofs1, c1, c2, c3, c4, c5, c6, c7, c8, c9⟩ :=
      case_RUNNING_unbounded_effect s3
        e.process (by rw [f5]; exact hi.quantum_pos) (by rw [f4]; exact (hi.bursts_pos _ hp).1)
        (by rw [f1]; exact hi.table_nonneg) (by rw [f4]; exact hi.rem_nonneg _ hp)
    dsimp only
    rw [c1]
    have hw := hpe.2.1 hns
    unfold Process.waits Process.accounted at hw
    refine InvAcc.snoc (InvAcc.update h _ (fun i => i = e.process) ?_ hlive ?_ ?_ ?_ ?_) e ?_
    · show (setProc (setProc s3.processes _ _) _ _).length = _
      rw [length_setProc, length_setProc, f4]
    · intro i hi
      show (getProc (setProc (setProc s3.processes _ _) _ _) i).times = _
      rw [getProc_touch _ _ _ _ hp3, if_neg hi, f4]
    · intro i hi
      show (getProc (setProc (setProc s3.processes _ _) _ _) i).arrivalTime = _ ∧
        (getProc (setProc (setProc s3.processes _ _) _ _) i).totalCPUTime = _
      rw [getProc_touch _ _ _ _ hp3, if_pos hi, f4, hi]
      exact ⟨rfl, rfl⟩
    · intro x hx
      have hx : x ∈ put_event ⟨s3.CURRENT_TIME + slice, e.process, State.RUNNING, X⟩
          s3.events := hx
      rw [f3] at hx
      rcases mem_put_event.1 hx with rfl | hx
      · right
        refine ⟨rfl, fun _ => ?_, fun hx => ?_, fun hx => ?_⟩
        · show (s3.CURRENT_TIME + slice)
            - (getProc (setProc (setProc s3.processes _ _) _ _) e.process).arrivalTime
            = (getProc (setProc (setProc s3.processes _ _) _ _) e.process).accounted
          rw [getProc_touch _ _ _ _ hp3, if_pos rfl, f4, f7]
          unfold Process.accounted
          dsimp only
          rw [f4] at c2
          omega
        · rcases c5 with c5 | c5 | c5 <;> · rw [c5] at hx; simp at hx
        · show (getProc (setProc (setProc s3.processes _ _) _ _) e.process).remainingCPUtime = 0
          rw [getProc_touch _ _ _ _ hp3, if_pos rfl]
          exact c6 hx
      · exact Or.inl (hrest x hx)
    · intro q hq
      have hq : q ∈ s3.scheduler.pids := hq
      rw [f5] at hq
      exact Or.inl (hrq0 q hq)
    · intro hd
      rw [hns] at hd
      simp at hd
  | BLOCKED =>
    dsimp only
    rw [case_BLOCKED_unbounded_effect]
    have hw := hpe.1 (by rw [hns]; simp)
    unfold Process.accounted at hw
    refine InvAcc.snoc (InvAcc.update h _ (fun i => i = e.process) ?_ hlive ?_ ?_ ?_ ?_) e ?_
    · show (setProc (setProc s3.processes _ _) _ _).length = _
      rw [length_setProc, length_setProc, f4]
    · intro i hi
      show (getProc (setProc (setProc s3.processes _ _) _ _) i).times = _
      rw [getProc_touch _ _ _ _ hp3, if_neg hi, f4]
    · intro i hi
      show (getProc (setProc (setProc s3.processes _ _) _ _) i).arrivalTime = _ ∧
        (getProc (setProc (setProc s3.processes _ _) _ _) i).totalCPUTime = _
      rw [getProc_touch _ _ _ _ hp3, if_pos hi, f4, hi]
      exact ⟨rfl, rfl⟩
    · intro x hx
      have hx : x ∈ put_event ⟨s3.CURRENT_TIME
          + (get_random_number s3.random_nums s3.ofs (getProc s3.processes e.process).ioBurst).1,
          e.process, State.BLOCKED, State.READY⟩ s3.events := hx
      rw [f3] at hx
      rcases mem_put_event.1 hx with rfl | hx
      · right
        refine ⟨rfl, fun _ => ?_, fun hx => ?_, fun hx => ?_⟩
        · show (s3.CURRENT_TIME
              + (get_random_number s3.random_nums s3.ofs
                  (getProc s3.processes e.process).ioBurst).1)
            - (getProc (setProc (setProc s3.processes _ _) _ _) e.process).arrivalTime
            = (getProc (setProc (setProc s3.processes _ _) _ _) e.process).accounted
          rw [getProc_touch _ _ _ _ hp3, if_pos rfl, f4, f7]
          unfold Process.accounted
          dsimp only
          omega
        · simp at hx
        · simp at hx
      · exact Or.inl (hrest x hx)
    · intro q hq
      have hq : q ∈ s3.scheduler.pids := hq
      rw [f5] at hq
      exact Or.inl (hrq0 q hq)
    · intro hd
      rw [hns] at hd
      simp at hd
  | DONE =>
    dsimp only
    rw [case_DONE_unbounded_effect]
    have hw := hpe.1 (by rw [hns]; simp)
    have hz := hpe.2.2 hns
    unfold Process.accounted at hw
    refine InvAcc.snoc (InvAcc.update h _ (fun i => i = e.process) ?_ hlive ?_ ?_ ?_ ?_) e ?_
    · show (setProc (setProc s3.processes _ _) _ _).length = _
      rw [length_setProc, length_setProc, f4]
    · intro i hi
      show (getProc (setProc (setProc s3.processes _ _) _ _) i).times = _
      rw [getProc_touch _ _ _ _ hp3, if_neg hi, f4]
    · intro i hi
      show (getProc (setProc (setProc s3.processes _ _) _ _) i).arrivalTime = _ ∧
        (getProc (setProc (setProc s3.processes _ _) _ _) i).totalCPUTime = _
      rw [getProc_touch _ _ _ _ hp3, if_pos hi, f4, hi]
      exact ⟨rfl, rfl⟩
    · intro x hx
      have hx : x ∈ s3.events := hx
      rw [f3] at hx
      exact Or.inl (hrest x hx)
    · intro q hq
      have hq : q ∈ s3.scheduler.pids := hq
      rw [f5] at hq
      exact Or.inl (hrq0 q hq)
    · intro _
      refine ⟨?_, ?_, ?_, ?_, ?_, ?_⟩
      · rintro (⟨x, hx, hxp⟩ | hq)
        · have hx : x ∈ s3.events := hx
          rw [f3] at hx
          exact (hrest x hx).2 hxp
        · have hq : e.process ∈ s3.scheduler.pids := hq
          rw [f5] at hq
          exact (hrq0 _ hq).2 rfl
      · show _ < (setProc (setProc s3.processes _ _) _ _).length
        rw [length_setProc, length_setProc]
        exact hp3
      · show (getProc (setProc (setProc s3.processes _ _) _ _) e.process).finishingTime = _
        rw [getProc_touch _ _ _ _ hp3, if_pos rfl, f7]
      · show (getProc (setProc (setProc s3.processes _ _) _ _) e.process).remainingCPUtime = 0
        rw [getProc_touch _ _ _ _ hp3, if_pos rfl, f4]
        exact hz
      · show (getProc (setProc (setProc s3.processes _ _) _ _) e.process).turnaroundTime
          = (getProc (setProc (setProc s3.processes _ _) _ _) e.process).finishingTime
            - (getProc (setProc (setProc s3.processes _ _) _ _) e.process).arrivalTime
        rw [getProc_touch _ _ _ _ hp3, if_pos rfl]
      · show (getProc (setProc (setProc s3.processes _ _) _ _) e.process).turnaroundTime
          = (getProc (setProc (setProc s3.processes _ _) _ _) e.process).totalCPUTime
            + (getProc (setProc (setProc s3.processes _ _) _ _) e.process).ioWaitingTime
            + (getProc (setProc (setProc s3.processes _ _) _ _) e.process).cpuWaitingTime
        rw [getProc_touch _ _ _ _ hp3, if_pos rfl, f4, f7]
        dsimp only
        omega

theorem getProc_touch_other (ps : List Process) (r p : Nat) (R1 : Process) (t : Int)
    (hp : p < ps.length) (hrp : r ≠ p) (i : Nat) :
    getProc (setProc (setProc ps r R1) p { getProc (setProc ps r R1) p with clock := t }) i
      = if i = p then { getProc ps p with clock := t }
        else if i = r ∧ r < ps.length then R1 else getProc ps i := by
  rw [getProc_setProc, length_setProc, getProc_setProc_ne _ _ _ _ (Ne.symm hrp)]
  by_cases hi : i = p
  · simp [hi, hp]
  · simp only [hi, false_and, if_false]
    rw [getProc_setProc]

/-- The plain paths of `case READY` (no preemption): the process of the event
is added to the runqueue and its clock is set. -/
theorem acc_ready_plain {s0 s : Simulator} {tr : List Event} {e : Event} {rest : List Event}
    (hi : Inv s) (h : InvAcc s0 s tr) (he : s.events = e :: rest)
    (hns : e.new_state = State.READY) (s1 : Simulator)
    (h_ev : s1.events = rest)
    (h_sch : s1.scheduler = (s.scheduler.add_process s.processes e.process).1)
    (h_ps : s1.processes = setProc (s.scheduler.add_process s.processes e.process).2 e.process
      { getProc (s.scheduler.add_process s.processes e.process).2 e.process with
        clock := e.timestamp }) :
    InvAcc s0 s1 (tr ++ [e]) := by
  have hp : e.process < s.processes.length := hi.event_proc e (Inv.head_mem he)
  have hpa : e.process < (s.scheduler.add_process s.processes e.process).2.length := by
    rw [Scheduler.add_process_length]; exact hp
  have hpe := h.pending e (Inv.head_mem he)
  have hlive : ∀ i, i = e.process → s.live i :=
    fun i hi => Or.inl ⟨e, Inv.head_mem he, hi.symm⟩
  have hrest : ∀ x ∈ rest, x ∈ s.events ∧ ¬ (x.process = e.process) :=
    fun x hx => ⟨Inv.rest_mem he hx, Inv.rest_ne hi he x hx⟩
  have hrq0 : ∀ q ∈ s.scheduler.pids, q ∈ s.scheduler.pids ∧ ¬ (q = e.process) :=
    fun q hq => ⟨hq, Inv.head_not_ready hi he q hq⟩
  have hmem : ∀ q ∈ (s.scheduler.add_process s.processes e.process).1.pids,
      q = e.process ∨ q ∈ s.scheduler.pids := by
    intro q hq
    rcases Scheduler.add_process_pids s.scheduler s.processes e.process with hperm | heq
    · simpa using hperm.mem_iff.1 hq
    · rw [heq] at hq
      exact Or.inr hq
  have hw := hpe.1 (by rw [hns]; simp)
  obtain ⟨t1, t2, t3, t4, t5, t6, t7, t8⟩ :=
    times_fields (add_process_times s.scheduler s.processes e.process e.process)
  refine InvAcc.snoc (InvAcc.update h _ (fun i => i = e.process) ?_ hlive ?_ ?_ ?_ ?_) e ?_
  · rw [h_ps, length_setProc, Scheduler.add_process_length]
  · intro i hi
    rw [h_ps, getProc_setProc_ne _ _ _ _ hi, add_process_times]
  · intro i hi
    rw [h_ps, hi, getProc_setProc_same _ _ _ hpa]
    exact ⟨t1, t2⟩
  · intro x hx
    rw [h_ev] at hx
    exact Or.inl (hrest x hx)
  · intro q hq
    rw [h_sch] at hq
    rcases hmem q hq with rfl | hq
    · right
      refine ⟨rfl, ?_⟩
      rw [h_ps, getProc_setProc_same _ _ _ hpa]
      unfold Process.waits Process.accounted
      unfold Process.accounted at hw
      show e.timestamp - (getProc (s.scheduler.add_process s.processes e.process).2
          e.process).arrivalTime
        = (getProc (s.scheduler.add_process s.processes e.process).2 e.process).totalCPUTime
          - (getProc (s.scheduler.add_process s.processes e.process).2
              e.process).remainingCPUtime
          + (getProc (s.scheduler.add_process s.processes e.process).2 e.process).ioWaitingTime
          + (getProc (s.scheduler.add_process s.processes e.process).2 e.process).cpuWaitingTime
      rw [t1, t2, t3, t4, t5]
      exact hw
    · exact Or.inl (hrq0 q hq)
  · intro hd
    rw [hns] at hd
    simp at hd

/-- The preemption path of `case READY`: the process of the event is added to
the runqueue, the pending event of the running process `r` is replaced by a
`RUNNING -> READY` event at the current time and the time `r` does not use is
given back to its remaining cpu time. -/
theorem acc_ready_preempt_unbounded {s0 s : Simulator} {tr : List Event} {e : Event} {rest : List Event}
    (hi : Inv s) (h : InvAcc s0 s tr) (he : s.events = e :: rest)
    (hns : e.new_state = State.READY) (r : Nat) (s4 : Simulator) (hi4 : Inv s4)
    (g_ev : s4.events = rest)
    (g_ps : s4.processes = (s.scheduler.add_process s.processes e.process).2)
    (g_run : s4.CURRENT_RUNNING_PROCESS = some r) (g_now : s4.CURRENT_TIME = e.timestamp)
    (hlt : e.timestamp
      < (getProc (s.scheduler.add_process s.processes e.process).2 r).stopRunningTime)
    (rbt : Int) (s1 : Simulator)
    (h_ev : s1.events = put_event ⟨e.timestamp, r, State.RUNNING, State.READY⟩
      (remove_event (s.scheduler.add_process s.processes e.process).2 r rest))
    (h_sch : s1.scheduler = (s.scheduler.add_process s.processes e.process).1)
    (h_ps : s1.processes
      = setProc (setProc (s.scheduler.add_process s.processes e.process).2 r
          { getProc (s.scheduler.add_process s.processes e.process).2 r with
            remainingBurstTime := rbt
            remainingCPUtime :=
              (getProc (s.scheduler.add_process s.processes e.process).2 r).remainingCPUtime
              + ((getProc (s.scheduler.add_process s.processes e.process).2 r).stopRunningTime
                - e.timestamp)
            stopRunningTime := e.timestamp }) e.process
          { getProc (setProc (s.scheduler.add_process s.processes e.process).2 r
              { getProc (s.scheduler.add_process s.processes e.process).2 r with
                remainingBurstTime := rbt
                remainingCPUtime :=
                  (getProc (s.scheduler.add_process s.processes e.process).2 r).remainingCPUtime
                  + ((getProc (s.scheduler.add_process s.processes e.process).2
                      r).stopRunningTime - e.timestamp)
                stopRunningTime := e.timestamp }) e.process with
            clock := e.timestamp }) :
    InvAcc s0 s1 (tr ++ [e]) := by
  have hp : e.process < s.processes.length := hi.event_proc e (Inv.head_mem he)
  have hpa : e.process < (s.scheduler.add_process s.processes e.process).2.length := by
    rw [Scheduler.add_process_length]; exact hp
  have hpe := h.pending e (Inv.head_mem he)
  have hrest : ∀ x ∈ rest, x ∈ s.events ∧ ¬ (x.process = e.process) :=
    fun x hx => ⟨Inv.rest_mem he hx, Inv.rest_ne hi he x hx⟩
  have hmem : ∀ q ∈ (s.scheduler.add_process s.processes e.process).1.pids,
      q = e.process ∨ q ∈ s.scheduler.pids := by
    intro q hq
    rcases Scheduler.add_process_pids s.scheduler s.processes e.process with hperm | heq
    · simpa using hperm.mem_iff.1 hq
    · rw [heq] at hq
      exact Or.inr hq
  have hw := hpe.1 (by rw [hns]; simp)
  obtain ⟨t1, t2, t3, t4, t5, t6, t7, t8⟩ :=
    times_fields (add_process_times s.scheduler s.processes e.process e.process)
  obtain ⟨u1, u2, u3, u4, u5, u6, u7, u8⟩ :=
    times_fields (add_process_times s.scheduler s.processes e.process r)
  -- the pending event of the running process
  have hrlen : r < s4.processes.length := hi4.running_proc r g_run
  have hrla : r < (s.scheduler.add_process s.processes e.process).2.length := by
    rw [← g_ps]; exact hrlen
  have hex : ∃ x ∈ s4.events, x.process = r := by
    by_contra hc
    have := hi4.running_idle r g_run (fun x hx hxr => hc ⟨x, hx, hxr⟩)
    rw [g_ps, g_now] at this
    omega
  have hmemrem : ∀ x, x ∈ remove_event s4.processes r s4.events ↔
      x ∈ s4.events ∧ x.process ≠ r :=
    mem_remove_event s4.processes r s4.events (Inv.event_pid hi4) (hi4.pid_index r hrlen)
      hi4.one_event hex
  rw [g_ps, g_ev] at hmemrem
  obtain ⟨xr, hxr, hxrp⟩ := hex
  have hxr0 : xr ∈ rest := by rw [← g_ev]; exact hxr
  have hxold : xr.old_state = State.RUNNING := by
    rcases hi4.running_kind r g_run xr hxr hxrp with h1 | h1
    · exact h1
    · exact absurd h1 (Inv.rest_no_dispatch hi he xr hxr0)
  have hstop := hi4.stop_time xr hxr hxold
  rw [g_ps, hxrp] at hstop
  have hrp : r ≠ e.process := by
    rw [← hxrp]
    exact (hrest xr hxr0).2
  have hxa := (h.pending xr (hrest xr hxr0).1).1 (Inv.rest_no_dispatch hi he xr hxr0)
  rw [hxrp] at hxa
  unfold Process.accounted at hxa hw
  refine InvAcc.snoc (InvAcc.update h _ (fun i => i = e.process ∨ i = r) ?_ ?_ ?_ ?_ ?_ ?_) e ?_
  · rw [h_ps, length_setProc, length_setProc, Scheduler.add_process_length]
  · rintro i (hi1 | hi1)
    · exact Or.inl ⟨e, Inv.head_mem he, hi1.symm⟩
    · exact Or.inl ⟨xr, (hrest xr hxr0).1, by rw [hxrp, hi1]⟩
  · intro i hi1
    have h1 : i ≠ e.process := fun hc => hi1 (Or.inl hc)
    have h2 : ¬ (i = r ∧ r < (s.scheduler.add_process s.processes e.process).2.length) :=
      fun hc => hi1 (Or.inr hc.1)
    rw [h_ps, getProc_touch_other _ _ _ _ _ hpa hrp, if_neg h1, if_neg h2, add_process_times]
  · rintro i (hi1 | hi1)
    · rw [h_ps, getProc_touch_other _ _ _ _ _ hpa hrp, if_pos hi1, hi1]
      exact ⟨t1, t2⟩
    · have h1 : i ≠ e.process := by rw [hi1]; exact hrp
      rw [h_ps, getProc_touch_other _ _ _ _ _ hpa hrp, if_neg h1, if_pos ⟨hi1, hrla⟩, hi1]
      exact ⟨u1, u2⟩
  · intro x hx
    rw [h_ev] at hx
    rcases mem_put_event.1 hx with rfl | hx
    · right
      refine ⟨Or.inr rfl, fun _ => ?_, fun hx => by simp at hx, fun hx => by simp at hx⟩
      show e.timestamp - (getProc s1.processes r).arrivalTime
        = (getProc s1.processes r).accounted
      rw [h_ps, getProc_touch_other _ _ _ _ _ hpa hrp, if_neg hrp, if_pos ⟨rfl, hrla⟩]
      unfold Process.accounted
      dsimp only
      rw [u1, u2, u3, u4, u5]
      omega
    · obtain ⟨h1, h2⟩ := (hmemrem x).1 hx
      refine Or.inl ⟨(hrest x h1).1, ?_⟩
      rintro (h3 | h3)
      · exact (hrest x h1).2 h3
      · exact h2 h3
  · intro q hq
    rw [h_sch] at hq
    rcases hmem q hq with rfl | hq
    · right
      refine ⟨Or.inl rfl, ?_⟩
      rw [h_ps, getProc_touch_other _ _ _ _ _ hpa hrp, if_pos rfl]
      unfold Process.waits Process.accounted
      show e.timestamp - (getProc (s.scheduler.add_process s.processes e.process).2
          e.process).arrivalTime
        = (getProc (s.scheduler.add_process s.processes e.process).2 e.process).totalCPUTime
          - (getProc (s.scheduler.add_process s.processes e.process).2
              e.process).remainingCPUtime
          + (getProc (s.scheduler.add_process s.processes e.process).2 e.process).ioWaitingTime
          + (getProc (s.scheduler.add_process s.processes e.process).2 e.process).cpuWaitingTime
      rw [t1, t2, t3, t4, t5]
      exact hw
    · refine Or.inl ⟨hq, ?_⟩
      rintro (h3 | h3)
      · exact Inv.head_not_ready hi he q hq h3
      · exact hi.ready_no_event q hq xr (hrest xr hxr0).1 (by rw [hxrp, h3])
  · intro hd
    rw [hns] at hd
    simp at hd

end Sched

namespace Sched
open DES_Layer Simulator

/-! ## Time accounting: the turns of the loop -/

/-- The three paths of `case READY`, as seen after `process->clock =
CURRENT_TIME`: on the plain paths the process of the event is added to the
runqueue; on the preemption path the pending event of the running process `r`
is also replaced and the time `r` does not use is given back. -/
theorem transition_unbounded_ready_cases {s : Simulator} {e : Event} {rest : List Event}
    (hi : Inv s) (he : s.events = e :: rest) (hns : e.new_state = State.READY)
    (motive : Simulator → Prop)
    (plain : ∀ s1 : Simulator, s1.events = rest →
      s1.scheduler = (s.scheduler.add_process s.processes e.process).1 →
      s1.processes = setProc (s.scheduler.add_process s.processes e.process).2 e.process
        { getProc (s.scheduler.add_process s.processes e.process).2 e.process with
          clock := e.timestamp } → motive s1)
    (pre : ∀ (r : Nat) (s4 : Simulator) (rbt : Int) (s1 : Simulator), Inv s4 →
      s4.events = rest →
      s4.processes = (s.scheduler.add_process s.processes e.process).2 →
      s4.CURRENT_RUNNING_PROCESS = some r → s4.CURRENT_TIME = e.timestamp →
      e.timestamp
        < (getProc (s.scheduler.add_process s.processes e.process).2 r).stopRunningTime →
      s1.events = put_event ⟨e.timestamp, r, State.RUNNING, State.READY⟩
        (remove_event (s.scheduler.add_process s.processes e.process).2 r rest) →
      s1.scheduler = (s.scheduler.add_process s.processes e.process).1 →
      s1.processes
        = setProc (setProc (s.scheduler.add_process s.processes e.process).2 r
            { getProc (s.scheduler.add_process s.processes e.process).2 r with
              remainingBurstTime := rbt
              remainingCPUtime :=
                (getProc (s.scheduler.add_process s.processes e.process).2 r).remainingCPUtime
                + ((getProc (s.scheduler.add_process s.processes e.process).2 r).stopRunningTime
                  - e.timestamp)
              stopRunningTime := e.timestamp }) e.process
            { getProc (setProc (s.scheduler.add_process s.processes e.process).2 r
                { getProc (s.scheduler.add_process s.processes e.process).2 r with
                  remainingBurstTime := rbt
                  remainingCPUtime :=
                    (getProc (s.scheduler.add_process s.processes e.process).2
                      r).remainingCPUtime
                    + ((getProc (s.scheduler.add_process s.processes e.process).2
                        r).stopRunningTime - e.timestamp)
                  stopRunningTime := e.timestamp }) e.process with
              clock := e.timestamp } → motive s1) :
    motive (transition_unbounded e { s with events := rest }) := by
  have hp : e.process < s.processes.length := hi.event_proc e (Inv.head_mem he)
  have hne : e.new_state ≠ State.RUNNING := by rw [hns]; simp
  unfold transition_unbounded
  obtain ⟨s3, hs3⟩ : ∃ s3, s3 = update_stats e
      { s with events := rest, CURRENT_TIME := e.timestamp } := ⟨_, rfl⟩
  obtain ⟨f1, f2, f3, f4, f5, f6, f7, f8⟩ :
      s3.random_nums = s.random_nums ∧ s3.ofs = s.ofs ∧ s3.events = rest ∧
      s3.processes = s.processes ∧ s3.scheduler = s.scheduler ∧
      s3.CURRENT_RUNNING_PROCESS = s.CURRENT_RUNNING_PROCESS ∧
      s3.CURRENT_TIME = e.timestamp ∧ s3.CALL_SCHEDULER = s.CALL_SCHEDULER := by
    rw [hs3]; exact Inv.stats_fields e _
  have hi3 : Inv s3 := by rw [hs3]; exact Inv.after_stats hi he hne
  have hi4 := Inv.add_ready hi3 e.process (by rw [f3]; exact Inv.rest_ne hi he)
    (by rw [f4]; exact hp)
    (by rw [f5]; intro hmem; exact Inv.head_not_ready hi he _ hmem rfl)
  dsimp only
  rw [← hs3]
  simp only [hns]
  by_cases hc : 0 < (getProc (s3.scheduler.add_process s3.processes e.process).2
      e.process).remainingBurstTime
  · rw [case_READY_unbounded_clear s3 e.process hc]
    refine plain _ f3 ?_ ?_
    · show (s3.scheduler.add_process s3.processes e.process).1 = _
      rw [f4, f5]
    · show setProc (s3.scheduler.add_process s3.processes e.process).2 e.process
          { getProc (s3.scheduler.add_process s3.processes e.process).2 e.process with
            clock := s3.CURRENT_TIME } = _
      rw [f4, f5, f7]
  · by_cases hpre : ∃ r, s3.CURRENT_RUNNING_PROCESS = some r ∧
        (s3.scheduler.add_process s3.processes e.process).1.preprio_flag = true ∧
        (s3.scheduler.add_process s3.processes e.process).1.test_preempt
          (s3.scheduler.add_process s3.processes e.process).2 r e.process s3.CURRENT_TIME = true
    · obtain ⟨r, hr, hf, ht⟩ := hpre
      rw [case_READY_unbounded_preempt s3 e.process r hc hr hf ht]
      have hlt := (Scheduler.test_preempt_true _ _ _ _ _ ht).2
      rw [f4, f5, f7] at hlt
      refine pre r _
        ((getProc (s.scheduler.add_process s.processes e.process).2 r).remainingBurstTime
          + ((getProc (s.scheduler.add_process s.processes e.process).2 r).stopRunningTime
            - e.timestamp)) _ hi4 f3 (by show _ = _; rw [f4, f5]) hr f7 hlt ?_ ?_ ?_
      · show put_event ⟨s3.CURRENT_TIME, r, State.RUNNING, State.READY⟩
          (remove_event (s3.scheduler.add_process s3.processes e.process).2 r s3.events) = _
        rw [f3, f4, f5, f7]
      · show (s3.scheduler.add_process s3.processes e.process).1 = _
        rw [f4, f5]
      · show setProc (setProc (s3.scheduler.add_process s3.processes e.process).2 r _)
          e.process _ = _
        simp only [f4, f5, f7]
    · rw [case_READY_unbounded_stay s3 e.process hc (fun r hr hx => hpre ⟨r, hr, hx.1, hx.2⟩)]
      refine plain _ f3 ?_ ?_
      · show (s3.scheduler.add_process s3.processes e.process).1 = _
        rw [f4, f5]
      · show setProc (s3.scheduler.add_process s3.processes e.process).2 e.process
            { getProc (s3.scheduler.add_process s3.processes e.process).2 e.process with
              clock := s3.CURRENT_TIME } = _
        rw [f4, f5, f7]


theorem transition_unbounded_acc_ready {s0 s : Simulator} {tr : List Event} {e : Event}
    {rest : List Event} (hi : Inv s) (h : InvAcc s0 s tr) (he : s.events = e :: rest)
    (hns : e.new_state = State.READY) :
    InvAcc s0 (transition_unbounded e { s with events := rest }) (tr ++ [e]) :=
  transition_unbounded_ready_cases hi he hns (fun s1 => InvAcc s0 s1 (tr ++ [e]))
    (fun s1 a b c => acc_ready_plain hi h he hns s1 a b c)
    (fun r s4 rbt s1 hi4 g1 g2 g3 g4 hlt a b c =>
      acc_ready_preempt_unbounded hi h he hns r s4 hi4 g1 g2 g3 g4 hlt rbt s1 a b c)

theorem call_scheduler_acc {s0 s : Simulator} {tr : List Event} (hi : Inv s)
    (h : InvAcc s0 s tr) : InvAcc s0 (call_scheduler s) tr := by
  by_cases hn : calls_next s
  · obtain ⟨c1, c2, c3, c4⟩ := call_scheduler_next s hn
    have hps := call_scheduler_processes s
    obtain ⟨p1, p2⟩ := Scheduler.get_next_process_pids s.scheduler
    cases hq : s.scheduler.get_next_process.1 with
    | none =>
      rw [hq] at c4
      have hperm := p2 hq
      refine InvAcc.update h _ (fun _ => False) (by rw [hps]) (fun i hi => absurd hi id)
        (fun i _ => by rw [hps]) (fun i hi => absurd hi id) ?_ ?_
      · intro x hx
        rw [c4] at hx
        exact Or.inl ⟨hx, id⟩
      · intro q hq1
        rw [c1] at hq1
        exact Or.inl ⟨hperm.mem_iff.1 hq1, id⟩
    | some q =>
      rw [hq] at c4
      have hperm := p1 q hq
      have hqin : q ∈ s.scheduler.pids := hperm.mem_iff.2 (List.mem_cons_self _ _)
      have hnd : (q :: s.scheduler.get_next_process.2.pids).Nodup :=
        (List.Perm.nodup_iff hperm).1 hi.ready_nodup
      refine InvAcc.update h _ (fun i => i = q) (by rw [hps])
        (fun i hi => by rw [hi]; exact Or.inr hqin)
        (fun i _ => by rw [hps]) (fun i _ => by rw [hps]; exact ⟨rfl, rfl⟩) ?_ ?_
      · intro x hx
        rw [c4] at hx
        rcases mem_put_event.1 hx with rfl | hx
        · right
          refine ⟨rfl, fun hx => absurd rfl hx, fun _ => ?_, fun hx => by simp at hx⟩
          rw [hps]
          exact h.ready q hqin
        · exact Or.inl ⟨hx, hi.ready_no_event q hqin x hx⟩
      · intro q1 hq1
        rw [c1] at hq1
        refine Or.inl ⟨hperm.mem_iff.2 (List.mem_cons_of_mem _ hq1), ?_⟩
        intro hc
        rw [hc] at hq1
        exact (List.nodup_cons.1 hnd).1 hq1
  · obtain ⟨c1, c2, c3⟩ := call_scheduler_not_next s hn
    have hps := call_scheduler_processes s
    refine InvAcc.update h _ (fun _ => False) (by rw [hps]) (fun i hi => absurd hi id)
      (fun i _ => by rw [hps]) (fun i hi => absurd hi id) ?_ ?_
    · intro x hx
      rw [c2] at hx
      exact Or.inl ⟨hx, id⟩
    · intro q hq1
      rw [c1] at hq1
      exact Or.inl ⟨hq1, id⟩

theorem turn_unbounded_acc {s0 s : Simulator} {tr : List Event} {e : Event} {rest : List Event}
    (hi : Inv s) (h : InvAcc s0 s tr) (he : s.events = e :: rest) :
    InvAcc s0 (call_scheduler (transition_unbounded e { s with events := rest })) (tr ++ [e]) := by
  apply call_scheduler_acc (Inv.transition_unbounded_inv hi he)
  by_cases hns : e.new_state = State.READY
  · exact transition_unbounded_acc_ready hi h he hns
  · exact transition_unbounded_acc hi h he hns

end Sched

namespace Sched
open DES_Layer Simulator

/-! ## Time accounting: the identity -/

theorem mem_initial_events_unbounded_line (input : List InputLine) :
    ∀ (first : Nat) (x : Event), x ∈ initial_events_unbounded first input →
      ∃ (i : Nat) (hi : i < input.length), x.process = first + i ∧
        x.timestamp = (input.get ⟨i, hi⟩).at_ ∧ x.new_state = State.READY := by
  induction input with
  | nil => intro first x hx; simp [initial_events_unbounded] at hx
  | cons line rest ih =>
    intro first x hx
    simp only [initial_events_unbounded, List.mem_cons] at hx
    rcases hx with rfl | hx
    · exact ⟨0, by simp, rfl, rfl, rfl⟩
    · obtain ⟨i, hi, h1, h2, h3⟩ := ih (first + 1) x hx
      refine ⟨i + 1, by simp only [List.length_cons]; omega, by omega, ?_, h3⟩
      rw [h2]
      rfl

theorem start_unbounded_acc (u : Uninitialised) (policy : Policy) (rn : List Int)
    (input : List InputLine) :
    InvAcc (start_unbounded u policy rn input) (start_unbounded u policy rn input) [] := by
  refine ⟨rfl, fun _ => ⟨rfl, rfl⟩, ?_, ?_, ?_⟩
  · intro x hx
    rw [start_unbounded_events] at hx
    obtain ⟨i, hi, h1, h2, h3⟩ := mem_initial_events_unbounded_line input 0 x hx
    obtain ⟨ofs, hb⟩ := start_unbounded_getProc u policy rn input i hi
    have h1 : x.process = i := by omega
    refine ⟨fun _ => ?_, fun hc => ?_, fun hc => ?_⟩
    · rw [h1, hb, h2]
      simp [built_process_unbounded, Process.Process, Process.accounted]
    · rw [h3] at hc
      simp at hc
    · rw [h3] at hc
      simp at hc
  · intro q hq
    have : (start_unbounded u policy rn input).scheduler.pids = [] := make_scheduler_pids policy
    rw [this] at hq
    simp at hq
  · intro d hd
    simp at hd

theorem acc_reach (u : Uninitialised) (policy : Policy) (rn : List Int)
    (input : List InputLine) (hv : ValidInput policy rn input) (n : Nat) :
    InvAcc (start_unbounded u policy rn input) (simulation_unbounded n (start_unbounded u policy rn input))
      (processed_unbounded (start_unbounded u policy rn input) n) := by
  induction n with
  | zero => exact start_unbounded_acc u policy rn input
  | succ n ih =>
    cases hev : (simulation_unbounded n (start_unbounded u policy rn input)).events with
    | nil =>
      rw [processed_unbounded_nil _ _ hev, simulation_unbounded_succ, turn_unbounded_nil hev]
      exact ih
    | cons e rest =>
      obtain ⟨_, t, h0⟩ := valid_reach u policy rn input hv n
      have he0 : ({ simulation_unbounded n (start_unbounded u policy rn input) with
          CURRENT_TIME := t } : Simulator).events = e :: rest := hev
      have ih0 : InvAcc (start_unbounded u policy rn input)
          { simulation_unbounded n (start_unbounded u policy rn input) with CURRENT_TIME := t }
          (processed_unbounded (start_unbounded u policy rn input) n) :=
        ⟨ih.roster, ih.fixed, ih.pending, ih.ready, ih.done⟩
      rw [processed_unbounded_cons _ _ hev, simulation_unbounded_succ, turn_unbounded_cons hev]
      have h1 := turn_unbounded_acc h0 ih0 he0
      exact h1

end Sched

namespace Sched
open DES_Layer Simulator

/-! ## Time accounting: where the time of a process goes -/

theorem wait_log_snoc (l : List Event) (e : Event) :
    wait_log (l ++ [e]) = (wait_log l).record e := by
  unfold wait_log
  rw [List.foldl_append]
  rfl

theorem record_since (g : WaitLog) (e : Event) (i : Nat) :
    (g.record e).since i = if i = e.process then e.timestamp else g.since i := by
  unfold WaitLog.record
  by_cases h : i = e.process
  · rw [h]; simp
  · simp [h, Function.update_noteq h]

theorem record_blocked (g : WaitLog) (e : Event) (i : Nat) :
    (g.record e).blocked i
      = if i = e.process ∧ e.old_state = State.BLOCKED then
          g.blocked i + (e.timestamp - g.since i)
        else g.blocked i := by
  unfold WaitLog.record
  by_cases h : i = e.process <;> by_cases h2 : e.old_state = State.BLOCKED
  · rw [h]; simp [h2]
  · simp [h, h2]
  · simp [h, h2, Function.update_noteq h]
  · simp [h, h2]

theorem record_ready (g : WaitLog) (e : Event) (i : Nat) :
    (g.record e).ready i
      = if i = e.process ∧ e.old_state = State.READY then
          g.ready i + (e.timestamp - g.since i)
        else g.ready i := by
  unfold WaitLog.record
  by_cases h : i = e.process <;> by_cases h2 : e.old_state = State.READY
  · rw [h]; simp [h2]
  · simp [h, h2]
  · simp [h, h2, Function.update_noteq h]
  · simp [h, h2]

theorem well_formed_running {e : Event} (h : e.well_formed) :
    (e.new_state = State.RUNNING ↔ e.old_state = State.READY) ∧
    (e.new_state = State.BLOCKED → e.old_state = State.RUNNING) := by
  rcases h with h | h | h | h | h | h <;> · rw [h.1, h.2]; simp

/-- The step of the waiting invariant over a transition: the clock of the
process of the event is set, `cpuWaitingTime` grows at an event into `RUNNING`,
`ioWaitingTime` grows by the burst `D` at an event into `BLOCKED`, which is when
the event out of `BLOCKED` is put; the other events out of `BLOCKED` stay. -/
theorem wait_update {s : Simulator} {g : WaitLog} {e : Event} {rest : List Event}
    (hi : Inv s) (h : InvWait s g) (he : s.events = e :: rest) (s1 : Simulator) (D : Int)
    (hlen : s1.processes.length = s.processes.length)
    (hclock : ∀ i, (getProc s1.processes i).clock
      = if i = e.process then e.timestamp else (getProc s.processes i).clock)
    (hcw : ∀ i, (getProc s1.processes i).cpuWaitingTime
      = if i = e.process ∧ e.new_state = State.RUNNING then
          (getProc s.processes i).cpuWaitingTime + (e.timestamp - (getProc s.processes i).clock)
        else (getProc s.processes i).cpuWaitingTime)
    (hio : ∀ i, (getProc s1.processes i).ioWaitingTime
      = if i = e.process ∧ e.new_state = State.BLOCKED then
          (getProc s.processes i).ioWaitingTime + D
        else (getProc s.processes i).ioWaitingTime)
    (hev1 : ∀ x ∈ s1.events, x.old_state = State.BLOCKED → x ∈ rest ∨
      (e.new_state = State.BLOCKED ∧ x = ⟨e.timestamp + D, e.process, State.BLOCKED, State.READY⟩))
    (hev2 : ∀ x ∈ rest, x.old_state = State.BLOCKED → x ∈ s1.events)
    (hev3 : e.new_state = State.BLOCKED →
      (⟨e.timestamp + D, e.process, State.BLOCKED, State.READY⟩ : Event) ∈ s1.events) :
    InvWait s1 (g.record e) := by
  have hp : e.process < s.processes.length := hi.event_proc e (Inv.head_mem he)
  obtain ⟨w1, w2⟩ := well_formed_running (hi.event_shape e (Inv.head_mem he))
  have hidle : ∀ x ∈ s.events, x.process = e.process → x.old_state = e.old_state := by
    intro x hx hxp
    rw [he] at hx
    rcases List.mem_cons.1 hx with rfl | hx
    · rfl
    · exact absurd hxp (Inv.rest_ne hi he x hx)
  refine ⟨?_, ?_, ?_, ?_⟩
  · intro i hil
    rw [hlen] at hil
    rw [hclock, record_since]
    by_cases hip : i = e.process
    · rw [if_pos hip, if_pos hip]
    · rw [if_neg hip, if_neg hip]
      exact h.clock i hil
  · intro i hil
    rw [hlen] at hil
    rw [hcw, record_ready, h.ready i hil, h.clock i hil]
    by_cases hip : i = e.process
    · by_cases hr : e.new_state = State.RUNNING
      · rw [if_pos ⟨hip, hr⟩, if_pos ⟨hip, w1.1 hr⟩]
      · rw [if_neg (fun hc => hr hc.2), if_neg (fun hc => hr (w1.2 hc.2))]
    · rw [if_neg (fun hc => hip hc.1), if_neg (fun hc => hip hc.1)]
  · intro x hx hxb
    rw [hclock, hio, record_blocked]
    rcases hev1 x hx hxb with hxr | ⟨hb, rfl⟩
    · have hne : x.process ≠ e.process := Inv.rest_ne hi he x hxr
      rw [if_neg hne, if_neg (fun hc => hne hc.1), if_neg (fun hc => hne hc.1)]
      exact h.blocked x (Inv.rest_mem he hxr) hxb
    · have hold := w2 hb
      have h0 := h.idle e.process hp (fun x hx hxp => by
        rw [hidle x hx hxp, hold]; simp)
      show (if e.process = e.process ∧ e.new_state = State.BLOCKED then _ else _)
        = (if e.process = e.process ∧ e.old_state = State.BLOCKED then _ else _)
          + (e.timestamp + D - (if e.process = e.process then e.timestamp else _))
      rw [if_pos ⟨rfl, hb⟩, if_neg (fun hc => by rw [hold] at hc; simp at hc), if_pos rfl, h0]
      dsimp only
      omega
  · intro i hil hno
    rw [hlen] at hil
    rw [hio, record_blocked]
    by_cases hip : i = e.process
    · have hnb : e.new_state ≠ State.BLOCKED := by
        intro hb
        exact hno _ (hev3 hb) hip.symm rfl
      rw [if_neg (fun hc => hnb hc.2)]
      by_cases hob : e.old_state = State.BLOCKED
      · rw [if_pos ⟨hip, hob⟩, hip, ← h.clock e.process hp]
        exact h.blocked e (Inv.head_mem he) hob
      · rw [if_neg (fun hc => hob hc.2)]
        exact h.idle i hil (fun x hx hxp => by
          rw [hip] at hxp
          rw [hidle x hx hxp]
          exact hob)
    · rw [if_neg (fun hc => hip hc.1), if_neg (fun hc => hip hc.1)]
      refine h.idle i hil (fun x hx hxp hxb => ?_)
      rw [he] at hx
      rcases List.mem_cons.1 hx with rfl | hx
      · exact hip hxp.symm
      · exact hno x (hev2 x hx hxb) hxp hxb

theorem wait_frame {s : Simulator} {g : WaitLog} (h : InvWait s g) (s1 : Simulator)
    (hps : s1.processes = s.processes)
    (hev : ∀ x, x.old_state = State.BLOCKED → (x ∈ s1.events ↔ x ∈ s.events)) :
    InvWait s1 g := by
  refine ⟨?_, ?_, ?_, ?_⟩
  · intro i hil
    rw [hps] at hil ⊢
    exact h.clock i hil
  · intro i hil
    rw [hps] at hil ⊢
    exact h.ready i hil
  · intro x hx hxb
    rw [hps]
    exact h.blocked x ((hev x hxb).1 hx) hxb
  · intro i hil hno
    rw [hps] at hil ⊢
    exact h.idle i hil (fun x hx hxp hxb => hno x ((hev x hxb).2 hx) hxp hxb)

theorem call_scheduler_wait {s : Simulator} {g : WaitLog} (h : InvWait s g) :
    InvWait (call_scheduler s) g := by
  refine wait_frame h _ (call_scheduler_processes s) ?_
  intro x hxb
  by_cases hn : calls_next s
  · obtain ⟨_, _, _, c4⟩ := call_scheduler_next s hn
    rw [c4]
    cases hq : s.scheduler.get_next_process.1 with
    | none => exact Iff.rfl
    | some q =>
      constructor
      · intro hx
        rcases mem_put_event.1 hx with rfl | hx
        · simp at hxb
        · exact hx
      · intro hx
        exact mem_put_event.2 (Or.inr hx)
  · rw [(call_scheduler_not_next s hn).2.1]

end Sched

namespace Sched
open DES_Layer Simulator

/-! ## Time accounting: the waiting times over the transitions -/

theorem transition_unbounded_wait {s : Simulator} {g : WaitLog} {e : Event} {rest : List Event}
    (hi : Inv s) (h : InvWait s g) (he : s.events = e :: rest)
    (hnr : e.new_state ≠ State.READY) :
    InvWait (transition_unbounded e { s with events := rest }) (g.record e) := by
  have hshape := hi.event_shape e (Inv.head_mem he)
  have hp : e.process < s.processes.length := hi.event_proc e (Inv.head_mem he)
  unfold transition_unbounded
  obtain ⟨s3, hs3⟩ : ∃ s3, s3 = update_stats e
      { s with events := rest, CURRENT_TIME := e.timestamp } := ⟨_, rfl⟩
  obtain ⟨f1, f2, f3, f4, f5, f6, f7, f8⟩ :
      s3.random_nums = s.random_nums ∧ s3.ofs = s.ofs ∧ s3.events = rest ∧
      s3.processes = s.processes ∧ s3.scheduler = s.scheduler ∧
      s3.CURRENT_RUNNING_PROCESS = s.CURRENT_RUNNING_PROCESS ∧
      s3.CURRENT_TIME = e.timestamp ∧ s3.CALL_SCHEDULER = s.CALL_SCHEDULER := by
    rw [hs3]; exact Inv.stats_fields e _
  have hp3 : e.process < s3.processes.length := by rw [f4]; exact hp
  dsimp only
  rw [← hs3]
  cases hns : e.new_state with
  | CREATED =>
    rcases hshape with h1 | h1 | h1 | h1 | h1 | h1 <;> · rw [hns] at h1; simp at h1
  | READY => exact absurd hns hnr
  | RUNNING =>
    obtain ⟨slice, rbt, rem1, X, ofs1, c1, c2, c3, c4, c5, c6, c7, c8, c9⟩ :=
      case_RUNNING_unbounded_effect s3
        e.process (by rw [f5]; exact hi.quantum_pos) (by rw [f4]; exact (hi.bursts_pos _ hp).1)
        (by rw [f1]; exact hi.table_nonneg) (by rw [f4]; exact hi.rem_nonneg _ hp)
    dsimp only
    rw [c1]
    have hnb : e.new_state ≠ State.BLOCKED := by rw [hns]; simp
    refine wait_update hi h he _ 0 ?_ ?_ ?_ ?_ ?_ ?_ ?_
    · show (setProc (setProc s3.processes _ _) _ _).length = _
      rw [length_setProc, length_setProc, f4]
    · intro i
      show (getProc (setProc (setProc s3.processes _ _) _ _) i).clock = _
      rw [getProc_touch _ _ _ _ hp3]
      by_cases hip : i = e.process
      · rw [if_pos hip, if_pos hip]
        exact f7
      · rw [if_neg hip, if_neg hip, f4]
    · intro i
      show (getProc (setProc (setProc s3.processes _ _) _ _) i).cpuWaitingTime = _
      rw [getProc_touch _ _ _ _ hp3]
      by_cases hip : i = e.process
      · rw [if_pos hip, if_pos (And.intro hip hns), hip]
        show (getProc s3.processes e.process).cpuWaitingTime
          + (s3.CURRENT_TIME - (getProc s3.processes e.process).clock) = _
        rw [f4, f7]
      · rw [if_neg hip, if_neg (fun hc => hip hc.1), f4]
    · intro i
      show (getProc (setProc (setProc s3.processes _ _) _ _) i).ioWaitingTime = _
      have hnblk : ¬ (i = e.process ∧ e.new_state = State.BLOCKED) := fun hc => hnb hc.2
      rw [if_neg hnblk, getProc_touch _ _ _ _ hp3]
      by_cases hip : i = e.process
      · rw [if_pos hip, hip]
        show (getProc s3.processes e.process).ioWaitingTime = _
        rw [f4]
      · rw [if_neg hip, f4]
    · intro x hx hxb
      have hx : x ∈ put_event ⟨s3.CURRENT_TIME + slice, e.process, State.RUNNING, X⟩
          s3.events := hx
      rw [f3] at hx
      rcases mem_put_event.1 hx with rfl | hx
      · simp at hxb
      · exact Or.inl hx
    · intro x hx _
      show x ∈ put_event ⟨s3.CURRENT_TIME + slice, e.process, State.RUNNING, X⟩ s3.events
      rw [f3]
      exact mem_put_event.2 (Or.inr hx)
    · intro hb
      exact absurd hb hnb
  | BLOCKED =>
    dsimp only
    rw [case_BLOCKED_unbounded_effect]
    refine wait_update hi h he _
      (get_random_number s.random_nums s.ofs (getProc s.processes e.process).ioBurst).1
      ?_ ?_ ?_ ?_ ?_ ?_ ?_
    · show (setProc (setProc s3.processes _ _) _ _).length = _
      rw [length_setProc, length_setProc, f4]
    · intro i
      show (getProc (setProc (setProc s3.processes _ _) _ _) i).clock = _
      rw [getProc_touch _ _ _ _ hp3]
      by_cases hip : i = e.process
      · rw [if_pos hip, if_pos hip]
        exact f7
      · rw [if_neg hip, if_neg hip, f4]
    · intro i
      show (getProc (setProc (setProc s3.processes _ _) _ _) i).cpuWaitingTime = _
      have hnrun : ¬ (i = e.process ∧ e.new_state = State.RUNNING) := by
        rw [hns]
        simp
      rw [if_neg hnrun, getProc_touch _ _ _ _ hp3]
      by_cases hip : i = e.process
      · rw [if_pos hip, hip]
        show (getProc s3.processes e.process).cpuWaitingTime = _
        rw [f4]
      · rw [if_neg hip, f4]
    · intro i
      show (getProc (setProc (setProc s3.processes _ _) _ _) i).ioWaitingTime = _
      rw [getProc_touch _ _ _ _ hp3]
      by_cases hip : i = e.process
      · rw [if_pos hip, if_pos (And.intro hip hns), hip]
        show (getProc s3.processes e.process).ioWaitingTime
          + (get_random_number s3.random_nums s3.ofs
              (getProc s3.processes e.process).ioBurst).1 = _
        rw [f1, f2, f4]
      · rw [if_neg hip, if_neg (fun hc => hip hc.1), f4]
    · intro x hx hxb
      have hx : x ∈ put_event ⟨s3.CURRENT_TIME
          + (get_random_number s3.random_nums s3.ofs (getProc s3.processes e.process).ioBurst).1,
          e.process, State.BLOCKED, State.READY⟩ s3.events := hx
      rw [f1, f2, f3, f4, f7] at hx
      rcases mem_put_event.1 hx with rfl | hx
      · exact Or.inr ⟨hns, rfl⟩
      · exact Or.inl hx
    · intro x hx _
      show x ∈ put_event ⟨s3.CURRENT_TIME
          + (get_random_number s3.random_nums s3.ofs (getProc s3.processes e.process).ioBurst).1,
          e.process, State.BLOCKED, State.READY⟩ s3.events
      rw [f3]
      exact mem_put_event.2 (Or.inr hx)
    · intro _
      show _ ∈ put_event ⟨s3.CURRENT_TIME
          + (get_random_number s3.random_nums s3.ofs (getProc s3.processes e.process).ioBurst).1,
          e.process, State.BLOCKED, State.READY⟩ s3.events
      rw [f1, f2, f4, f7]
      exact mem_put_event.2 (Or.inl rfl)
  | DONE =>
    dsimp only
    rw [case_DONE_unbounded_effect]
    have hnb : e.new_state ≠ State.BLOCKED := by rw [hns]; simp
    refine wait_update hi h he _ 0 ?_ ?_ ?_ ?_ ?_ ?_ ?_
    · show (setProc (setProc s3.processes _ _) _ _).length = _
      rw [length_setProc, length_setProc, f4]
    · intro i
      show (getProc (setProc (setProc s3.processes _ _) _ _) i).clock = _
      rw [getProc_touch _ _ _ _ hp3]
      by_cases hip : i = e.process
      · rw [if_pos hip, if_pos hip]
        exact f7
      · rw [if_neg hip, if_neg hip, f4]
    · intro i
      show (getProc (setProc (setProc s3.processes _ _) _ _) i).cpuWaitingTime = _
      have hnrun : ¬ (i = e.process ∧ e.new_state = State.RUNNING) := by
        rw [hns]
        simp
      rw [if_neg hnrun, getProc_touch _ _ _ _ hp3]
      by_cases hip : i = e.process
      · rw [if_pos hip, hip]
        show (getProc s3.processes e.process).cpuWaitingTime = _
        rw [f4]
      · rw [if_neg hip, f4]
    · intro i
      show (getProc (setProc (setProc s3.processes _ _) _ _) i).ioWaitingTime = _
      have hnblk : ¬ (i = e.process ∧ e.new_state = State.BLOCKED) := fun hc => hnb hc.2
      rw [if_neg hnblk, getProc_touch _ _ _ _ hp3]
      by_cases hip : i = e.process
      · rw [if_pos hip, hip]
        show (getProc s3.processes e.process).ioWaitingTime = _
        rw [f4]
      · rw [if_neg hip, f4]
    · intro x hx _
      have hx : x ∈ s3.events := hx
      rw [f3] at hx
      exact Or.inl hx
    · intro x hx _
      show x ∈ s3.events
      rw [f3]
      exact hx
    · intro hb
      exact absurd hb hnb

end Sched

namespace Sched
open DES_Layer Simulator

/-! ## Time accounting: the waiting times over the turns of the loop -/

theorem wait_ready_plain {s : Simulator} {g : WaitLog} {e : Event} {rest : List Event}
    (hi : Inv s) (h : InvWait s g) (he : s.events = e :: rest)
    (hns : e.new_state = State.READY) (s1 : Simulator)
    (h_ev : s1.events = rest)
    (h_ps : s1.processes = setProc (s.scheduler.add_process s.processes e.process).2 e.process
      { getProc (s.scheduler.add_process s.processes e.process).2 e.process with
        clock := e.timestamp }) :
    InvWait s1 (g.record e) := by
  have hp : e.process < s.processes.length := hi.event_proc e (Inv.head_mem he)
  have hpa : e.process < (s.scheduler.add_process s.processes e.process).2.length := by
    rw [Scheduler.add_process_length]; exact hp
  have htimes : ∀ i, (getProc (s.scheduler.add_process s.processes e.process).2 i).clock
        = (getProc s.processes i).clock ∧
      (getProc (s.scheduler.add_process s.processes e.process).2 i).cpuWaitingTime
        = (getProc s.processes i).cpuWaitingTime ∧
      (getProc (s.scheduler.add_process s.processes e.process).2 i).ioWaitingTime
        = (getProc s.processes i).ioWaitingTime := by
    intro i
    obtain ⟨_, _, _, t4, t5, t6, _, _⟩ :=
      times_fields (add_process_times s.scheduler s.processes e.process i)
    exact ⟨t6, t5, t4⟩
  have hnb : e.new_state ≠ State.BLOCKED := by rw [hns]; simp
  refine wait_update hi h he s1 0 ?_ ?_ ?_ ?_ ?_ ?_ ?_
  · rw [h_ps, length_setProc, Scheduler.add_process_length]
  · intro i
    rw [h_ps]
    by_cases hip : i = e.process
    · rw [if_pos hip, hip, getProc_setProc_same _ _ _ hpa]
    · rw [if_neg hip, getProc_setProc_ne _ _ _ _ hip]
      exact (htimes i).1
  · intro i
    have hnrun : ¬ (i = e.process ∧ e.new_state = State.RUNNING) := by
      rw [hns]
      simp
    rw [if_neg hnrun, h_ps]
    by_cases hip : i = e.process
    · rw [hip, getProc_setProc_same _ _ _ hpa]
      exact (htimes e.process).2.1
    · rw [getProc_setProc_ne _ _ _ _ hip]
      exact (htimes i).2.1
  · intro i
    have hnblk : ¬ (i = e.process ∧ e.new_state = State.BLOCKED) := fun hc => hnb hc.2
    rw [if_neg hnblk, h_ps]
    by_cases hip : i = e.process
    · rw [hip, getProc_setProc_same _ _ _ hpa]
      exact (htimes e.process).2.2
    · rw [getProc_setProc_ne _ _ _ _ hip]
      exact (htimes i).2.2
  · intro x hx _
    rw [h_ev] at hx
    exact Or.inl hx
  · intro x hx _
    rw [h_ev]
    exact hx
  · intro hb
    exact absurd hb hnb

theorem wait_ready_preempt_unbounded {s : Simulator} {g : WaitLog} {e : Event} {rest : List Event}
    (hi : Inv s) (h : InvWait s g) (he : s.events = e :: rest)
    (hns : e.new_state = State.READY) (r : Nat) (s4 : Simulator) (hi4 : Inv s4)
    (g_ev : s4.events = rest)
    (g_ps : s4.processes = (s.scheduler.add_process s.processes e.process).2)
    (g_run : s4.CURRENT_RUNNING_PROCESS = some r) (g_now : s4.CURRENT_TIME = e.timestamp)
    (hlt : e.timestamp
      < (getProc (s.scheduler.add_process s.processes e.process).2 r).stopRunningTime)
    (rbt : Int) (s1 : Simulator)
    (h_ev : s1.events = put_event ⟨e.timestamp, r, State.RUNNING, State.READY⟩
      (remove_event (s.scheduler.add_process s.processes e.process).2 r rest))
    (h_ps : s1.processes
      = setProc (setProc (s.scheduler.add_process s.processes e.process).2 r
          { getProc (s.scheduler.add_process s.processes e.process).2 r with
            remainingBurstTime := rbt
            remainingCPUtime :=
              (getProc (s.scheduler.add_process s.processes e.process).2 r).remainingCPUtime
              + ((getProc (s.scheduler.add_process s.processes e.process).2 r).stopRunningTime
                - e.timestamp)
            stopRunningTime := e.timestamp }) e.process
          { getProc (setProc (s.scheduler.add_process s.processes e.process).2 r
              { getProc (s.scheduler.add_process s.processes e.process).2 r with
                remainingBurstTime := rbt
                remainingCPUtime :=
                  (getProc (s.scheduler.add_process s.processes e.process).2 r).remainingCPUtime
                  + ((getProc (s.scheduler.add_process s.processes e.process).2
                      r).stopRunningTime - e.timestamp)
                stopRunningTime := e.timestamp }) e.process with
            clock := e.timestamp }) :
    InvWait s1 (g.record e) := by
  have hp : e.process < s.processes.length := hi.event_proc e (Inv.head_mem he)
  have hpa : e.process < (s.scheduler.add_process s.processes e.process).2.length := by
    rw [Scheduler.add_process_length]; exact hp
  have htimes : ∀ i, (getProc (s.scheduler.add_process s.processes e.process).2 i).clock
        = (getProc s.processes i).clock ∧
      (getProc (s.scheduler.add_process s.processes e.process).2 i).cpuWaitingTime
        = (getProc s.processes i).cpuWaitingTime ∧
      (getProc (s.scheduler.add_process s.processes e.process).2 i).ioWaitingTime
        = (getProc s.processes i).ioWaitingTime := by
    intro i
    obtain ⟨_, _, _, t4, t5, t6, _, _⟩ :=
      times_fields (add_process_times s.scheduler s.processes e.process i)
    exact ⟨t6, t5, t4⟩
  have hnb : e.new_state ≠ State.BLOCKED := by rw [hns]; simp
  -- the pending event of the running process
  have hrlen : r < s4.processes.length := hi4.running_proc r g_run
  have hrla : r < (s.scheduler.add_process s.processes e.process).2.length := by
    rw [← g_ps]; exact hrlen
  have hex : ∃ x ∈ s4.events, x.process = r := by
    by_contra hc
    have := hi4.running_idle r g_run (fun x hx hxr => hc ⟨x, hx, hxr⟩)
    rw [g_ps, g_now] at this
    omega
  have hmemrem : ∀ x, x ∈ remove_event s4.processes r s4.events ↔
      x ∈ s4.events ∧ x.process ≠ r :=
    mem_remove_event s4.processes r s4.events (Inv.event_pid hi4) (hi4.pid_index r hrlen)
      hi4.one_event hex
  rw [g_ps, g_ev] at hmemrem
  obtain ⟨xr, hxr, hxrp⟩ := hex
  have hxr0 : xr ∈ rest := by rw [← g_ev]; exact hxr
  have hrp : r ≠ e.process := by
    rw [← hxrp]
    exact Inv.rest_ne hi he xr hxr0
  have hkind : ∀ x ∈ rest, x.process = r → x.old_state = State.RUNNING := by
    intro x hx hxp
    rcases hi4.running_kind r g_run x (by rw [g_ev]; exact hx) hxp with h1 | h1
    · exact h1
    · exact absurd h1 (Inv.rest_no_dispatch hi he x hx)
  have hget : ∀ i, getProc s1.processes i
      = if i = e.process then
          { getProc (s.scheduler.add_process s.processes e.process).2 e.process with
            clock := e.timestamp }
        else if i = r ∧ r < (s.scheduler.add_process s.processes e.process).2.length then
          { getProc (s.scheduler.add_process s.processes e.process).2 r with
            remainingBurstTime := rbt
            remainingCPUtime :=
              (getProc (s.scheduler.add_process s.processes e.process).2 r).remainingCPUtime
              + ((getProc (s.scheduler.add_process s.processes e.process).2 r).stopRunningTime
                - e.timestamp)
            stopRunningTime := e.timestamp }
        else getProc (s.scheduler.add_process s.processes e.process).2 i := by
    intro i
    rw [h_ps, getProc_touch_other _ _ _ _ _ hpa hrp]
  have hother : ∀ i, i ≠ e.process →
      (getProc s1.processes i).clock = (getProc s.processes i).clock ∧
      (getProc s1.processes i).cpuWaitingTime = (getProc s.processes i).cpuWaitingTime ∧
      (getProc s1.processes i).ioWaitingTime = (getProc s.processes i).ioWaitingTime := by
    intro i hip
    rw [hget, if_neg hip]
    by_cases hir : i = r ∧ r < (s.scheduler.add_process s.processes e.process).2.length
    · rw [if_pos hir, hir.1]
      exact htimes r
    · rw [if_neg hir]
      exact htimes i
  have hself : (getProc s1.processes e.process).clock = e.timestamp ∧
      (getProc s1.processes e.process).cpuWaitingTime
        = (getProc s.processes e.process).cpuWaitingTime ∧
      (getProc s1.processes e.process).ioWaitingTime
        = (getProc s.processes e.process).ioWaitingTime := by
    rw [hget, if_pos rfl]
    exact ⟨rfl, (htimes e.process).2.1, (htimes e.process).2.2⟩
  refine wait_update hi h he s1 0 ?_ ?_ ?_ ?_ ?_ ?_ ?_
  · rw [h_ps, length_setProc, length_setProc, Scheduler.add_process_length]
  · intro i
    by_cases hip : i = e.process
    · rw [if_pos hip, hip]
      exact hself.1
    · rw [if_neg hip]
      exact (hother i hip).1
  · intro i
    have hnrun : ¬ (i = e.process ∧ e.new_state = State.RUNNING) := by
      rw [hns]
      simp
    rw [if_neg hnrun]
    by_cases hip : i = e.process
    · rw [hip]
      exact hself.2.1
    · exact (hother i hip).2.1
  · intro i
    have hnblk : ¬ (i = e.process ∧ e.new_state = State.BLOCKED) := fun hc => hnb hc.2
    rw [if_neg hnblk]
    by_cases hip : i = e.process
    · rw [hip]
      exact hself.2.2
    · exact (hother i hip).2.2
  · intro x hx hxb
    rw [h_ev] at hx
    rcases mem_put_event.1 hx with rfl | hx
    · simp at hxb
    · exact Or.inl ((hmemrem x).1 hx).1
  · intro x hx hxb
    rw [h_ev]
    refine mem_put_event.2 (Or.inr ((hmemrem x).2 ⟨hx, fun hxp => ?_⟩))
    rw [hkind x hx hxp] at hxb
    simp at hxb
  · intro hb
    exact absurd hb hnb

theorem transition_unbounded_wait_ready {s : Simulator} {g : WaitLog} {e : Event} {rest : List Event}
    (hi : Inv s) (h : InvWait s g) (he : s.events = e :: rest)
    (hns : e.new_state = State.READY) :
    InvWait (transition_unbounded e { s with events := rest }) (g.record e) :=
  transition_unbounded_ready_cases hi he hns (fun s1 => InvWait s1 (g.record e))
    (fun s1 a _ c => wait_ready_plain hi h he hns s1 a c)
    (fun r s4 rbt s1 hi4 g1 g2 g3 g4 hlt a _ c =>
      wait_ready_preempt_unbounded hi h he hns r s4 hi4 g1 g2 g3 g4 hlt rbt s1 a c)

theorem turn_unbounded_wait {s : Simulator} {g : WaitLog} {e : Event} {rest : List Event}
    (hi : Inv s) (h : InvWait s g) (he : s.events = e :: rest) :
    InvWait (call_scheduler (transition_unbounded e { s with events := rest })) (g.record e) := by
  apply call_scheduler_wait
  by_cases hns : e.new_state = State.READY
  · exact transition_unbounded_wait_ready hi h he hns
  · exact transition_unbounded_wait hi h he hns

theorem start_unbounded_wait (u : Uninitialised) (policy : Policy) (rn : List Int)
    (input : List InputLine) : InvWait (start_unbounded u policy rn input) (wait_log []) := by
  have hfields : ∀ i, i < (start_unbounded u policy rn input).processes.length →
      (getProc (start_unbounded u policy rn input).processes i).clock = 0 ∧
      (getProc (start_unbounded u policy rn input).processes i).cpuWaitingTime = 0 ∧
      (getProc (start_unbounded u policy rn input).processes i).ioWaitingTime = 0 := by
    intro i hil
    rw [start_unbounded_length] at hil
    obtain ⟨ofs, hb⟩ := start_unbounded_getProc u policy rn input i hil
    rw [hb]
    exact ⟨rfl, rfl, rfl⟩
  refine ⟨fun i hil => (hfields i hil).1, fun i hil => (hfields i hil).2.1, ?_,
    fun i hil _ => (hfields i hil).2.2⟩
  intro x hx hxb
  rw [start_unbounded_events] at hx
  obtain ⟨_, _, _, _, _, h4, _⟩ := mem_initial_events_unbounded input 0 x hx
  rw [h4] at hxb
  simp at hxb

theorem wait_reach (u : Uninitialised) (policy : Policy) (rn : List Int)
    (input : List InputLine) (hv : ValidInput policy rn input) (n : Nat) :
    InvWait (simulation_unbounded n (start_unbounded u policy rn input))
      (wait_log (processed_unbounded (start_unbounded u policy rn input) n)) := by
  induction n with
  | zero => exact start_unbounded_wait u policy rn input
  | succ n ih =>
    cases hev : (simulation_unbounded n (start_unbounded u policy rn input)).events with
    | nil =>
      rw [processed_unbounded_nil _ _ hev, simulation_unbounded_succ, turn_unbounded_nil hev]
      exact ih
    | cons e rest =>
      obtain ⟨_, t, h0⟩ := valid_reach u policy rn input hv n
      have he0 : ({ simulation_unbounded n (start_unbounded u policy rn input) with
          CURRENT_TIME := t } : Simulator).events = e :: rest := hev
      have ih0 : InvWait { simulation_unbounded n (start_unbounded u policy rn input) with CURRENT_TIME := t }
          (wait_log (processed_unbounded (start_unbounded u policy rn input) n)) :=
        ⟨ih.clock, ih.ready, ih.blocked, ih.idle⟩
      rw [processed_unbounded_cons _ _ hev, simulation_unbounded_succ, turn_unbounded_cons hev, wait_log_snoc]
      have h1 := turn_unbounded_wait h0 ih0 he0
      exact h1

end Sched

namespace Sched
open DES_Layer Simulator

/-! ## Time accounting: the claim -/

/-- Over unbounded integers (time accounting identity): in a valid run under any policy, for every
event into `DONE` the loop has processed, the process `p` of the event has, from
then on, `finishingTime` equal to the timestamp of the event, `arrivalTime` and
`totalCPUTime` as read from its input line, `turnaroundTime = finishingTime -
arrivalTime`, and `turnaroundTime = totalCPUTime + ioWaitingTime +
cpuWaitingTime`; and the three terms are the times `p` has spent `RUNNING`,
`BLOCKED` and `READY` as measured on the trace of the events processed (for
each event of `p`, the time since the previous event of `p` counts for the
state the event leaves), so `finishingTime - arrivalTime` is exactly the sum of
these three times. -/
theorem time_accounting_identity_unbounded (u : Uninitialised) (policy : Policy)
    (random_nums : List Int) (input_file : List InputLine)
    (hv : ValidInput policy random_nums input_file) (n : Nat) (d : Event)
    (hd : d ∈ processed_unbounded (start_unbounded u policy random_nums input_file) n)
    (hdone : d.new_state = State.DONE) :
    ∃ line, input_file[d.process]? = some line ∧
      (getProc (simulation_unbounded n (start_unbounded u policy random_nums input_file)).processes
        d.process).arrivalTime = line.at_ ∧
      (getProc (simulation_unbounded n (start_unbounded u policy random_nums input_file)).processes
        d.process).totalCPUTime = line.totCPU ∧
      (getProc (simulation_unbounded n (start_unbounded u policy random_nums input_file)).processes
        d.process).finishingTime = d.timestamp ∧
      (getProc (simulation_unbounded n (start_unbounded u policy random_nums input_file)).processes
        d.process).turnaroundTime
        = (getProc (simulation_unbounded n (start_unbounded u policy random_nums input_file)).processes
        d.process).finishingTime
          - (getProc (simulation_unbounded n (start_unbounded u policy random_nums input_file)).processes
        d.process).arrivalTime ∧
      (getProc (simulation_unbounded n (start_unbounded u policy random_nums input_file)).processes
        d.process).turnaroundTime
        = (getProc (simulation_unbounded n (start_unbounded u policy random_nums input_file)).processes
        d.process).totalCPUTime
          + (getProc (simulation_unbounded n (start_unbounded u policy random_nums input_file)).processes
        d.process).ioWaitingTime
          + (getProc (simulation_unbounded n (start_unbounded u policy random_nums input_file)).processes
        d.process).cpuWaitingTime ∧
      (getProc (simulation_unbounded n (start_unbounded u policy random_nums input_file)).processes
        d.process).totalCPUTime
        = time_running (processed_unbounded (start_unbounded u policy random_nums input_file) n) d.process ∧
      (getProc (simulation_unbounded n (start_unbounded u policy random_nums input_file)).processes
        d.process).ioWaitingTime
        = time_blocked (processed_unbounded (start_unbounded u policy random_nums input_file) n) d.process ∧
      (getProc (simulation_unbounded n (start_unbounded u policy random_nums input_file)).processes
        d.process).cpuWaitingTime
        = time_ready (processed_unbounded (start_unbounded u policy random_nums input_file) n) d.process ∧
      d.timestamp - line.at_
        = time_running (processed_unbounded (start_unbounded u policy random_nums input_file) n) d.process
          + time_blocked (processed_unbounded (start_unbounded u policy random_nums input_file) n) d.process
          + time_ready (processed_unbounded (start_unbounded u policy random_nums input_file) n) d.process := by
  have h := acc_reach u policy random_nums input_file hv n
  have hw := wait_reach u policy random_nums input_file hv n
  obtain ⟨t, _, hc⟩ := cpu_reach u policy random_nums input_file hv.table_nonneg
    hv.quantum_pos hv.arrival_sorted hv.totcpu_nonneg hv.cpub_pos hv.iob_pos n
  obtain ⟨d1, d2, d3, d0, d4, d5⟩ := h.done d hd hdone
  have hlen : d.process < input_file.length := by
    rw [h.roster, start_unbounded_length] at d2
    exact d2
  obtain ⟨ofs, hb⟩ := start_unbounded_getProc u policy random_nums input_file d.process hlen
  obtain ⟨a1, a2⟩ := h.fixed d.process
  have hnone : ∀ x ∈ (simulation_unbounded n (start_unbounded u policy random_nums input_file)).events,
      x.process ≠ d.process := fun x hx hxp => d1 (Or.inl ⟨x, hx, hxp⟩)
  have hat : (getProc (simulation_unbounded n (start_unbounded u policy random_nums input_file)).processes
      d.process).arrivalTime = (input_file.get ⟨d.process, hlen⟩).at_ := by
    rw [a1, hb]
    rfl
  have hrun : (getProc (simulation_unbounded n (start_unbounded u policy random_nums input_file)).processes
      d.process).totalCPUTime
      = time_running (processed_unbounded (start_unbounded u policy random_nums input_file) n) d.process := by
    have h1 := hc.resting d.process d2 (fun x hx hxp => absurd hxp (hnone x hx))
    have h2 : (cpu_log (processed_unbounded (start_unbounded u policy random_nums input_file) n)).ran d.process
        + (getProc (simulation_unbounded n (start_unbounded u policy random_nums input_file)).processes
            d.process).remainingCPUtime
        = (getProc (start_unbounded u policy random_nums input_file).processes d.process).totalCPUTime :=
      h1
    unfold time_running
    rw [a2]
    omega
  have hblk := hw.idle d.process d2 (fun x hx hxp => absurd hxp (hnone x hx))
  have hrdy := hw.ready d.process d2
  refine ⟨input_file.get ⟨d.process, hlen⟩, ?_, hat, ?_, d3, d4, d5, hrun, hblk, hrdy, ?_⟩
  · simp
  · rw [a2, hb]
    rfl
  · unfold time_blocked time_ready
    rw [← hrun, ← hblk, ← hrdy, ← d5, d4, d3, hat]

end Sched

namespace Sched
open DES_Layer

namespace Simulator

/-! ## What each part of the loop body does to the state -/

theorem case_BLOCKED_effect (s : Simulator) (p : Nat) :
    case_BLOCKED p s = { s with
      CURRENT_RUNNING_PROCESS := none
      output :=
        if s.output.number_io_processes + 1 = 1 then
          { s.output with
            number_io_processes := s.output.number_io_processes + 1
            start_of_IO_utilization := s.CURRENT_TIME }
        else
          { s.output with number_io_processes := s.output.number_io_processes + 1 }
      ofs := (get_random_number s.random_nums s.ofs (getProc s.processes p).ioBurst).2
      events := put_event ⟨wrap32 (s.CURRENT_TIME
        + (get_random_number s.random_nums s.ofs (getProc s.processes p).ioBurst).1),
        p, State.BLOCKED, State.READY⟩ s.events
      processes := setProc s.processes p { getProc s.processes p with
        ioWaitingTime := wrap32 ((getProc s.processes p).ioWaitingTime
          + (get_random_number s.random_nums s.ofs (getProc s.processes p).ioBurst).1) }
      CALL_SCHEDULER := true } := by
  unfold case_BLOCKED
  dsimp only
  split_ifs <;> rfl

theorem case_DONE_effect (s : Simulator) (p : Nat) :
    case_DONE p s = { s with
      CURRENT_RUNNING_PROCESS := none
      processes := setProc s.processes p { getProc s.processes p with
        finishingTime := s.CURRENT_TIME
        turnaroundTime := wrap32 (s.CURRENT_TIME - (getProc s.processes p).arrivalTime) }
      CALL_SCHEDULER := true } := rfl

theorem case_READY_clear (s : Simulator) (p : Nat)
    (h : 0 < (getProc (s.scheduler.add_process s.processes p).2 p).remainingBurstTime) :
    case_READY p s = { s with
      scheduler := (s.scheduler.add_process s.processes p).1
      processes := (s.scheduler.add_process s.processes p).2
      CURRENT_RUNNING_PROCESS := none
      CALL_SCHEDULER := true } := by
  unfold case_READY
  simp only [gt_iff_lt, h, if_true]

theorem case_READY_stay (s : Simulator) (p : Nat)
    (h : ¬ 0 < (getProc (s.scheduler.add_process s.processes p).2 p).remainingBurstTime)
    (hn : ∀ r, s.CURRENT_RUNNING_PROCESS = some r →
      ¬ ((s.scheduler.add_process s.processes p).1.preprio_flag = true ∧
        (s.scheduler.add_process s.processes p).1.test_preempt
          (s.scheduler.add_process s.processes p).2 r p s.CURRENT_TIME = true)) :
    case_READY p s = { s with
      scheduler := (s.scheduler.add_process s.processes p).1
      processes := (s.scheduler.add_process s.processes p).2
      CALL_SCHEDULER := true } := by
  unfold case_READY
  simp only [gt_iff_lt, h, if_false]
  cases hr : s.CURRENT_RUNNING_PROCESS with
  | none => simp [hr]
  | some r =>
    have := hn r hr
    simp only
    split
    · rename_i hf
      split
      · rename_i ht
        exact absurd ⟨hf, ht⟩ this
      · simp [hr]
    · simp [hr]

theorem case_READY_preempted (s : Simulator) (p r : Nat)
    (h : ¬ 0 < (getProc (s.scheduler.add_process s.processes p).2 p).remainingBurstTime)
    (hr : s.CURRENT_RUNNING_PROCESS = some r)
    (hf : (s.scheduler.add_process s.processes p).1.preprio_flag = true)
    (ht : (s.scheduler.add_process s.processes p).1.test_preempt
          (s.scheduler.add_process s.processes p).2 r p s.CURRENT_TIME = true) :
    case_READY p s = { preempt r { s with
        scheduler := (s.scheduler.add_process s.processes p).1
        processes := (s.scheduler.add_process s.processes p).2 } with
      CALL_SCHEDULER := true } := by
  unfold case_READY
  simp only [gt_iff_lt, h, if_false, hr, hf, ht, if_true]

theorem case_READY_preempt (s : Simulator) (p r : Nat)
    (h : ¬ 0 < (getProc (s.scheduler.add_process s.processes p).2 p).remainingBurstTime)
    (hr : s.CURRENT_RUNNING_PROCESS = some r)
    (hf : (s.scheduler.add_process s.processes p).1.preprio_flag = true)
    (ht : (s.scheduler.add_process s.processes p).1.test_preempt
          (s.scheduler.add_process s.processes p).2 r p s.CURRENT_TIME = true) :
    case_READY p s = { s with
      scheduler := (s.scheduler.add_process s.processes p).1
      events := put_event ⟨s.CURRENT_TIME, r, State.RUNNING, State.READY⟩
        (remove_event (s.scheduler.add_process s.processes p).2 r s.events)
      processes := setProc (s.scheduler.add_process s.processes p).2 r
        { getProc (s.scheduler.add_process s.processes p).2 r with
          remainingBurstTime :=
            wrap32 ((getProc (s.scheduler.add_process s.processes p).2 r).remainingBurstTime
            + wrap32 ((getProc (s.scheduler.add_process s.processes p).2 r).stopRunningTime
              - s.CURRENT_TIME))
          remainingCPUtime :=
            (getProc (s.scheduler.add_process s.processes p).2 r).remainingCPUtime
            + wrap32 ((getProc (s.scheduler.add_process s.processes p).2 r).stopRunningTime
              - s.CURRENT_TIME)
          stopRunningTime := s.CURRENT_TIME }
      CALL_SCHEDULER := true } := by
  unfold case_READY
  simp only [gt_iff_lt, h, if_false, hr, hf, ht, if_true]
  rfl

theorem case_READY_unbounded_preempted (s : Simulator) (p r : Nat)
    (h : ¬ 0 < (getProc (s.scheduler.add_process s.processes p).2 p).remainingBurstTime)
    (hr : s.CURRENT_RUNNING_PROCESS = some r)
    (hf : (s.scheduler.add_process s.processes p).1.preprio_flag = true)
    (ht : (s.scheduler.add_process s.processes p).1.test_preempt
          (s.scheduler.add_process s.processes p).2 r p s.CURRENT_TIME = true) :
    case_READY_unbounded p s = { preempt_unbounded r { s with
        scheduler := (s.scheduler.add_process s.processes p).1
        processes := (s.scheduler.add_process s.processes p).2 } with
      CALL_SCHEDULER := true } := by
  unfold case_READY_unbounded
  simp only [gt_iff_lt, h, if_false, hr, hf, ht, if_true]

/-- The three ways through the branch `case READY`. -/
theorem case_READY_cases (s : Simulator) (p : Nat) :
    (0 < (getProc (s.scheduler.add_process s.processes p).2 p).remainingBurstTime ∧
      case_READY p s = { s with
        scheduler := (s.scheduler.add_process s.processes p).1
        processes := (s.scheduler.add_process s.processes p).2
        CURRENT_RUNNING_PROCESS := none
        CALL_SCHEDULER := true }) ∨
    (¬ 0 < (getProc (s.scheduler.add_process s.processes p).2 p).remainingBurstTime ∧
      case_READY p s = { s with
        scheduler := (s.scheduler.add_process s.processes p).1
        processes := (s.scheduler.add_process s.processes p).2
        CALL_SCHEDULER := true }) ∨
    (∃ r, ¬ 0 < (getProc (s.scheduler.add_process s.processes p).2 p).remainingBurstTime ∧
      s.CURRENT_RUNNING_PROCESS = some r ∧
      (s.scheduler.add_process s.processes p).1.preprio_flag = true ∧
      (s.scheduler.add_process s.processes p).1.test_preempt
          (s.scheduler.add_process s.processes p).2 r p s.CURRENT_TIME = true ∧
      case_READY p s = { preempt r { s with
          scheduler := (s.scheduler.add_process s.processes p).1
          processes := (s.scheduler.add_process s.processes p).2 } with
        CALL_SCHEDULER := true }) := by
  by_cases h : 0 < (getProc (s.scheduler.add_process s.processes p).2 p).remainingBurstTime
  · exact Or.inl ⟨h, case_READY_clear s p h⟩
  · by_cases hp : ∃ r, s.CURRENT_RUNNING_PROCESS = some r ∧
        (s.scheduler.add_process s.processes p).1.preprio_flag = true ∧
        (s.scheduler.add_process s.processes p).1.test_preempt
          (s.scheduler.add_process s.processes p).2 r p s.CURRENT_TIME = true
    · obtain ⟨r, hr, hf, ht⟩ := hp
      exact Or.inr (Or.inr ⟨r, h, hr, hf, ht, case_READY_preempted s p r h hr hf ht⟩)
    · refine Or.inr (Or.inl ⟨h, case_READY_stay s p h ?_⟩)
      intro r hr hc
      exact hp ⟨r, hr, hc.1, hc.2⟩

end Simulator

end Sched

namespace Sched
open DES_Layer Simulator

/-! ## The branch `case RUNNING` in closed form -/

theorem choose_burst_eq (rn : List Int) (ofs : Nat) (quantum : Int) (p : Process) :
    choose_burst rn ofs quantum p
      = (min (if 0 < p.remainingBurstTime then p.remainingBurstTime
            else (get_random_number rn ofs p.cpuBurst).1) quantum,
         decide (quantum < (if 0 < p.remainingBurstTime then p.remainingBurstTime
            else (get_random_number rn ofs p.cpuBurst).1)),
         { p with remainingBurstTime :=
            if quantum < (if 0 < p.remainingBurstTime then p.remainingBurstTime
                else (get_random_number rn ofs p.cpuBurst).1) then
              wrap32 ((if 0 < p.remainingBurstTime then p.remainingBurstTime
                else (get_random_number rn ofs p.cpuBurst).1) - quantum)
            else if 0 < p.remainingBurstTime then 0 else p.remainingBurstTime },
         if 0 < p.remainingBurstTime then ofs
         else (get_random_number rn ofs p.cpuBurst).2) := by
  unfold choose_burst
  by_cases h1 : 0 < p.remainingBurstTime
  · by_cases h2 : p.remainingBurstTime > quantum
    · have h3 : quantum < p.remainingBurstTime := h2
      have h4 : min p.remainingBurstTime quantum = quantum := by omega
      simp only [h1, h2, h3, h4, and_self, if_true, decide_True]
    · have h3 : ¬ quantum < p.remainingBurstTime := by omega
      have h4 : min p.remainingBurstTime quantum = p.remainingBurstTime := by omega
      have h5 : p.remainingBurstTime ≤ quantum := by omega
      simp only [h1, h2, h3, h4, h5, and_false, and_self, if_true, if_false, decide_False]
  · by_cases h2 : (get_random_number rn ofs p.cpuBurst).1 > quantum
    · have h3 : quantum < (get_random_number rn ofs p.cpuBurst).1 := h2
      have h4 : min (get_random_number rn ofs p.cpuBurst).1 quantum = quantum := by omega
      simp only [gt_iff_lt, h1, h3, h4, false_and, if_true, if_false, decide_True]
    · have h3 : ¬ quantum < (get_random_number rn ofs p.cpuBurst).1 := by omega
      have h4 : min (get_random_number rn ofs p.cpuBurst).1 quantum
          = (get_random_number rn ofs p.cpuBurst).1 := by omega
      simp only [gt_iff_lt, h1, h3, h4, false_and, if_false, decide_False]

/-- The branch `case RUNNING` in its three outcomes. -/
theorem case_RUNNING_cases (s : Simulator) (p : Nat) :
    ∃ (slice rbt1 rem1 : Int) (X : State),
      case_RUNNING p s = { s with
        ofs := (if 0 < (getProc s.processes p).remainingBurstTime then s.ofs
          else (get_random_number s.random_nums s.ofs (getProc s.processes p).cpuBurst).2)
        events := put_event ⟨wrap32 (s.CURRENT_TIME + slice), p, State.RUNNING, X⟩ s.events
        processes := setProc s.processes p { getProc s.processes p with
          cpuWaitingTime := wrap32 ((getProc s.processes p).cpuWaitingTime
            + wrap32 (s.CURRENT_TIME - (getProc s.processes p).clock))
          remainingBurstTime := rbt1
          remainingCPUtime := rem1
          stopRunningTime := wrap32 (s.CURRENT_TIME + slice) } } ∧
      ((X = State.DONE ∧ slice = narrow (getProc s.processes p).remainingCPUtime ∧ rbt1 = 0 ∧
          rem1 = 0 ∧
          (getProc s.processes p).remainingCPUtime
            ≤ min (burst_on_entry s p) s.scheduler.quantum) ∨
       (X = State.READY ∧ slice = s.scheduler.quantum ∧
          rbt1 = wrap32 (burst_on_entry s p - s.scheduler.quantum) ∧
          rem1 = (getProc s.processes p).remainingCPUtime - slice ∧
          s.scheduler.quantum < burst_on_entry s p ∧
          s.scheduler.quantum < (getProc s.processes p).remainingCPUtime) ∨
       (X = State.BLOCKED ∧ slice = burst_on_entry s p ∧
          rbt1 = (if 0 < (getProc s.processes p).remainingBurstTime then 0
            else (getProc s.processes p).remainingBurstTime) ∧
          rem1 = (getProc s.processes p).remainingCPUtime - slice ∧
          burst_on_entry s p ≤ s.scheduler.quantum ∧
          burst_on_entry s p < (getProc s.processes p).remainingCPUtime)) := by
  unfold case_RUNNING
  dsimp only
  rw [choose_burst_eq]
  dsimp only
  have hb : burst_on_entry s p
      = (if 0 < (getProc s.processes p).remainingBurstTime then
          (getProc s.processes p).remainingBurstTime
        else (get_random_number s.random_nums s.ofs (getProc s.processes p).cpuBurst).1) := rfl
  rw [← hb]
  by_cases hdone : (getProc s.processes p).remainingCPUtime
      ≤ min (burst_on_entry s p) s.scheduler.quantum
  · rw [if_pos hdone]
    exact ⟨narrow (getProc s.processes p).remainingCPUtime, 0, 0, State.DONE, rfl,
      Or.inl ⟨rfl, rfl, rfl, rfl, hdone⟩⟩
  · rw [if_neg hdone]
    by_cases hq : s.scheduler.quantum < burst_on_entry s p
    · have hmin : min (burst_on_entry s p) s.scheduler.quantum = s.scheduler.quantum := by
        omega
      refine ⟨s.scheduler.quantum, wrap32 (burst_on_entry s p - s.scheduler.quantum),
        (getProc s.processes p).remainingCPUtime - s.scheduler.quantum, State.READY, ?_,
        Or.inr (Or.inl ⟨rfl, rfl, rfl, rfl, hq, by omega⟩)⟩
      simp [hq, hmin]
    · have hmin : min (burst_on_entry s p) s.scheduler.quantum = burst_on_entry s p := by
        omega
      refine ⟨burst_on_entry s p,
        (if 0 < (getProc s.processes p).remainingBurstTime then 0
          else (getProc s.processes p).remainingBurstTime),
        (getProc s.processes p).remainingCPUtime - burst_on_entry s p, State.BLOCKED, ?_,
        Or.inr (Or.inr ⟨rfl, rfl, rfl, rfl, by omega, by omega⟩)⟩
      simp [hq, hmin]

end Sched

namespace Sched
open DES_Layer Simulator

/-! ## Without overflow the program computes what it computes over unbounded integers -/

theorem wrap32_of_fits {x : Int} (h : fits x) : wrap32 x = x := by
  unfold fits at h
  unfold wrap32
  omega

theorem narrow_of_fits {x : Int} (h : fits x) : narrow x = x := by
  unfold fits at h
  unfold narrow
  rw [if_pos h]

theorem fits_wrap32 (x : Int) : fits (wrap32 x) := by
  unfold fits wrap32
  omega

theorem fits_narrow (x : Int) : fits (narrow x) := by
  unfold fits narrow
  split <;> omega

theorem preempt_eq_unbounded (r : Nat) (s : Simulator) (h : preempt_fits r s) :
    preempt r s = preempt_unbounded r s := by
  obtain ⟨h1, h2⟩ := h
  unfold preempt preempt_unbounded
  simp only [wrap32_of_fits h1, wrap32_of_fits h2]

theorem case_READY_eq_unbounded (p : Nat) (s : Simulator) (h : case_READY_fits p s) :
    case_READY p s = case_READY_unbounded p s := by
  rcases case_READY_cases s p with ⟨h1, h2⟩ | ⟨h1, h2⟩ | ⟨r, h1, hr, hf, ht, h2⟩
  · rw [h2, case_READY_unbounded_clear s p h1]
  · by_cases hp : ∃ r, s.CURRENT_RUNNING_PROCESS = some r ∧
        (s.scheduler.add_process s.processes p).1.preprio_flag = true ∧
        (s.scheduler.add_process s.processes p).1.test_preempt
          (s.scheduler.add_process s.processes p).2 r p s.CURRENT_TIME = true
    · obtain ⟨r, hr, hf, ht⟩ := hp
      rw [case_READY_preempted s p r h1 hr hf ht, case_READY_unbounded_preempted s p r h1 hr hf ht,
        preempt_eq_unbounded _ _ (h r hr h1 hf ht)]
    · have hn : ∀ r, s.CURRENT_RUNNING_PROCESS = some r →
          ¬ ((s.scheduler.add_process s.processes p).1.preprio_flag = true ∧
            (s.scheduler.add_process s.processes p).1.test_preempt
              (s.scheduler.add_process s.processes p).2 r p s.CURRENT_TIME = true) :=
        fun r hr hc => hp ⟨r, hr, hc.1, hc.2⟩
      rw [case_READY_stay s p h1 hn, case_READY_unbounded_stay s p h1 hn]
  · rw [h2, case_READY_unbounded_preempted s p r h1 hr hf ht,
      preempt_eq_unbounded _ _ (h r hr h1 hf ht)]

theorem choose_burst_eq_unbounded (rn : List Int) (ofs : Nat) (quantum : Int) (p : Process)
    (h : choose_burst_fits rn ofs quantum p) :
    choose_burst rn ofs quantum p = choose_burst_unbounded rn ofs quantum p := by
  obtain ⟨h1, h2⟩ := h
  unfold choose_burst choose_burst_unbounded
  split
  · rename_i hc
    rw [wrap32_of_fits (h1 hc.1 hc.2)]
  · split
    · rfl
    · rename_i hc1 hc2
      have hn : ¬ p.remainingBurstTime > 0 := by
        intro hp
        by_cases hq : p.remainingBurstTime > quantum
        · exact hc1 ⟨hp, hq⟩
        · exact hc2 ⟨hp, by omega⟩
      dsimp only
      split
      · rename_i hq
        rw [wrap32_of_fits (h2 hn hq)]
      · rfl

theorem choose_burst_clock (rn : List Int) (ofs : Nat) (quantum : Int) (p : Process) (cw : Int) :
    (choose_burst rn ofs quantum { p with cpuWaitingTime := cw }).1
      = (choose_burst rn ofs quantum p).1 ∧
    (choose_burst rn ofs quantum { p with cpuWaitingTime := cw }).2.2.1.remainingCPUtime
      = p.remainingCPUtime := by
  unfold choose_burst
  dsimp only
  split
  · exact ⟨rfl, rfl⟩
  · split
    · exact ⟨rfl, rfl⟩
    · split <;> exact ⟨rfl, rfl⟩

theorem choose_burst_fits_clock (rn : List Int) (ofs : Nat) (quantum : Int) (p : Process)
    (cw : Int) (h : choose_burst_fits rn ofs quantum p) :
    choose_burst_fits rn ofs quantum { p with cpuWaitingTime := cw } := h

theorem case_RUNNING_eq_unbounded (p : Nat) (s : Simulator) (h : case_RUNNING_fits p s) :
    case_RUNNING p s = case_RUNNING_unbounded p s := by
  unfold case_RUNNING_fits at h
  obtain ⟨h1, h2, h3, h4⟩ := h
  have hb := choose_burst_eq_unbounded s.random_nums s.ofs s.scheduler.quantum
    { getProc s.processes p with
      cpuWaitingTime := (getProc s.processes p).cpuWaitingTime
        + (s.CURRENT_TIME - (getProc s.processes p).clock) }
    (choose_burst_fits_clock _ _ _ _ _ h3)
  obtain ⟨c1, c2⟩ := choose_burst_clock s.random_nums s.ofs s.scheduler.quantum
    (getProc s.processes p)
    ((getProc s.processes p).cpuWaitingTime + (s.CURRENT_TIME - (getProc s.processes p).clock))
  have h5 : if (choose_burst s.random_nums s.ofs s.scheduler.quantum
        { getProc s.processes p with
          cpuWaitingTime := (getProc s.processes p).cpuWaitingTime
            + (s.CURRENT_TIME - (getProc s.processes p).clock) }).2.2.1.remainingCPUtime
        ≤ (choose_burst s.random_nums s.ofs s.scheduler.quantum
        { getProc s.processes p with
          cpuWaitingTime := (getProc s.processes p).cpuWaitingTime
            + (s.CURRENT_TIME - (getProc s.processes p).clock) }).1 then
      fits (choose_burst s.random_nums s.ofs s.scheduler.quantum
        { getProc s.processes p with
          cpuWaitingTime := (getProc s.processes p).cpuWaitingTime
            + (s.CURRENT_TIME - (getProc s.processes p).clock) }).2.2.1.remainingCPUtime ∧
      fits (s.CURRENT_TIME + (choose_burst s.random_nums s.ofs s.scheduler.quantum
        { getProc s.processes p with
          cpuWaitingTime := (getProc s.processes p).cpuWaitingTime
            + (s.CURRENT_TIME - (getProc s.processes p).clock) }).2.2.1.remainingCPUtime)
      else fits (s.CURRENT_TIME + (choose_burst s.random_nums s.ofs s.scheduler.quantum
        { getProc s.processes p with
          cpuWaitingTime := (getProc s.processes p).cpuWaitingTime
            + (s.CURRENT_TIME - (getProc s.processes p).clock) }).1) := by
    rw [c1, c2]
    exact h4
  unfold case_RUNNING case_RUNNING_unbounded
  simp only [wrap32_of_fits h1, wrap32_of_fits h2]
  rw [← hb]
  generalize choose_burst s.random_nums s.ofs s.scheduler.quantum
        { getProc s.processes p with
          cpuWaitingTime := (getProc s.processes p).cpuWaitingTime
            + (s.CURRENT_TIME - (getProc s.processes p).clock) } = b at h5 ⊢
  by_cases hle : b.2.2.1.remainingCPUtime ≤ b.1
  · rw [if_pos hle] at h5
    simp only [hle, if_true, narrow_of_fits h5.1, wrap32_of_fits h5.2]
  · rw [if_neg hle] at h5
    simp only [hle, if_false, wrap32_of_fits h5]

theorem case_BLOCKED_eq_unbounded (p : Nat) (s : Simulator) (h : case_BLOCKED_fits p s) :
    case_BLOCKED p s = case_BLOCKED_unbounded p s := by
  unfold case_BLOCKED_fits at h
  obtain ⟨h1, h2⟩ := h
  rw [case_BLOCKED_effect, case_BLOCKED_unbounded_effect, wrap32_of_fits h1, wrap32_of_fits h2]

theorem case_DONE_eq_unbounded (p : Nat) (s : Simulator) (h : case_DONE_fits p s) :
    case_DONE p s = case_DONE_unbounded p s := by
  unfold case_DONE_fits at h
  unfold case_DONE case_DONE_unbounded
  simp only [wrap32_of_fits h]

theorem transition_eq_unbounded (e : Event) (s : Simulator) (h : transition_fits e s) :
    transition e s = transition_unbounded e s := by
  obtain ⟨h1, h2, h3, h4⟩ := h
  unfold transition transition_unbounded
  cases hn : e.new_state with
  | READY => simp only [case_READY_eq_unbounded _ _ (h1 hn)]
  | RUNNING => simp only [case_RUNNING_eq_unbounded _ _ (h2 hn)]
  | BLOCKED => simp only [case_BLOCKED_eq_unbounded _ _ (h3 hn)]
  | DONE => simp only [case_DONE_eq_unbounded _ _ (h4 hn)]
  | CREATED => rfl

theorem no_overflow_cons {s : Simulator} {e : Event} {rest : List Event}
    (he : s.events = e :: rest) :
    s.no_overflow ↔ transition_fits e { s with events := rest } := by
  unfold no_overflow
  rw [he]
  simp

theorem loop_body_eq_unbounded (s : Simulator) (h : s.no_overflow) :
    loop_body s = loop_body_unbounded s := by
  unfold loop_body loop_body_unbounded
  cases he : s.events with
  | nil => rfl
  | cons e rest =>
    simp only [get_event]
    rw [transition_eq_unbounded _ _ ((no_overflow_cons he).1 h)]

theorem turn_eq_turn_unbounded (s : Simulator) (h : s.no_overflow) :
    s.turn = s.turn_unbounded := by
  unfold Simulator.turn Simulator.turn_unbounded
  rw [loop_body_eq_unbounded s h]

theorem simulation_succ (n : Nat) : ∀ s : Simulator,
    simulation (n + 1) s = (simulation n s).turn := by
  induction n with
  | zero =>
    intro s
    show (match loop_body s with | none => s | some s1 => simulation 0 s1) = _
    show _ = Simulator.turn s
    unfold Simulator.turn
    cases loop_body s <;> rfl
  | succ n ih =>
    intro s
    show (match loop_body s with | none => s | some s1 => simulation (n + 1) s1) = _
    cases hb : loop_body s with
    | none =>
      have h0 : ∀ m, simulation m s = s := by
        intro m
        cases m with
        | zero => rfl
        | succ m =>
          show (match loop_body s with | none => s | some s1 => simulation m s1) = _
          rw [hb]
      rw [h0 (n + 1)]
      unfold Simulator.turn
      rw [hb]
    | some s1 =>
      show simulation (n + 1) s1 = (match loop_body s with
        | none => s | some s1 => simulation n s1).turn
      rw [hb]
      exact ih s1

theorem simulation_unbounded_step (n : Nat) : ∀ s : Simulator,
    simulation_unbounded (n + 1) s = (simulation_unbounded n s).turn_unbounded := by
  induction n with
  | zero =>
    intro s
    show (match loop_body_unbounded s with
      | none => s | some s1 => simulation_unbounded 0 s1) = _
    show _ = Simulator.turn_unbounded s
    unfold Simulator.turn_unbounded
    cases loop_body_unbounded s <;> rfl
  | succ n ih =>
    intro s
    show (match loop_body_unbounded s with
      | none => s | some s1 => simulation_unbounded (n + 1) s1) = _
    cases hb : loop_body_unbounded s with
    | none =>
      have h0 : ∀ m, simulation_unbounded m s = s := by
        intro m
        cases m with
        | zero => rfl
        | succ m =>
          show (match loop_body_unbounded s with
            | none => s | some s1 => simulation_unbounded m s1) = _
          rw [hb]
      rw [h0 (n + 1)]
      unfold Simulator.turn_unbounded
      rw [hb]
    | some s1 =>
      show simulation_unbounded (n + 1) s1 = (match loop_body_unbounded s with
        | none => s | some s1 => simulation_unbounded n s1).turn_unbounded
      rw [hb]
      exact ih s1

/-- As long as no `int` computation overflows, the run of the program is the run
over unbounded integers. -/
theorem simulation_eq_unbounded (s0 : Simulator) (n : Nat) (h : no_overflow_until s0 n) :
    ∀ k, k ≤ n → simulation k s0 = simulation_unbounded k s0 := by
  intro k
  induction k with
  | zero => intro _; rfl
  | succ k ih =>
    intro hk
    rw [simulation_succ, simulation_unbounded_step, ← ih (by omega)]
    exact turn_eq_turn_unbounded _ (h k (by omega))

theorem processed_eq_unbounded (s0 : Simulator) (n : Nat) (h : no_overflow_until s0 n) :
    ∀ k, k ≤ n → processed s0 k = processed_unbounded s0 k := by
  intro k
  induction k with
  | zero => intro _; rfl
  | succ k ih =>
    intro hk
    show processed s0 k ++ _ = processed_unbounded s0 k ++ _
    rw [ih (by omega), simulation_eq_unbounded s0 n h k (by omega)]

theorem no_overflow_until_mono {s0 : Simulator} {n m : Nat} (h : no_overflow_until s0 n)
    (hm : m ≤ n) : no_overflow_until s0 m :=
  fun k hk => h k (by omega)

/-! ### Input lines within the range of `int` -/

theorem createProcesses_loop_eq_unbounded (rn : List Int) (scheduler : Scheduler) :
    ∀ (input : List InputLine) (count : Nat) (g : Globals),
      (∀ line ∈ input, line.fits) →
      createProcesses_loop rn scheduler input count g
        = createProcesses_unbounded_loop rn scheduler input count g := by
  intro input
  induction input with
  | nil => intro count g _; rfl
  | cons line rest ih =>
    intro count g h
    obtain ⟨f1, f2, f3, f4⟩ := h line (List.mem_cons_self _ _)
    unfold createProcesses_loop createProcesses_unbounded_loop
    simp only [narrow_of_fits f1, narrow_of_fits f2, narrow_of_fits f3, narrow_of_fits f4]
    exact ih _ _ (fun l hl => h l (List.mem_cons_of_mem _ hl))

theorem start_eq_start_unbounded (u : Uninitialised) (policy : Policy) (rn : List Int)
    (input : List InputLine) (h : ∀ line ∈ input, line.fits) :
    start u policy rn input = start_unbounded u policy rn input := by
  unfold start start_unbounded initial_state initial_state_unbounded createProcesses
    createProcesses_unbounded
  rw [createProcesses_loop_eq_unbounded rn _ input 0 _ h]

theorem ValidInput.lines_fit {policy : Policy} {rn : List Int} {input : List InputLine}
    (hv : ValidInput policy rn input) : ∀ line ∈ input, line.fits := by
  intro line hl
  have h1 := hv.arrival_nonneg line hl
  have h2 := hv.totcpu_nonneg line hl
  have h3 := hv.cpub_pos line hl
  have h4 := hv.iob_pos line hl
  obtain ⟨g1, g2, g3, g4⟩ := hv.fields_int line hl
  unfold InputLine.fits fits
  omega

theorem ValidInput.start_eq {policy : Policy} {rn : List Int} {input : List InputLine}
    (hv : ValidInput policy rn input) (u : Uninitialised) :
    start u policy rn input = start_unbounded u policy rn input :=
  start_eq_start_unbounded u policy rn input hv.lines_fit

/-- A run from a valid input in which no `int` computation overflows is the run
over unbounded integers. -/
theorem run_eq_unbounded (u : Uninitialised) (policy : Policy) (rn : List Int)
    (input : List InputLine) (hv : ValidInput policy rn input) (n : Nat)
    (h : no_overflow_until (start u policy rn input) n) :
    ∀ k, k ≤ n →
      simulation k (start u policy rn input)
        = simulation_unbounded k (start_unbounded u policy rn input) ∧
      processed (start u policy rn input) k
        = processed_unbounded (start_unbounded u policy rn input) k := by
  intro k hk
  rw [simulation_eq_unbounded _ n h k hk, processed_eq_unbounded _ n h k hk, hv.start_eq u]
  exact ⟨rfl, rfl⟩

end Sched

namespace Sched
open DES_Layer

/-! ## Process construction -/

theorem createProcesses_loop_spec (rn : List Int) (hN : 1 ≤ rn.length) (scheduler : Scheduler)
    (input : List InputLine) :
    ∀ (count : Nat) (g : Globals), g.ofs < rn.length →
      ∃ ps es,
        createProcesses_loop rn scheduler input count g
          = { ofs := (g.ofs + input.length) % rn.length
              processes := g.processes ++ ps
              events := g.events ++ es } ∧
        ps.length = input.length ∧ es.length = input.length ∧
        ∀ i (hi : i < input.length),
          ps[i]? = some (built_process rn scheduler (count + i) ((g.ofs + i) % rn.length)
            (input.get ⟨i, hi⟩)) ∧
          es[i]? = some ⟨narrow (input.get ⟨i, hi⟩).at_, g.processes.length + i,
            State.CREATED, State.READY⟩ := by
  induction input with
  | nil =>
    intro count g hg
    exact ⟨[], [], by simp [createProcesses_loop, Nat.mod_eq_of_lt hg], rfl, rfl, by simp⟩
  | cons line rest ih =>
    intro count g hg
    have hofs : (get_random_number rn g.ofs scheduler.maxprio).2 < rn.length := by
      rw [get_random_number_ofs rn g.ofs _ hg]; exact Nat.mod_lt _ (by omega)
    obtain ⟨ps, es, e1, e2, e3, e4⟩ := ih (count + 1)
      { ofs := (get_random_number rn g.ofs scheduler.maxprio).2
        processes := g.processes ++ [built_process rn scheduler count g.ofs line]
        events := g.events ++ [Event.mk (narrow line.at_) g.processes.length State.CREATED State.READY] }
      hofs
    refine ⟨built_process rn scheduler count g.ofs line :: ps,
      Event.mk (narrow line.at_) g.processes.length State.CREATED State.READY :: es, ?_, ?_, ?_, ?_⟩
    · have : createProcesses_loop rn scheduler (line :: rest) count g
          = createProcesses_loop rn scheduler rest (count + 1)
              { ofs := (get_random_number rn g.ofs scheduler.maxprio).2
                processes := g.processes ++ [built_process rn scheduler count g.ofs line]
                events := g.events
                  ++ [Event.mk (narrow line.at_) g.processes.length State.CREATED State.READY] } := rfl
      rw [this, e1]
      simp only [get_random_number_ofs rn g.ofs _ hg, Nat.mod_add_mod, List.length_cons,
        List.append_assoc, List.singleton_append]
      congr 2; omega
    · simp [e2]
    · simp [e3]
    · intro i hi
      cases i with
      | zero =>
        simp [Nat.mod_eq_of_lt hg]
      | succ i =>
        have hi2 : i < rest.length := by simpa using hi
        obtain ⟨f1, f2⟩ := e4 i hi2
        simp only [List.getElem?_cons_succ, f1, f2, List.get_eq_getElem, List.getElem_cons_succ,
          get_random_number_ofs rn g.ofs _ hg, Nat.mod_add_mod, List.length_append,
          List.length_singleton]
        have a1 : count + 1 + i = count + (i + 1) := by omega
        have a2 : g.ofs + 1 + i = g.ofs + (i + 1) := by omega
        have a3 : g.processes.length + 1 + i = g.processes.length + (i + 1) := by omega
        rw [a1, a2, a3]
        exact ⟨rfl, rfl⟩

/-- C7, amended (process construction and oracle discipline): from oracle
offset `0` and a table of `N >= 1` values, `createProcesses` on `k` input
lines whose fields are within the range of `int` yields a roster of `k`
processes in input order whose `i`-th process has `pid = i`, the fields of the
`i`-th line, `static_prio` the value `get_random_number(maxprio)` draws from
the `i`-th oracle value `table[i mod N]`, `dynamic_prio = static_prio - 1` and
`remainingCPUtime` the line's total cpu time; the event list holds exactly the
`k` events `(at_i, process i, CREATED, READY)` in input order; and the offset
ends at `k mod N`. -/
theorem createProcesses_spec (random_nums : List Int) (hN : 1 ≤ random_nums.length)
    (input_file : List InputLine) (hfit : ∀ line ∈ input_file, line.fits)
    (scheduler : Scheduler) :
    (createProcesses random_nums input_file scheduler).processes.length = input_file.length ∧
    (createProcesses random_nums input_file scheduler).events.length = input_file.length ∧
    (createProcesses random_nums input_file scheduler).ofs
      = input_file.length % random_nums.length ∧
    ∀ i (hi : i < input_file.length),
      (∃ p, (createProcesses random_nums input_file scheduler).processes[i]? = some p ∧
        p.pid = i ∧
        p.arrivalTime = (input_file.get ⟨i, hi⟩).at_ ∧
        p.totalCPUTime = (input_file.get ⟨i, hi⟩).totCPU ∧
        p.cpuBurst = (input_file.get ⟨i, hi⟩).cpuB ∧
        p.ioBurst = (input_file.get ⟨i, hi⟩).ioB ∧
        p.static_prio
          = (get_random_number random_nums (i % random_nums.length) scheduler.maxprio).1 ∧
        p.static_prio = 1 + Int.tmod
          (random_nums.get ⟨i % random_nums.length, Nat.mod_lt _ (by omega)⟩)
          scheduler.maxprio ∧
        p.dynamic_prio = p.static_prio - 1 ∧
        p.remainingCPUtime = (input_file.get ⟨i, hi⟩).totCPU) ∧
      (createProcesses random_nums input_file scheduler).events[i]?
        = some ⟨(input_file.get ⟨i, hi⟩).at_, i, State.CREATED, State.READY⟩ := by
  have h0 : 0 < random_nums.length := by omega
  obtain ⟨ps, es, e1, e2, e3, e4⟩ := createProcesses_loop_spec random_nums hN scheduler
    input_file 0 { ofs := 0, processes := [], events := [] } h0
  unfold createProcesses
  rw [e1]
  simp only [List.nil_append, Nat.zero_add, List.length_nil] at e4 ⊢
  refine ⟨e2, e3, trivial, ?_⟩
  intro i hi
  obtain ⟨f1, f2⟩ := e4 i hi
  obtain ⟨g1, g2, g3, g4⟩ := hfit (input_file.get ⟨i, hi⟩) (List.get_mem _ _ _)
  refine ⟨⟨_, f1, rfl, narrow_of_fits g1, narrow_of_fits g2, narrow_of_fits g3,
    narrow_of_fits g4, rfl, ?_, rfl, narrow_of_fits g2⟩, ?_⟩
  · simp [built_process, get_random_number, List.getD_eq_getElem?_getD,
      List.getElem?_eq_getElem (Nat.mod_lt i h0)]
  · rw [f2, narrow_of_fits g1]

theorem createProcesses_spec_witness :
    (createProcesses [1, 7, 3] [⟨0, 100, 10, 5⟩, ⟨5, 50, 5, 2⟩] FCFS.FCFS).ofs = 2 := by
  have h := (createProcesses_spec [1, 7, 3] (by decide) [⟨0, 100, 10, 5⟩, ⟨5, 50, 5, 2⟩]
    (by decide) FCFS.FCFS).2.2.1
  rw [h]; decide

/-- C7 as stated fails on a field outside the range of `int`: `createProcesses`
reads the fields as `double` and narrows them to `int`, so the line
`0 3000000000 10 5` gives a process with `totalCPUTime` and `remainingCPUtime`
`-2147483648`, not `3000000000`; and the line `3000000000 1 1 1` gives an event
at `-2147483648`. -/
theorem createProcesses_narrows :
    (getProc (createProcesses [1, 7, 3] [⟨0, 3000000000, 10, 5⟩] FCFS.FCFS).processes
      0).remainingCPUtime = -2147483648 ∧
    (getProc (createProcesses [1, 7, 3] [⟨0, 3000000000, 10, 5⟩] FCFS.FCFS).processes
      0).totalCPUTime = -2147483648 ∧
    (getProc (createProcesses [1, 7, 3] [⟨0, 3000000000, 10, 5⟩] FCFS.FCFS).processes
      0).remainingCPUtime ≠ (⟨0, 3000000000, 10, 5⟩ : InputLine).totCPU ∧
    (createProcesses [1, 7, 3] [⟨3000000000, 1, 1, 1⟩] FCFS.FCFS).events
      = [⟨-2147483648, 0, State.CREATED, State.READY⟩] := by
  decide

theorem createProcesses_mem (rn : List Int) (hN : 1 ≤ rn.length) (scheduler : Scheduler)
    (input : List InputLine) (p : Process)
    (hp : p ∈ (createProcesses rn input scheduler).processes) :
    ∃ i line ofs, i < input.length ∧ input[i]? = some line ∧
      p = built_process rn scheduler i ofs line := by
  have h0 : 0 < rn.length := by omega
  obtain ⟨ps, es, e1, e2, e3, e4⟩ := createProcesses_loop_spec rn hN scheduler
    input 0 { ofs := 0, processes := [], events := [] } h0
  unfold createProcesses at hp
  rw [e1] at hp
  simp only [List.nil_append] at hp
  obtain ⟨i, hi, rfl⟩ := List.getElem_of_mem hp
  have hi2 : i < input.length := by omega
  obtain ⟨f1, _⟩ := e4 i hi2
  rw [List.getElem?_eq_getElem hi] at f1
  refine ⟨i, input.get ⟨i, hi2⟩, (0 + i) % rn.length, hi2, by simp, ?_⟩
  simpa using f1

/-- C6, amended (static priority range): on a table of `N >= 1` non-negative
integers and for `maxprio >= 1`, every process `createProcesses` builds has
`static_prio` in `[1, maxprio]`. -/
theorem static_prio_range (random_nums : List Int) (hN : 1 ≤ random_nums.length)
    (hnn : ∀ x ∈ random_nums, 0 ≤ x) (input_file : List InputLine) (scheduler : Scheduler)
    (hmax : 1 ≤ scheduler.maxprio) :
    ∀ p ∈ (createProcesses random_nums input_file scheduler).processes,
      1 ≤ p.static_prio ∧ p.static_prio ≤ scheduler.maxprio := by
  intro p hp
  obtain ⟨i, line, ofs, _, _, rfl⟩ := createProcesses_mem random_nums hN scheduler input_file p hp
  exact get_random_number_range random_nums ofs scheduler.maxprio hnn hmax

theorem static_prio_range_witness :
    1 ≤ (getProc (createProcesses [1, 7, 3] [⟨0, 100, 10, 5⟩, ⟨5, 50, 5, 2⟩]
      (Prio.Prio 2 4)).processes 1).static_prio ∧
    (getProc (createProcesses [1, 7, 3] [⟨0, 100, 10, 5⟩, ⟨5, 50, 5, 2⟩]
      (Prio.Prio 2 4)).processes 1).static_prio ≤ 4 :=
  static_prio_range [1, 7, 3] (by decide) (by decide) [⟨0, 100, 10, 5⟩, ⟨5, 50, 5, 2⟩]
    (Prio.Prio 2 4) (by decide) _ (by decide)

/-- C6 as stated fails: the table `[-1]` has `N = 1 >= 1` integers and
`maxprio = 4 >= 1`, yet the process built from the line `0 1 1 1` gets
`static_prio = 1 + (-1 % 4) = 0`, outside `[1, 4]`. -/
theorem static_prio_negative_table :
    1 ≤ ([-1] : List Int).length ∧ 1 ≤ FCFS.FCFS.maxprio ∧
    ∃ p ∈ (createProcesses [-1] [⟨0, 1, 1, 1⟩] FCFS.FCFS).processes,
      ¬ (1 ≤ p.static_prio ∧ p.static_prio ≤ FCFS.FCFS.maxprio) := by
  decide

end Sched

namespace Sched
open DES_Layer Simulator

/-! ## The consistency invariant along a turn of the loop -/

namespace Consistent

variable {s : Simulator} {e : Event} {rest : List Event}

end Consistent

end Sched

namespace Sched
open DES_Layer Simulator

/-! ## The state the loop starts from -/

theorem createProcesses_loop_shape (rn : List Int) (scheduler : Scheduler)
    (input : List InputLine) :
    ∀ (count : Nat) (g : Globals),
      ∃ ps,
        (createProcesses_loop rn scheduler input count g).processes = g.processes ++ ps ∧
        (createProcesses_loop rn scheduler input count g).events
          = g.events ++ initial_events g.processes.length input ∧
        ps.length = input.length ∧
        ∀ i (hi : i < input.length), ∃ ofs,
          ps[i]? = some (built_process rn scheduler (count + i) ofs (input.get ⟨i, hi⟩)) := by
  induction input with
  | nil =>
    intro count g
    exact ⟨[], by simp [createProcesses_loop], by simp [createProcesses_loop, initial_events],
      rfl, by simp⟩
  | cons line rest ih =>
    intro count g
    obtain ⟨ps, e1, e2, e3, e4⟩ := ih (count + 1)
      { ofs := (get_random_number rn g.ofs scheduler.maxprio).2
        processes := g.processes ++ [built_process rn scheduler count g.ofs line]
        events := g.events ++ [Event.mk (narrow line.at_) g.processes.length State.CREATED State.READY] }
    have hstep : createProcesses_loop rn scheduler (line :: rest) count g
        = createProcesses_loop rn scheduler rest (count + 1)
            { ofs := (get_random_number rn g.ofs scheduler.maxprio).2
              processes := g.processes ++ [built_process rn scheduler count g.ofs line]
              events := g.events
                ++ [Event.mk (narrow line.at_) g.processes.length State.CREATED State.READY] } := rfl
    refine ⟨built_process rn scheduler count g.ofs line :: ps, ?_, ?_, ?_, ?_⟩
    · rw [hstep, e1]; simp
    · rw [hstep, e2]; simp [initial_events]
    · simp [e3]
    · intro i hi
      cases i with
      | zero => exact ⟨g.ofs, by simp⟩
      | succ i =>
        have hi2 : i < rest.length := by simpa using hi
        obtain ⟨ofs, f1⟩ := e4 i hi2
        refine ⟨ofs, ?_⟩
        simp only [List.getElem?_cons_succ, f1, List.get_eq_getElem, List.getElem_cons_succ]
        have a1 : count + 1 + i = count + (i + 1) := by omega
        rw [a1]

theorem mem_initial_events (input : List InputLine) :
    ∀ (first : Nat) (x : Event), x ∈ initial_events first input →
      ∃ line ∈ input, x.timestamp = narrow line.at_ ∧ first ≤ x.process ∧
        x.process < first + input.length ∧
        x.old_state = State.CREATED ∧ x.new_state = State.READY := by
  induction input with
  | nil => intro first x hx; simp [initial_events] at hx
  | cons line rest ih =>
    intro first x hx
    simp only [initial_events, List.mem_cons] at hx
    rcases hx with rfl | hx
    · exact ⟨line, List.mem_cons_self _ _, rfl, le_refl _, by simp, rfl, rfl⟩
    · obtain ⟨l, hl, h1, h2, h3, h4, h5⟩ := ih (first + 1) x hx
      exact ⟨l, List.mem_cons_of_mem _ hl, h1, by omega, by simp only [List.length_cons]; omega,
        h4, h5⟩

theorem start_getProc (u : Uninitialised) (policy : Policy) (rn : List Int)
    (input : List InputLine) (i : Nat) (hi : i < input.length) :
    ∃ ofs, getProc (start u policy rn input).processes i
      = built_process rn (make_scheduler policy) i ofs (input.get ⟨i, hi⟩) := by
  obtain ⟨ps, e1, _, _, e4⟩ := createProcesses_loop_shape rn (make_scheduler policy) input 0
    { ofs := 0, processes := [], events := [] }
  obtain ⟨ofs, f1⟩ := e4 i hi
  refine ⟨ofs, ?_⟩
  show getProc (createProcesses rn input (make_scheduler policy)).processes i = _
  unfold createProcesses getProc
  rw [e1, List.getD_eq_getElem?_getD]
  simp only [List.nil_append, f1, Nat.zero_add, Option.getD_some]

theorem start_length (u : Uninitialised) (policy : Policy) (rn : List Int)
    (input : List InputLine) : (start u policy rn input).processes.length = input.length := by
  obtain ⟨ps, e1, _, e3, _⟩ := createProcesses_loop_shape rn (make_scheduler policy) input 0
    { ofs := 0, processes := [], events := [] }
  show (createProcesses rn input (make_scheduler policy)).processes.length = _
  unfold createProcesses
  rw [e1]; simpa using e3

theorem start_events (u : Uninitialised) (policy : Policy) (rn : List Int)
    (input : List InputLine) : (start u policy rn input).events = initial_events 0 input := by
  obtain ⟨ps, _, e2, _, _⟩ := createProcesses_loop_shape rn (make_scheduler policy) input 0
    { ofs := 0, processes := [], events := [] }
  show (createProcesses rn input (make_scheduler policy)).events = _
  unfold createProcesses
  rw [e2]; simp

theorem loop_body_none_iff (s : Simulator) : loop_body s = none ↔ s.events = [] := by
  unfold loop_body
  cases s.events with
  | nil => simp [get_event]
  | cons e rest => simp [get_event]

theorem loop_body_cons {s : Simulator} {e : Event} {rest : List Event}
    (he : s.events = e :: rest) :
    loop_body s = some (call_scheduler (transition e { s with events := rest })) := by
  unfold loop_body
  rw [he]; rfl

theorem turn_cons {s : Simulator} {e : Event} {rest : List Event}
    (he : s.events = e :: rest) :
    s.turn = call_scheduler (transition e { s with events := rest }) := by
  unfold Simulator.turn
  rw [loop_body_cons he]

theorem turn_nil {s : Simulator} (he : s.events = []) : s.turn = s := by
  unfold Simulator.turn
  rw [(loop_body_none_iff s).2 he]


/-! ## A turn of the loop keeps the consistency invariant -/

namespace Consistent

variable {s : Simulator} {e : Event} {rest : List Event}

end Consistent

end Sched

namespace Sched
open DES_Layer Simulator

/-! ## The points inside the loop body and the functions of the model -/

theorem transition_READY (e : Event) (s : Simulator) (h : e.new_state = State.READY) :
    transition e s
      = { case_READY e.process (update_stats e { s with CURRENT_TIME := e.timestamp }) with
          processes := setProc
            (case_READY e.process (update_stats e { s with CURRENT_TIME := e.timestamp })).processes
            e.process
            { getProc (case_READY e.process
                (update_stats e { s with CURRENT_TIME := e.timestamp })).processes e.process with
              clock := (case_READY e.process
                (update_stats e { s with CURRENT_TIME := e.timestamp })).CURRENT_TIME } } := by
  unfold transition
  simp only [h]

/-- Off the preemption path a turn into `READY` leaves the DES as it is. -/
theorem transition_no_preempt (e : Event) (s : Simulator) (h1 : e.new_state = State.READY)
    (h : ∀ r, ¬ preempts e s r) : (transition e s).events = s.events := by
  obtain ⟨f1, f2, f3, f4, f5, f6, f7⟩ := after_add_fields e s
  rw [transition_READY e s h1]
  show (case_READY e.process (update_stats e { s with CURRENT_TIME := e.timestamp })).events = _
  obtain ⟨g1, g2, g3, g4, g5, g6, g7, g8⟩ := Inv.stats_fields e { s with CURRENT_TIME := e.timestamp }
  by_cases hc : 0 < (getProc ((update_stats e { s with CURRENT_TIME := e.timestamp }).scheduler.add_process
      (update_stats e { s with CURRENT_TIME := e.timestamp }).processes e.process).2
      e.process).remainingBurstTime
  · rw [case_READY_clear _ _ hc]
    exact g3
  · rw [case_READY_stay _ _ hc]
    · exact g3
    · intro r hr hpre
      apply h r
      refine ⟨h1, ?_, ?_, ?_, ?_⟩
      · rw [f7]; rw [g4, g5] at hc; exact fun hx => hc hx
      · rw [f3]; rw [g6] at hr; exact hr
      · rw [f6]; have := hpre.1; rw [g4, g5] at this; exact this
      · rw [f6, f7, f2]; have := hpre.2; rw [g4, g5, g7] at this; exact this


end Sched

namespace Sched
open DES_Layer Simulator

theorem case_READY_events (p : Nat) (s : Simulator) :
    ∀ x ∈ (case_READY p s).events, x ∈ s.events ∨ x.new_state ≠ State.RUNNING := by
  intro x hx
  by_cases hc : 0 < (getProc (s.scheduler.add_process s.processes p).2 p).remainingBurstTime
  · rw [case_READY_clear s p hc] at hx
    exact Or.inl hx
  · by_cases hpre : ∃ r, s.CURRENT_RUNNING_PROCESS = some r ∧
        (s.scheduler.add_process s.processes p).1.preprio_flag = true ∧
        (s.scheduler.add_process s.processes p).1.test_preempt
          (s.scheduler.add_process s.processes p).2 r p s.CURRENT_TIME = true
    · obtain ⟨r, hr, hf, ht⟩ := hpre
      rw [case_READY_preempt s p r hc hr hf ht] at hx
      rcases mem_put_event.1 hx with rfl | hx
      · right; simp
      · left; exact (remove_event_sublist _ _ _).subset hx
    · rw [case_READY_stay s p hc (fun r hr hx => hpre ⟨r, hr, hx.1, hx.2⟩)] at hx
      exact Or.inl hx

theorem case_RUNNING_events (p : Nat) (s : Simulator) :
    ∀ x ∈ (case_RUNNING p s).events, x ∈ s.events ∨ x.new_state ≠ State.RUNNING := by
  intro x hx
  unfold case_RUNNING at hx
  dsimp only at hx
  split_ifs at hx <;>
    · rcases mem_put_event.1 hx with rfl | hx
      · right; simp
      · left; exact hx

theorem transition_events (e : Event) (s : Simulator) :
    ∀ x ∈ (transition e s).events, x ∈ s.events ∨ x.new_state ≠ State.RUNNING := by
  intro x hx
  unfold transition at hx
  dsimp only at hx
  cases hns : e.new_state with
  | CREATED =>
    rw [hns] at hx; dsimp only at hx
    rw [update_stats_eq] at hx
    exact Or.inl hx
  | READY =>
    rw [hns] at hx; dsimp only at hx
    rcases case_READY_events _ _ x hx with h1 | h1
    · rw [update_stats_eq] at h1; exact Or.inl h1
    · exact Or.inr h1
  | RUNNING =>
    rw [hns] at hx; dsimp only at hx
    rcases case_RUNNING_events _ _ x hx with h1 | h1
    · rw [update_stats_eq] at h1; exact Or.inl h1
    · exact Or.inr h1
  | BLOCKED =>
    rw [hns] at hx; dsimp only at hx
    rw [case_BLOCKED_effect] at hx
    rcases mem_put_event.1 hx with rfl | hx
    · right; simp
    · rw [update_stats_eq] at hx; exact Or.inl hx
  | DONE =>
    rw [hns] at hx; dsimp only at hx
    rw [case_DONE_effect, update_stats_eq] at hx
    exact Or.inl hx

theorem case_READY_length (p : Nat) (s : Simulator) :
    (case_READY p s).processes.length = s.processes.length := by
  by_cases hc : 0 < (getProc (s.scheduler.add_process s.processes p).2 p).remainingBurstTime
  · rw [case_READY_clear s p hc]
    exact Scheduler.add_process_length _ _ _
  · by_cases hpre : ∃ r, s.CURRENT_RUNNING_PROCESS = some r ∧
        (s.scheduler.add_process s.processes p).1.preprio_flag = true ∧
        (s.scheduler.add_process s.processes p).1.test_preempt
          (s.scheduler.add_process s.processes p).2 r p s.CURRENT_TIME = true
    · obtain ⟨r, hr, hf, ht⟩ := hpre
      rw [case_READY_preempt s p r hc hr hf ht]
      show (setProc _ _ _).length = _
      rw [length_setProc]
      exact Scheduler.add_process_length _ _ _
    · rw [case_READY_stay s p hc (fun r hr hx => hpre ⟨r, hr, hx.1, hx.2⟩)]
      exact Scheduler.add_process_length _ _ _

theorem case_RUNNING_length (p : Nat) (s : Simulator) :
    (case_RUNNING p s).processes.length = s.processes.length := by
  unfold case_RUNNING
  dsimp only
  split_ifs <;> exact length_setProc _ _ _

theorem transition_length (e : Event) (s : Simulator) :
    (transition e s).processes.length = s.processes.length := by
  unfold transition
  dsimp only
  rw [length_setProc]
  cases e.new_state with
  | CREATED => dsimp only; rw [update_stats_eq]
  | READY => dsimp only; rw [case_READY_length, update_stats_eq]
  | RUNNING => dsimp only; rw [case_RUNNING_length, update_stats_eq]
  | BLOCKED =>
    dsimp only; rw [case_BLOCKED_effect]
    show (setProc _ _ _).length = _
    rw [length_setProc, update_stats_eq]
  | DONE =>
    dsimp only; rw [case_DONE_effect]
    show (setProc _ _ _).length = _
    rw [length_setProc, update_stats_eq]

theorem transition_now_irrelevant (e : Event) (s : Simulator) (t : Int) :
    transition e { s with CURRENT_TIME := t } = transition e s := rfl

end Sched

namespace Sched
open DES_Layer Simulator

/-! ## Event order and non-overlap -/

end Sched

namespace Sched
open DES_Layer Simulator

/-! ## Non-overlap -/

end Sched

namespace Sched
open DES_Layer Simulator

/-! ## One pending event for each process -/

end Sched

namespace Sched
open DES_Layer Simulator

/-! ## No event is cancelled unless the scheduler is PREPRIO -/

theorem case_RUNNING_scheduler (p : Nat) (s : Simulator) :
    (case_RUNNING p s).scheduler = s.scheduler := by
  unfold case_RUNNING
  dsimp only
  split_ifs <;> rfl

end Sched

namespace Sched
open DES_Layer Simulator

/-! ## What a turn does to the oracle, and where its pointers point -/

theorem case_READY_fields (p : Nat) (s : Simulator) :
    (case_READY p s).ofs = s.ofs ∧ (case_READY p s).random_nums = s.random_nums ∧
    (case_READY p s).scheduler = (s.scheduler.add_process s.processes p).1 ∧
    ((case_READY p s).CURRENT_RUNNING_PROCESS = s.CURRENT_RUNNING_PROCESS ∨
      (case_READY p s).CURRENT_RUNNING_PROCESS = none) ∧
    (∀ x ∈ (case_READY p s).events,
      x ∈ s.events ∨ s.CURRENT_RUNNING_PROCESS = some x.process) := by
  by_cases hc : 0 < (getProc (s.scheduler.add_process s.processes p).2 p).remainingBurstTime
  · rw [case_READY_clear s p hc]
    exact ⟨rfl, rfl, rfl, Or.inr rfl, fun x hx => Or.inl hx⟩
  · by_cases hpre : ∃ r, s.CURRENT_RUNNING_PROCESS = some r ∧
        (s.scheduler.add_process s.processes p).1.preprio_flag = true ∧
        (s.scheduler.add_process s.processes p).1.test_preempt
          (s.scheduler.add_process s.processes p).2 r p s.CURRENT_TIME = true
    · obtain ⟨r, hr, hf, ht⟩ := hpre
      rw [case_READY_preempt s p r hc hr hf ht]
      refine ⟨rfl, rfl, rfl, Or.inl rfl, ?_⟩
      intro x hx
      rcases mem_put_event.1 hx with rfl | hx
      · exact Or.inr hr
      · exact Or.inl ((remove_event_sublist _ _ _).subset hx)
    · rw [case_READY_stay s p hc (fun r hr hx => hpre ⟨r, hr, hx.1, hx.2⟩)]
      exact ⟨rfl, rfl, rfl, Or.inl rfl, fun x hx => Or.inl hx⟩

theorem preempt_ofs (r : Nat) (s : Simulator) :
    (preempt r s).ofs = s.ofs ∧ (preempt r s).random_nums = s.random_nums := ⟨rfl, rfl⟩

end Sched

namespace Sched
open DES_Layer Simulator

/-! ## Every pointer of the state points into the roster -/

theorem transition_scope (e : Event) (s : Simulator) :
    (∀ x ∈ (transition e s).events,
      x ∈ s.events ∨ x.process = e.process ∨ s.CURRENT_RUNNING_PROCESS = some x.process) ∧
    (∀ q ∈ (transition e s).scheduler.pids, q ∈ s.scheduler.pids ∨ q = e.process) ∧
    (∀ r, (transition e s).CURRENT_RUNNING_PROCESS = some r →
      s.CURRENT_RUNNING_PROCESS = some r) := by
  unfold transition
  dsimp only
  obtain ⟨g1, g2, g3, g4, g5, g6, g7, g8⟩ :=
    Inv.stats_fields e { s with CURRENT_TIME := e.timestamp }
  cases hn : e.new_state with
  | CREATED =>
    dsimp only
    rw [g3, g5, g6]
    exact ⟨fun x hx => Or.inl hx, fun q hq => Or.inl hq, fun r hr => hr⟩
  | READY =>
    dsimp only
    obtain ⟨_, _, c3, c4, c5⟩ := case_READY_fields e.process
      (update_stats e { s with CURRENT_TIME := e.timestamp })
    rw [g3, g6] at c5
    rw [g4, g5] at c3
    rw [g6] at c4
    refine ⟨?_, ?_, ?_⟩
    · intro x hx
      rcases c5 x hx with h | h
      · exact Or.inl h
      · exact Or.inr (Or.inr h)
    · intro q hq
      rw [c3] at hq
      rcases Scheduler.add_process_pids s.scheduler s.processes e.process with hp | hp
      · rcases List.mem_cons.1 (hp.mem_iff.1 hq) with h | h
        · exact Or.inr h
        · exact Or.inl h
      · rw [hp] at hq
        exact Or.inl hq
    · intro r hr
      rcases c4 with h | h
      · rw [h] at hr; exact hr
      · rw [h] at hr; exact absurd hr (by simp)
  | RUNNING =>
    dsimp only
    obtain ⟨_, _, _, _, h, _⟩ := case_RUNNING_cases
      (update_stats e { s with CURRENT_TIME := e.timestamp }) e.process
    rw [h]
    dsimp only
    rw [g3, g5, g6]
    refine ⟨?_, fun q hq => Or.inl hq, fun r hr => hr⟩
    intro x hx
    rcases mem_put_event.1 hx with rfl | hx
    · exact Or.inr (Or.inl rfl)
    · exact Or.inl hx
  | BLOCKED =>
    dsimp only
    rw [case_BLOCKED_effect]
    dsimp only
    rw [g3, g5]
    refine ⟨?_, fun q hq => Or.inl hq, fun r hr => absurd hr (by simp)⟩
    intro x hx
    rcases mem_put_event.1 hx with rfl | hx
    · exact Or.inr (Or.inl rfl)
    · exact Or.inl hx
  | DONE =>
    dsimp only
    rw [case_DONE_effect]
    dsimp only
    rw [g3, g5]
    exact ⟨fun x hx => Or.inl hx, fun q hq => Or.inl hq, fun r hr => absurd hr (by simp)⟩

theorem call_scheduler_scope (s : Simulator) :
    (∀ x ∈ (call_scheduler s).events, x ∈ s.events ∨ x.process ∈ s.scheduler.pids) ∧
    (∀ q ∈ (call_scheduler s).scheduler.pids, q ∈ s.scheduler.pids) ∧
    (∀ r, (call_scheduler s).CURRENT_RUNNING_PROCESS = some r →
      s.CURRENT_RUNNING_PROCESS = some r ∨ r ∈ s.scheduler.pids) := by
  by_cases hn : calls_next s
  · obtain ⟨c1, c2, _, c4⟩ := call_scheduler_next s hn
    obtain ⟨p1, p2⟩ := Scheduler.get_next_process_pids s.scheduler
    rw [c1, c2, c4]
    cases hq : s.scheduler.get_next_process.1 with
    | none =>
      refine ⟨fun x hx => Or.inl hx, ?_, fun r hr => absurd hr (by simp)⟩
      intro q hqm
      exact (p2 hq).mem_iff.1 hqm
    | some q =>
      have hperm := p1 q hq
      refine ⟨?_, ?_, ?_⟩
      · intro x hx
        rcases mem_put_event.1 hx with rfl | hx
        · exact Or.inr (hperm.mem_iff.2 (List.mem_cons_self _ _))
        · exact Or.inl hx
      · intro q1 hq1
        exact hperm.mem_iff.2 (List.mem_cons_of_mem _ hq1)
      · intro r hr
        have : r = q := (Option.some.inj hr).symm
        subst this
        exact Or.inr (hperm.mem_iff.2 (List.mem_cons_self _ _))
  · obtain ⟨c1, c2, c3⟩ := call_scheduler_not_next s hn
    rw [c1, c2, c3]
    exact ⟨fun x hx => Or.inl hx, fun q hq => hq, fun r hr => Or.inl hr⟩

theorem scoped_turn {s : Simulator} (h : Scoped s) : Scoped s.turn := by
  cases hev : s.events with
  | nil => rw [turn_nil hev]; exact h
  | cons e rest =>
    rw [turn_cons hev]
    have hp : e.process < s.processes.length := h.events e (by rw [hev]; exact List.mem_cons_self _ _)
    obtain ⟨t1, t2, t3⟩ := transition_scope e { s with events := rest }
    have hlen : (transition e { s with events := rest }).processes.length = s.processes.length :=
      transition_length e _
    have hm : Scoped (transition e { s with events := rest }) := by
      refine ⟨?_, ?_, ?_⟩
      · intro x hx
        rw [hlen]
        rcases t1 x hx with h1 | h1 | h1
        · exact h.events x (by rw [hev]; exact List.mem_cons_of_mem _ h1)
        · rw [h1]; exact hp
        · exact h.running _ h1
      · intro q hq
        rw [hlen]
        rcases t2 q hq with h1 | h1
        · exact h.ready q h1
        · rw [h1]; exact hp
      · intro r hr
        rw [hlen]
        exact h.running r (t3 r hr)
    obtain ⟨c1, c2, c3⟩ := call_scheduler_scope (transition e { s with events := rest })
    refine ⟨?_, ?_, ?_⟩
    · intro x hx
      rw [call_scheduler_length]
      rcases c1 x hx with h1 | h1
      · exact hm.events x h1
      · exact hm.ready _ h1
    · intro q hq
      rw [call_scheduler_length]
      exact hm.ready q (c2 q hq)
    · intro r hr
      rw [call_scheduler_length]
      rcases c3 r hr with h1 | h1
      · exact hm.running r h1
      · exact hm.ready r h1

theorem scoped_start (u : Uninitialised) (policy : Policy) (rn : List Int)
    (input : List InputLine) : Scoped (start u policy rn input) := by
  refine ⟨?_, ?_, ?_⟩
  · intro x hx
    rw [start_events] at hx
    rw [start_length]
    obtain ⟨_, _, _, _, h, _⟩ := mem_initial_events input 0 x hx
    omega
  · intro q hq
    have : (start u policy rn input).scheduler.pids = [] := make_scheduler_pids policy
    rw [this] at hq
    exact absurd hq (by simp)
  · intro r hr
    have h2 : (none : Option Nat) = some r := hr
    exact absurd h2 (by simp)

theorem scoped_reach (u : Uninitialised) (policy : Policy) (rn : List Int)
    (input : List InputLine) (n : Nat) :
    Scoped (simulation n (start u policy rn input)) := by
  induction n with
  | zero => exact scoped_start u policy rn input
  | succ n ih => rw [simulation_succ]; exact scoped_turn ih

end Sched

namespace Sched
open DES_Layer Simulator

/-! ## The oracle values a turn draws -/

end Sched

namespace Sched
open DES_Layer Simulator

/-! ## The priorities stay within the tables -/

theorem case_READY_prio (p : Nat) (s : Simulator) (i : Nat) :
    (getProc (case_READY p s).processes i).static_prio
      = (getProc (s.scheduler.add_process s.processes p).2 i).static_prio ∧
    (getProc (case_READY p s).processes i).dynamic_prio
      = (getProc (s.scheduler.add_process s.processes p).2 i).dynamic_prio := by
  by_cases hc : 0 < (getProc (s.scheduler.add_process s.processes p).2 p).remainingBurstTime
  · rw [case_READY_clear s p hc]
    exact ⟨rfl, rfl⟩
  · by_cases hpre : ∃ r, s.CURRENT_RUNNING_PROCESS = some r ∧
        (s.scheduler.add_process s.processes p).1.preprio_flag = true ∧
        (s.scheduler.add_process s.processes p).1.test_preempt
          (s.scheduler.add_process s.processes p).2 r p s.CURRENT_TIME = true
    · obtain ⟨r, hr, hf, ht⟩ := hpre
      rw [case_READY_preempt s p r hc hr hf ht]
      refine prio_setProc _ _ _ ?_ ?_ i <;> rfl
    · rw [case_READY_stay s p hc (fun r hr hx => hpre ⟨r, hr, hx.1, hx.2⟩)]
      exact ⟨rfl, rfl⟩

theorem case_RUNNING_prio (p : Nat) (s : Simulator) (i : Nat) :
    (getProc (case_RUNNING p s).processes i).static_prio = (getProc s.processes i).static_prio ∧
    (getProc (case_RUNNING p s).processes i).dynamic_prio
      = (getProc s.processes i).dynamic_prio := by
  obtain ⟨_, _, _, _, h, _⟩ := case_RUNNING_cases s p
  rw [h]
  refine prio_setProc _ _ _ ?_ ?_ i <;> rfl

theorem case_BLOCKED_prio (p : Nat) (s : Simulator) (i : Nat) :
    (getProc (case_BLOCKED p s).processes i).static_prio = (getProc s.processes i).static_prio ∧
    (getProc (case_BLOCKED p s).processes i).dynamic_prio
      = (getProc s.processes i).dynamic_prio := by
  rw [case_BLOCKED_effect]
  refine prio_setProc _ _ _ ?_ ?_ i <;> rfl

theorem case_DONE_prio (p : Nat) (s : Simulator) (i : Nat) :
    (getProc (case_DONE p s).processes i).static_prio = (getProc s.processes i).static_prio ∧
    (getProc (case_DONE p s).processes i).dynamic_prio
      = (getProc s.processes i).dynamic_prio := by
  rw [case_DONE_effect]
  refine prio_setProc _ _ _ ?_ ?_ i <;> rfl

theorem transition_prio (e : Event) (s : Simulator) (i : Nat) :
    (getProc (transition e s).processes i).static_prio = (getProc s.processes i).static_prio ∧
    ((getProc (transition e s).processes i).dynamic_prio = (getProc s.processes i).dynamic_prio ∨
      (e.new_state = State.READY ∧ i = e.process ∧
        (getProc (transition e s).processes i).dynamic_prio
          = Prio.add_level s.processes e.process)) := by
  obtain ⟨g1, g2, g3, g4, g5, g6, g7, g8⟩ :=
    Inv.stats_fields e { s with CURRENT_TIME := e.timestamp }
  cases hn : e.new_state with
  | CREATED =>
    have h : (getProc (transition e s).processes i).static_prio
          = (getProc (update_stats e { s with CURRENT_TIME := e.timestamp }).processes i).static_prio ∧
        (getProc (transition e s).processes i).dynamic_prio
          = (getProc (update_stats e { s with CURRENT_TIME := e.timestamp }).processes i).dynamic_prio := by
      unfold transition
      simp only [hn]
      refine prio_setProc _ _ _ ?_ ?_ i <;> rfl
    rw [h.1, h.2, g4]
    exact ⟨rfl, Or.inl rfl⟩
  | READY =>
    have h : (getProc (transition e s).processes i).static_prio
          = (getProc (case_READY e.process
              (update_stats e { s with CURRENT_TIME := e.timestamp })).processes i).static_prio ∧
        (getProc (transition e s).processes i).dynamic_prio
          = (getProc (case_READY e.process
              (update_stats e { s with CURRENT_TIME := e.timestamp })).processes i).dynamic_prio := by
      unfold transition
      simp only [hn]
      refine prio_setProc _ _ _ ?_ ?_ i <;> rfl
    obtain ⟨c, d⟩ := case_READY_prio e.process
      (update_stats e { s with CURRENT_TIME := e.timestamp }) i
    rw [h.1, h.2, c, d, g4, g5]
    obtain ⟨f1, f2⟩ := add_process_prio s.scheduler s.processes e.process i
    refine ⟨f1, ?_⟩
    rcases f2 with h1 | h1
    · exact Or.inl h1
    · exact Or.inr ⟨rfl, h1.1, h1.2⟩
  | RUNNING =>
    have h : (getProc (transition e s).processes i).static_prio
          = (getProc (case_RUNNING e.process
              (update_stats e { s with CURRENT_TIME := e.timestamp })).processes i).static_prio ∧
        (getProc (transition e s).processes i).dynamic_prio
          = (getProc (case_RUNNING e.process
              (update_stats e { s with CURRENT_TIME := e.timestamp })).processes i).dynamic_prio := by
      unfold transition
      simp only [hn]
      refine prio_setProc _ _ _ ?_ ?_ i <;> rfl
    obtain ⟨c, d⟩ := case_RUNNING_prio e.process
      (update_stats e { s with CURRENT_TIME := e.timestamp }) i
    rw [h.1, h.2, c, d, g4]
    exact ⟨rfl, Or.inl rfl⟩
  | BLOCKED =>
    have h : (getProc (transition e s).processes i).static_prio
          = (getProc (case_BLOCKED e.process
              (update_stats e { s with CURRENT_TIME := e.timestamp })).processes i).static_prio ∧
        (getProc (transition e s).processes i).dynamic_prio
          = (getProc (case_BLOCKED e.process
              (update_stats e { s with CURRENT_TIME := e.timestamp })).processes i).dynamic_prio := by
      unfold transition
      simp only [hn]
      refine prio_setProc _ _ _ ?_ ?_ i <;> rfl
    obtain ⟨c, d⟩ := case_BLOCKED_prio e.process
      (update_stats e { s with CURRENT_TIME := e.timestamp }) i
    rw [h.1, h.2, c, d, g4]
    exact ⟨rfl, Or.inl rfl⟩
  | DONE =>
    have h : (getProc (transition e s).processes i).static_prio
          = (getProc (case_DONE e.process
              (update_stats e { s with CURRENT_TIME := e.timestamp })).processes i).static_prio ∧
        (getProc (transition e s).processes i).dynamic_prio
          = (getProc (case_DONE e.process
              (update_stats e { s with CURRENT_TIME := e.timestamp })).processes i).dynamic_prio := by
      unfold transition
      simp only [hn]
      refine prio_setProc _ _ _ ?_ ?_ i <;> rfl
    obtain ⟨c, d⟩ := case_DONE_prio e.process
      (update_stats e { s with CURRENT_TIME := e.timestamp }) i
    rw [h.1, h.2, c, d, g4]
    exact ⟨rfl, Or.inl rfl⟩

theorem transition_scheduler (e : Event) (s : Simulator) :
    (transition e s).scheduler = s.scheduler ∨
    (transition e s).scheduler = (s.scheduler.add_process s.processes e.process).1 := by
  obtain ⟨g1, g2, g3, g4, g5, g6, g7, g8⟩ :=
    Inv.stats_fields e { s with CURRENT_TIME := e.timestamp }
  unfold transition
  dsimp only
  cases hn : e.new_state with
  | CREATED => dsimp only; exact Or.inl g5
  | READY =>
    dsimp only
    right
    rw [(case_READY_fields _ _).2.2.1, g4, g5]
  | RUNNING => dsimp only; rw [case_RUNNING_scheduler]; exact Or.inl g5
  | BLOCKED => dsimp only; rw [case_BLOCKED_effect]; exact Or.inl g5
  | DONE => dsimp only; rw [case_DONE_effect]; exact Or.inl g5

theorem call_scheduler_choice (s : Simulator) :
    (call_scheduler s).scheduler = s.scheduler ∨
    (call_scheduler s).scheduler = s.scheduler.get_next_process.2 := by
  by_cases hn : calls_next s
  · exact Or.inr (call_scheduler_next s hn).1
  · exact Or.inl (call_scheduler_not_next s hn).1

theorem prio_safe_turn {s : Simulator} (h : PrioSafe s) (hsc : Scoped s) : PrioSafe s.turn := by
  cases hev : s.events with
  | nil => rw [turn_nil hev]; exact h
  | cons e rest =>
    rw [turn_cons hev]
    have hp : e.process < s.processes.length :=
      hsc.events e (by rw [hev]; exact List.mem_cons_self _ _)
    have hlen : (transition e { s with events := rest }).processes.length = s.processes.length :=
      transition_length e _
    have hsch : (transition e { s with events := rest }).scheduler.maxprio = s.scheduler.maxprio ∧
        (transition e { s with events := rest }).scheduler.levels = s.scheduler.levels := by
      rcases transition_scheduler e { s with events := rest } with h1 | h1
      · rw [h1]; exact ⟨rfl, rfl⟩
      · rw [h1]
        exact ⟨Scheduler.add_process_maxprio _ _ _, add_process_levels _ _ _⟩
    have hm : PrioSafe (transition e { s with events := rest }) := by
      refine ⟨?_, ?_, ?_⟩
      · intro i hi
        rw [hlen] at hi
        rw [(transition_prio e { s with events := rest } i).1, hsch.1]
        exact h.static i hi
      · intro i hi
        rw [hlen] at hi
        rw [hsch.1]
        rcases (transition_prio e { s with events := rest } i).2 with h1 | ⟨_, h1, h2⟩
        · rw [h1]; exact h.dynamic i hi
        · rw [h2]
          exact add_level_range _ _ _ (h.static e.process hp) (h.dynamic e.process hp)
      · intro l hl
        rw [hsch.2] at hl
        rw [hsch.1]
        exact h.tables l hl
    have hsch2 : (call_scheduler (transition e { s with events := rest })).scheduler.maxprio
          = (transition e { s with events := rest }).scheduler.maxprio ∧
        ∀ l ∈ (call_scheduler (transition e { s with events := rest })).scheduler.levels,
          l ∈ (transition e { s with events := rest }).scheduler.levels := by
      rcases call_scheduler_choice (transition e { s with events := rest }) with h1 | h1
      · rw [h1]; exact ⟨rfl, fun l hl => hl⟩
      · rw [h1]
        exact ⟨Scheduler.get_next_process_maxprio _, get_next_process_levels _⟩
    refine ⟨?_, ?_, ?_⟩
    · intro i hi
      rw [call_scheduler_length] at hi
      rw [call_scheduler_processes, hsch2.1]
      exact hm.static i hi
    · intro i hi
      rw [call_scheduler_length] at hi
      rw [call_scheduler_processes, hsch2.1]
      exact hm.dynamic i hi
    · intro l hl
      rw [hsch2.1]
      exact hm.tables l (hsch2.2 l hl)

theorem turn_levels_length (s : Simulator) :
    s.turn.scheduler.levels.length = s.scheduler.levels.length := by
  have hnext : ∀ sch : Scheduler, sch.get_next_process.2.levels.length = sch.levels.length := by
    intro sch
    cases sch <;> rfl
  cases hev : s.events with
  | nil => rw [turn_nil hev]
  | cons e rest =>
    rw [turn_cons hev]
    have h1 : (transition e { s with events := rest }).scheduler.levels.length
        = s.scheduler.levels.length := by
      rcases transition_scheduler e { s with events := rest } with h | h
      · rw [h]
      · rw [h, add_process_levels]
    rcases call_scheduler_choice (transition e { s with events := rest }) with h | h
    · rw [h, h1]
    · rw [h, hnext, h1]

theorem levels_of_kind (sch : Scheduler) (h : sch.levels.length = 2) :
    ∃ q m a x, (sch = Scheduler.Prio q m a x ∨ sch = Scheduler.PrePrio q m a x) := by
  cases sch with
  | FCFS l => simp [Scheduler.levels] at h
  | LCFS l => simp [Scheduler.levels] at h
  | SRTF l => simp [Scheduler.levels] at h
  | RR q l => simp [Scheduler.levels] at h
  | Prio q m a x => exact ⟨q, m, a, x, Or.inl rfl⟩
  | PrePrio q m a x => exact ⟨q, m, a, x, Or.inr rfl⟩

theorem prio_add_in_range (a x : List (List Nat)) (ps : List Process) (p : Nat) (m : Int)
    (ha : (a.length : Int) = m) (hx : (x.length : Int) = m)
    (hs : 1 ≤ (getProc ps p).static_prio ∧ (getProc ps p).static_prio ≤ m)
    (hd : 0 ≤ (getProc ps p).dynamic_prio ∧ (getProc ps p).dynamic_prio ≤ m - 1) :
    Prio.add_process a x ps p
      = (if (getProc ps p).remainingBurstTime > 0 ∧ (getProc ps p).dynamic_prio - 1 = -1 then
          (a, x.modify (fun q => q ++ [p]) (Prio.add_level ps p).toNat,
            setProc ps p { getProc ps p with dynamic_prio := Prio.add_level ps p })
        else
          (a.modify (fun q => q ++ [p]) (Prio.add_level ps p).toNat, x,
            setProc ps p { getProc ps p with dynamic_prio := Prio.add_level ps p })) ∧
    (Prio.add_level ps p).toNat < a.length ∧ (Prio.add_level ps p).toNat < x.length := by
  obtain ⟨l0, l1⟩ := add_level_range ps p m hs hd
  obtain ⟨r1, r2⟩ := push_level_in_range a (Prio.add_level ps p) p l0 (by omega)
  obtain ⟨r3, r4⟩ := push_level_in_range x (Prio.add_level ps p) p l0 (by omega)
  rw [prio_add_level_eq, r1, r3]
  exact ⟨rfl, r2, r4⟩

theorem prio_safe_start (u : Uninitialised) (policy : Policy) (rn : List Int)
    (input : List InputLine) (quantum maxprio : Int)
    (hpol : policy = Policy.P quantum maxprio ∨ policy = Policy.E quantum maxprio)
    (hm : 1 ≤ maxprio)
    (hs : ∀ i, i < input.length →
      1 ≤ (getProc (start u policy rn input).processes i).static_prio ∧
      (getProc (start u policy rn input).processes i).static_prio ≤ maxprio) :
    PrioSafe (start u policy rn input) ∧
    (start u policy rn input).scheduler.maxprio = maxprio ∧
    (start u policy rn input).scheduler.levels.length = 2 := by
  have hmax : (start u policy rn input).scheduler.maxprio = maxprio := by
    rcases hpol with rfl | rfl <;> rfl
  have hlev : (start u policy rn input).scheduler.levels
      = [maxprio.toNat, maxprio.toNat] := by
    rcases hpol with rfl | rfl
    · show [(List.replicate maxprio.toNat ([] : List Nat)).length,
        (List.replicate maxprio.toNat ([] : List Nat)).length] = _
      rw [List.length_replicate]
    · show [(List.replicate maxprio.toNat ([] : List Nat)).length,
        (List.replicate maxprio.toNat ([] : List Nat)).length] = _
      rw [List.length_replicate]
  refine ⟨⟨?_, ?_, ?_⟩, hmax, by rw [hlev]; rfl⟩
  · intro i hi
    rw [start_length] at hi
    rw [hmax]
    exact hs i hi
  · intro i hi
    rw [start_length] at hi
    rw [hmax]
    have h1 := hs i hi
    obtain ⟨ofs, h2⟩ := start_getProc u policy rn input i hi
    have h3 : (getProc (start u policy rn input).processes i).dynamic_prio
        = (getProc (start u policy rn input).processes i).static_prio - 1 := by
      rw [h2]
      rfl
    omega
  · intro l hl
    rw [hlev] at hl
    rw [hmax]
    simp only [List.mem_cons, List.mem_singleton, List.not_mem_nil, or_false, or_self] at hl
    rw [hl]
    exact Int.toNat_of_nonneg (by omega)

theorem prio_safe_reach (u : Uninitialised) (policy : Policy) (rn : List Int)
    (input : List InputLine) (quantum maxprio : Int)
    (hpol : policy = Policy.P quantum maxprio ∨ policy = Policy.E quantum maxprio)
    (hm : 1 ≤ maxprio)
    (hs : ∀ i, i < input.length →
      1 ≤ (getProc (start u policy rn input).processes i).static_prio ∧
      (getProc (start u policy rn input).processes i).static_prio ≤ maxprio) (n : Nat) :
    PrioSafe (simulation n (start u policy rn input)) ∧
    (simulation n (start u policy rn input)).scheduler.maxprio = maxprio ∧
    (simulation n (start u policy rn input)).scheduler.levels.length = 2 := by
  induction n with
  | zero => exact prio_safe_start u policy rn input quantum maxprio hpol hm hs
  | succ n ih =>
    obtain ⟨h1, h2, h3⟩ := ih
    rw [simulation_succ]
    refine ⟨prio_safe_turn h1 (scoped_reach u policy rn input n), ?_, ?_⟩
    · cases hev : (simulation n (start u policy rn input)).events with
      | nil => rw [turn_nil hev]; exact h2
      | cons e rest =>
        rw [turn_cons hev]
        have t1 : (transition e { simulation n (start u policy rn input) with
            events := rest }).scheduler.maxprio = maxprio := by
          rcases transition_scheduler e { simulation n (start u policy rn input) with
            events := rest } with h | h
          · rw [h]; exact h2
          · rw [h, Scheduler.add_process_maxprio]; exact h2
        rcases call_scheduler_choice (transition e { simulation n (start u policy rn input) with
            events := rest }) with h | h
        · rw [h]; exact t1
        · rw [h, Scheduler.get_next_process_maxprio]; exact t1
    · rw [turn_levels_length]
      exact h3

/-- C26 (priority-level index safety): under `PRIO` or `PREPRIO` with
`maxprio >= 1`, if every process is built with `static_prio` in `[1, maxprio]`,
then in every state the loop reaches every process has `static_prio` in
`[1, maxprio]` and `dynamic_prio` in `[0, maxprio - 1]`, the scheduler still is
a `PRIO` or `PREPRIO` scheduler whose two tables have `maxprio` queues each, and
whenever a turn takes an event into `READY` the index `add_process` uses is in
`[0, maxprio - 1]`, within both tables: `add_process` appends the process to the
queue of that index (of the expired table when `dynamic_prio` would become
`-1`, else of the active table), and never indexes outside a table. -/
theorem priority_index_safety (u : Uninitialised) (policy : Policy) (random_nums : List Int)
    (input_file : List InputLine) (quantum maxprio : Int)
    (hpol : policy = Policy.P quantum maxprio ∨ policy = Policy.E quantum maxprio)
    (hm : 1 ≤ maxprio)
    (hs : ∀ i, i < input_file.length →
      1 ≤ (getProc (start u policy random_nums input_file).processes i).static_prio ∧
      (getProc (start u policy random_nums input_file).processes i).static_prio ≤ maxprio)
    (n : Nat) :
    (simulation n (start u policy random_nums input_file)).scheduler.maxprio = maxprio ∧
    (∀ i, i < (simulation n (start u policy random_nums input_file)).processes.length →
      1 ≤ (getProc (simulation n (start u policy random_nums input_file)).processes i).static_prio ∧
      (getProc (simulation n (start u policy random_nums input_file)).processes i).static_prio ≤ maxprio ∧
      0 ≤ (getProc (simulation n (start u policy random_nums input_file)).processes i).dynamic_prio ∧
      (getProc (simulation n (start u policy random_nums input_file)).processes i).dynamic_prio ≤ maxprio - 1) ∧
    (∃ q a x,
      ((simulation n (start u policy random_nums input_file)).scheduler = Scheduler.Prio q maxprio a x ∨
        (simulation n (start u policy random_nums input_file)).scheduler = Scheduler.PrePrio q maxprio a x) ∧
      (a.length : Int) = maxprio ∧ (x.length : Int) = maxprio ∧
      ∀ e rest, (simulation n (start u policy random_nums input_file)).events = e :: rest →
        e.new_state = State.READY →
        (after_add e { simulation n (start u policy random_nums input_file) with
            events := rest }).scheduler
          = ((simulation n (start u policy random_nums input_file)).scheduler.add_process
              (simulation n (start u policy random_nums input_file)).processes e.process).1 ∧
        (after_add e { simulation n (start u policy random_nums input_file) with
            events := rest }).processes
          = ((simulation n (start u policy random_nums input_file)).scheduler.add_process
              (simulation n (start u policy random_nums input_file)).processes e.process).2 ∧
        0 ≤ Prio.add_level (simulation n (start u policy random_nums input_file)).processes e.process ∧
        Prio.add_level (simulation n (start u policy random_nums input_file)).processes e.process
          ≤ maxprio - 1 ∧
        (Prio.add_level (simulation n (start u policy random_nums input_file)).processes e.process).toNat
          < a.length ∧
        (Prio.add_level (simulation n (start u policy random_nums input_file)).processes e.process).toNat
          < x.length ∧
        PrePrio.add_process a x (simulation n (start u policy random_nums input_file)).processes e.process
          = Prio.add_process a x (simulation n (start u policy random_nums input_file)).processes e.process ∧
        Prio.add_process a x (simulation n (start u policy random_nums input_file)).processes e.process
          = (if (getProc (simulation n (start u policy random_nums input_file)).processes e.process).remainingBurstTime > 0 ∧
                (getProc (simulation n (start u policy random_nums input_file)).processes e.process).dynamic_prio - 1 = -1 then
              (a, x.modify (fun l => l ++ [e.process])
                  (Prio.add_level (simulation n (start u policy random_nums input_file)).processes e.process).toNat,
                setProc (simulation n (start u policy random_nums input_file)).processes e.process
                  { getProc (simulation n (start u policy random_nums input_file)).processes e.process with
                    dynamic_prio := Prio.add_level (simulation n (start u policy random_nums input_file)).processes e.process })
            else
              (a.modify (fun l => l ++ [e.process])
                  (Prio.add_level (simulation n (start u policy random_nums input_file)).processes e.process).toNat, x,
                setProc (simulation n (start u policy random_nums input_file)).processes e.process
                  { getProc (simulation n (start u policy random_nums input_file)).processes e.process with
                    dynamic_prio :=
                      Prio.add_level (simulation n (start u policy random_nums input_file)).processes e.process }))) := by
  obtain ⟨h1, h2, h3⟩ := prio_safe_reach u policy random_nums input_file quantum maxprio
    hpol hm hs n
  have hsc := scoped_reach u policy random_nums input_file n
  refine ⟨h2, ?_, ?_⟩
  · intro i hi
    have a := h1.static i hi
    have b := h1.dynamic i hi
    rw [h2] at a b
    exact ⟨a.1, a.2, b.1, b.2⟩
  · obtain ⟨q, m, a, x, hk⟩ := levels_of_kind _ h3
    have hmm : m = maxprio := by
      rcases hk with hk | hk
      · rw [hk] at h2; exact h2
      · rw [hk] at h2; exact h2
    subst hmm
    have hlv : (simulation n (start u policy random_nums input_file)).scheduler.levels = [a.length, x.length] := by
      rcases hk with hk | hk <;> rw [hk] <;> rfl
    have ha : (a.length : Int) = m := by
      have := h1.tables a.length (by rw [hlv]; simp)
      rw [h2] at this
      exact this
    have hx : (x.length : Int) = m := by
      have := h1.tables x.length (by rw [hlv]; simp)
      rw [h2] at this
      exact this
    refine ⟨q, a, x, hk, ha, hx, ?_⟩
    intro e rest he hr
    have hp : e.process < (simulation n (start u policy random_nums input_file)).processes.length :=
      hsc.events e (by rw [he]; exact List.mem_cons_self _ _)
    obtain ⟨f1, f2, f3, f4, f5, f6, f7⟩ := after_add_fields e
      { simulation n (start u policy random_nums input_file) with events := rest }
    have hst := h1.static e.process hp
    have hdy := h1.dynamic e.process hp
    rw [h2] at hst hdy
    obtain ⟨l0, l1⟩ := add_level_range _ _ m hst hdy
    obtain ⟨r1, r2, r3⟩ := prio_add_in_range a x _ e.process m ha hx hst hdy
    exact ⟨f6, f7, l0, l1, r2, r3, rfl, r1⟩

theorem priority_index_safety_witness :
    (simulation 4 (start ⟨0, 0, false⟩ (Policy.E 5 4) [0, 3, 3]
        [⟨0, 100, 10, 5⟩, ⟨2, 50, 5, 2⟩])).scheduler.maxprio = 4 ∧
    (∀ i, i < (simulation 4 (start ⟨0, 0, false⟩ (Policy.E 5 4) [0, 3, 3]
        [⟨0, 100, 10, 5⟩, ⟨2, 50, 5, 2⟩])).processes.length →
      1 ≤ (getProc (simulation 4 (start ⟨0, 0, false⟩ (Policy.E 5 4) [0, 3, 3]
        [⟨0, 100, 10, 5⟩, ⟨2, 50, 5, 2⟩])).processes i).static_prio ∧
      (getProc (simulation 4 (start ⟨0, 0, false⟩ (Policy.E 5 4) [0, 3, 3]
        [⟨0, 100, 10, 5⟩, ⟨2, 50, 5, 2⟩])).processes i).static_prio ≤ 4 ∧
      0 ≤ (getProc (simulation 4 (start ⟨0, 0, false⟩ (Policy.E 5 4) [0, 3, 3]
        [⟨0, 100, 10, 5⟩, ⟨2, 50, 5, 2⟩])).processes i).dynamic_prio ∧
      (getProc (simulation 4 (start ⟨0, 0, false⟩ (Policy.E 5 4) [0, 3, 3]
        [⟨0, 100, 10, 5⟩, ⟨2, 50, 5, 2⟩])).processes i).dynamic_prio ≤ 4 - 1) :=
  ⟨(priority_index_safety ⟨0, 0, false⟩ (Policy.E 5 4) [0, 3, 3]
      [⟨0, 100, 10, 5⟩, ⟨2, 50, 5, 2⟩] 5 4 (Or.inr rfl) (by decide) (by decide) 4).1,
   (priority_index_safety ⟨0, 0, false⟩ (Policy.E 5 4) [0, 3, 3]
      [⟨0, 100, 10, 5⟩, ⟨2, 50, 5, 2⟩] 5 4 (Or.inr rfl) (by decide) (by decide) 4).2.1⟩

end Sched

namespace Sched
open DES_Layer Simulator

/-! ## The bursts of the input stay as they were read -/

end Sched

namespace Sched
open DES_Layer Simulator

/-! ## Same-timestamp deferral -/

end Sched

namespace Sched
open DES_Layer Simulator

/-! ## Completion under PREPRIO -/

/-- C1 fails under `PrePrio` (`E10:2`, table `[0, 1, 1]`, lines `0 10 2 1` and
`1 1 1 1`): the input is valid, the loop has exited after four turns (no
event is left), and both processes still have `finishingTime = 0` with cpu time
remaining, so process `0` has `finishingTime = 0 < 0 + 10`. -/
theorem completion_fails_under_preprio :
    ValidInput (Policy.E 10 2) [0, 1, 1] [⟨0, 10, 2, 1⟩, ⟨1, 1, 1, 1⟩] ∧
    (simulation 4 (start ⟨0, 0, false⟩ (Policy.E 10 2) [0, 1, 1]
        [⟨0, 10, 2, 1⟩, ⟨1, 1, 1, 1⟩])).events = [] ∧
    (simulation 4 (start ⟨0, 0, false⟩ (Policy.E 10 2) [0, 1, 1]
        [⟨0, 10, 2, 1⟩, ⟨1, 1, 1, 1⟩])).processes.map
      (fun p => (p.arrivalTime, p.totalCPUTime, p.finishingTime, p.remainingCPUtime))
      = [(0, 10, 0, 9), (1, 1, 0, 1)] :=
  ⟨⟨by decide, by decide, by decide, by decide, by decide, by decide, by decide, by decide,
      by decide, by decide⟩, by decide, by decide⟩

end Sched

namespace Sched
open DES_Layer Simulator

/-! ## The initial value of `remainingBurstTime` -/

/-- C24 fails from construction on: for every policy, random table and
non-empty input the first process is built with `remainingBurstTime = -1`,
below the bound `0` the claim states (`Process::Process` sets `-1`); and the
value stays: in the run of one process `0 100 10 5` under `F` with the table
`[1, 7, 3, 5, 9]` it is still `-1` after the first cpu burst (`8 <= quantum`)
and after the first io burst, while `remainingCPUtime` is `92`. -/
theorem burst_counter_starts_negative :
    (∀ (u : Uninitialised) (policy : Policy) (random_nums : List Int) (line : InputLine)
        (rest : List InputLine),
      (getProc (start u policy random_nums (line :: rest)).processes 0).remainingBurstTime
        = -1) ∧
    (simulation 2 (start ⟨0, 0, false⟩ Policy.F [1, 7, 3, 5, 9] [⟨0, 100, 10, 5⟩])).events
      = [⟨8, 0, State.RUNNING, State.BLOCKED⟩] ∧
    (getProc (simulation 2 (start ⟨0, 0, false⟩ Policy.F [1, 7, 3, 5, 9]
      [⟨0, 100, 10, 5⟩])).processes 0).remainingBurstTime = -1 ∧
    (simulation 4 (start ⟨0, 0, false⟩ Policy.F [1, 7, 3, 5, 9] [⟨0, 100, 10, 5⟩])).events
      = [⟨12, 0, State.READY, State.RUNNING⟩] ∧
    (getProc (simulation 4 (start ⟨0, 0, false⟩ Policy.F [1, 7, 3, 5, 9]
      [⟨0, 100, 10, 5⟩])).processes 0).remainingBurstTime = -1 ∧
    (getProc (simulation 4 (start ⟨0, 0, false⟩ Policy.F [1, 7, 3, 5, 9]
      [⟨0, 100, 10, 5⟩])).processes 0).remainingCPUtime = 92 := by
  refine ⟨?_, by decide, by decide, by decide, by decide, by decide⟩
  intro u policy random_nums line rest
  obtain ⟨ofs, h⟩ := start_getProc u policy random_nums (line :: rest) 0
    (by simp)
  rw [h]
  rfl

/-! ## Aging after a preemption with a tail of one -/

/-- C22 fails under `PREPRIO` (`E10:4`, table `[2, 3, 1, 1, 1]`, lines
`0 100 10 5` and `1 50 5 2`): process `0` (static priority `3`) runs from `0`
with `dynamic_prio = 2` and a burst of `2`; process `1` (static priority `4`)
arrives at `1` and preempts it, leaving `remainingBurstTime = -1 + 1 = 0`.  The
turn that processes the `RUNNING -> READY` event of process `0` leaves its
`dynamic_prio` at `2`, not one lower, and enqueues it at level `2` of the active
table. -/
theorem aging_skipped_after_preemption :
    ValidInput (Policy.E 10 4) [2, 3, 1, 1, 1] [⟨0, 100, 10, 5⟩, ⟨1, 50, 5, 2⟩] ∧
    (simulation 2 (start ⟨0, 0, false⟩ (Policy.E 10 4) [2, 3, 1, 1, 1]
        [⟨0, 100, 10, 5⟩, ⟨1, 50, 5, 2⟩])).events
      = [⟨1, 1, State.CREATED, State.READY⟩, ⟨2, 0, State.RUNNING, State.BLOCKED⟩] ∧
    (getProc (simulation 2 (start ⟨0, 0, false⟩ (Policy.E 10 4) [2, 3, 1, 1, 1]
        [⟨0, 100, 10, 5⟩, ⟨1, 50, 5, 2⟩])).processes 0).dynamic_prio = 2 ∧
    (simulation 3 (start ⟨0, 0, false⟩ (Policy.E 10 4) [2, 3, 1, 1, 1]
        [⟨0, 100, 10, 5⟩, ⟨1, 50, 5, 2⟩])).events
      = [⟨1, 0, State.RUNNING, State.READY⟩] ∧
    (getProc (simulation 3 (start ⟨0, 0, false⟩ (Policy.E 10 4) [2, 3, 1, 1, 1]
        [⟨0, 100, 10, 5⟩, ⟨1, 50, 5, 2⟩])).processes 0).remainingBurstTime = 0 ∧
    (getProc (simulation 3 (start ⟨0, 0, false⟩ (Policy.E 10 4) [2, 3, 1, 1, 1]
        [⟨0, 100, 10, 5⟩, ⟨1, 50, 5, 2⟩])).processes 0).dynamic_prio = 2 ∧
    (getProc (simulation 4 (start ⟨0, 0, false⟩ (Policy.E 10 4) [2, 3, 1, 1, 1]
        [⟨0, 100, 10, 5⟩, ⟨1, 50, 5, 2⟩])).processes 0).dynamic_prio = 2 ∧
    (simulation 4 (start ⟨0, 0, false⟩ (Policy.E 10 4) [2, 3, 1, 1, 1]
        [⟨0, 100, 10, 5⟩, ⟨1, 50, 5, 2⟩])).scheduler
      = Scheduler.PrePrio 10 4 [[], [], [0], [1]] [[], [], [], []] ∧
    (simulation 4 (start ⟨0, 0, false⟩ (Policy.E 10 4) [2, 3, 1, 1, 1]
        [⟨0, 100, 10, 5⟩, ⟨1, 50, 5, 2⟩])).CURRENT_RUNNING_PROCESS = some 0 := by
  refine ⟨⟨by decide, by decide, by decide, by decide, by decide, by decide, by decide,
    by decide, by decide, by decide⟩, by decide, by decide, by decide, by decide, by decide, by decide,
    by decide, by decide⟩

end Sched

namespace Sched
open DES_Layer Simulator

/-! ## The cpu slice given on the transition into `RUNNING` -/

/-- C17, amended (cpu slice on the transition into `RUNNING`): for a process `p`
of the roster entering `RUNNING` at time `now`, with `b` its remaining burst if
that is positive and otherwise a fresh draw `rand(cpuBurst)`, and with the
slice `min(b, quantum, remainingCPUtime)` and `now + slice` both within the
range of `int`: `case RUNNING` puts exactly one event, at `now + slice`,
`RUNNING -> DONE` if `remainingCPUtime <= min(b, quantum)`, else
`RUNNING -> READY` if `b > quantum`, else `RUNNING -> BLOCKED`;
`remainingCPUtime` goes down by the slice (to `0` in the `DONE` case),
`stopRunningTime` becomes `now + slice`, and the oracle moves by one draw
exactly when the burst is a fresh one. -/
theorem cpu_slice (s : Simulator) (p : Nat) (hp : p < s.processes.length)
    (hslice : fits (slice_on_entry s p))
    (hstamp : fits (s.CURRENT_TIME + slice_on_entry s p)) :
    (case_RUNNING p s).events
      = put_event ⟨s.CURRENT_TIME + slice_on_entry s p, p, State.RUNNING, exit_on_entry s p⟩
          s.events ∧
    (case_RUNNING p s).events.length = s.events.length + 1 ∧
    (getProc (case_RUNNING p s).processes p).remainingCPUtime
      = (getProc s.processes p).remainingCPUtime - slice_on_entry s p ∧
    (exit_on_entry s p = State.DONE →
      (getProc (case_RUNNING p s).processes p).remainingCPUtime = 0) ∧
    (getProc (case_RUNNING p s).processes p).stopRunningTime
      = s.CURRENT_TIME + slice_on_entry s p ∧
    (case_RUNNING p s).ofs
      = (if 0 < (getProc s.processes p).remainingBurstTime then s.ofs
          else (get_random_number s.random_nums s.ofs (getProc s.processes p).cpuBurst).2) := by
  obtain ⟨slice, rbt1, rem1, X, h, hc⟩ := case_RUNNING_cases s p
  have hkey : slice = slice_on_entry s p ∧ X = exit_on_entry s p ∧
      rem1 = (getProc s.processes p).remainingCPUtime - slice_on_entry s p ∧
      (X = State.DONE → rem1 = 0) := by
    unfold slice_on_entry exit_on_entry at *
    rcases hc with ⟨a, b, _, d, e⟩ | ⟨a, b, _, d, e, f⟩ | ⟨a, b, _, d, e, f⟩
    · have hsl : min (burst_on_entry s p)
          (min s.scheduler.quantum (getProc s.processes p).remainingCPUtime)
          = (getProc s.processes p).remainingCPUtime := by omega
      rw [hsl] at hslice ⊢
      rw [narrow_of_fits hslice] at b
      rw [if_pos e]
      exact ⟨b, a, by omega, fun _ => d⟩
    · have hsl : min (burst_on_entry s p)
          (min s.scheduler.quantum (getProc s.processes p).remainingCPUtime)
          = s.scheduler.quantum := by omega
      rw [hsl, if_neg (by omega), if_pos e]
      exact ⟨b, a, by rw [d, b], fun hx => by rw [a] at hx; simp at hx⟩
    · have hsl : min (burst_on_entry s p)
          (min s.scheduler.quantum (getProc s.processes p).remainingCPUtime)
          = burst_on_entry s p := by omega
      rw [hsl, if_neg (by omega), if_neg (by omega)]
      exact ⟨b, a, by rw [d, b], fun hx => by rw [a] at hx; simp at hx⟩
  obtain ⟨k1, k2, k3, k4⟩ := hkey
  rw [h]
  subst k1
  rw [wrap32_of_fits hstamp, ← k2]
  refine ⟨rfl, put_event_length _ _, ?_, ?_, ?_, rfl⟩
  · show (getProc (setProc s.processes p _) p).remainingCPUtime = _
    rw [getProc_setProc_same _ _ _ hp]
    exact k3
  · intro hx
    show (getProc (setProc s.processes p _) p).remainingCPUtime = _
    rw [getProc_setProc_same _ _ _ hp]
    exact k4 hx
  · show (getProc (setProc s.processes p _) p).stopRunningTime = _
    rw [getProc_setProc_same _ _ _ hp]

theorem cpu_slice_witness :
    (getProc (case_RUNNING 0 (simulation 1 (start ⟨0, 0, false⟩ Policy.F [1, 7, 3, 5, 9] [⟨0, 100, 10, 5⟩]))).processes 0).stopRunningTime
      = (simulation 1 (start ⟨0, 0, false⟩ Policy.F [1, 7, 3, 5, 9] [⟨0, 100, 10, 5⟩])).CURRENT_TIME
        + slice_on_entry (simulation 1 (start ⟨0, 0, false⟩ Policy.F [1, 7, 3, 5, 9] [⟨0, 100, 10, 5⟩])) 0 ∧
    slice_on_entry (simulation 1 (start ⟨0, 0, false⟩ Policy.F [1, 7, 3, 5, 9] [⟨0, 100, 10, 5⟩])) 0 = 8 ∧
    exit_on_entry (simulation 1 (start ⟨0, 0, false⟩ Policy.F [1, 7, 3, 5, 9] [⟨0, 100, 10, 5⟩])) 0 = State.BLOCKED :=
  ⟨(cpu_slice (simulation 1 (start ⟨0, 0, false⟩ Policy.F [1, 7, 3, 5, 9] [⟨0, 100, 10, 5⟩]))
      0 (by decide) (by decide) (by decide)).2.2.2.2.1, by decide, by decide⟩

/-- C17 as stated fails when `now + slice` leaves the range of `int`: in the run
of the one process `2147483647 1 1 1` under `F` with the table `[0]` (a valid
input) the process enters `RUNNING` at `now = 2147483647` with the slice
`min(1, 10000, 1) = 1`; the event `RUNNING -> DONE` is put at `-2147483648` and
`stopRunningTime` becomes `-2147483648`, not `now + slice = 2147483648`.  The
slice itself has to be within `int` as well: in a state at time `2000000000`
whose process has `remainingCPUtime = -3000000000` (a `double`, below the range
of `int`) the slice is `-3000000000` and `now + slice = -1000000000` is within
`int`, but the event is put at `2000000000 + (-2147483648) = -147483648`. -/
theorem cpu_slice_overflows :
    ValidInput Policy.F [0] [⟨2147483647, 1, 1, 1⟩] ∧
    (simulation 1 (start ⟨0, 0, false⟩ Policy.F [0] [⟨2147483647, 1, 1, 1⟩])).events
      = [⟨2147483647, 0, State.READY, State.RUNNING⟩] ∧
    slice_on_entry (simulation 1 (start ⟨0, 0, false⟩ Policy.F [0] [⟨2147483647, 1, 1, 1⟩])) 0 = 1 ∧
    (simulation 2 (start ⟨0, 0, false⟩ Policy.F [0] [⟨2147483647, 1, 1, 1⟩])).CURRENT_TIME = 2147483647 ∧
    (simulation 2 (start ⟨0, 0, false⟩ Policy.F [0] [⟨2147483647, 1, 1, 1⟩])).events
      = [⟨-2147483648, 0, State.RUNNING, State.DONE⟩] ∧
    (getProc (simulation 2 (start ⟨0, 0, false⟩ Policy.F [0] [⟨2147483647, 1, 1, 1⟩])).processes 0).stopRunningTime
      = -2147483648 ∧
    (case_RUNNING 0 { (simulation 1 (start ⟨0, 0, false⟩ Policy.F [0] [⟨2147483647, 1, 1, 1⟩])) with
        events := [] }).events
      = [⟨-2147483648, 0, State.RUNNING, State.DONE⟩] ∧
    (case_RUNNING 0 { (simulation 1 (start ⟨0, 0, false⟩ Policy.F [0] [⟨2147483647, 1, 1, 1⟩])) with
        events := [] }).events
      ≠ put_event ⟨(simulation 1 (start ⟨0, 0, false⟩ Policy.F [0] [⟨2147483647, 1, 1, 1⟩])).CURRENT_TIME
            + slice_on_entry (simulation 1 (start ⟨0, 0, false⟩ Policy.F [0] [⟨2147483647, 1, 1, 1⟩])) 0,
          0, State.RUNNING,
          exit_on_entry (simulation 1 (start ⟨0, 0, false⟩ Policy.F [0] [⟨2147483647, 1, 1, 1⟩])) 0⟩ [] ∧
    slice_on_entry (⟨[0], 0, [], [⟨0, 0, 1, 1, 1, 1, 0, -3000000000, -1, 0, -1, 0, 0, 0, 0⟩], Scheduler.FCFS [],
        ⟨0, 0, 0, 0⟩, some 0, 2000000000, false⟩ : Simulator) 0 = -3000000000 ∧
    fits ((⟨[0], 0, [], [⟨0, 0, 1, 1, 1, 1, 0, -3000000000, -1, 0, -1, 0, 0, 0, 0⟩], Scheduler.FCFS [],
        ⟨0, 0, 0, 0⟩, some 0, 2000000000, false⟩ : Simulator).CURRENT_TIME
      + slice_on_entry (⟨[0], 0, [], [⟨0, 0, 1, 1, 1, 1, 0, -3000000000, -1, 0, -1, 0, 0, 0, 0⟩], Scheduler.FCFS [],
        ⟨0, 0, 0, 0⟩, some 0, 2000000000, false⟩ : Simulator) 0) ∧
    (case_RUNNING 0 (⟨[0], 0, [], [⟨0, 0, 1, 1, 1, 1, 0, -3000000000, -1, 0, -1, 0, 0, 0, 0⟩], Scheduler.FCFS [],
        ⟨0, 0, 0, 0⟩, some 0, 2000000000, false⟩ : Simulator)).events
      = [⟨-147483648, 0, State.RUNNING, State.DONE⟩] :=
  ⟨⟨by decide, by decide, by decide, by decide, by decide, by decide, by decide, by decide,
      by decide, by decide⟩, by decide, by decide, by decide, by decide, by decide, by decide,
    by decide, by decide, by decide, by decide⟩

end Sched

namespace Sched
open DES_Layer Simulator

/-! ## Turns without overflow -/

/-- The turn that takes an event into `READY` while no process is running makes
no `int` computation that could overflow. -/
theorem no_overflow_of_ready_idle {s : Simulator} {e : Event} {rest : List Event}
    (he : s.events = e :: rest) (hn : e.new_state = State.READY)
    (hslot : s.CURRENT_RUNNING_PROCESS = none) : s.no_overflow := by
  rw [no_overflow_cons he]
  obtain ⟨g1, g2, g3, g4, g5, g6, g7, g8⟩ :=
    Inv.stats_fields e { s with events := rest, CURRENT_TIME := e.timestamp }
  refine ⟨fun _ => ?_, fun h => ?_, fun h => ?_, fun h => ?_⟩
  · unfold case_READY_fits
    dsimp only
    intro running hr
    rw [g6] at hr
    have hr2 : s.CURRENT_RUNNING_PROCESS = some running := hr
    rw [hslot] at hr2
    exact absurd hr2 (by simp)
  · rw [hn] at h; exact absurd h (by simp)
  · rw [hn] at h; exact absurd h (by simp)
  · rw [hn] at h; exact absurd h (by simp)

/-- The turn that takes an event into `DONE` makes one `int` computation, the
turnaround time. -/
theorem no_overflow_of_done {s : Simulator} {e : Event} {rest : List Event}
    (he : s.events = e :: rest) (hn : e.new_state = State.DONE)
    (hf : fits (e.timestamp - (getProc s.processes e.process).arrivalTime)) :
    s.no_overflow := by
  rw [no_overflow_cons he]
  obtain ⟨g1, g2, g3, g4, g5, g6, g7, g8⟩ :=
    Inv.stats_fields e { s with events := rest, CURRENT_TIME := e.timestamp }
  refine ⟨fun h => ?_, fun h => ?_, fun h => ?_, fun _ => ?_⟩
  · rw [hn] at h; exact absurd h (by simp)
  · rw [hn] at h; exact absurd h (by simp)
  · rw [hn] at h; exact absurd h (by simp)
  · unfold case_DONE_fits
    rw [g4, g7]
    exact hf

/-- The turn that takes an event into `BLOCKED` makes two `int` computations, the
sums of the io burst with `ioWaitingTime` and with the time. -/
theorem no_overflow_of_blocked {s : Simulator} {e : Event} {rest : List Event}
    (he : s.events = e :: rest) (hn : e.new_state = State.BLOCKED)
    (h1 : fits ((getProc s.processes e.process).ioWaitingTime
      + (get_random_number s.random_nums s.ofs (getProc s.processes e.process).ioBurst).1))
    (h2 : fits (e.timestamp
      + (get_random_number s.random_nums s.ofs (getProc s.processes e.process).ioBurst).1)) :
    s.no_overflow := by
  rw [no_overflow_cons he]
  obtain ⟨g1, g2, g3, g4, g5, g6, g7, g8⟩ :=
    Inv.stats_fields e { s with events := rest, CURRENT_TIME := e.timestamp }
  refine ⟨fun h => ?_, fun h => ?_, fun _ => ?_, fun h => ?_⟩
  · rw [hn] at h; exact absurd h (by simp)
  · rw [hn] at h; exact absurd h (by simp)
  · unfold case_BLOCKED_fits
    dsimp only
    rw [g1, g2, g4, g7]
    exact ⟨h1, h2⟩
  · rw [hn] at h; exact absurd h (by simp)

/-- The turn that takes an event into `RUNNING` of a process without remaining
burst time, with a draw and a quantum `>= 1` within `int`, overflows in no `int`
computation when the time waited, the slice and the time of the end of the
slice are within `int`. -/
theorem no_overflow_of_running {s : Simulator} {e : Event} {rest : List Event}
    (he : s.events = e :: rest) (hn : e.new_state = State.RUNNING)
    (hw : fits (e.timestamp - (getProc s.processes e.process).clock))
    (hcw : fits ((getProc s.processes e.process).cpuWaitingTime
      + (e.timestamp - (getProc s.processes e.process).clock)))
    (hq : 1 ≤ s.scheduler.quantum)
    (hb : fits (burst_on_entry s e.process))
    (hslice : fits (slice_on_entry s e.process))
    (hstamp : fits (e.timestamp + slice_on_entry s e.process)) :
    s.no_overflow := by
  rw [no_overflow_cons he]
  obtain ⟨g1, g2, g3, g4, g5, g6, g7, g8⟩ :=
    Inv.stats_fields e { s with events := rest, CURRENT_TIME := e.timestamp }
  refine ⟨fun h => ?_, fun _ => ?_, fun h => ?_, fun h => ?_⟩
  · rw [hn] at h; exact absurd h (by simp)
  · unfold case_RUNNING_fits
    dsimp only
    rw [g1, g2, g4, g5, g7]
    show fits (e.timestamp - (getProc s.processes e.process).clock) ∧
      fits ((getProc s.processes e.process).cpuWaitingTime
        + (e.timestamp - (getProc s.processes e.process).clock)) ∧
      choose_burst_fits s.random_nums s.ofs s.scheduler.quantum (getProc s.processes e.process) ∧
      (if (getProc s.processes e.process).remainingCPUtime
          ≤ (choose_burst s.random_nums s.ofs s.scheduler.quantum
              (getProc s.processes e.process)).1 then
        fits (getProc s.processes e.process).remainingCPUtime ∧
          fits (e.timestamp + (getProc s.processes e.process).remainingCPUtime)
       else fits (e.timestamp + (choose_burst s.random_nums s.ofs s.scheduler.quantum
              (getProc s.processes e.process)).1))
    rw [choose_burst_eq]
    dsimp only
    have hbe : (if 0 < (getProc s.processes e.process).remainingBurstTime then
          (getProc s.processes e.process).remainingBurstTime
        else (get_random_number s.random_nums s.ofs
          (getProc s.processes e.process).cpuBurst).1) = burst_on_entry s e.process := rfl
    rw [hbe]
    refine ⟨hw, hcw, ⟨?_, ?_⟩, ?_⟩
    · intro h1 h2
      have h3 : burst_on_entry s e.process
          = (getProc s.processes e.process).remainingBurstTime := by
        unfold burst_on_entry; rw [if_pos h1]
      rw [h3] at hb
      unfold fits at *
      omega
    · intro h1 h2
      have h3 : burst_on_entry s e.process
          = (get_random_number s.random_nums s.ofs
              (getProc s.processes e.process).cpuBurst).1 := by
        unfold burst_on_entry; rw [if_neg h1]
      rw [h3] at hb
      unfold fits at *
      omega
    · unfold slice_on_entry at hslice hstamp
      by_cases hdone : (getProc s.processes e.process).remainingCPUtime
          ≤ min (burst_on_entry s e.process) s.scheduler.quantum
      · rw [if_pos hdone]
        have : min (burst_on_entry s e.process)
            (min s.scheduler.quantum (getProc s.processes e.process).remainingCPUtime)
            = (getProc s.processes e.process).remainingCPUtime := by omega
        rw [this] at hslice hstamp
        exact ⟨hslice, hstamp⟩
      · rw [if_neg hdone]
        have : min (burst_on_entry s e.process)
            (min s.scheduler.quantum (getProc s.processes e.process).remainingCPUtime)
            = min (burst_on_entry s e.process) s.scheduler.quantum := by omega
        rw [this] at hstamp
        exact hstamp
  · rw [hn] at h; exact absurd h (by simp)
  · rw [hn] at h; exact absurd h (by simp)

/-- A run that has exited without overflow makes no overflow at all. -/
theorem no_overflow_of_exit (s0 : Simulator) (n : Nat) (h : no_overflow_until s0 n)
    (hn : (simulation n s0).events = []) : ∀ k, (simulation k s0).no_overflow := by
  have hstay : ∀ d, (simulation (n + d) s0).events = [] := by
    intro d
    induction d with
    | zero => exact hn
    | succ d ih =>
      rw [← Nat.add_assoc, simulation_succ, turn_nil ih]
      exact ih
  intro k
  by_cases hk : k < n
  · exact h k hk
  · obtain ⟨d, rfl⟩ := Nat.exists_eq_add_of_le (Nat.le_of_not_lt hk)
    unfold no_overflow
    rw [hstay d]
    intro event hev
    simp at hev

end Sched

namespace Sched
open DES_Layer Simulator

/-! ## Idle cpu before the first arrival -/

/-- The run of one process that finishes in its first cpu burst overflows in
none of its three turns when the time of its end is within `int`. -/
theorem idle_no_overflow (u : Uninitialised) (policy : Policy) (rn : List Int)
    (line : InputLine) (hv : ValidInput policy rn [line])
    (hfirst : line.totCPU ≤ (get_random_number rn (start u policy rn [line]).ofs line.cpuB).1)
    (hq : line.totCPU ≤ (make_scheduler policy).quantum)
    (hfit : line.at_ + line.totCPU ≤ 2147483647) :
    no_overflow_until (start u policy rn [line]) 3 := by
  have hs := hv.start_eq u
  have hm : line ∈ [line] := List.mem_singleton.2 rfl
  have hat := hv.arrival_nonneg line hm
  have htc := hv.totcpu_nonneg line hm
  have hcb := hv.cpub_pos line hm
  obtain ⟨_, _, hcbi, _⟩ := hv.fields_int line hm
  rw [hs] at hfirst
  obtain ⟨d, sch1, sch3, hq1, e1, e2, e3⟩ := idle_states u policy rn line hv.table_nonneg
    hv.maxprio_pos hat htc hfirst hq
  obtain ⟨r1, r2⟩ := get_random_number_range rn (start_unbounded u policy rn [line]).ofs
    line.cpuB hv.table_nonneg hcb
  have n0 : (start u policy rn [line]).no_overflow := by
    rw [hs]
    exact no_overflow_of_ready_idle
      (show (start_unbounded u policy rn [line]).events
        = [⟨line.at_, 0, State.CREATED, State.READY⟩] from rfl) rfl rfl
  have u1 : no_overflow_until (start u policy rn [line]) 1 := by
    intro k hk
    obtain rfl : k = 0 := by omega
    exact n0
  have s1 := (simulation_eq_unbounded _ 1 u1 1 (le_refl _)).trans
    ((congrArg (simulation_unbounded 1) hs).trans e1)
  have n1 : (simulation 1 (start u policy rn [line])).no_overflow := by
    rw [s1]
    refine no_overflow_of_running rfl rfl ?_ ?_ ?_ ?_ ?_ ?_
    · show fits (line.at_ - line.at_)
      unfold fits; omega
    · show fits (0 + (line.at_ - line.at_))
      unfold fits; omega
    · show 1 ≤ sch1.quantum
      rw [hq1]; exact hv.quantum_pos
    · show fits (get_random_number rn (start_unbounded u policy rn [line]).ofs line.cpuB).1
      unfold fits; omega
    · show fits (min (get_random_number rn (start_unbounded u policy rn [line]).ofs line.cpuB).1
        (min sch1.quantum line.totCPU))
      rw [hq1]
      unfold fits; omega
    · show fits (line.at_
        + min (get_random_number rn (start_unbounded u policy rn [line]).ofs line.cpuB).1
          (min sch1.quantum line.totCPU))
      rw [hq1]
      unfold fits; omega
  have u2 : no_overflow_until (start u policy rn [line]) 2 := by
    intro k hk
    have : k = 0 ∨ k = 1 := by omega
    rcases this with rfl | rfl
    · exact n0
    · exact n1
  have s2 := (simulation_eq_unbounded _ 2 u2 2 (le_refl _)).trans
    ((congrArg (simulation_unbounded 2) hs).trans e2)
  have n2 : (simulation 2 (start u policy rn [line])).no_overflow := by
    rw [s2]
    refine no_overflow_of_done rfl rfl ?_
    show fits (line.at_ + line.totCPU - line.at_)
    unfold fits; omega
  intro k hk
  have : k = 0 ∨ k = 1 ∨ k = 2 := by omega
  rcases this with rfl | rfl | rfl
  · exact n0
  · exact n1
  · exact n2

/-- C21, amended (idle cpu before the first arrival): for every valid input of
one process arriving at `50` whose total cpu time `tc` is at most its first cpu
burst (the draw `rand(cb)` at the offset left by `createProcesses`) and at most
the quantum, with `50 + tc` within the range of `int`, under every policy: the
loop has exited after three turns (arrival, dispatch at `50`, `RUNNING -> DONE`
at `50 + tc`, no event into `BLOCKED`), the run ends at `CURRENT_TIME = 50 + tc`,
the cpu was busy for `tc`, and `print_summary` reports the finishing time
`50 + tc` and, as an exact rational, the cpu utilization `100 * tc / (50 + tc)`. -/
theorem idle_before_first_arrival (u : Uninitialised) (policy : Policy)
    (random_nums : List Int) (tc cb ib : Int)
    (hv : ValidInput policy random_nums [⟨50, tc, cb, ib⟩])
    (hfirst : tc ≤ (get_random_number random_nums
      (start u policy random_nums [⟨50, tc, cb, ib⟩]).ofs cb).1)
    (hq : tc ≤ (make_scheduler policy).quantum)
    (hfit : 50 + tc ≤ 2147483647) :
    (simulation 3 (start u policy random_nums [⟨50, tc, cb, ib⟩])).events = [] ∧
    processed (start u policy random_nums [⟨50, tc, cb, ib⟩]) 3
      = [⟨50, 0, State.CREATED, State.READY⟩, ⟨50, 0, State.READY, State.RUNNING⟩,
         ⟨50 + tc, 0, State.RUNNING, State.DONE⟩] ∧
    (simulation 3 (start u policy random_nums [⟨50, tc, cb, ib⟩])).CURRENT_TIME = 50 + tc ∧
    (simulation 3 (start u policy random_nums [⟨50, tc, cb, ib⟩])).output.cpuUtilization = tc ∧
    (getProc (simulation 3 (start u policy random_nums [⟨50, tc, cb, ib⟩])).processes 0).finishingTime = 50 + tc ∧
    (getProc (simulation 3 (start u policy random_nums [⟨50, tc, cb, ib⟩])).processes 0).ioWaitingTime = 0 ∧
    (print_summary (simulation 3 (start u policy random_nums [⟨50, tc, cb, ib⟩]))).finishingTimeOfLastEvent = 50 + tc ∧
    (print_summary (simulation 3 (start u policy random_nums [⟨50, tc, cb, ib⟩]))).cpuUtilization
      = 100 * (tc : ℚ) / (50 + (tc : ℚ)) := by
  have hno := idle_no_overflow u policy random_nums ⟨50, tc, cb, ib⟩ hv hfirst hq hfit
  obtain ⟨q1, q2⟩ := run_eq_unbounded u policy random_nums _ hv 3 hno 3 (le_refl _)
  rw [q1, q2]
  rw [hv.start_eq u] at hfirst
  exact idle_before_first_arrival_unbounded u policy random_nums tc cb ib hv hfirst hq

theorem idle_before_first_arrival_witness :
    (simulation 3 (start ⟨0, 0, false⟩ Policy.F [1, 7, 3, 5, 9] [⟨50, 6, 10, 5⟩])).events = [] ∧
    (simulation 3 (start ⟨0, 0, false⟩ Policy.F [1, 7, 3, 5, 9] [⟨50, 6, 10, 5⟩])).CURRENT_TIME = 50 + 6 ∧
    (print_summary (simulation 3 (start ⟨0, 0, false⟩ Policy.F [1, 7, 3, 5, 9] [⟨50, 6, 10, 5⟩]))).cpuUtilization
      = 100 * ((6 : Int) : ℚ) / (50 + ((6 : Int) : ℚ)) :=
  ⟨(idle_before_first_arrival ⟨0, 0, false⟩ Policy.F [1, 7, 3, 5, 9] 6 10 5
      ⟨by decide, by decide, by decide, by decide, by decide, by decide, by decide, by decide,
        by decide, by decide⟩ (by decide) (by decide) (by decide)).1,
   (idle_before_first_arrival ⟨0, 0, false⟩ Policy.F [1, 7, 3, 5, 9] 6 10 5
      ⟨by decide, by decide, by decide, by decide, by decide, by decide, by decide, by decide,
        by decide, by decide⟩ (by decide) (by decide) (by decide)).2.2.1,
   (idle_before_first_arrival ⟨0, 0, false⟩ Policy.F [1, 7, 3, 5, 9] 6 10 5
      ⟨by decide, by decide, by decide, by decide, by decide, by decide, by decide, by decide,
        by decide, by decide⟩ (by decide) (by decide) (by decide)).2.2.2.2.2.2.2⟩

/-- C21 as stated fails: for the one process `50 100 200 5` under `F` with the
table `[0, 149]` (valid input; the first cpu burst is `150 >= 100`, so the whole
cpu time is served in it and there is no I/O) the run ends at `150` with the
cpu busy for `100`, and the cpu utilization reported is `100 * 100 / 150 = 200/3`,
not `100 * 50 / (50 + 100) = 100/3`.  And the run does not end at `50 + tc`
when that is outside the range of `int`: for the one process
`50 2147483647 2147483647 1` under `R2147483647` with the table `[2147483646]`
(valid input, first cpu burst `2147483647`, no I/O) the `RUNNING -> DONE` event
is put at `-2147483599` and the run ends there. -/
theorem idle_utilization_is_busy_share :
    ValidInput Policy.F [0, 149] [⟨50, 100, 200, 5⟩] ∧
    (100 : Int) ≤ (get_random_number [0, 149]
      (start ⟨0, 0, false⟩ Policy.F [0, 149] [⟨50, 100, 200, 5⟩]).ofs 200).1 ∧
    (100 : Int) ≤ (make_scheduler Policy.F).quantum ∧
    (simulation 3 (start ⟨0, 0, false⟩ Policy.F [0, 149] [⟨50, 100, 200, 5⟩])).events = [] ∧
    processed (start ⟨0, 0, false⟩ Policy.F [0, 149] [⟨50, 100, 200, 5⟩]) 3
      = [⟨50, 0, State.CREATED, State.READY⟩, ⟨50, 0, State.READY, State.RUNNING⟩,
         ⟨150, 0, State.RUNNING, State.DONE⟩] ∧
    (simulation 3 (start ⟨0, 0, false⟩ Policy.F [0, 149] [⟨50, 100, 200, 5⟩])).CURRENT_TIME = 150 ∧
    (simulation 3 (start ⟨0, 0, false⟩ Policy.F [0, 149] [⟨50, 100, 200, 5⟩])).output.cpuUtilization = 100 ∧
    (print_summary (simulation 3 (start ⟨0, 0, false⟩ Policy.F [0, 149] [⟨50, 100, 200, 5⟩]))).cpuUtilization = 200 / 3 ∧
    (print_summary (simulation 3 (start ⟨0, 0, false⟩ Policy.F [0, 149] [⟨50, 100, 200, 5⟩]))).cpuUtilization ≠ 100 * 50 / (50 + 100) ∧
    ValidInput (Policy.R 2147483647) [2147483646] [⟨50, 2147483647, 2147483647, 1⟩] ∧
    (2147483647 : Int) ≤ (get_random_number [2147483646]
      (start ⟨0, 0, false⟩ (Policy.R 2147483647) [2147483646] [⟨50, 2147483647, 2147483647, 1⟩]).ofs 2147483647).1 ∧
    (2147483647 : Int) ≤ (make_scheduler (Policy.R 2147483647)).quantum ∧
    (simulation 3 (start ⟨0, 0, false⟩ (Policy.R 2147483647) [2147483646] [⟨50, 2147483647, 2147483647, 1⟩])).events = [] ∧
    processed (start ⟨0, 0, false⟩ (Policy.R 2147483647) [2147483646] [⟨50, 2147483647, 2147483647, 1⟩]) 3
      = [⟨50, 0, State.CREATED, State.READY⟩, ⟨50, 0, State.READY, State.RUNNING⟩,
         ⟨-2147483599, 0, State.RUNNING, State.DONE⟩] ∧
    (simulation 3 (start ⟨0, 0, false⟩ (Policy.R 2147483647) [2147483646] [⟨50, 2147483647, 2147483647, 1⟩])).CURRENT_TIME = -2147483599 ∧
    (simulation 3 (start ⟨0, 0, false⟩ (Policy.R 2147483647) [2147483646] [⟨50, 2147483647, 2147483647, 1⟩])).CURRENT_TIME ≠ 50 + 2147483647 := by
  have hc : (simulation 3 (start ⟨0, 0, false⟩ Policy.F [0, 149] [⟨50, 100, 200, 5⟩])).output.cpuUtilization = 100 ∧
      (simulation 3 (start ⟨0, 0, false⟩ Policy.F [0, 149] [⟨50, 100, 200, 5⟩])).CURRENT_TIME = 150 := by decide
  have hs : (print_summary (simulation 3 (start ⟨0, 0, false⟩ Policy.F [0, 149] [⟨50, 100, 200, 5⟩]))).cpuUtilization = 200 / 3 := by
    show 100 * (((simulation 3 (start ⟨0, 0, false⟩ Policy.F [0, 149] [⟨50, 100, 200, 5⟩])).output.cpuUtilization : Int) : ℚ)
      / (((simulation 3 (start ⟨0, 0, false⟩ Policy.F [0, 149] [⟨50, 100, 200, 5⟩])).CURRENT_TIME : Int) : ℚ) = _
    rw [hc.1, hc.2]
    norm_num
  refine ⟨⟨by decide, by decide, by decide, by decide, by decide, by decide, by decide,
    by decide, by decide, by decide⟩, by decide, by decide, by decide, by decide, hc.2, hc.1, hs,
    ?_, ⟨by decide, by decide, by decide, by decide, by decide, by decide, by decide,
    by decide, by decide, by decide⟩, by decide, by decide, by decide, by decide, by decide,
    by decide⟩
  rw [hs]
  norm_num

end Sched

namespace Sched
open DES_Layer Simulator

/-! ## Event order -/

end Sched

namespace Sched
open DES_Layer Simulator

/-! ## CPU conservation -/

/-- C2, amended (CPU conservation): in every run from a valid input in which no
`int` computation overflows in the first `n` turns, once the loop has processed
the event of a process `p` into `DONE`, the total time `p` spent `RUNNING` (the
sum, over the events out of `RUNNING` processed for `p`, of the event's
timestamp minus the time `p` entered `RUNNING`) equals `p.totalCPUTime`, and
stays so up to turn `n`. -/
theorem cpu_conservation (u : Uninitialised) (policy : Policy) (random_nums : List Int)
    (input_file : List InputLine) (hv : ValidInput policy random_nums input_file)
    (i n : Nat) (hin : i < n)
    (hno : no_overflow_until (start u policy random_nums input_file) n)
    (e : Event) (rest : List Event)
    (he : (simulation i (start u policy random_nums input_file)).events = e :: rest)
    (hdone : e.new_state = State.DONE) :
    time_running (processed (start u policy random_nums input_file) n) e.process
      = (getProc (start u policy random_nums input_file).processes e.process).totalCPUTime := by
  obtain ⟨q1, _⟩ := run_eq_unbounded u policy random_nums input_file hv n hno i (by omega)
  obtain ⟨_, q2⟩ := run_eq_unbounded u policy random_nums input_file hv n hno n (le_refl _)
  rw [q1] at he
  rw [q2, hv.start_eq u]
  exact cpu_conservation_unbounded u policy random_nums input_file hv i n hin e rest he hdone

theorem cpu_conservation_witness :
    time_running (processed (start ⟨0, 0, false⟩ (Policy.E 2 4) [1, 7, 3] [⟨0, 5, 4, 2⟩, ⟨1, 3, 2, 2⟩]) 16) (Event.mk 6 1 State.RUNNING State.DONE).process
      = (getProc (start ⟨0, 0, false⟩ (Policy.E 2 4) [1, 7, 3] [⟨0, 5, 4, 2⟩, ⟨1, 3, 2, 2⟩]).processes
          (Event.mk 6 1 State.RUNNING State.DONE).process).totalCPUTime :=
  cpu_conservation ⟨0, 0, false⟩ (Policy.E 2 4) [1, 7, 3] [⟨0, 5, 4, 2⟩, ⟨1, 3, 2, 2⟩]
    ⟨by decide, by decide, by decide, by decide, by decide, by decide, by decide, by decide,
      by decide, by decide⟩ 10 16 (by decide) (by decide) ⟨6, 1, State.RUNNING, State.DONE⟩ []
    (by decide) rfl

/-- C2 as stated fails on a valid input: in the run of the one process
`2147483647 1 1 1` under `F` with the table `[0]` the process enters `RUNNING`
at `2147483647`, the sum `2147483647 + 1` overflows and the event
`RUNNING -> DONE` is processed at `-2147483648`; the loop has then exited, and
the time the process spent `RUNNING`, read off the events processed, is
`-2147483648 - 2147483647 = -4294967295`, not its total cpu time `1`. -/
theorem cpu_conservation_overflows :
    ValidInput Policy.F [0] [⟨2147483647, 1, 1, 1⟩] ∧
    processed (start ⟨0, 0, false⟩ Policy.F [0] [⟨2147483647, 1, 1, 1⟩]) 3
      = [⟨2147483647, 0, State.CREATED, State.READY⟩,
         ⟨2147483647, 0, State.READY, State.RUNNING⟩,
         ⟨-2147483648, 0, State.RUNNING, State.DONE⟩] ∧
    (simulation 3 (start ⟨0, 0, false⟩ Policy.F [0] [⟨2147483647, 1, 1, 1⟩])).events = [] ∧
    (getProc (start ⟨0, 0, false⟩ Policy.F [0] [⟨2147483647, 1, 1, 1⟩]).processes 0).totalCPUTime = 1 ∧
    time_running (processed (start ⟨0, 0, false⟩ Policy.F [0] [⟨2147483647, 1, 1, 1⟩]) 3) 0 = -4294967295 :=
  ⟨⟨by decide, by decide, by decide, by decide, by decide, by decide, by decide, by decide,
      by decide, by decide⟩, by decide, by decide, by decide, by decide⟩

end Sched

namespace Sched
open DES_Layer Simulator

/-! ## I/O union accounting -/

/-- A run from a valid input in which no `int` computation overflows reaches the
exit of the loop. -/
theorem simulation_exits (u : Uninitialised) (policy : Policy) (random_nums : List Int)
    (input_file : List InputLine) (hv : ValidInput policy random_nums input_file)
    (hno : ∀ k, (simulation k (start u policy random_nums input_file)).no_overflow) :
    ∃ n, (simulation n (start u policy random_nums input_file)).events = [] := by
  obtain ⟨n, hn⟩ := simulation_unbounded_exits u policy random_nums input_file hv.table_nonneg
    hv.quantum_pos hv.arrival_sorted hv.totcpu_nonneg hv.cpub_pos hv.iob_pos
  refine ⟨n, ?_⟩
  rw [(run_eq_unbounded u policy random_nums input_file hv n (fun k _ => hno k) n (le_refl _)).1]
  exact hn

/-- C4, amended (I/O union accounting): every run from a valid input in which no
`int` computation overflows reaches the exit of the loop (a turn after which
the DES holds no event), and whenever the loop has exited without an overflow
the accumulated `ioUtilization` equals the measure of the union of the
intervals `[t, t + d)` of all I/O bursts of the run, where `t` is the time the
event of a process into `BLOCKED` was processed and `t + d` the timestamp of
its event out of `BLOCKED`: instants at which several processes were `BLOCKED`
are counted once, so this is not the sum of the burst lengths. -/
theorem io_union_accounting (u : Uninitialised) (policy : Policy) (random_nums : List Int)
    (input_file : List InputLine) (hv : ValidInput policy random_nums input_file) :
    ((∀ k, (simulation k (start u policy random_nums input_file)).no_overflow) →
      ∃ n, (simulation n (start u policy random_nums input_file)).events = []) ∧
    ∀ n, no_overflow_until (start u policy random_nums input_file) n →
      (simulation n (start u policy random_nums input_file)).events = [] →
      (simulation n (start u policy random_nums input_file)).output.ioUtilization
        = union_measure
            (io_log (processed (start u policy random_nums input_file) n)).bursts := by
  refine ⟨simulation_exits u policy random_nums input_file hv, ?_⟩
  intro n hno hexit
  obtain ⟨q1, q2⟩ := run_eq_unbounded u policy random_nums input_file hv n hno n (le_refl _)
  rw [q1] at hexit
  rw [q1, q2]
  exact (io_union_accounting_unbounded u policy random_nums input_file hv).2 n hexit

theorem io_union_accounting_witness :
    (∃ n, (simulation n (start ⟨0, 0, false⟩ Policy.F [2]
        [⟨0, 2, 1, 4⟩, ⟨0, 2, 1, 4⟩])).events = []) ∧
    (simulation 12 (start ⟨0, 0, false⟩ Policy.F [2]
        [⟨0, 2, 1, 4⟩, ⟨0, 2, 1, 4⟩])).output.ioUtilization
      = union_measure (io_log (processed (start ⟨0, 0, false⟩ Policy.F [2]
        [⟨0, 2, 1, 4⟩, ⟨0, 2, 1, 4⟩]) 12)).bursts ∧
    (io_log (processed (start ⟨0, 0, false⟩ Policy.F [2]
        [⟨0, 2, 1, 4⟩, ⟨0, 2, 1, 4⟩]) 12)).bursts = [(2, 5), (1, 4)] ∧
    (simulation 12 (start ⟨0, 0, false⟩ Policy.F [2]
        [⟨0, 2, 1, 4⟩, ⟨0, 2, 1, 4⟩])).output.ioUtilization = 4 :=
  ⟨(io_union_accounting ⟨0, 0, false⟩ Policy.F [2] [⟨0, 2, 1, 4⟩, ⟨0, 2, 1, 4⟩]
    ⟨by decide, by decide, by decide, by decide, by decide, by decide, by decide, by decide,
      by decide, by decide⟩).1
      (no_overflow_of_exit _ 12 (by decide) (by decide)),
   (io_union_accounting ⟨0, 0, false⟩ Policy.F [2] [⟨0, 2, 1, 4⟩, ⟨0, 2, 1, 4⟩]
    ⟨by decide, by decide, by decide, by decide, by decide, by decide, by decide, by decide,
      by decide, by decide⟩).2 12 (by decide) (by decide), by decide, by decide⟩

/-- C4 as stated fails on a valid input: in the run of the one process
`2147483646 2 1 10` under `F` with the table `[0, 0, 5]` the process is
`BLOCKED` at `2147483647` for an io burst of `6`; the sum overflows, the event
`BLOCKED -> READY` is put at `-2147483643`, and when it is processed
`ioUtilization` becomes `-2147483643 - 2147483647 = -4294967290`.  The loop has
exited after six turns with that value, while the one I/O burst of the run has
the length `6` and the interval from `2147483647` to `-2147483643` is empty
(measure `0`). -/
theorem io_union_accounting_overflows :
    ValidInput Policy.F [0, 0, 5] [⟨2147483646, 2, 1, 10⟩] ∧
    (simulation 6 (start ⟨0, 0, false⟩ Policy.F [0, 0, 5] [⟨2147483646, 2, 1, 10⟩])).events = [] ∧
    (simulation 6 (start ⟨0, 0, false⟩ Policy.F [0, 0, 5] [⟨2147483646, 2, 1, 10⟩])).output.ioUtilization = -4294967290 ∧
    (io_log (processed (start ⟨0, 0, false⟩ Policy.F [0, 0, 5] [⟨2147483646, 2, 1, 10⟩]) 6)).bursts = [(2147483647, -2147483643)] ∧
    union_measure (io_log (processed (start ⟨0, 0, false⟩ Policy.F [0, 0, 5] [⟨2147483646, 2, 1, 10⟩]) 6)).bursts = 0 ∧
    (get_random_number [0, 0, 5] 2 10).1 = 6 :=
  ⟨⟨by decide, by decide, by decide, by decide, by decide, by decide, by decide, by decide,
      by decide, by decide⟩, by decide, by decide, by decide, by decide, by decide⟩

end Sched

namespace Sched
open DES_Layer Simulator

/-! ## Time accounting: the claim -/

/-- C28, amended (time accounting identity): in a run from a valid input under
any policy in which no `int` computation overflows in the first `n` turns, for
every event into `DONE` the loop has processed by then, the process `p` of the
event has `finishingTime` equal to the timestamp of the event, `arrivalTime` and
`totalCPUTime` as read from its input line, `turnaroundTime = finishingTime -
arrivalTime`, and `turnaroundTime = totalCPUTime + ioWaitingTime +
cpuWaitingTime`; and the three terms are the times `p` has spent `RUNNING`,
`BLOCKED` and `READY` as measured on the trace of the events processed (for
each event of `p`, the time since the previous event of `p` counts for the
state the event leaves), so `finishingTime - arrivalTime` is exactly the sum of
these three times. -/
theorem time_accounting_identity (u : Uninitialised) (policy : Policy)
    (random_nums : List Int) (input_file : List InputLine)
    (hv : ValidInput policy random_nums input_file) (n : Nat)
    (hno : no_overflow_until (start u policy random_nums input_file) n) (d : Event)
    (hd : d ∈ processed (start u policy random_nums input_file) n)
    (hdone : d.new_state = State.DONE) :
    ∃ line, input_file[d.process]? = some line ∧
      (getProc (simulation n (start u policy random_nums input_file)).processes
        d.process).arrivalTime = line.at_ ∧
      (getProc (simulation n (start u policy random_nums input_file)).processes
        d.process).totalCPUTime = line.totCPU ∧
      (getProc (simulation n (start u policy random_nums input_file)).processes
        d.process).finishingTime = d.timestamp ∧
      (getProc (simulation n (start u policy random_nums input_file)).processes
        d.process).turnaroundTime
        = (getProc (simulation n (start u policy random_nums input_file)).processes
        d.process).finishingTime
          - (getProc (simulation n (start u policy random_nums input_file)).processes
        d.process).arrivalTime ∧
      (getProc (simulation n (start u policy random_nums input_file)).processes
        d.process).turnaroundTime
        = (getProc (simulation n (start u policy random_nums input_file)).processes
        d.process).totalCPUTime
          + (getProc (simulation n (start u policy random_nums input_file)).processes
        d.process).ioWaitingTime
          + (getProc (simulation n (start u policy random_nums input_file)).processes
        d.process).cpuWaitingTime ∧
      (getProc (simulation n (start u policy random_nums input_file)).processes
        d.process).totalCPUTime
        = time_running (processed (start u policy random_nums input_file) n) d.process ∧
      (getProc (simulation n (start u policy random_nums input_file)).processes
        d.process).ioWaitingTime
        = time_blocked (processed (start u policy random_nums input_file) n) d.process ∧
      (getProc (simulation n (start u policy random_nums input_file)).processes
        d.process).cpuWaitingTime
        = time_ready (processed (start u policy random_nums input_file) n) d.process ∧
      d.timestamp - line.at_
        = time_running (processed (start u policy random_nums input_file) n) d.process
          + time_blocked (processed (start u policy random_nums input_file) n) d.process
          + time_ready (processed (start u policy random_nums input_file) n) d.process := by
  obtain ⟨q1, q2⟩ := run_eq_unbounded u policy random_nums input_file hv n hno n (le_refl _)
  rw [q2] at hd
  rw [q1, q2]
  exact time_accounting_identity_unbounded u policy random_nums input_file hv n d hd hdone

theorem time_accounting_identity_witness :
    ∃ line, ([⟨0, 5, 4, 2⟩, ⟨2, 3, 2, 2⟩] : List InputLine)[
        (⟨9, 0, State.RUNNING, State.DONE⟩ : Event).process]? = some line ∧
      (getProc (simulation 14 (start ⟨0, 0, false⟩ (Policy.R 2) [1, 7, 3]
        [⟨0, 5, 4, 2⟩, ⟨2, 3, 2, 2⟩])).processes
        (⟨9, 0, State.RUNNING, State.DONE⟩ : Event).process).arrivalTime = line.at_ ∧
      (getProc (simulation 14 (start ⟨0, 0, false⟩ (Policy.R 2) [1, 7, 3]
        [⟨0, 5, 4, 2⟩, ⟨2, 3, 2, 2⟩])).processes
        (⟨9, 0, State.RUNNING, State.DONE⟩ : Event).process).totalCPUTime = line.totCPU ∧
      (getProc (simulation 14 (start ⟨0, 0, false⟩ (Policy.R 2) [1, 7, 3]
        [⟨0, 5, 4, 2⟩, ⟨2, 3, 2, 2⟩])).processes
        (⟨9, 0, State.RUNNING, State.DONE⟩ : Event).process).finishingTime = (⟨9, 0, State.RUNNING, State.DONE⟩ : Event).timestamp ∧
      (getProc (simulation 14 (start ⟨0, 0, false⟩ (Policy.R 2) [1, 7, 3]
        [⟨0, 5, 4, 2⟩, ⟨2, 3, 2, 2⟩])).processes
        (⟨9, 0, State.RUNNING, State.DONE⟩ : Event).process).turnaroundTime
        = (getProc (simulation 14 (start ⟨0, 0, false⟩ (Policy.R 2) [1, 7, 3]
        [⟨0, 5, 4, 2⟩, ⟨2, 3, 2, 2⟩])).processes
        (⟨9, 0, State.RUNNING, State.DONE⟩ : Event).process).finishingTime
          - (getProc (simulation 14 (start ⟨0, 0, false⟩ (Policy.R 2) [1, 7, 3]
        [⟨0, 5, 4, 2⟩, ⟨2, 3, 2, 2⟩])).processes
        (⟨9, 0, State.RUNNING, State.DONE⟩ : Event).process).arrivalTime ∧
      (getProc (simulation 14 (start ⟨0, 0, false⟩ (Policy.R 2) [1, 7, 3]
        [⟨0, 5, 4, 2⟩, ⟨2, 3, 2, 2⟩])).processes
        (⟨9, 0, State.RUNNING, State.DONE⟩ : Event).process).turnaroundTime
        = (getProc (simulation 14 (start ⟨0, 0, false⟩ (Policy.R 2) [1, 7, 3]
        [⟨0, 5, 4, 2⟩, ⟨2, 3, 2, 2⟩])).processes
        (⟨9, 0, State.RUNNING, State.DONE⟩ : Event).process).totalCPUTime
          + (getProc (simulation 14 (start ⟨0, 0, false⟩ (Policy.R 2) [1, 7, 3]
        [⟨0, 5, 4, 2⟩, ⟨2, 3, 2, 2⟩])).processes
        (⟨9, 0, State.RUNNING, State.DONE⟩ : Event).process).ioWaitingTime
          + (getProc (simulation 14 (start ⟨0, 0, false⟩ (Policy.R 2) [1, 7, 3]
        [⟨0, 5, 4, 2⟩, ⟨2, 3, 2, 2⟩])).processes
        (⟨9, 0, State.RUNNING, State.DONE⟩ : Event).process).cpuWaitingTime ∧
      (getProc (simulation 14 (start ⟨0, 0, false⟩ (Policy.R 2) [1, 7, 3]
        [⟨0, 5, 4, 2⟩, ⟨2, 3, 2, 2⟩])).processes
        (⟨9, 0, State.RUNNING, State.DONE⟩ : Event).process).totalCPUTime
        = time_running (processed (start ⟨0, 0, false⟩ (Policy.R 2) [1, 7, 3]
        [⟨0, 5, 4, 2⟩, ⟨2, 3, 2, 2⟩]) 14) (⟨9, 0, State.RUNNING, State.DONE⟩ : Event).process ∧
      (getProc (simulation 14 (start ⟨0, 0, false⟩ (Policy.R 2) [1, 7, 3]
        [⟨0, 5, 4, 2⟩, ⟨2, 3, 2, 2⟩])).processes
        (⟨9, 0, State.RUNNING, State.DONE⟩ : Event).process).ioWaitingTime
        = time_blocked (processed (start ⟨0, 0, false⟩ (Policy.R 2) [1, 7, 3]
        [⟨0, 5, 4, 2⟩, ⟨2, 3, 2, 2⟩]) 14) (⟨9, 0, State.RUNNING, State.DONE⟩ : Event).process ∧
      (getProc (simulation 14 (start ⟨0, 0, false⟩ (Policy.R 2) [1, 7, 3]
        [⟨0, 5, 4, 2⟩, ⟨2, 3, 2, 2⟩])).processes
        (⟨9, 0, State.RUNNING, State.DONE⟩ : Event).process).cpuWaitingTime
        = time_ready (processed (start ⟨0, 0, false⟩ (Policy.R 2) [1, 7, 3]
        [⟨0, 5, 4, 2⟩, ⟨2, 3, 2, 2⟩]) 14) (⟨9, 0, State.RUNNING, State.DONE⟩ : Event).process ∧
      (⟨9, 0, State.RUNNING, State.DONE⟩ : Event).timestamp - line.at_
        = time_running (processed (start ⟨0, 0, false⟩ (Policy.R 2) [1, 7, 3]
        [⟨0, 5, 4, 2⟩, ⟨2, 3, 2, 2⟩]) 14) (⟨9, 0, State.RUNNING, State.DONE⟩ : Event).process
          + time_blocked (processed (start ⟨0, 0, false⟩ (Policy.R 2) [1, 7, 3]
        [⟨0, 5, 4, 2⟩, ⟨2, 3, 2, 2⟩]) 14) (⟨9, 0, State.RUNNING, State.DONE⟩ : Event).process
          + time_ready (processed (start ⟨0, 0, false⟩ (Policy.R 2) [1, 7, 3]
        [⟨0, 5, 4, 2⟩, ⟨2, 3, 2, 2⟩]) 14) (⟨9, 0, State.RUNNING, State.DONE⟩ : Event).process :=
  time_accounting_identity ⟨0, 0, false⟩ (Policy.R 2) [1, 7, 3] [⟨0, 5, 4, 2⟩, ⟨2, 3, 2, 2⟩]
    ⟨by decide, by decide, by decide, by decide, by decide, by decide, by decide, by decide,
      by decide, by decide⟩ 14 (by decide) ⟨9, 0, State.RUNNING, State.DONE⟩ (by decide) rfl


/-- C28 as stated fails on a valid input: under `PREPRIO` (`E2147483646:4`, table
`[3, 2]`, lines `2147483642 5 2147483647 1073741824` and
`2147483643 2 2147483647 5`) the io burst of process `0` overflows, its
`BLOCKED -> READY` event is put at `-2147483647` and taken before the dispatch
event of process `1`; process `1`, which has not run yet, is preempted and gets
`stopRunningTime - now = 2147483646` added to its remaining cpu time.  The loop
exits after 13 turns; process `1` has reached `DONE` at time `5` with
`turnaroundTime = -2147483638`, while `totalCPUTime + ioWaitingTime +
cpuWaitingTime = 2 + 3 + 1 = 6` and `finishingTime - arrivalTime =
-2147483638`; the time spent `RUNNING` read off the trace is `1`, not `2`. -/
theorem time_accounting_overflows :
    ValidInput (Policy.E 2147483646 4) [3, 2]
      [⟨2147483642, 5, 2147483647, 1073741824⟩, ⟨2147483643, 2, 2147483647, 5⟩] ∧
    (simulation 13 (start ⟨0, 0, false⟩ (Policy.E 2147483646 4) [3, 2]
        [⟨2147483642, 5, 2147483647, 1073741824⟩, ⟨2147483643, 2, 2147483647, 5⟩])).events = [] ∧
    (⟨5, 1, State.RUNNING, State.DONE⟩ : Event) ∈ processed (start ⟨0, 0, false⟩ (Policy.E 2147483646 4) [3, 2]
        [⟨2147483642, 5, 2147483647, 1073741824⟩, ⟨2147483643, 2, 2147483647, 5⟩]) 13 ∧
    (getProc (simulation 13 (start ⟨0, 0, false⟩ (Policy.E 2147483646 4) [3, 2]
        [⟨2147483642, 5, 2147483647, 1073741824⟩, ⟨2147483643, 2, 2147483647, 5⟩])).processes 1).arrivalTime = 2147483643 ∧
    (getProc (simulation 13 (start ⟨0, 0, false⟩ (Policy.E 2147483646 4) [3, 2]
        [⟨2147483642, 5, 2147483647, 1073741824⟩, ⟨2147483643, 2, 2147483647, 5⟩])).processes 1).finishingTime = 5 ∧
    (getProc (simulation 13 (start ⟨0, 0, false⟩ (Policy.E 2147483646 4) [3, 2]
        [⟨2147483642, 5, 2147483647, 1073741824⟩, ⟨2147483643, 2, 2147483647, 5⟩])).processes 1).turnaroundTime = -2147483638 ∧
    (getProc (simulation 13 (start ⟨0, 0, false⟩ (Policy.E 2147483646 4) [3, 2]
        [⟨2147483642, 5, 2147483647, 1073741824⟩, ⟨2147483643, 2, 2147483647, 5⟩])).processes 1).totalCPUTime = 2 ∧
    (getProc (simulation 13 (start ⟨0, 0, false⟩ (Policy.E 2147483646 4) [3, 2]
        [⟨2147483642, 5, 2147483647, 1073741824⟩, ⟨2147483643, 2, 2147483647, 5⟩])).processes 1).ioWaitingTime = 3 ∧
    (getProc (simulation 13 (start ⟨0, 0, false⟩ (Policy.E 2147483646 4) [3, 2]
        [⟨2147483642, 5, 2147483647, 1073741824⟩, ⟨2147483643, 2, 2147483647, 5⟩])).processes 1).cpuWaitingTime = 1 ∧
    time_running (processed (start ⟨0, 0, false⟩ (Policy.E 2147483646 4) [3, 2]
        [⟨2147483642, 5, 2147483647, 1073741824⟩, ⟨2147483643, 2, 2147483647, 5⟩]) 13) 1 = 1 :=
  ⟨⟨by decide, by decide, by decide, by decide, by decide, by decide, by decide, by decide,
      by decide, by decide⟩, by decide, by decide, by decide, by decide, by decide, by decide,
    by decide, by decide, by decide⟩

end Sched

namespace Sched
open DES_Layer Simulator

/-! ## One process under FCFS: the claim -/

/-- C20, amended (single process under `FCFS`): for every input of one process
with fields within `int`, arrival time `>= 0`, `cb >= 1`, `ib >= 1` and a
non-empty non-negative random table (any total cpu time): the first value of
the table gives the static priority and leaves the offset at `1`; a run in
which no `int` computation overflows exits the loop; whenever the loop has
exited without an overflow the process has `cpuWaitingTime = 0`,
`finishingTime = arrival + total cpu + ioWaitingTime`, and `ioWaitingTime` is the
total length of the blocked periods of the trace; and when `cb <= 10000` (the
quantum `FCFS` runs with), after every number of turns without an overflow the
offset has advanced by one for the static priority and one for each entry into
`RUNNING` or `BLOCKED`, these entries alternate starting with `RUNNING`, and
`ioWaitingTime` is the sum of the io bursts the table gives at the offsets of
the `BLOCKED` entries. -/
theorem single_process_fcfs (u : Uninitialised) (random_nums : List Int) (line : InputLine)
    (hN : 1 ≤ random_nums.length) (hnn : ∀ x ∈ random_nums, 0 ≤ x)
    (hat : 0 ≤ line.at_) (hcb : 1 ≤ line.cpuB) (hib : 1 ≤ line.ioB) (hfit : line.fits) :
    ((∀ k, (simulation k (start u Policy.F random_nums [line])).no_overflow) →
      ∃ n, (simulation n (start u Policy.F random_nums [line])).events = []) ∧
    (getProc (start u Policy.F random_nums [line]).processes 0).static_prio
      = 1 + Int.tmod (random_nums.getD 0 0) 4 ∧
    (start u Policy.F random_nums [line]).ofs = 1 % random_nums.length ∧
    (∀ n, no_overflow_until (start u Policy.F random_nums [line]) n →
      (simulation n (start u Policy.F random_nums [line])).events = [] →
      (getProc (simulation n (start u Policy.F random_nums [line])).processes 0).cpuWaitingTime
        = 0 ∧
      (getProc (simulation n (start u Policy.F random_nums [line])).processes 0).finishingTime
        = line.at_ + line.totCPU +
          (getProc (simulation n (start u Policy.F random_nums [line])).processes 0).ioWaitingTime ∧
      (getProc (simulation n (start u Policy.F random_nums [line])).processes 0).ioWaitingTime
        = io_drawn (io_log (processed (start u Policy.F random_nums [line]) n))) ∧
    (line.cpuB ≤ 10000 → ∀ n, no_overflow_until (start u Policy.F random_nums [line]) n →
      (simulation n (start u Policy.F random_nums [line])).ofs
        = (1 + (entries (processed (start u Policy.F random_nums [line]) n)).length)
          % random_nums.length ∧
      (entries (processed (start u Policy.F random_nums [line]) n)).map Event.new_state
        = alternate (entries (processed (start u Policy.F random_nums [line]) n)).length ∧
      (getProc (simulation n (start u Policy.F random_nums [line])).processes 0).ioWaitingTime
        = io_draws random_nums line.ioB
          ((entries (processed (start u Policy.F random_nums [line]) n)).length / 2)) := by
  have hs : start u Policy.F random_nums [line]
      = start_unbounded u Policy.F random_nums [line] :=
    start_eq_start_unbounded u Policy.F random_nums [line]
      (fun l hl => by rw [List.mem_singleton.1 hl]; exact hfit)
  have hold := single_process_fcfs_unbounded u random_nums line hN hnn hat hcb hib
  have q : ∀ n, no_overflow_until (start u Policy.F random_nums [line]) n →
      simulation n (start u Policy.F random_nums [line])
        = simulation_unbounded n (start_unbounded u Policy.F random_nums [line]) ∧
      processed (start u Policy.F random_nums [line]) n
        = processed_unbounded (start_unbounded u Policy.F random_nums [line]) n := by
    intro n hno
    rw [simulation_eq_unbounded _ n hno n (le_refl _), processed_eq_unbounded _ n hno n (le_refl _),
      hs]
    exact ⟨rfl, rfl⟩
  refine ⟨?_, ?_, ?_, ?_, ?_⟩
  · intro hno
    obtain ⟨n, hn⟩ := hold.1
    refine ⟨n, ?_⟩
    rw [(q n (fun k _ => hno k)).1]
    exact hn
  · rw [hs]; exact hold.2.1
  · rw [hs]; exact hold.2.2.1
  · intro n hno hexit
    obtain ⟨q1, q2⟩ := q n hno
    rw [q1] at hexit
    rw [q1, q2]
    exact hold.2.2.2.1 n hexit
  · intro hc n hno
    obtain ⟨q1, q2⟩ := q n hno
    rw [q1, q2]
    exact hold.2.2.2.2 hc n

/-- The run of C20 (one process `0 100 10 5` under `F` with the table
`[1, 7, 3, 5, 9]`): no `int` computation overflows, the loop has exited after 51
turns, and then `cpuWaitingTime = 0`, `finishingTime = 0 + 100 + ioWaitingTime`,
the offset is one more than the number of entries (modulo 5) and the entries
alternate. -/
theorem single_process_fcfs_witness :
    (∃ n, (simulation n (start ⟨0, 0, false⟩ Policy.F [1, 7, 3, 5, 9]
        [⟨0, 100, 10, 5⟩])).events = []) ∧
    ((getProc (simulation 51 (start ⟨0, 0, false⟩ Policy.F [1, 7, 3, 5, 9]
        [⟨0, 100, 10, 5⟩])).processes 0).cpuWaitingTime = 0 ∧
      (getProc (simulation 51 (start ⟨0, 0, false⟩ Policy.F [1, 7, 3, 5, 9]
        [⟨0, 100, 10, 5⟩])).processes 0).finishingTime
        = 0 + 100 + (getProc (simulation 51 (start ⟨0, 0, false⟩ Policy.F [1, 7, 3, 5, 9]
        [⟨0, 100, 10, 5⟩])).processes 0).ioWaitingTime ∧
      (getProc (simulation 51 (start ⟨0, 0, false⟩ Policy.F [1, 7, 3, 5, 9]
        [⟨0, 100, 10, 5⟩])).processes 0).ioWaitingTime
        = io_drawn (io_log (processed (start ⟨0, 0, false⟩ Policy.F [1, 7, 3, 5, 9]
        [⟨0, 100, 10, 5⟩]) 51))) ∧
    ((simulation 51 (start ⟨0, 0, false⟩ Policy.F [1, 7, 3, 5, 9]
        [⟨0, 100, 10, 5⟩])).ofs
        = (1 + (entries (processed (start ⟨0, 0, false⟩ Policy.F [1, 7, 3, 5, 9]
        [⟨0, 100, 10, 5⟩]) 51)).length) % 5 ∧
      (entries (processed (start ⟨0, 0, false⟩ Policy.F [1, 7, 3, 5, 9]
        [⟨0, 100, 10, 5⟩]) 51)).map Event.new_state
        = alternate (entries (processed (start ⟨0, 0, false⟩ Policy.F [1, 7, 3, 5, 9]
        [⟨0, 100, 10, 5⟩]) 51)).length ∧
      (getProc (simulation 51 (start ⟨0, 0, false⟩ Policy.F [1, 7, 3, 5, 9]
        [⟨0, 100, 10, 5⟩])).processes 0).ioWaitingTime
        = io_draws [1, 7, 3, 5, 9] 5
          ((entries (processed (start ⟨0, 0, false⟩ Policy.F [1, 7, 3, 5, 9]
        [⟨0, 100, 10, 5⟩]) 51)).length / 2)) :=
  ⟨(single_process_fcfs ⟨0, 0, false⟩ [1, 7, 3, 5, 9] ⟨0, 100, 10, 5⟩
      (by decide) (by decide) (by decide) (by decide) (by decide) (by decide)).1
      (no_overflow_of_exit _ 51 (by decide) (by decide)),
   (single_process_fcfs ⟨0, 0, false⟩ [1, 7, 3, 5, 9] ⟨0, 100, 10, 5⟩
      (by decide) (by decide) (by decide) (by decide) (by decide) (by decide)).2.2.2.1 51 (by decide) (by decide),
   (single_process_fcfs ⟨0, 0, false⟩ [1, 7, 3, 5, 9] ⟨0, 100, 10, 5⟩
      (by decide) (by decide) (by decide) (by decide) (by decide) (by decide)).2.2.2.2 (by decide) 51 (by decide)⟩

/-- C20 as stated fails on inputs that meet its conditions (`cb >= 1`,
`ib >= 1`, non-empty non-negative table).  With the line `0 30000 20000 5` and
the table `[0, 15000, 3, 3, 3]` the first two entries both go to `RUNNING`, and
after the second the offset is `2`: the second entry has drawn nothing.  With
the line `2147483647 1 1 1` and the table `[0]` the sum `2147483647 + 1`
overflows and the run ends with `finishingTime = -2147483648`, not
`2147483647 + 1 + 0`.  With the line `-1 100 10 5` (an arrival time the claim
does not exclude) and the table `[1, 7, 3, 5, 9]` the loop has exited after one
turn with `finishingTime = 0` and `ioWaitingTime = 0`, not `-1 + 100 + 0`. -/
theorem single_process_fcfs_refuted :
    ((∀ x ∈ ([0, 15000, 3, 3, 3] : List Int), 0 ≤ x) ∧
      1 ≤ (⟨0, 30000, 20000, 5⟩ : InputLine).cpuB ∧
      1 ≤ (⟨0, 30000, 20000, 5⟩ : InputLine).ioB ∧
      processed (start ⟨0, 0, false⟩ Policy.F [0, 15000, 3, 3, 3] [⟨0, 30000, 20000, 5⟩]) 4
        = [⟨0, 0, State.CREATED, State.READY⟩, ⟨0, 0, State.READY, State.RUNNING⟩,
           ⟨10000, 0, State.RUNNING, State.READY⟩, ⟨10000, 0, State.READY, State.RUNNING⟩] ∧
      (entries (processed (start ⟨0, 0, false⟩ Policy.F [0, 15000, 3, 3, 3] [⟨0, 30000, 20000, 5⟩]) 4)).map Event.new_state
        = [State.RUNNING, State.RUNNING] ∧
      (simulation 2 (start ⟨0, 0, false⟩ Policy.F [0, 15000, 3, 3, 3] [⟨0, 30000, 20000, 5⟩])).ofs = 2 ∧
      (simulation 4 (start ⟨0, 0, false⟩ Policy.F [0, 15000, 3, 3, 3] [⟨0, 30000, 20000, 5⟩])).ofs = 2 ∧
      (simulation 4 (start ⟨0, 0, false⟩ Policy.F [0, 15000, 3, 3, 3] [⟨0, 30000, 20000, 5⟩])).ofs
        ≠ (1 + (entries (processed (start ⟨0, 0, false⟩ Policy.F [0, 15000, 3, 3, 3] [⟨0, 30000, 20000, 5⟩]) 4)).length) % 5) ∧
    (ValidInput Policy.F [0] [⟨2147483647, 1, 1, 1⟩] ∧
      (simulation 3 (start ⟨0, 0, false⟩ Policy.F [0] [⟨2147483647, 1, 1, 1⟩])).events = [] ∧
      (getProc (simulation 3 (start ⟨0, 0, false⟩ Policy.F [0] [⟨2147483647, 1, 1, 1⟩])).processes 0).finishingTime = -2147483648 ∧
      (getProc (simulation 3 (start ⟨0, 0, false⟩ Policy.F [0] [⟨2147483647, 1, 1, 1⟩])).processes 0).ioWaitingTime = 0 ∧
      (getProc (simulation 3 (start ⟨0, 0, false⟩ Policy.F [0] [⟨2147483647, 1, 1, 1⟩])).processes 0).finishingTime
        ≠ 2147483647 + 1 + (getProc (simulation 3 (start ⟨0, 0, false⟩ Policy.F [0] [⟨2147483647, 1, 1, 1⟩])).processes 0).ioWaitingTime) ∧
    ((∀ x ∈ ([1, 7, 3, 5, 9] : List Int), 0 ≤ x) ∧
      1 ≤ (⟨-1, 100, 10, 5⟩ : InputLine).cpuB ∧ 1 ≤ (⟨-1, 100, 10, 5⟩ : InputLine).ioB ∧
      (simulation 1 (start ⟨0, 0, false⟩ Policy.F [1, 7, 3, 5, 9]
        [⟨-1, 100, 10, 5⟩])).events = [] ∧
      (getProc (simulation 1 (start ⟨0, 0, false⟩ Policy.F [1, 7, 3, 5, 9]
        [⟨-1, 100, 10, 5⟩])).processes 0).finishingTime = 0 ∧
      (getProc (simulation 1 (start ⟨0, 0, false⟩ Policy.F [1, 7, 3, 5, 9]
        [⟨-1, 100, 10, 5⟩])).processes 0).ioWaitingTime = 0 ∧
      (getProc (simulation 1 (start ⟨0, 0, false⟩ Policy.F [1, 7, 3, 5, 9]
        [⟨-1, 100, 10, 5⟩])).processes 0).finishingTime
        ≠ -1 + 100 + (getProc (simulation 1 (start ⟨0, 0, false⟩ Policy.F [1, 7, 3, 5, 9]
        [⟨-1, 100, 10, 5⟩])).processes 0).ioWaitingTime) := by
  refine ⟨⟨by decide, by decide, by decide, by decide, by decide, by decide, by decide, by decide⟩,
    ⟨⟨by decide, by decide, by decide, by decide, by decide, by decide, by decide, by decide,
      by decide, by decide⟩, by decide, by decide, by decide, by decide⟩,
    ⟨by decide, by decide, by decide, by decide, by decide, by decide, by decide⟩⟩

end Sched

namespace Sched
open DES_Layer Simulator

/-! ## The loop exits -/

end Sched
